import Mathlib

/-!
# The LAN latency monitor (`zad2_opoznienia`)

A shallow embedding of the byte codec (`bitops.cc`), the DNS name and record
decoders (`dns_format.cc`), the DNS message (`DNSPacket.cc`), the ICMP echo
codec (`ICMPEchoPacket.cc`), the latency store (`LatencyDatabase.cc`), the ICMP
probe (`ICMPService.cc`), the ranking of the dashboard (`TELNETServer.cc`) and the
discovery engine (`SDServerClient.cc`), followed by theorems about them.

Conventions of the embedding:

* an octet buffer (`std::vector<u8>`) is a `List Nat`; every octet the code
  itself produces is reduced `% 256` where the C++ conversion to `u8` truncates;
* an iterator into a buffer (`raw_data_it`) is the index of the octet it points
  at, so `it == end` is `it = buf.length` and `it - begin` is the index itself;
* a function that may throw returns `Except Exception _`, and a function that
  moves an iterator passed by reference returns the new index with its result;
* `u16`, `u32`, `u64` are naturals, reduced `% 2 ^ w` where the C++ code stores
  a wider intermediate into the narrower type.
-/

set_option autoImplicit false

namespace SIK

/-- The exception families of the program: `UnknownFormatException` (bitops.h)
and `std::logic_error` (programmer-contract violations). -/
inductive Exception where
  | UnknownFormat
  | LogicError
  deriving DecidableEq, Repr

/-! ## bitops.cc -/

namespace bitops

/-- Source `std::pair<u8, u8> divide(u16 val)`: both members are converted to `u8`. -/
def divide_u16 (val : Nat) : Nat × Nat :=
  (((val >>> 8) &&& 0xFFFF) % 256, (val &&& 0xFFFF) % 256)

/-- Source `std::vector<u8> divide(u32 val)`: `res[0]` is the top octet. -/
def divide_u32 (val : Nat) : List Nat :=
  [ ((val >>> 24) &&& 0xFFFF) % 256
  , ((val >>> 16) &&& 0xFFFF) % 256
  , ((val >>> 8) &&& 0xFFFF) % 256
  , (val &&& 0xFFFF) % 256 ]

/-- Source `std::vector<u8> divide(u64 val)`. -/
def divide_u64 (val : Nat) : List Nat :=
  [ ((val >>> 56) &&& 0xFFFF) % 256
  , ((val >>> 48) &&& 0xFFFF) % 256
  , ((val >>> 40) &&& 0xFFFF) % 256
  , ((val >>> 32) &&& 0xFFFF) % 256
  , ((val >>> 24) &&& 0xFFFF) % 256
  , ((val >>> 16) &&& 0xFFFF) % 256
  , ((val >>> 8) &&& 0xFFFF) % 256
  , (val &&& 0xFFFF) % 256 ]

/-- Source `u16 merge(u8 first, u8 second)`. -/
def merge_u8 (first second : Nat) : Nat :=
  ((first <<< 8) + second) % 2 ^ 16

/-- Source `u32 merge(u16 first, u16 second)`. -/
def merge_u16 (first second : Nat) : Nat :=
  ((first <<< 16) + second) % 2 ^ 32

/-- Source `u64 merge(u32 first, u32 second)`. -/
def merge_u32 (first second : Nat) : Nat :=
  ((first <<< 32) + second) % 2 ^ 64

/-- Source `void addTo(std::vector<u8> &v, u16 val)`. -/
def addTo_u16 (v : List Nat) (val : Nat) : List Nat :=
  let u8pair := divide_u16 val
  (v ++ [u8pair.1]) ++ [u8pair.2]

/-- Source `void addTo(std::vector<u8> &v, u32 val)`: pushes each octet of `divide(val)`. -/
def addTo_u32 (v : List Nat) (val : Nat) : List Nat :=
  (divide_u32 val).foldl (fun acc x => acc ++ [x]) v

/-- Source `void addTo(std::vector<u8> &v, u64 val)`. -/
def addTo_u64 (v : List Nat) (val : Nat) : List Nat :=
  (divide_u64 val).foldl (fun acc x => acc ++ [x]) v

/-- Source `u8 getU8(raw_data_it &it, raw_data_it end)`: throws when `it == end`,
otherwise returns `*it` and advances the iterator by one. -/
def getU8 (buf : List Nat) (it : Nat) : Except Exception (Nat × Nat) :=
  match buf[it]? with
  | none => .error .UnknownFormat
  | some res => .ok (res, it + 1)

/-- Source `u16 getU16(raw_data_it &it, raw_data_it end)`. -/
def getU16 (buf : List Nat) (it : Nat) : Except Exception (Nat × Nat) := do
  let (res0, it) ← getU8 buf it
  let (res1, it) ← getU8 buf it
  pure (merge_u8 res0 res1, it)

/-- Source `u32 getU32(raw_data_it &it, raw_data_it end)`. -/
def getU32 (buf : List Nat) (it : Nat) : Except Exception (Nat × Nat) := do
  let (res0, it) ← getU16 buf it
  let (res1, it) ← getU16 buf it
  pure (merge_u16 res0 res1, it)

/-- Source `u64 getU64(raw_data_it &it, raw_data_it end)`. -/
def getU64 (buf : List Nat) (it : Nat) : Except Exception (Nat × Nat) := do
  let (res0, it) ← getU32 buf it
  let (res1, it) ← getU32 buf it
  pure (merge_u32 res0 res1, it)

end bitops

/-! ## DNSPacket.h: the data carried by a DNS message -/

/-- Source `enum DNSType : u16`, the values used by the decoders. -/
def DNSType.UNSUPPORTED : Nat := 0

/-- Source `DNSType::A`. -/
def DNSType.A : Nat := 1

/-- Source `DNSType::PTR`. -/
def DNSType.PTR : Nat := 12

/-- Source `DNSClass::IN`. -/
def DNSClass.IN : Nat := 1

/-- Source `struct DNSPacket::Question`. -/
structure Question where
  qname : List Nat
  qtype : Nat
  qclass : Nat
  unicastResponseRequested : Bool
  deriving DecidableEq, Repr

/-- Source `struct DNSPacket::ResourceRecord` (public and private members). -/
structure ResourceRecord where
  name : List Nat
  rrclass : Nat
  ttl : Nat
  rrtype : Nat
  rdlength : Nat
  rdata : List Nat
  deriving DecidableEq, Repr

/-- Source `class DNSPacket`: the 12 header octets, the questions and the answers. -/
structure DNSPacket where
  header : List Nat
  questions : List Question
  answers : List ResourceRecord
  deriving DecidableEq, Repr

/-- Source `Question::Question()`. -/
def Question.new : Question :=
  { qname := [], qtype := 0, qclass := 0, unicastResponseRequested := false }

/-- Source `ResourceRecord::ResourceRecord()`. -/
def ResourceRecord.new : ResourceRecord :=
  { name := [], rrclass := DNSClass.IN, ttl := 0, rrtype := DNSType.UNSUPPORTED,
    rdlength := 0, rdata := [] }

/-- Source `ResourceRecord::setPTRAnswer`: `rdlength = rdata.size()` stored in a `u16`. -/
def ResourceRecord.setPTRAnswer (rr : ResourceRecord) (domain : List Nat) : ResourceRecord :=
  { rr with rrtype := DNSType.PTR, rdata := domain, rdlength := domain.length % 2 ^ 16 }

/-- Source `ResourceRecord::setAAnswer`. -/
def ResourceRecord.setAAnswer (rr : ResourceRecord) (address : Nat) : ResourceRecord :=
  { rr with rrtype := DNSType.A, rdlength := 4, rdata := bitops.addTo_u32 [] address }

/-- Source `ResourceRecord::getPtrAnswer`: a `std::logic_error` unless the type is PTR. -/
def ResourceRecord.getPtrAnswer (rr : ResourceRecord) : Except Exception (List Nat) :=
  if rr.rrtype ≠ DNSType.PTR then .error .LogicError else .ok rr.rdata

/-- Source `Question::generateNetworkFormat`. -/
def Question.generateNetworkFormat (q : Question) : List Nat :=
  let res := q.qname
  let res := bitops.addTo_u16 res q.qtype
  if q.unicastResponseRequested then
    let qclassWithUnicast := (q.qclass ||| (1 <<< 15)) % 2 ^ 16
    bitops.addTo_u16 res qclassWithUnicast
  else
    bitops.addTo_u16 res q.qclass

/-- Source `ResourceRecord::generateNetworkFormat`. -/
def ResourceRecord.generateNetworkFormat (rr : ResourceRecord) : List Nat :=
  let res := rr.name
  let res := bitops.addTo_u16 res rr.rrtype
  let res := bitops.addTo_u16 res rr.rrclass
  let res := bitops.addTo_u32 res rr.ttl
  let res := bitops.addTo_u16 res rr.rdlength
  rr.rdata.foldl (fun acc octet => acc ++ [octet]) res

namespace DNSPacket

/-- Source `DNSPacket::HEADER_SIZE`. -/
def HEADER_SIZE : Nat := 12

/-- Source `DNSPacket::DNSPacket()`: a header of twelve zero octets, no records. -/
def new : DNSPacket :=
  { header := List.replicate HEADER_SIZE 0, questions := [], answers := [] }

/-- Source `DNSPacket::getQDCount`. -/
def getQDCount (p : DNSPacket) : Nat := bitops.merge_u8 (p.header.getD 4 0) (p.header.getD 5 0)

/-- Source `DNSPacket::getANCount`. -/
def getANCount (p : DNSPacket) : Nat := bitops.merge_u8 (p.header.getD 6 0) (p.header.getD 7 0)

/-- Source `DNSPacket::getNSCount`. -/
def getNSCount (p : DNSPacket) : Nat := bitops.merge_u8 (p.header.getD 8 0) (p.header.getD 9 0)

/-- Source `DNSPacket::getARCount`. -/
def getARCount (p : DNSPacket) : Nat := bitops.merge_u8 (p.header.getD 10 0) (p.header.getD 11 0)

/-- Source `DNSPacket::setQDCount(u16 val)`. -/
def setQDCount (p : DNSPacket) (val : Nat) : DNSPacket :=
  let idU8 := bitops.divide_u16 val
  { p with header := (p.header.set 4 idU8.1).set 5 idU8.2 }

/-- Source `DNSPacket::setANCount(u16 val)`. -/
def setANCount (p : DNSPacket) (val : Nat) : DNSPacket :=
  let idU8 := bitops.divide_u16 val
  { p with header := (p.header.set 6 idU8.1).set 7 idU8.2 }

/-- Source `DNSPacket::addQuestion`: the argument `getQDCount() + 1` is an `int`
converted to the `u16` parameter of `setQDCount`. -/
def addQuestion (p : DNSPacket) (q : Question) : DNSPacket :=
  let p := p.setQDCount ((p.getQDCount + 1) % 2 ^ 16)
  { p with questions := p.questions ++ [q] }

/-- Source `DNSPacket::addAnswer`. -/
def addAnswer (p : DNSPacket) (a : ResourceRecord) : DNSPacket :=
  let p := p.setANCount ((p.getANCount + 1) % 2 ^ 16)
  { p with answers := p.answers ++ [a] }

/-- Source `DNSPacket::generateNetworkFormat`: the header, then every question and
every answer in order, pushed octet by octet. -/
def generateNetworkFormat (p : DNSPacket) : List Nat :=
  let res := p.header
  let res := p.questions.foldl (fun acc q => acc ++ q.generateNetworkFormat) res
  p.answers.foldl (fun acc a => acc ++ a.generateNetworkFormat) res

end DNSPacket

/-! ## dns_format.cc -/

namespace dns_format

/-- Source `bool isPointer(u8 octet)`. -/
def isPointer (octet : Nat) : Bool := (octet &&& 0xC0) == 0xC0

/-- Source `u8 getOffset(u8 pointer)`. -/
def getOffset (pointer : Nat) : Nat := pointer &&& (0xFF - 0xC0)

/-- The body of the `if` in the final loop of `getDomainName`: the value written
to the loop variable `c`. -/
def lowerCaseOctet (c : Nat) : Nat :=
  if 65 ≤ c ∧ c ≤ 90 then (c - 65 + 97) % 256 else c

/-- Source lines 157-161 of `getDomainName`, `for (auto c : res) { if (...) c = ...; }`.
The state is the vector `res` and the loop variable `c`, which `auto c` declares as
a copy of the current element; the body assigns to `c` only. -/
def lowerCaseLoop (res : List Nat) : List Nat :=
  (res.foldl (fun (st : List Nat × Nat) c => (st.1, lowerCaseOctet c)) (res, 0)).1

/-- Source `getDomainName` from the head of its `while (true)` loop to its `return`,
in the state `res`, `count`, `maxLength`, `it`. Each iteration first throws when
`maxLength == 0` and otherwise decrements it after the read, and the pointer branch
decrements it once more before the recursive call, so the recursion is structural
in `maxLength`. The result is the returned vector and the final position of `it`. -/
def getDomainNameFrom (buf : List Nat) :
    (maxLength : Nat) → (it : Nat) → (res : List Nat) → (count : Nat) →
    Except Exception (List Nat × Nat)
  | 0, _, _, _ => .error .UnknownFormat
  | maxLength + 1, it, res, count =>
    match bitops.getU8 buf it with
    | .error e => .error e
    | .ok (octet, it) =>
      let res := res ++ [octet]
      if count - 1 = 0 then
        if octet = 0 then
          .ok (lowerCaseLoop res, it)
        else if isPointer octet then
          let offset := getOffset octet
          match maxLength with
          | 0 => .error .UnknownFormat
          | maxLength + 1 =>
            match bitops.getU8 buf it with
            | .error e => .error e
            | .ok (lo, it) =>
              let offset := ((offset <<< 8) + lo) % 2 ^ 16
              let res := res.dropLast
              if offset ≥ buf.length then
                .error .UnknownFormat
              else
                match getDomainNameFrom buf maxLength offset [] 1 with
                | .error e => .error e
                | .ok (fromPtr, _) => .ok (lowerCaseLoop (res ++ fromPtr), it)
        else
          getDomainNameFrom buf maxLength it res (octet + 1)
      else
        getDomainNameFrom buf maxLength it res (count - 1)

/-- Source `std::vector<u8> getDomainName(begin, it, end, maxLength = 255)`:
`res` starts empty and `count` starts at 1. -/
def getDomainName (buf : List Nat) (it : Nat) (maxLength : Nat := 255) :
    Except Exception (List Nat × Nat) :=
  getDomainNameFrom buf maxLength it [] 1

/-- Source `withoutFirstLabel`: the octets of `domain` from index `domain[0] + 1` on.
(The source sizes the result `domain.size() - prefix - 1`, so it is defined only
when the domain holds its whole first label; every name `getDomainName` returns
does.) -/
def withoutFirstLabel (domain : List Nat) : List Nat :=
  let pfx := domain.getD 0 0
  domain.drop (pfx + 1)

/-- Source `getQuestion`. -/
def getQuestion (buf : List Nat) (it : Nat) : Except Exception (Question × Nat) := do
  let question := Question.new
  let (qname, it) ← getDomainName buf it
  let question := { question with qname := qname }
  let (qtype, it) ← bitops.getU16 buf it
  let question := { question with qtype := qtype }
  let (qclass, it) ← bitops.getU16 buf it
  let question := { question with qclass := qclass }
  let question := { question with
    unicastResponseRequested := (question.qclass &&& (1 <<< 15)) != 0 }
  let question := { question with qclass := question.qclass &&& 0x7F }
  pure (question, it)

/-- The loop `for (i = 0; i < rdlength; i++) (void)bitops::getU8(it, end);`. -/
def skipOctets (buf : List Nat) : (n : Nat) → (it : Nat) → Except Exception Nat
  | 0, it => .ok it
  | n + 1, it =>
    match bitops.getU8 buf it with
    | .error e => .error e
    | .ok (_, it) => skipOctets buf n it

/-- Source `getResourceRecord`. The wire `rrtype` and `rdlength` are locals; the
record's own fields are set only by `setPTRAnswer` and `setAAnswer`. -/
def getResourceRecord (buf : List Nat) (it : Nat) : Except Exception (ResourceRecord × Nat) := do
  let rr := ResourceRecord.new
  let (name, it) ← getDomainName buf it
  let rr := { rr with name := name }
  let (rrtype, it) ← bitops.getU16 buf it
  let (rrclass, it) ← bitops.getU16 buf it
  let rr := { rr with rrclass := rrclass }
  let (ttl, it) ← bitops.getU32 buf it
  let rr := { rr with ttl := ttl }
  let (rdlength, it) ← bitops.getU16 buf it
  let (rr, it) ←
    if rrtype = DNSType.PTR then do
      let (domain, it) ← getDomainName buf it
      let rr := rr.setPTRAnswer domain
      let ptrAnswer ← rr.getPtrAnswer
      if withoutFirstLabel ptrAnswer ≠ rr.name then
        throw Exception.UnknownFormat
      pure (rr, it)
    else if rrtype = DNSType.A then do
      if rdlength ≠ 4 then
        throw Exception.UnknownFormat
      let (address, it) ← bitops.getU32 buf it
      pure (rr.setAAnswer address, it)
    else do
      let it ← skipOctets buf rdlength it
      pure (rr, it)
  let rr := { rr with rrclass := rr.rrclass &&& 0x7F }
  pure (rr, it)

end dns_format

namespace DNSPacket

/-- The loop `for (i = 0; i < HEADER_SIZE; i++) header[i] = bitops::getU8(it, end);`
with `n` iterations left. -/
def readHeader (buf : List Nat) : (n : Nat) → (i : Nat) → (p : DNSPacket) → (it : Nat) →
    Except Exception (DNSPacket × Nat)
  | 0, _, p, it => .ok (p, it)
  | n + 1, i, p, it =>
    match bitops.getU8 buf it with
    | .error e => .error e
    | .ok (octet, it) => readHeader buf n (i + 1) { p with header := p.header.set i octet } it

/-- The loop `for (i = 0; i < questionsCount; i++) addQuestion(getQuestion(...));`. -/
def readQuestions (buf : List Nat) : (n : Nat) → (p : DNSPacket) → (it : Nat) →
    Except Exception (DNSPacket × Nat)
  | 0, p, it => .ok (p, it)
  | n + 1, p, it =>
    match dns_format.getQuestion buf it with
    | .error e => .error e
    | .ok (q, it) => readQuestions buf n (p.addQuestion q) it

/-- The loop `for (i = 0; i < answersCount; i++) addAnswer(getResourceRecord(...));`. -/
def readAnswers (buf : List Nat) : (n : Nat) → (p : DNSPacket) → (it : Nat) →
    Except Exception (DNSPacket × Nat)
  | 0, p, it => .ok (p, it)
  | n + 1, p, it =>
    match dns_format.getResourceRecord buf it with
    | .error e => .error e
    | .ok (a, it) => readAnswers buf n (p.addAnswer a) it

/-- The loop over the `getARCount() + getNSCount()` records that are parsed and dropped. -/
def readUnsupported (buf : List Nat) : (n : Nat) → (it : Nat) → Except Exception Nat
  | 0, it => .ok it
  | n + 1, it =>
    match dns_format.getResourceRecord buf it with
    | .error e => .error e
    | .ok (_, it) => readUnsupported buf n it

/-- Source `DNSPacket::DNSPacket(rawPacket, bytesToRead)` up to, not including, its
final length check: the packet built so far and the position of `it`. Every read is
bounded by `rawPacket.end()`, the end of the whole vector. -/
def readSections (rawPacket : List Nat) : Except Exception (DNSPacket × Nat) := do
  let (p, it) ← readHeader rawPacket HEADER_SIZE 0 DNSPacket.new 0
  let questionsCount := p.getQDCount
  let (p, it) ← readQuestions rawPacket questionsCount p it
  let answersCount := p.getANCount
  let (p, it) ← readAnswers rawPacket answersCount p it
  let unsupportedCount := p.getARCount + p.getNSCount
  let it ← readUnsupported rawPacket unsupportedCount it
  pure (p, it)

/-- Source `DNSPacket::DNSPacket(const std::vector<u8> &rawPacket, std::size_t bytesToRead)`. -/
def parse (rawPacket : List Nat) (bytesToRead : Nat) : Except Exception DNSPacket := do
  let (p, it) ← readSections rawPacket
  if it ≠ bytesToRead then
    throw Exception.UnknownFormat
  pure p

end DNSPacket

/-! ## ICMPEchoPacket.cc -/

/-- Source `enum ICMPType : u8 { REPLY = 0, REQUEST = 8 }`. -/
inductive ICMPType where
  | REPLY
  | REQUEST
  deriving DecidableEq, Repr

/-- The `u8` value of an `ICMPType`. -/
def ICMPType.toNat : ICMPType → Nat
  | .REPLY => 0
  | .REQUEST => 8

/-- Source `class ICMPEchoPacket`: `type`, `u8 code`, `u16 identifier`,
`u16 seqNumber`, `u32 data`. -/
structure ICMPEchoPacket where
  type : ICMPType
  code : Nat
  identifier : Nat
  seqNumber : Nat
  data : Nat
  deriving DecidableEq, Repr

namespace ICMPEchoPacket

/-- The ranges of the member types: `u8 code`, `u16 identifier`, `u16 seqNumber`, `u32 data`. -/
def InRange (p : ICMPEchoPacket) : Prop :=
  p.code < 2 ^ 8 ∧ p.identifier < 2 ^ 16 ∧ p.seqNumber < 2 ^ 16 ∧ p.data < 2 ^ 32

instance (p : ICMPEchoPacket) : Decidable p.InRange := by
  unfold InRange; infer_instance

/-- Source `ICMPEchoPacket::calcChecksum`: `sum` is an `unsigned int` (32 bits), and
the returned `~sum` is converted to `u16`. -/
def calcChecksum (p : ICMPEchoPacket) : Nat :=
  let sum := (((p.type.toNat % 2 ^ 16) <<< 8) + p.code + p.identifier + p.seqNumber) % 2 ^ 32
  let part2 := (p.data % (1 <<< 16)) % 2 ^ 16
  let part1 := (p.data >>> 16) % 2 ^ 16
  let sum := (sum + (part1 + part2)) % 2 ^ 32
  let sum := ((sum >>> 16) + (sum &&& 0xFFFF)) % 2 ^ 32
  let sum := (sum + (sum >>> 16)) % 2 ^ 32
  (2 ^ 32 - 1 - sum) % 2 ^ 16

/-- Source `ICMPEchoPacket::generateNetworkFormat`. -/
def generateNetworkFormat (p : ICMPEchoPacket) : List Nat :=
  let res : List Nat := []
  let res := res ++ [p.type.toNat]
  let res := res ++ [p.code]
  let res := bitops.addTo_u16 res p.calcChecksum
  let res := bitops.addTo_u16 res p.identifier
  let res := bitops.addTo_u16 res p.seqNumber
  bitops.addTo_u32 res p.data

/-- Source `ICMPEchoPacket::ICMPEchoPacket(rawPacket, bytesToRead, rawPacketWithIPHeader)`.
`ihl` is a `u8`, so `ihl * 4 - 1` is reduced modulo 256; the last test
`it - bytesToRead != rawPacket.begin()` compares the position of `it` with `bytesToRead`. -/
def decode (rawPacket : List Nat) (bytesToRead : Nat) (rawPacketWithIPHeader : Bool := false) :
    Except Exception ICMPEchoPacket := do
  let it := 0
  let it ←
    if rawPacketWithIPHeader then do
      let (first, it) ← bitops.getU8 rawPacket it
      let ihl := first % (1 <<< 4)
      let ihl := (ihl * 4 + 256 - 1) % 256
      dns_format.skipOctets rawPacket ihl it
    else
      pure it
  let (tmpType, it) ← bitops.getU8 rawPacket it
  if tmpType ≠ ICMPType.REPLY.toNat then
    throw Exception.UnknownFormat
  let type := ICMPType.REPLY
  let (code, it) ← bitops.getU8 rawPacket it
  let (checksum, it) ← bitops.getU16 rawPacket it
  let (identifier, it) ← bitops.getU16 rawPacket it
  let (seqNumber, it) ← bitops.getU16 rawPacket it
  let (data, it) ← bitops.getU32 rawPacket it
  let p : ICMPEchoPacket :=
    { type := type, code := code, identifier := identifier, seqNumber := seqNumber, data := data }
  if p.calcChecksum ≠ checksum ∨ it ≠ bytesToRead then
    throw Exception.UnknownFormat
  pure p

end ICMPEchoPacket

/-! ## The Internet checksum, as the specification words it -/

/-- One's-complement addition of two 16-bit words: a carry out of bit 15 is added
back into bit 0 (end-around carry). -/
def onesComplementAdd (a b : Nat) : Nat :=
  let s := a + b
  if 2 ^ 16 ≤ s then s - 2 ^ 16 + 1 else s

/-- The 16-bit one's-complement sum of a list of 16-bit words. -/
def onesComplementSum (words : List Nat) : Nat :=
  words.foldl onesComplementAdd 0

/-- The big-endian 16-bit words of an octet sequence (a trailing odd octet is dropped). -/
def words16 : List Nat → List Nat
  | hi :: lo :: rest => (hi * 2 ^ 8 + lo) :: words16 rest
  | _ => []

/-! ## Uncompressed and compressed names, as the specification words them -/

/-- The encoding of a sequence of labels: each label preceded by its length octet. -/
def encodeLabels : List (List Nat) → List Nat
  | [] => []
  | l :: ls => (l.length :: l) ++ encodeLabels ls

/-- An uncompressed name: its length-prefixed labels, terminated by a zero octet. -/
def encodeName (labels : List (List Nat)) : List Nat :=
  encodeLabels labels ++ [0]

/-- The two octets of a compression pointer to offset `o`: the top two bits of the
first octet set, its low six bits and the second octet holding the 14 bits of `o`. -/
def pointerTo (o : Nat) : List Nat :=
  [0xC0 + o / 256, o % 256]

deriving instance DecidableEq for Except

/-! ## Example inputs -/

/-- The labels of a name of 255 octets: three labels of 63 octets and one of 61,
every octet the letter `a`. -/
def longNameLabels : List (List Nat) :=
  [List.replicate 63 0x61, List.replicate 63 0x61, List.replicate 63 0x61,
    List.replicate 61 0x61]

/-- A message of 257 octets: the 255-octet name at offset 0, then a pointer to
offset 0 at offset 255. -/
def longNameMessage : List Nat :=
  encodeName longNameLabels ++ pointerTo 0

/-! ## The extent of a DNS message, as the specification words it -/

namespace DNSPacket

/-- The position after `n` questions starting at `it`. -/
def skipQuestions (buf : List Nat) : (n : Nat) → (it : Nat) → Except Exception Nat
  | 0, it => .ok it
  | n + 1, it =>
    match dns_format.getQuestion buf it with
    | .error e => .error e
    | .ok (_, it) => skipQuestions buf n it

/-- The position at which the records of a message end: after the 12-octet header,
`qd` questions, `an` answers and `ns + ar` further records, the four counts being
the big-endian 16-bit words at octets 4 to 11 of the message. -/
def sectionsEnd (raw : List Nat) : Except Exception Nat :=
  if raw.length < HEADER_SIZE then
    .error .UnknownFormat
  else
    let qd := bitops.merge_u8 (raw.getD 4 0) (raw.getD 5 0)
    let an := bitops.merge_u8 (raw.getD 6 0) (raw.getD 7 0)
    let ns := bitops.merge_u8 (raw.getD 8 0) (raw.getD 9 0)
    let ar := bitops.merge_u8 (raw.getD 10 0) (raw.getD 11 0)
    match skipQuestions raw qd HEADER_SIZE with
    | .error e => .error e
    | .ok it =>
      match readUnsupported raw an it with
      | .error e => .error e
      | .ok it => readUnsupported raw (ar + ns) it

end DNSPacket

/-! ## DNSPacket.cc: header fields; SDServerClient.cc: packet filter -/

namespace DNSPacket

/-- Source `DNSPacket::getOpcode`: `u8 opcode = header[2]; opcode <<= 1; opcode &= 0xF0;`.
The shifted value is stored back into a `u8`. -/
def getOpcode (p : DNSPacket) : Nat :=
  let opcode := p.header.getD 2 0
  let opcode := (opcode <<< 1) % 2 ^ 8
  let opcode := opcode &&& 0xF0
  opcode

/-- Source `DNSPacket::getRCode`: `u8 rcode = header[3]; rcode <<= 4; rcode &= 0xF0;`. -/
def getRCode (p : DNSPacket) : Nat :=
  let rcode := p.header.getD 3 0
  let rcode := (rcode <<< 4) % 2 ^ 8
  let rcode := rcode &&& 0xF0
  rcode

end DNSPacket

namespace SDServerClient

/-- Source `SDServerClient::ignorePacket(packet, senderEndpoint)`; the endpoint is not used. -/
def ignorePacket (packet : DNSPacket) : Bool :=
  if packet.getOpcode ≠ 0 then
    true
  else if packet.getRCode ≠ 0 then
    true
  else
    false

end SDServerClient

/-! ## LatencyDatabase.cc

Time points (`std::chrono::time_point<system_clock>`) and durations are integers
counting ticks of the clock; arithmetic on them is assumed not to overflow the 64-bit
representation. Every call of `std::chrono::system_clock::now()` is a parameter of
the function that makes it, so a function that reads the clock several times takes
one parameter for each reading. -/

/-- Source `enum class ProtocolType { ICMP, TCP, UDP }`. -/
inductive ProtocolType where
  | ICMP
  | TCP
  | UDP
  deriving DecidableEq, Repr

/-- Source `LatencyDatabase::allProtocols`, in the order UDP, TCP, ICMP. -/
def allProtocols : List ProtocolType := [.UDP, .TCP, .ICMP]

/-- Source `time_point_t::min()`: the least value of the 64-bit tick count. -/
def time_point_min : Int := -(2 ^ 63)

/-- Source `struct Host::TimeMemory`: `latencies` is the array of ten samples. -/
structure TimeMemory where
  lastIdx : Nat
  count : Nat
  latencies : List Int
  sum : Int
  deriving DecidableEq, Repr

namespace TimeMemory

/-- Source `TimeMemory::TimeMemory()`. -/
def new : TimeMemory :=
  { lastIdx := 0, count := 0, latencies := List.replicate 10 0, sum := 0 }

/-- The statements of `Host::addLatency` that act on `*tMem`:
`lastIdx = (lastIdx + 1) % 10; count = min(count + 1, 10u); sum -= latencies[lastIdx];
latencies[lastIdx] = ms; sum += ms;`. -/
def push (tMem : TimeMemory) (ms : Int) : TimeMemory :=
  let lastIdx := (tMem.lastIdx + 1) % 10
  let count := min (tMem.count + 1) 10
  let sum := tMem.sum - tMem.latencies.getD lastIdx 0
  let latencies := tMem.latencies.set lastIdx ms
  let sum := sum + ms
  { lastIdx := lastIdx, count := count, latencies := latencies, sum := sum }

end TimeMemory

/-- Source `class LatencyDatabase::Host`. -/
structure Host where
  tcpExpiration : Int
  udpExpiration : Int
  icmpTime : TimeMemory
  tcpTime : TimeMemory
  udpTime : TimeMemory
  udpExpired : Bool
  tcpExpired : Bool
  deriving DecidableEq, Repr

/-- The value returned by `Host::getAverageLatency`, a `double`: either the quotient
`(double)sum / count` of the two integers the loop ends with, kept as the pair, or
`std::numeric_limits<double>::max()`. -/
inductive AverageLatency where
  | quotient (sum : Int) (count : Nat)
  | max
  deriving DecidableEq, Repr

namespace Host

/-- Source `Host::Host()`. -/
def new : Host :=
  { tcpExpiration := time_point_min, udpExpiration := time_point_min,
    icmpTime := TimeMemory.new, tcpTime := TimeMemory.new, udpTime := TimeMemory.new,
    udpExpired := true, tcpExpired := true }

/-- Source `Host::getForProtocol` and `Host::getForProtocolConst`: the window read
through the returned pointer. -/
def getForProtocol (h : Host) (protocol : ProtocolType) : TimeMemory :=
  match protocol with
  | .ICMP => h.icmpTime
  | .UDP => h.udpTime
  | .TCP => h.tcpTime

/-- A write through the pointer returned by `Host::getForProtocol`. -/
def setForProtocol (h : Host) (protocol : ProtocolType) (tMem : TimeMemory) : Host :=
  match protocol with
  | .ICMP => { h with icmpTime := tMem }
  | .UDP => { h with udpTime := tMem }
  | .TCP => { h with tcpTime := tMem }

/-- Source `Host::updateExpired`, with the clock reading `timeNow`. -/
def updateExpired (h : Host) (timeNow : Int) : Host :=
  let h := { h with udpExpired := false, tcpExpired := false }
  let h :=
    if timeNow > h.tcpExpiration then
      { h with tcpTime := TimeMemory.new, tcpExpired := true }
    else
      { h with tcpExpired := false }
  if timeNow > h.udpExpiration then
    { h with udpTime := TimeMemory.new, icmpTime := TimeMemory.new, udpExpired := true }
  else
    { h with udpExpired := false }

/-- Source `Host::addLatency(protocol, ms)`; `timeNow` is read by `updateExpired`. -/
def addLatency (h : Host) (protocol : ProtocolType) (ms : Int) (timeNow : Int) : Host :=
  let tMem := h.getForProtocol protocol
  let h := h.setForProtocol protocol (tMem.push ms)
  h.updateExpired timeNow

/-- Source `Host::setTCPExpiration`; `timeNow` is read by `updateExpired`. -/
def setTCPExpiration (h : Host) (expiration : Int) (timeNow : Int) : Host :=
  let h := { h with tcpExpiration := expiration }
  h.updateExpired timeNow

/-- Source `Host::setUDPExpiration`; `timeNow` is read by `updateExpired`. -/
def setUDPExpiration (h : Host) (expiration : Int) (timeNow : Int) : Host :=
  let h := { h with udpExpiration := expiration }
  h.updateExpired timeNow

/-- Source `Host::isAnyProtocolAvailable`. -/
def isAnyProtocolAvailable (h : Host) : Bool :=
  !h.tcpExpired || !h.udpExpired

/-- Source `Host::isProtocolAvailable`. -/
def isProtocolAvailable (h : Host) (protocol : ProtocolType) : Bool :=
  if protocol = ProtocolType.TCP then
    !h.tcpExpired
  else
    !h.udpExpired

/-- Source `Host::isLatencyKnown`: the conversion of `count` to `bool`. -/
def isLatencyKnown (h : Host) (protocol : ProtocolType) : Bool :=
  (h.getForProtocol protocol).count != 0

/-- Source `Host::getLatency`: `sum / count`, the division of a signed tick count,
which truncates toward zero; a `std::logic_error` for an empty window. -/
def getLatency (h : Host) (protocol : ProtocolType) : Except Exception Int :=
  let tMem := h.getForProtocol protocol
  if tMem.count ≠ 0 then
    .ok (Int.tdiv tMem.sum tMem.count)
  else
    .error .LogicError

/-- The loop of `Host::getAverageLatency` over the protocols left to visit, with the
locals `u32 sum` and `u8 count`: `sum += getLatency(protocol).count()` adds a 64-bit
value and stores the result in 32 bits. -/
def averageLoop (h : Host) : List ProtocolType → Int → Nat → Except Exception (Int × Nat)
  | [], sum, count => .ok (sum, count)
  | protocol :: rest, sum, count =>
    if h.isLatencyKnown protocol then
      match h.getLatency protocol with
      | .error e => .error e
      | .ok latency => averageLoop h rest ((sum + latency) % 2 ^ 32) ((count + 1) % 2 ^ 8)
    else
      averageLoop h rest sum count

/-- Source `Host::getAverageLatency`. -/
def getAverageLatency (h : Host) : Except Exception AverageLatency :=
  match averageLoop h allProtocols 0 0 with
  | .error e => .error e
  | .ok (sum, count) =>
    if count ≠ 0 then .ok (AverageLatency.quotient sum count) else .ok AverageLatency.max

end Host

namespace LatencyDatabase

/-- The member `std::map<addr_t, Host> data`: its entries in increasing order of the
address, an address being its 32-bit value. -/
abbrev Data := List (Nat × Host)

/-- Source `data.find(addr)`: the host stored for `addr`, if any. -/
def find : Data → Nat → Option Host
  | [], _ => none
  | (a, h) :: rest, addr => if a = addr then some h else find rest addr

/-- The effect on the map of `auto &host = data[addr]` followed by writes through
`host` that leave it equal to `h`: the entry for `addr` is created in key order
when it is missing, and holds `h`. -/
def put : Data → Nat → Host → Data
  | [], addr, h => [(addr, h)]
  | (a, x) :: rest, addr, h =>
    if a = addr then (addr, h) :: rest
    else if addr < a then (addr, h) :: (a, x) :: rest
    else (a, x) :: put rest addr h

/-- Source `data.erase(addr)`. -/
def erase (data : Data) (addr : Nat) : Data :=
  data.filter (fun e => e.1 != addr)

/-- Source `LatencyDatabase::setConnectionAvailable(protocol, addr, ttl)`. The clock is
read by the first `updateExpired` (`tUpdate`), by the argument `now() + ttl` of the
setter (`tNow`) and by the `updateExpired` inside the setter (`tSet`). -/
def setConnectionAvailable (data : Data) (protocol : ProtocolType) (addr : Nat) (ttl : Int)
    (tUpdate tNow tSet : Int) : Data :=
  let host := (find data addr).getD Host.new
  let host := host.updateExpired tUpdate
  let host := if !host.isAnyProtocolAvailable then Host.new else host
  let host :=
    if protocol = ProtocolType.TCP then host.setTCPExpiration (tNow + ttl) tSet else host
  let host :=
    if protocol = ProtocolType.UDP then host.setUDPExpiration (tNow + ttl) tSet else host
  put data addr host

/-- Source `LatencyDatabase::addLatency(protocol, addr, ms)`. The clock is read by
`updateExpired` (`tUpdate`) and inside `Host::addLatency` (`tAdd`). -/
def addLatency (data : Data) (protocol : ProtocolType) (addr : Nat) (ms : Int)
    (tUpdate tAdd : Int) : Data :=
  let host := (find data addr).getD Host.new
  let host := host.updateExpired tUpdate
  if !host.isAnyProtocolAvailable then
    erase data addr
  else if !host.isProtocolAvailable protocol then
    put data addr host
  else
    put data addr (host.addLatency protocol ms tAdd)

/-- The loop of `LatencyDatabase::getAll` from its `i`-th iteration on, over the
entries not yet visited: the pairs pushed to `res` and the entries left in the
map. `times i` is the clock reading of the `i`-th iteration. -/
def getAllFrom (times : Nat → Int) : Nat → Data → List (Nat × Host) × Data
  | _, [] => ([], [])
  | i, (a, h) :: rest =>
    let h := h.updateExpired (times i)
    let (res, data) := getAllFrom times (i + 1) rest
    if !h.isAnyProtocolAvailable then
      (res, data)
    else
      ((a, h) :: res, (a, h) :: data)

/-- Source `LatencyDatabase::getAll()`: the returned vector and the map afterwards. -/
def getAll (data : Data) (times : Nat → Int) : List (Nat × Host) × Data :=
  getAllFrom times 0 data

end LatencyDatabase

/-! ## The rolling window, as the specification words it -/

/-- The samples a window holds, oldest first: the `count` entries of the ring that
end at index `lastIdx`. -/
def TimeMemory.held (tMem : TimeMemory) : List Int :=
  (List.range tMem.count).map
    (fun j => tMem.latencies.getD ((tMem.lastIdx + 10 - tMem.count + 1 + j) % 10) 0)

/-- The last ten of the samples `S`, preceded by zeros when there are fewer than ten. -/
def paddedWindow (S : List Int) : List Int :=
  (List.replicate 10 0 ++ S).drop S.length

/-- The window `tMem` is the state reached from an empty window by pushing the samples
`S` in order: position and count follow the number of samples, the ring read from the
slot after `lastIdx` is the padded window, and `sum` is its sum. -/
def TimeMemory.Holds (tMem : TimeMemory) (S : List Int) : Prop :=
  tMem.lastIdx = S.length % 10 ∧ tMem.count = min S.length 10
    ∧ tMem.latencies.length = 10 ∧ tMem.sum = (paddedWindow S).sum
    ∧ ∀ j, j < 10 →
        tMem.latencies.getD ((tMem.lastIdx + 1 + j) % 10) 0 = (paddedWindow S).getD j 0

/-- The deadline that governs a protocol: the TCP deadline for TCP, the UDP deadline
for UDP and ICMP. -/
def Host.deadline (h : Host) (protocol : ProtocolType) : Int :=
  if protocol = ProtocolType.TCP then h.tcpExpiration else h.udpExpiration

/-- The host after a sequence of calls `addLatency(protocol, ms)`, given as pairs of
the sample and the clock reading of the call. -/
def Host.addLatencies (h : Host) (protocol : ProtocolType) (pushes : List (Int × Int)) : Host :=
  pushes.foldl (fun h x => h.addLatency protocol x.1 x.2) h

/-- The map after a sequence of calls `addLatency(protocol, addr, ms)`, each given by
its protocol, address, sample and two clock readings. -/
def LatencyDatabase.addLatencyCalls (data : LatencyDatabase.Data)
    (calls : List (ProtocolType × Nat × Int × Int × Int)) : LatencyDatabase.Data :=
  calls.foldl
    (fun d c => LatencyDatabase.addLatency d c.1 c.2.1 c.2.2.1 c.2.2.2.1 c.2.2.2.2) data

namespace Host

/-- The value `getLatency(protocol).count()` that the averaging loop adds for a
protocol whose window is not empty. -/
def latencyCount (h : Host) (protocol : ProtocolType) : Int :=
  match h.getLatency protocol with
  | .ok latency => latency
  | .error _ => 0

/-- The protocols of the list whose window is not empty. -/
def knownProtocols (h : Host) (ps : List ProtocolType) : List ProtocolType :=
  ps.filter (fun p => h.isLatencyKnown p)

/-- The exact sum, over the protocols of the list with a non-empty window, of
`getLatency(p)` in microseconds. -/
def exactLatencySum (h : Host) (ps : List ProtocolType) : Int :=
  ((h.knownProtocols ps).map (fun p => h.latencyCount p)).sum

end Host

/-! ## ICMPEchoPacket.cc: the decoder after the IP header -/

namespace ICMPEchoPacket

/-- The decoding constructor from the read of the type octet on, `it` being the
position reached after the optional IP header: the same statements as in `decode`. -/
def decodeFrom (rawPacket : List Nat) (bytesToRead : Nat) (it : Nat) :
    Except Exception ICMPEchoPacket := do
  let (tmpType, it) ← bitops.getU8 rawPacket it
  if tmpType ≠ ICMPType.REPLY.toNat then
    throw Exception.UnknownFormat
  let type := ICMPType.REPLY
  let (code, it) ← bitops.getU8 rawPacket it
  let (checksum, it) ← bitops.getU16 rawPacket it
  let (identifier, it) ← bitops.getU16 rawPacket it
  let (seqNumber, it) ← bitops.getU16 rawPacket it
  let (data, it) ← bitops.getU32 rawPacket it
  let p : ICMPEchoPacket :=
    { type := type, code := code, identifier := identifier, seqNumber := seqNumber, data := data }
  if p.calcChecksum ≠ checksum ∨ it ≠ bytesToRead then
    throw Exception.UnknownFormat
  pure p

/-- The echo message whose twelve octets start at offset `o` of `raw`: the fields the
decoder reads there when the type octet is REPLY. -/
def fieldsAt (raw : List Nat) (o : Nat) : ICMPEchoPacket :=
  { type := .REPLY
    code := raw.getD (o + 1) 0
    identifier := bitops.merge_u8 (raw.getD (o + 4) 0) (raw.getD (o + 5) 0)
    seqNumber := bitops.merge_u8 (raw.getD (o + 6) 0) (raw.getD (o + 7) 0)
    data := bitops.merge_u16 (bitops.merge_u8 (raw.getD (o + 8) 0) (raw.getD (o + 9) 0))
      (bitops.merge_u8 (raw.getD (o + 10) 0) (raw.getD (o + 11) 0)) }

/-- The checksum field of the echo message at offset `o` of `raw`. -/
def checksumAt (raw : List Nat) (o : Nat) : Nat :=
  bitops.merge_u8 (raw.getD (o + 2) 0) (raw.getD (o + 3) 0)

/-- The IP header length in octets as the specification words it: the low nibble of
octet 0, counted in 32-bit words. -/
def headerOctets (raw : List Nat) : Nat :=
  4 * (raw.getD 0 0 % 16)

/-- The number of octets the decoder passes before the type octet of a datagram with
IP header: one octet for the length nibble `h`, then `(4 * h - 1) mod 256` more. -/
def skippedOctets (raw : List Nat) : Nat :=
  1 + (raw.getD 0 0 % 16 * 4 + 256 - 1) % 256

end ICMPEchoPacket

/-! ## ICMPService.cc

`period` is the number of ticks of `system_clock` in a microsecond, a constant of the
platform (1000 for a clock that counts nanoseconds): `duration_cast<microseconds>`
divides a tick count by it, truncating toward zero. -/

namespace ICMPService

/-- Source `prepareRequestData`: `requestData = bitops::merge(0x05, 0x4B, 0xE4, 0x03)`. -/
def requestData : Nat :=
  bitops.merge_u16 (bitops.merge_u8 0x05 0x4B) (bitops.merge_u8 0xE4 0x03)

/-- Source `struct HistoryEntry`. Its `operator<` compares the triples
`((peerAddr, identifier), seqNumber)` lexicographically, so two entries are the same
key of a `std::map` exactly when their three fields are equal. -/
structure HistoryEntry where
  peerAddr : Nat
  identifier : Nat
  seqNumber : Nat
  deriving DecidableEq, Repr

/-- The member `std::map<HistoryEntry, time_point> requestTime`, as its entries. -/
abbrev RequestTime := List (HistoryEntry × Int)

/-- Source `requestTime.find(request)`: the send time stored for the key, if any. -/
def find : RequestTime → HistoryEntry → Option Int
  | [], _ => none
  | (k, t) :: rest, request => if k = request then some t else find rest request

/-- Source `requestTime.erase(request)`. -/
def erase (requestTime : RequestTime) (request : HistoryEntry) : RequestTime :=
  requestTime.filter (fun e => e.1 ≠ request)

/-- Source `ICMPService::handleICMPMessage(reply, receiveTime, senderAddr)`, as a
function of the in-flight map and of the map of the latency database; `tUpdate` and
`tAdd` are the clock readings of `LatencyDatabase::addLatency`. -/
def handleICMPMessage (requestTime : RequestTime) (data : LatencyDatabase.Data)
    (reply : ICMPEchoPacket) (receiveTime : Int) (senderAddr : Nat)
    (period tUpdate tAdd : Int) : RequestTime × LatencyDatabase.Data :=
  if reply.type ≠ ICMPType.REPLY ∨ reply.code ≠ 0 ∨ reply.data ≠ requestData then
    (requestTime, data)
  else
    let request : HistoryEntry :=
      { peerAddr := senderAddr, identifier := reply.identifier, seqNumber := reply.seqNumber }
    match find requestTime request with
    | some sendTime =>
      let latency := Int.tdiv (receiveTime - sendTime) period
      (erase requestTime request,
        LatencyDatabase.addLatency data ProtocolType.ICMP senderAddr latency tUpdate tAdd)
    | none => (requestTime, data)

/-- Source `ICMPService::handleMessage(error, bytesToRead)` without the re-arming of
the receive: the datagram in `buffer` is decoded with its IP header, and an
`UnknownFormatException` is caught and ignored. -/
def handleMessage (requestTime : RequestTime) (data : LatencyDatabase.Data)
    (buffer : List Nat) (error : Bool) (bytesToRead : Nat) (curTime : Int) (senderAddr : Nat)
    (period tUpdate tAdd : Int) : RequestTime × LatencyDatabase.Data :=
  if !error then
    match ICMPEchoPacket.decode buffer bytesToRead true with
    | .ok packet =>
      handleICMPMessage requestTime data packet curTime senderAddr period tUpdate tAdd
    | .error _ => (requestTime, data)
  else
    (requestTime, data)

end ICMPService

/-! ## Example datagrams -/

/-- An echo reply with identifier `0xABCD`, sequence number 1 and the magic data. -/
def ICMPEchoPacket.sampleReply : List Nat :=
  [0, 0, 0x6A, 0xE2, 0xAB, 0xCD, 0, 1, 0x05, 0x4B, 0xE4, 0x03]

/-- A datagram of 268 octets whose octet 0 is `0x40` (length nibble 0), followed by 255
zero octets and by the echo reply `sampleReply` at offset 256. -/
def ICMPEchoPacket.zeroNibbleDatagram : List Nat :=
  0x40 :: (List.replicate 255 0 ++ ICMPEchoPacket.sampleReply)

/-- A datagram with a 20-octet IP header (octet 0 is `0x45`) followed by `sampleReply`. -/
def ICMPEchoPacket.plainDatagram : List Nat :=
  0x45 :: (List.replicate 19 0 ++ ICMPEchoPacket.sampleReply)

/-! ## Character strings

A `std::string` is the list of the codes of its characters. -/

namespace std

/-- The decimal digits of `n` as character codes, least significant first; `fuel`
bounds their number. -/
def digitsRev : Nat → Nat → List Nat
  | 0, _ => []
  | fuel + 1, n => (48 + n % 10) :: (if n / 10 = 0 then [] else digitsRev fuel (n / 10))

/-- The library function `std::to_string` at an unsigned value: its decimal digits,
most significant first, `0` being the one digit `0`. -/
def to_string (n : Nat) : List Nat :=
  (digitsRev (n + 1) n).reverse

/-- The library function `std::to_string` at a signed value: a minus sign before the
digits of a negative value. -/
def to_string_int (z : Int) : List Nat :=
  if z < 0 then 45 :: to_string z.natAbs else to_string z.toNat

end std

/-! ## TELNETServer.cc -/

namespace TELNETServer

/-- The `double` that `getAverageLatency()` returns, by its exact value: the quotient
of the two integers the loop ends with, or a top element for
`std::numeric_limits<double>::max()`. The sum is below `2^32` and the count is 1, 2 or
3, so two different quotients differ by at least `1/6` while the conversion and the
division round by less than `2^-20`: the doubles are ordered, and equal, as the exact
quotients are. (`getAverageLatency` does not throw; the last case is not reached.) -/
def averageKey (h : Host) : WithTop ℚ :=
  match h.getAverageLatency with
  | .ok (.quotient sum count) => (((sum : ℚ) / (count : ℚ) : ℚ) : WithTop ℚ)
  | .ok .max => ⊤
  | .error _ => ⊤

/-- Source `TELNETServer::compareHostEntry`:
`a.second.getAverageLatency() > b.second.getAverageLatency()`. -/
def compareHostEntry (a b : Nat × Host) : Bool :=
  decide (averageKey a.2 > averageKey b.2)

/-- The call `std::sort(data.begin(), data.end(), &TELNETServer::compareHostEntry)`.
The library routine fixes its result up to the order of the elements that the
comparison does not tell apart: a permutation of the input in which no element is
followed by one that the comparison puts before it. An insertion sort stands for it. -/
def sortHostEntries (data : List (Nat × Host)) : List (Nat × Host) :=
  data.insertionSort (fun a b => ¬ compareHostEntry b a = true)

/-- The library function `address_v4::to_string()`: the dotted decimal form. -/
def addrToString (addr : Nat) : List Nat :=
  std.to_string (addr / 2 ^ 24 % 256) ++ [46] ++ std.to_string (addr / 2 ^ 16 % 256) ++ [46]
    ++ std.to_string (addr / 2 ^ 8 % 256) ++ [46] ++ std.to_string (addr % 256)

/-- Source `TELNETServer::getLatency(protocol, data)`: `-` for a protocol that is not
available, `?` for an empty window, else the latency in microseconds. -/
def getLatency (protocol : ProtocolType) (data : Host) : List Nat :=
  if !data.isProtocolAvailable protocol then
    [45]
  else if !data.isLatencyKnown protocol then
    [63]
  else
    match data.getLatency protocol with
    | .ok latency => std.to_string_int latency
    | .error _ => []

/-- The inner loop of `updateData` over `protocols`: the three tokens of a line,
separated by single spaces. -/
def lineTimes (data : Host) : List ProtocolType → List Nat
  | [] => []
  | [p] => getLatency p data
  | p :: rest => getLatency p data ++ [32] ++ lineTimes data rest

/-- Source `TELNETServer::updateData`, from the vector that `getAll()` returned to the
new `dataViewLines`. The number of spaces of line `i`,
`max(1, min(spacesCount, minSpace))`, comes out of floating-point arithmetic on the
averages and is the parameter `spaces`. -/
def updateData (snapshot : List (Nat × Host)) (spaces : Nat → Nat) : List (List Nat) :=
  let data := sortHostEntries snapshot
  let ips := data.map (fun line => addrToString line.1)
  let times := data.map (fun line => lineTimes line.2 allProtocols)
  (List.range data.length).map
    (fun i => ips.getD i [] ++ List.replicate (spaces i) 32 ++ times.getD i [])

/-- The line of an entry at row `i`: its address, the spaces, its three tokens. -/
def lineOf (spaces : Nat → Nat) (i : Nat) (entry : Nat × Host) : List Nat :=
  addrToString entry.1 ++ List.replicate (spaces i) 32 ++ lineTimes entry.2 allProtocols

end TELNETServer

/-- A host has no sample when its three windows are empty. -/
def Host.hasNoSample (h : Host) : Prop :=
  h.knownProtocols allProtocols = []

instance (h : Host) : Decidable h.hasNoSample := by
  unfold Host.hasNoSample; infer_instance

/-! ## Example snapshot -/

/-- A snapshot of three available peers: peer 1 with the one UDP sample 500, peer 2
with the UDP sample 100 and the TCP sample 200, peer 3 without samples. -/
def TELNETServer.sampleSnapshot : List (Nat × Host) :=
  [(1, ({ Host.new with udpExpiration := 100 } : Host).addLatency .UDP 500 1),
   (2, (({ Host.new with udpExpiration := 100, tcpExpiration := 100 } : Host).addLatency
      .UDP 100 1).addLatency .TCP 200 1),
   (3, ({ Host.new with udpExpiration := 100 } : Host).updateExpired 1)]

/-! ## dns_format.cc: names and character strings -/

namespace dns_format

/-- Source `stringToDomain`, the loop over `name`: at a dot the number of characters up
to the next dot or the end, stored in a `u8`; any other character as it is. -/
def stringToDomainLoop : List Nat → List Nat
  | [] => []
  | c :: rest =>
    if c = 46 then
      ((rest.takeWhile (fun x => x != 46)).length % 256) :: stringToDomainLoop rest
    else
      c :: stringToDomainLoop rest

/-- Source `stringToDomain`: `name = dot + str`, then a zero octet unless the result
already ends in one. -/
def stringToDomain (str : List Nat) : List Nat :=
  let res := stringToDomainLoop (46 :: str)
  if res.getLast? ≠ some 0 then res ++ [0] else res

/-- Source `domainToString`: the fold over the octets with the locals `res` and `count`. -/
def domainToString (domain : List Nat) : List Nat :=
  (domain.foldl
    (fun (acc : List Nat × Nat) c =>
      if acc.2 = 0 then (if acc.1 ≠ [] then acc.1 ++ [46] else acc.1, c)
      else (acc.1 ++ [c], acc.2 - 1))
    ([], 0)).1

/-- Source `firstLabel`: the length octet `count = domain[0]`, the `count` octets after
it, and a zero octet. (The source reads `domain[0 .. count]`, so it is defined only
when the domain holds its whole first label, and its loop over a `u8` index ends only
for `count < 255`; an octet that is not there is read as 0 here.) -/
def firstLabel (domain : List Nat) : List Nat :=
  let count := domain.getD 0 0
  (List.range (count + 1)).map (fun i => domain.getD i 0) ++ [0]

end dns_format

/-! ## DNSPacket.cc: identifier and flag bits -/

namespace DNSPacket

/-- Source `DNSPacket::getID`. -/
def getID (p : DNSPacket) : Nat := bitops.merge_u8 (p.header.getD 0 0) (p.header.getD 1 0)

/-- Source `DNSPacket::getQR`: bit 7 of octet 2. -/
def getQR (p : DNSPacket) : Bool := (p.header.getD 2 0 &&& (1 <<< 7)) != 0

/-- Source `DNSPacket::getTC`: bit 1 of octet 2. -/
def getTC (p : DNSPacket) : Bool := (p.header.getD 2 0 &&& (1 <<< 1)) != 0

/-- Source `DNSPacket::setID(u16 val)`. -/
def setID (p : DNSPacket) (val : Nat) : DNSPacket :=
  let idU8 := bitops.divide_u16 val
  { p with header := (p.header.set 0 idU8.1).set 1 idU8.2 }

/-- Source `DNSPacket::setQR(bool val)`. -/
def setQR (p : DNSPacket) (val : Bool) : DNSPacket :=
  if p.getQR ≠ val then
    if val then
      { p with header := p.header.set 2 ((p.header.getD 2 0 ||| (1 <<< 7)) % 256) }
    else
      { p with header := p.header.set 2 ((p.header.getD 2 0 + 256 - (1 <<< 7)) % 256) }
  else
    p

end DNSPacket

/-- Source `ResourceRecord::getRRType`. -/
def ResourceRecord.getRRType (rr : ResourceRecord) : Nat := rr.rrtype

/-- Source `ResourceRecord::getAddress`: a `std::logic_error` unless the type is A. -/
def ResourceRecord.getAddress (rr : ResourceRecord) : Except Exception Nat :=
  if rr.rrtype ≠ DNSType.A then .error .LogicError
  else
    match bitops.getU32 rr.rdata 0 with
    | .ok (address, _) => .ok address
    | .error e => .error e

/-! ## SDServerClient.cc

The state of the engine is the record `SDServerClient` and, for the handlers that
reach it, the map of the latency database. A call of `send(bytes, dst, delay)` is
recorded as a `Datagram`; a handler returns the datagrams it sends, in order. The
results of `rand()` and of `getHostAddr` (which reads the interfaces of the machine)
are parameters, as is every clock reading; `period` is the number of ticks of
`system_clock` in a microsecond, so `std::chrono::seconds(n)` is `n * 1000000 * period`
ticks. -/

/-- Source `endpoint_t` (`boost::asio::ip::udp::endpoint`): an IPv4 address and a port. -/
structure Endpoint where
  address : Nat
  port : Nat
  deriving DecidableEq, Repr

/-- One call of `SDServerClient::send(bytes, dst, delay)`; `delay` in microseconds. -/
structure Datagram where
  bytes : List Nat
  dst : Endpoint
  delay : Int
  deriving DecidableEq, Repr

/-- Source `class SDServerClient`, the members the handlers read and write. The array
`lastMutlicastResponses[2]` of `unique_ptr<time_point_t>` is a list of two optional
time points; `knownHostNames` is the `std::map` from first labels to deadlines, as its
entries. -/
structure SDServerClient where
  lastMutlicastResponses : List (Option Int)
  tcpAvailable : Bool
  hostname : List Nat
  hostnameEstablished : Bool
  knownHostNames : List (List Nat × Int)
  deriving DecidableEq, Repr

namespace SDServerClient

/-- Source `DEFAULT_TTL`. -/
def DEFAULT_TTL : Nat := 4500

/-- Source `TCP_SERVICE`, the string `_ssh._tcp.local.`. -/
def TCP_SERVICE : List Nat :=
  [95, 115, 115, 104, 46, 95, 116, 99, 112, 46, 108, 111, 99, 97, 108, 46]

/-- Source `OPOZNIENIA_SERVICE`, the string `_opoznienia._udp.local.`. -/
def OPOZNIENIA_SERVICE : List Nat :=
  [95, 111, 112, 111, 122, 110, 105, 101, 110, 105, 97, 46, 95, 117, 100, 112, 46,
    108, 111, 99, 97, 108, 46]

/-- Source `MDNS_MULTICAST_EP`: `224.0.0.251`, port 5353. -/
def MDNS_MULTICAST_EP : Endpoint :=
  { address := 224 * 2 ^ 24 + 251, port := 5353 }

/-- Source `PTR_TIME_IDX`. -/
def PTR_TIME_IDX : Nat := 0

/-- Source `A_TIME_IDX`. -/
def A_TIME_IDX : Nat := 1

/-- The duration `std::chrono::seconds(n)` in ticks of the clock. -/
def seconds (period : Int) (n : Int) : Int := n * (1000000 * period)

/-- The duration `std::chrono::microseconds(n)` in ticks of the clock. -/
def microseconds (period : Int) (n : Int) : Int := n * period

/-- Source `knownHostNames.find(hostname)`: the deadline stored for the label, if any. -/
def findHost : List (List Nat × Int) → List Nat → Option Int
  | [], _ => none
  | (k, t) :: rest, hostName => if k = hostName then some t else findHost rest hostName

/-- Source `knownHostNames[hostName] = deadline`: the entry is replaced, or created in
key order when it is missing. -/
def putHost : List (List Nat × Int) → List Nat → Int → List (List Nat × Int)
  | [], hostName, deadline => [(hostName, deadline)]
  | (k, t) :: rest, hostName, deadline =>
    if k = hostName then (hostName, deadline) :: rest
    else if hostName < k then (hostName, deadline) :: (k, t) :: rest
    else (k, t) :: putHost rest hostName deadline

/-- Source `knownHostNames.erase(hostname)`. -/
def eraseHost (known : List (List Nat × Int)) (hostName : List Nat) : List (List Nat × Int) :=
  known.filter (fun e => e.1 ≠ hostName)

/-- Source `SDServerClient::addKnownHost(domain, u16 ttl)`: the caller's 32-bit TTL is
converted to the `u16` parameter. -/
def addKnownHost (st : SDServerClient) (domain : List Nat) (ttl : Nat) (period now : Int) :
    SDServerClient :=
  let ttl : Nat := ttl % 2 ^ 16
  let hostName := dns_format.firstLabel domain
  { st with knownHostNames := putHost st.knownHostNames hostName (now + seconds period (ttl : Int)) }

/-- Source `SDServerClient::isHostKnown(domain)`: the answer, and the state after the
removal of an entry found expired. -/
def isHostKnown (st : SDServerClient) (domain : List Nat) (now : Int) : Bool × SDServerClient :=
  let hostname := dns_format.firstLabel domain
  match findHost st.knownHostNames hostname with
  | none => (false, st)
  | some deadline =>
    let st :=
      if deadline < now then { st with knownHostNames := eraseHost st.knownHostNames hostname }
      else st
    ((findHost st.knownHostNames hostname).isSome, st)

/-- Source `SDServerClient::supportedService(domain)`. -/
def supportedService (domain : List Nat) : Bool :=
  let servicesLabels := dns_format.domainToString (dns_format.withoutFirstLabel domain)
  servicesLabels = TCP_SERVICE || servicesLabels = OPOZNIENIA_SERVICE

/-- Source `SDServerClient::ignoreQuestion`. -/
def ignoreQuestion (st : SDServerClient) (q : Question) : Bool :=
  if q.qtype ≠ DNSType.PTR ∧ q.qtype ≠ DNSType.A then
    true
  else if !st.tcpAvailable ∧ (q.qname = dns_format.stringToDomain TCP_SERVICE
      ∨ q.qname = dns_format.stringToDomain (st.hostname ++ [46] ++ TCP_SERVICE)) then
    true
  else if q.qclass ≠ DNSClass.IN then
    true
  else
    false

/-- Source `SDServerClient::generatePlainAnswer`. -/
def generatePlainAnswer : ResourceRecord :=
  { ResourceRecord.new with ttl := DEFAULT_TTL, rrclass := DNSClass.IN }

/-- Source `SDServerClient::generatePTRAnswer`. -/
def generatePTRAnswer (st : SDServerClient) (q : Question) : ResourceRecord :=
  let res := generatePlainAnswer
  let res := { res with name := q.qname }
  [TCP_SERVICE, OPOZNIENIA_SERVICE].foldl
    (fun res srvc =>
      if q.qname = dns_format.stringToDomain srvc then
        res.setPTRAnswer (dns_format.stringToDomain (st.hostname ++ [46] ++ srvc))
      else res)
    res

/-- Source `SDServerClient::generateAAnswer`; `getHostAddr` gives, for the address of
the sender, the 32-bit address that `getHostAddr` picks among the interfaces. -/
def generateAAnswer (st : SDServerClient) (q : Question) (senderEndpoint : Endpoint)
    (getHostAddr : Nat → Nat) : ResourceRecord :=
  let res := generatePlainAnswer
  let res := { res with name := q.qname }
  [TCP_SERVICE, OPOZNIENIA_SERVICE].foldl
    (fun res srvc =>
      if q.qname = dns_format.stringToDomain (st.hostname ++ [46] ++ srvc) then
        res.setAAnswer (getHostAddr senderEndpoint.address)
      else res)
    res

/-- Source `SDServerClient::delayForPTRResponse`, `rnd` being the result of `rand()`. -/
def delayForPTRResponse (rnd : Nat) : Int := ((rnd % 101 + 20 : Nat) : Int)

/-- Source `SDServerClient::responseToLegacyUnicastQuery`. -/
def responseToLegacyUnicastQuery (st : SDServerClient) (queryID : Nat) (q : Question)
    (senderEndpoint : Endpoint) (getHostAddr : Nat → Nat) : List Datagram :=
  let max_ttl := 10
  let answer := ResourceRecord.new
  let answer :=
    if q.qtype = DNSType.PTR then generatePTRAnswer st q
    else if q.qtype = DNSType.A then generateAAnswer st q senderEndpoint getHostAddr
    else answer
  let answer := { answer with ttl := max_ttl }
  if answer.getRRType = DNSType.UNSUPPORTED then
    []
  else
    let response := DNSPacket.new
    let response := response.setID queryID
    let response := response.setQR true
    let response := response.addQuestion q
    let response := response.addAnswer answer
    [{ bytes := response.generateNetworkFormat, dst := senderEndpoint, delay := 0 }]

/-- Source `SDServerClient::responseViaMulticast`; `rnd` is the result of `rand()` and
`sendTime` the clock reading taken after the send. -/
def responseViaMulticast (st : SDServerClient) (q : Question) (senderEndpoint : Endpoint)
    (getHostAddr : Nat → Nat) (period : Int) (rnd : Nat) (sendTime : Int) :
    SDServerClient × List Datagram :=
  let answer := ResourceRecord.new
  let delay : Int := 0
  let time_idx := 0
  let (answer, delay, time_idx) :=
    if q.qtype = DNSType.PTR then
      (generatePTRAnswer st q, delayForPTRResponse rnd, PTR_TIME_IDX)
    else if q.qtype = DNSType.A then
      (generateAAnswer st q senderEndpoint getHostAddr, delay, A_TIME_IDX)
    else (answer, delay, time_idx)
  if answer.getRRType = DNSType.UNSUPPORTED then
    (st, [])
  else
    let response := DNSPacket.new
    let response := response.setQR true
    let response := response.addAnswer answer
    ({ st with lastMutlicastResponses :=
        st.lastMutlicastResponses.set time_idx (some (sendTime + microseconds period delay)) },
      [{ bytes := response.generateNetworkFormat, dst := MDNS_MULTICAST_EP, delay := delay }])

/-- Source `SDServerClient::handleUnicastQuery`; `now` is the clock reading of the test
on the last multicast response. -/
def handleUnicastQuery (st : SDServerClient) (q : Question) (senderEndpoint : Endpoint)
    (getHostAddr : Nat → Nat) (period : Int) (now : Int) (rnd : Nat) (sendTime : Int) :
    SDServerClient × List Datagram :=
  let time_idx := if q.qtype = DNSType.PTR then PTR_TIME_IDX else A_TIME_IDX
  let multicast : Bool :=
    match st.lastMutlicastResponses.getD time_idx none with
    | none => true
    | some last => decide (last < now - seconds period ((DEFAULT_TTL / 4 : Nat) : Int))
  if multicast then
    responseViaMulticast st q senderEndpoint getHostAddr period rnd sendTime
  else
    let answer := ResourceRecord.new
    let delay : Int := 0
    let (answer, delay) :=
      if q.qtype = DNSType.PTR then (generatePTRAnswer st q, delayForPTRResponse rnd)
      else if q.qtype = DNSType.A then
        (generateAAnswer st q senderEndpoint getHostAddr, delay)
      else (answer, delay)
    if answer.getRRType = DNSType.UNSUPPORTED then
      (st, [])
    else
      let response := DNSPacket.new
      let response := response.setQR true
      let response := response.addAnswer answer
      (st, [{ bytes := response.generateNetworkFormat, dst := senderEndpoint, delay := delay }])

/-- The body of the loop of `SDServerClient::handleQuestions` for the question `q`. -/
def handleQuestion (st : SDServerClient) (packet : DNSPacket) (q : Question)
    (senderEndpoint : Endpoint) (directedQuery : Bool) (getHostAddr : Nat → Nat)
    (period : Int) (now : Int) (rnd : Nat) (sendTime : Int) : SDServerClient × List Datagram :=
  if ignoreQuestion st q then
    (st, [])
  else if senderEndpoint.port ≠ MDNS_MULTICAST_EP.port then
    if !packet.getTC then
      (st, responseToLegacyUnicastQuery st packet.getID q senderEndpoint getHostAddr)
    else
      (st, [])
  else if directedQuery || q.unicastResponseRequested then
    handleUnicastQuery st q senderEndpoint getHostAddr period now rnd sendTime
  else
    responseViaMulticast st q senderEndpoint getHostAddr period rnd sendTime

/-- The loop of `handleQuestions` over the questions left, `i` being the index of the
next one; `reads i` gives the clock reading of the test, the result of `rand()` and
the clock reading after the send for question `i`. -/
def handleQuestionsFrom (packet : DNSPacket) (senderEndpoint : Endpoint) (directedQuery : Bool)
    (getHostAddr : Nat → Nat) (period : Int) (reads : Nat → Int × Nat × Int) :
    Nat → List Question → SDServerClient → SDServerClient × List Datagram
  | _, [], st => (st, [])
  | i, q :: rest, st =>
    let r := handleQuestion st packet q senderEndpoint directedQuery getHostAddr period
      (reads i).1 (reads i).2.1 (reads i).2.2
    let r2 := handleQuestionsFrom packet senderEndpoint directedQuery getHostAddr period reads
      (i + 1) rest r.1
    (r2.1, r.2 ++ r2.2)

/-- Source `SDServerClient::handleQuestions`. -/
def handleQuestions (st : SDServerClient) (packet : DNSPacket) (senderEndpoint : Endpoint)
    (directedQuery : Bool) (getHostAddr : Nat → Nat) (period : Int)
    (reads : Nat → Int × Nat × Int) : SDServerClient × List Datagram :=
  handleQuestionsFrom packet senderEndpoint directedQuery getHostAddr period reads 0
    packet.questions st

end SDServerClient

namespace SDServerClient

/-- Source `SDServerClient::sendAQuery`: the datagram it sends. -/
def sendAQuery (domain : List Nat) : Datagram :=
  let query := Question.new
  let query := { query with qname := domain }
  let query := { query with qclass := DNSClass.IN }
  let query := { query with qtype := DNSType.A }
  let packet := DNSPacket.new
  let packet := packet.setQR false
  let packet := packet.addQuestion query
  { bytes := packet.generateNetworkFormat, dst := MDNS_MULTICAST_EP, delay := 0 }

/-- Source `SDServerClient::handlePTRResponse`; `now` is the clock reading of
`addKnownHost`. -/
def handlePTRResponse (st : SDServerClient) (response : ResourceRecord) (period now : Int) :
    Except Exception (SDServerClient × List Datagram) := do
  let ptrAnswer ← response.getPtrAnswer
  if !supportedService ptrAnswer then
    pure (st, [])
  else
    let st := addKnownHost st ptrAnswer response.ttl period now
    pure (st, [sendAQuery ptrAnswer])

/-- Source `SDServerClient::handleAResponse`; `tKnown` is the clock reading of
`isHostKnown`, and `tUpdate`, `tNow`, `tSet` are those of the one call of
`setConnectionAvailable` that can take place. -/
def handleAResponse (st : SDServerClient) (data : LatencyDatabase.Data)
    (response : ResourceRecord) (period tKnown tUpdate tNow tSet : Int) :
    Except Exception (SDServerClient × LatencyDatabase.Data) :=
  if !supportedService response.name then
    pure (st, data)
  else
    let known := isHostKnown st response.name tKnown
    let st := known.2
    if !known.1 then
      pure (st, data)
    else do
      let serviceLabels :=
        dns_format.domainToString (dns_format.withoutFirstLabel response.name)
      let addr ← response.getAddress
      let ttl := seconds period (response.ttl : Int)
      let data :=
        if serviceLabels = TCP_SERVICE then
          LatencyDatabase.setConnectionAvailable data ProtocolType.TCP addr ttl tUpdate tNow tSet
        else data
      let data :=
        if serviceLabels = OPOZNIENIA_SERVICE then
          LatencyDatabase.setConnectionAvailable data ProtocolType.UDP addr ttl tUpdate tNow tSet
        else data
      pure (st, data)

/-- The loop of `handleResponses` over the answers left, `i` being the index of the
next one; `reads i` gives the clock readings for answer `i`: the one of `addKnownHost`
or `isHostKnown`, then the three of `setConnectionAvailable`. -/
def handleResponsesFrom (period : Int) (reads : Nat → Int × Int × Int × Int) :
    Nat → List ResourceRecord → SDServerClient → LatencyDatabase.Data →
      Except Exception (SDServerClient × LatencyDatabase.Data × List Datagram)
  | _, [], st, data => pure (st, data, [])
  | i, r :: rest, st, data =>
    if r.getRRType = DNSType.PTR then
      match handlePTRResponse st r period (reads i).1 with
      | .error e => .error e
      | .ok (st, sent) =>
        match handleResponsesFrom period reads (i + 1) rest st data with
        | .error e => .error e
        | .ok (st, data, sent2) => pure (st, data, sent ++ sent2)
    else if r.getRRType = DNSType.A then
      match handleAResponse st data r period (reads i).1 (reads i).2.1 (reads i).2.2.1
          (reads i).2.2.2 with
      | .error e => .error e
      | .ok (st, data) => handleResponsesFrom period reads (i + 1) rest st data
    else
      handleResponsesFrom period reads (i + 1) rest st data

/-- Source `SDServerClient::handleResponses`. -/
def handleResponses (st : SDServerClient) (data : LatencyDatabase.Data) (packet : DNSPacket)
    (senderEndpoint : Endpoint) (period : Int) (reads : Nat → Int × Int × Int × Int) :
    Except Exception (SDServerClient × LatencyDatabase.Data × List Datagram) :=
  if senderEndpoint.port ≠ MDNS_MULTICAST_EP.port then
    pure (st, data, [])
  else
    handleResponsesFrom period reads 0 packet.answers st data

/-- The `do ... while` loop of `SDServerClient::prepareHostname`: `i` is the `unsigned`
counter, `k` counts the calls of `isHostKnown` so far and `times k` is the clock
reading of call `k`; `fuel` bounds the number of iterations. The result is the last
`newHostname` and the state that the calls of `isHostKnown` leave. -/
def prepareHostnameLoop (hostname : List Nat) (times : Nat → Int) :
    Nat → Nat → Nat → SDServerClient → Option (List Nat × SDServerClient)
  | 0, _, _, _ => none
  | fuel + 1, i, k, st =>
    let newHostname := hostname ++ [45] ++ std.to_string i
    let i := (i + 1) % 2 ^ 32
    let known := isHostKnown st (dns_format.stringToDomain newHostname) (times k)
    if known.1 then prepareHostnameLoop hostname times fuel i (k + 1) known.2
    else some (newHostname, known.2)

/-- Source `SDServerClient::prepareHostname`, with `fuel` iterations allowed. -/
def prepareHostname (st : SDServerClient) (times : Nat → Int) (fuel : Nat) :
    Option SDServerClient :=
  match prepareHostnameLoop st.hostname times fuel 0 0 st with
  | none => none
  | some (newHostname, st) =>
    some { st with hostname := newHostname, hostnameEstablished := true }

end SDServerClient

/-! ## Host labels, as the specification words them -/

/-- The key under which the discovered-hosts table holds the label `s`: its length
octet, its characters and a zero octet. -/
def labelKey (s : List Nat) : List Nat :=
  s.length :: s ++ [0]

/-- The label `s` is an unexpired entry of the table at the clock reading `now`. -/
def SDServerClient.Unexpired (known : List (List Nat × Int)) (s : List Nat) (now : Int) : Prop :=
  ∃ deadline, SDServerClient.findHost known (labelKey s) = some deadline ∧ ¬ deadline < now

/-- The candidate name `h-i`. -/
def SDServerClient.candidate (h : List Nat) (i : Nat) : List Nat :=
  h ++ [45] ++ std.to_string i

/-! ## Example records of the discovery protocol -/

/-- The PTR record that announces the host `y` for the service
`_opoznienia._udp.local.` with the given TTL: its rdata is `y._opoznienia._udp.local.`. -/
def SDServerClient.samplePTR (ttl : Nat) : ResourceRecord :=
  ({ ResourceRecord.new with
      name := dns_format.stringToDomain SDServerClient.OPOZNIENIA_SERVICE, ttl := ttl }
    ).setPTRAnswer (dns_format.stringToDomain ([121, 46] ++ SDServerClient.OPOZNIENIA_SERVICE))

/-- The A record of `y._opoznienia._udp.local.` with address `10.0.0.7` and TTL 4500. -/
def SDServerClient.sampleA : ResourceRecord :=
  ({ ResourceRecord.new with
      name := dns_format.stringToDomain ([121, 46] ++ SDServerClient.OPOZNIENIA_SERVICE),
      ttl := 4500 }
    ).setAAnswer (10 * 2 ^ 24 + 7)

/-- An engine that has established the hostname `x`, advertises both services, has
sent no multicast response and knows no host. -/
def SDServerClient.sampleEngine : SDServerClient :=
  { lastMutlicastResponses := [none, none], tcpAvailable := true, hostname := [120],
    hostnameEstablished := true, knownHostNames := [] }

/-! ## Questions and answers of the engine, as the specification words them -/

namespace SDServerClient

/-- The question asks for a name this node answers: a PTR question for one of the
two service names, or an A question for `hostname.service`. -/
def Advertised (st : SDServerClient) (q : Question) : Prop :=
  (q.qtype = DNSType.PTR
    ∧ (q.qname = dns_format.stringToDomain TCP_SERVICE
      ∨ q.qname = dns_format.stringToDomain OPOZNIENIA_SERVICE))
  ∨ (q.qtype = DNSType.A
    ∧ (q.qname = dns_format.stringToDomain (st.hostname ++ [46] ++ TCP_SERVICE)
      ∨ q.qname = dns_format.stringToDomain (st.hostname ++ [46] ++ OPOZNIENIA_SERVICE)))

instance (st : SDServerClient) (q : Question) : Decidable (Advertised st q) := by
  unfold Advertised; infer_instance

/-- The answer record for a PTR or A question. -/
def answerOf (st : SDServerClient) (q : Question) (senderEndpoint : Endpoint)
    (getHostAddr : Nat → Nat) : ResourceRecord :=
  if q.qtype = DNSType.PTR then generatePTRAnswer st q
  else generateAAnswer st q senderEndpoint getHostAddr

/-- The delay of the answer to a question: random for PTR, none for A. -/
def delayOf (q : Question) (rnd : Nat) : Int :=
  if q.qtype = DNSType.PTR then delayForPTRResponse rnd else 0

/-- The index of the record type of a question in `lastMutlicastResponses`. -/
def timeIdxOf (q : Question) : Nat :=
  if q.qtype = DNSType.PTR then PTR_TIME_IDX else A_TIME_IDX

/-- The response message with the one answer `answer` and no question. -/
def responseWith (answer : ResourceRecord) : DNSPacket :=
  (DNSPacket.new.setQR true).addAnswer answer

/-- This node multicast a response of the record type of `q` no longer than
`DEFAULT_TTL / 4 = 1125` seconds before the clock reading `now`. -/
def MulticastRecently (st : SDServerClient) (q : Question) (period now : Int) : Prop :=
  ∃ last, st.lastMutlicastResponses.getD (timeIdxOf q) none = some last
    ∧ ¬ last < now - seconds period 1125

/-- The PTR question for `_opoznienia._udp.local.`, class IN. -/
def sampleQuestion (unicastResponseRequested : Bool) : Question :=
  { qname := dns_format.stringToDomain OPOZNIENIA_SERVICE, qtype := DNSType.PTR,
    qclass := DNSClass.IN, unicastResponseRequested := unicastResponseRequested }

/-- A query message with identifier `0x1234` holding `sampleQuestion false`. -/
def sampleQuery : DNSPacket :=
  (DNSPacket.new.setID 0x1234).addQuestion (sampleQuestion false)

end SDServerClient

/-! ## The value of a decimal numeral -/

/-- The number that a list of decimal digit characters, least significant first,
stands for. -/
def std.valueRev : List Nat → Nat
  | [] => 0
  | c :: cs => (c - 48) + 10 * std.valueRev cs

/-! ## Example states of the hostname choice -/

/-- An engine with hostname `h` whose discovered-hosts table holds the labels `h`,
`h-0` and `h-1`, each with deadline 1000. -/
def SDServerClient.conflictEngine : SDServerClient :=
  { lastMutlicastResponses := [none, none], tcpAvailable := true, hostname := [104],
    hostnameEstablished := false,
    knownHostNames := [([1, 104, 0], 1000), ([3, 104, 45, 48, 0], 1000),
      ([3, 104, 45, 49, 0], 1000)] }

/-- An engine with the hostname `a.b` whose discovered-hosts table holds the label `a`
with deadline 1000. -/
def SDServerClient.dottedEngine : SDServerClient :=
  { lastMutlicastResponses := [none, none], tcpAvailable := true, hostname := [97, 46, 98],
    hostnameEstablished := false, knownHostNames := [([1, 97, 0], 1000)] }

/-! ## SDServerClient.cc: the dispatch of a received datagram -/

namespace SDServerClient

/-- Source `SDServerClient::receiveMessage`: `buffer` is the receive buffer and
`bytesToRead` the length of the datagram in it; `qreads` gives the clock and `rand()`
readings of `handleQuestions`, `rreads` the clock readings of `handleResponses`. A
datagram that does not parse (`UnknownFormatException`) and one that `ignorePacket`
rejects leave everything as it was. -/
def receiveMessage (st : SDServerClient) (data : LatencyDatabase.Data) (buffer : List Nat)
    (senderEndpoint msgDestination : Endpoint) (bytesToRead : Nat) (getHostAddr : Nat → Nat)
    (period : Int) (qreads : Nat → Int × Nat × Int) (rreads : Nat → Int × Int × Int × Int) :
    Except Exception (SDServerClient × LatencyDatabase.Data × List Datagram) :=
  match DNSPacket.parse buffer bytesToRead with
  | .error .UnknownFormat => pure (st, data, [])
  | .error e => .error e
  | .ok receivedPacket =>
    if ignorePacket receivedPacket then
      pure (st, data, [])
    else if receivedPacket.getQR = false && st.hostnameEstablished then
      let r := handleQuestions st receivedPacket senderEndpoint
        (decide (msgDestination ≠ MDNS_MULTICAST_EP)) getHostAddr period qreads
      pure (r.1, data, r.2)
    else
      handleResponses st data receivedPacket senderEndpoint period rreads

/-- A query message (QR bit 0) with the question `sampleQuestion false` whose answer
section lists, as known answers, the PTR record `samplePTR 4500` that announces the
host `y` and the A record `sampleA` of that host. -/
def knownAnswerQuery : DNSPacket :=
  (((DNSPacket.new.setQR false).addQuestion (sampleQuestion false)).addAnswer
    (samplePTR 4500)).addAnswer sampleA

/-- The engine `sampleEngine` before it has established its hostname. -/
def probingEngine : SDServerClient :=
  { sampleEngine with hostnameEstablished := false }

end SDServerClient

/-! ## TELNETServer.cc: the client view and the input of a client -/

namespace TELNETServer

/-- Source `TELNETServer::TELNET_ECHO`. -/
def TELNET_ECHO : Nat := 1
/-- Source `TELNETServer::SUPPRESS_GO_AHEAD`. -/
def SUPPRESS_GO_AHEAD : Nat := 3
/-- Source `TELNETServer::BELL`. -/
def BELL : Nat := 7
/-- Source `TELNETServer::WILL`. -/
def WILL : Nat := 251
/-- Source `TELNETServer::WONT`. -/
def WONT : Nat := 252
/-- Source `TELNETServer::DO`. -/
def DO : Nat := 253
/-- Source `TELNETServer::DONT`. -/
def DONT : Nat := 254
/-- Source `TELNETServer::IAC`. -/
def IAC : Nat := 255
/-- Source `TELNETServer::ESC`. -/
def ESC : Nat := 27
/-- Source `TELNETServer::CONSOLE_HEIGHT`. -/
def CONSOLE_HEIGHT : Nat := 24

/-- Source `struct TELNETServer::TCPConnection`, the members the handlers read and
write; `firstRowPos` and `receivedCommandsCount` are `unsigned`. -/
structure TCPConnection where
  receivedData : List Nat
  firstRowPos : Nat
  receivedCommandsCount : Nat
  deriving DecidableEq, Repr

/-- Source `TCPConnection::TCPConnection`: both counters start at 0. -/
def TCPConnection.new : TCPConnection :=
  { receivedData := [], firstRowPos := 0, receivedCommandsCount := 0 }

/-- Source `TELNETServer::clearDisplayMessage`: `ESC [ 2 J ESC [ H`. -/
def clearDisplayMessage : List Nat := [ESC, 91, 50, 74, ESC, 91, 72]

/-- Source `TELNETServer::updateClientView`: the vector `message` that it hands to
`sendResponse`, which writes its elements to the socket one after the other.
`maxRow` and `minRow` are `unsigned`; the loop runs `i` from `minRow` up to `maxRow`,
and a row that `dataViewLines` does not have reads as empty. -/
def updateClientView (dataViewLines : List (List Nat)) (connection : TCPConnection) :
    List (List Nat) :=
  let maxRow := min (dataViewLines.length % 2 ^ 32)
    ((connection.firstRowPos + CONSOLE_HEIGHT) % 2 ^ 32)
  let minRow := if maxRow ≤ CONSOLE_HEIGHT then 0 else maxRow - CONSOLE_HEIGHT
  clearDisplayMessage ::
    (List.range' minRow (maxRow - minRow)).map (fun i =>
      let raw := dataViewLines.getD i []
      if (i + 1) % 2 ^ 32 ≠ maxRow then raw ++ [ESC, 69] else raw)

/-- One pass of the body of the `while (!data.empty())` loop of
`TELNETServer::handleRead`: `none` when the loop ends, by its condition or by the
`break` on an incomplete command, else the connection after the pass and the vectors
written to the socket during it. -/
def handleReadBody (dataViewLines : List (List Nat)) (connection : TCPConnection) :
    Option (TCPConnection × List (List Nat)) :=
  let data := connection.receivedData
  match data with
  | [] => none
  | d0 :: rest =>
    if d0 = IAC then
      if data.length < 3 then
        none
      else
        let d1 := data.getD 1 0
        let d2 := data.getD 2 0
        let r : TCPConnection × List (List Nat) :=
          if d1 = WILL then
            (connection, [[IAC, DONT, d2]])
          else if d1 = DO then
            let sent :=
              if connection.receivedCommandsCount < 2
                  ∧ (d2 = TELNET_ECHO ∨ d2 = SUPPRESS_GO_AHEAD) then
                []
              else
                [[IAC, WONT, d2]]
            ({ connection with
                receivedCommandsCount := (connection.receivedCommandsCount + 1) % 2 ^ 32 },
              sent)
          else
            (connection, [])
        some ({ r.1 with receivedData := data.drop 3 }, r.2)
    else if d0 = 81 ∨ d0 = 113 then
      let connection := { connection with receivedData := rest }
      if connection.firstRowPos > 0 then
        let connection := { connection with firstRowPos := connection.firstRowPos - 1 }
        some (connection, updateClientView dataViewLines connection)
      else
        some (connection, [])
    else if d0 = 65 ∨ d0 = 97 then
      let connection := { connection with receivedData := rest }
      if (connection.firstRowPos + CONSOLE_HEIGHT) % 2 ^ 32 < dataViewLines.length then
        let connection :=
          { connection with firstRowPos := (connection.firstRowPos + 1) % 2 ^ 32 }
        some (connection, updateClientView dataViewLines connection)
      else
        some (connection, [])
    else
      some ({ connection with receivedData := rest }, [[BELL]])

/-- The `while (!data.empty())` loop of `TELNETServer::handleRead`; `fuel` bounds the
number of passes, and the result is the connection after the loop and the vectors
written to the socket, in order. -/
def handleReadLoop (dataViewLines : List (List Nat)) :
    Nat → TCPConnection → Option (TCPConnection × List (List Nat))
  | 0, _ => none
  | fuel + 1, connection =>
    match handleReadBody dataViewLines connection with
    | none => some (connection, [])
    | some (connection, sent) =>
      match handleReadLoop dataViewLines fuel connection with
      | none => none
      | some (connection, sent2) => some (connection, sent ++ sent2)

/-- Source `TELNETServer::handleRead`, up to the call of `asyncRead`: the first
`bytesCount` octets of `buf` are appended to `receivedData`, then the loop runs. -/
def handleRead (dataViewLines : List (List Nat)) (fuel : Nat) (error : Bool) (bytesCount : Nat)
    (buf : List Nat) (connection : TCPConnection) :
    Option (TCPConnection × List (List Nat)) :=
  if error then
    some (connection, [])
  else
    let connection :=
      { connection with receivedData := connection.receivedData ++ buf.take bytesCount }
    handleReadLoop dataViewLines fuel connection

/-! ## The commands of a client, as the specification words them -/

/-- The octets of a sequence of commands `IAC verb opt`. -/
def encodeCommands : List (Nat × Nat) → List Nat
  | [] => []
  | c :: rest => IAC :: c.1 :: c.2 :: encodeCommands rest

/-- The number of `DO` commands, of any option, in a sequence of commands. -/
def doCount (cmds : List (Nat × Nat)) : Nat :=
  (cmds.filter (fun c => decide (c.1 = DO))).length

/-- The number of `DO ECHO` and `DO SUPPRESS-GO-AHEAD` commands in a sequence of
commands. -/
def doAckCount (cmds : List (Nat × Nat)) : Nat :=
  (cmds.filter (fun c =>
    decide (c.1 = DO ∧ (c.2 = TELNET_ECHO ∨ c.2 = SUPPRESS_GO_AHEAD)))).length

/-- The reply to the command `c` when `k` commands were counted before it: `IAC DONT
opt` for `WILL`; for `DO`, nothing when `k < 2` and the option is `ECHO` or
`SUPPRESS-GO-AHEAD`, else `IAC WONT opt`; nothing for another verb. -/
def commandReply (k : Nat) (c : Nat × Nat) : List (List Nat) :=
  if c.1 = WILL then [[IAC, DONT, c.2]]
  else if c.1 = DO then
    if k < 2 ∧ (c.2 = TELNET_ECHO ∨ c.2 = SUPPRESS_GO_AHEAD) then [] else [[IAC, WONT, c.2]]
  else []

/-- The replies to the commands `cmds` that follow the commands `before`, each `DO`
command being judged by the number of `DO` commands, of any option, before it. -/
def commandReplies : List (Nat × Nat) → List (Nat × Nat) → List (List Nat)
  | _, [] => []
  | before, c :: rest =>
    commandReply (doCount before) c ++ commandReplies (before ++ [c]) rest

/-- The replies that the specification's sentence describes: each `DO` command with
the option `ECHO` or `SUPPRESS-GO-AHEAD` is judged by the number of such commands
before it. -/
def specCommandReplies : List (Nat × Nat) → List (Nat × Nat) → List (List Nat)
  | _, [] => []
  | before, c :: rest =>
    commandReply (doAckCount before) c ++ specCommandReplies (before ++ [c]) rest

end TELNETServer

namespace TELNETServer

/-- The rows that follow the clear-display sequence when the rows `a .. b - 1` of
`lines` are sent: each row but the last is followed by `ESC E`. -/
def rowsSent (lines : List (List Nat)) (a b : Nat) : List (List Nat) :=
  (List.range' a (b - a)).map (fun i =>
    if i + 1 = b then lines.getD i [] else lines.getD i [] ++ [ESC, 69])

/-- The command, if any, that a pass of the loop of `handleRead` consumes from the
buffer `data`: the verb and the option of a complete `IAC verb opt` at its front. -/
def commandAt : List Nat → List (Nat × Nat)
  | d0 :: verb :: opt :: _ => if d0 = IAC then [(verb, opt)] else []
  | _ => []

/-- The states of a connection with the commands it has consumed so far: a connection
starts as `TCPConnection.new`, `handleRead` appends received octets to its buffer, and
each pass of the loop of `handleRead`, with the lines rendered at that time, takes it
to the next state. -/
inductive Served : TCPConnection → List (Nat × Nat) → Prop
  | accept : Served TCPConnection.new []
  | read (c : TCPConnection) (hist : List (Nat × Nat)) (bytes : List Nat) :
      Served c hist → Served { c with receivedData := c.receivedData ++ bytes } hist
  | pass (lines : List (List Nat)) (c c2 : TCPConnection) (hist : List (Nat × Nat))
      (sent : List (List Nat)) :
      Served c hist → handleReadBody lines c = some (c2, sent) →
      Served c2 (hist ++ commandAt c.receivedData)

end TELNETServer

/-! ## UDPService.cc: the requests in flight -/

namespace UDPService

/-- Source `struct UDPService::HistoryEntry`: `u32 peerAddr`, `u64 sendTime`. -/
structure HistoryEntry where
  peerAddr : Nat
  sendTime : Nat
  deriving DecidableEq, Repr

/-- The members `std::queue<HistoryEntry> requestHistory`, its front first, and
`std::set<HistoryEntry> requests`, by its elements. -/
structure History where
  requestHistory : List HistoryEntry
  requests : List HistoryEntry
  deriving DecidableEq, Repr

/-- The constant `maxLatency` of `refreshHistory`: `MAX_LATENCY_SECS` seconds in
microseconds, as a `u64`. The value of `MAX_LATENCY_SECS` is set in `settings.h`. -/
def maxLatency (MAX_LATENCY_SECS : Nat) : Nat :=
  (MAX_LATENCY_SECS * 1000000) % 2 ^ 64

/-- The loop of `UDPService::refreshHistory` with `bound` for the `u64` value
`curTime - maxLatency`, over the queue and the set. -/
def refreshHistoryLoop (bound : Nat) : List HistoryEntry → List HistoryEntry → History
  | [], requests => { requestHistory := [], requests := requests }
  | front :: rest, requests =>
    if front.sendTime < bound then
      let requests :=
        if front ∈ requests then requests.filter (fun e => decide (e ≠ front)) else requests
      refreshHistoryLoop bound rest requests
    else
      { requestHistory := front :: rest, requests := requests }

/-- Source `UDPService::refreshHistory`; `curTime` is the result of `getCurTime()`. -/
def refreshHistory (MAX_LATENCY_SECS : Nat) (curTime : Nat) (st : History) : History :=
  refreshHistoryLoop ((curTime + 2 ^ 64 - maxLatency MAX_LATENCY_SECS) % 2 ^ 64)
    st.requestHistory st.requests

/-- The loop of `measureLatency` over the addresses left, `i` being the index of the
next one and `times i` the result of `getCurTime()` for it: the history after the loop
and the datagrams sent, each with its destination address. -/
def measureLatencyFrom (times : Nat → Nat) :
    Nat → List Nat → History → History × List (List Nat × Nat)
  | _, [], st => (st, [])
  | i, addr :: rest, st =>
    let curTime := times i
    let request := bitops.divide_u64 curTime
    let hEntry : HistoryEntry := { peerAddr := addr, sendTime := curTime }
    let st : History :=
      { requestHistory := st.requestHistory ++ [hEntry],
        requests := if hEntry ∈ st.requests then st.requests else st.requests ++ [hEntry] }
    let r := measureLatencyFrom times (i + 1) rest st
    (r.1, (request, addr) :: r.2)

/-- Source `UDPService::measureLatency(addrs)`. -/
def measureLatency (st : History) (addrs : List Nat) (times : Nat → Nat) :
    History × List (List Nat × Nat) :=
  measureLatencyFrom times 0 addrs st

/-- Source `UDPService::handleClientResponse(senderAddr)`: `curTime` is the clock
reading of the function, `tRefresh` the one of `refreshHistory`, and `tUpdate`, `tAdd`
are those of `LatencyDatabase::addLatency`. The difference of the two `u64` times
becomes the signed count of a `std::chrono::microseconds`. -/
def handleClientResponse (MAX_LATENCY_SECS : Nat) (st : History) (data : LatencyDatabase.Data)
    (clientBuffer : List Nat) (senderAddr : Nat) (curTime tRefresh : Nat) (tUpdate tAdd : Int) :
    Except Exception (History × LatencyDatabase.Data) := do
  let (sendTime, _) ← bitops.getU64 clientBuffer 0
  let request : HistoryEntry := { peerAddr := senderAddr, sendTime := sendTime }
  let st := refreshHistory MAX_LATENCY_SECS tRefresh st
  if request ∈ st.requests then
    let diff : Nat := (curTime + 2 ^ 64 - request.sendTime) % 2 ^ 64
    let latency : Int := if diff < 2 ^ 63 then (diff : Int) else (diff : Int) - 2 ^ 64
    let st := { st with requests := st.requests.filter (fun e => decide (e ≠ request)) }
    pure (st, LatencyDatabase.addLatency data ProtocolType.UDP senderAddr latency tUpdate tAdd)
  else
    pure (st, data)

/-- The entries of the queue are in the order of their send times, and every entry of
the set is in the queue. -/
def InOrder (st : History) : Prop :=
  st.requestHistory.Pairwise (fun a b => a.sendTime ≤ b.sendTime)
    ∧ ∀ e ∈ st.requests, e ∈ st.requestHistory

/-- A history of three requests sent at the times 100, 200 and 300, the second of
which has been answered. -/
def sampleHistory : History :=
  { requestHistory := [{ peerAddr := 1, sendTime := 100 }, { peerAddr := 2, sendTime := 200 },
      { peerAddr := 3, sendTime := 300 }],
    requests := [{ peerAddr := 1, sendTime := 100 }, { peerAddr := 3, sendTime := 300 }] }

end UDPService

/-! ## Built packets and well-formed records, as the specification words them -/

namespace DNSPacket

/-- The packets built from the empty packet of `DNSPacket()` with `setID`, `setQR`,
`addQuestion` and `addAnswer`. -/
inductive Built : DNSPacket → Prop
  | new : Built DNSPacket.new
  | setID (p : DNSPacket) (val : Nat) : Built p → Built (p.setID val)
  | setQR (p : DNSPacket) (val : Bool) : Built p → Built (p.setQR val)
  | addQuestion (p : DNSPacket) (q : Question) : Built p → Built (p.addQuestion q)
  | addAnswer (p : DNSPacket) (a : ResourceRecord) : Built p → Built (p.addAnswer a)

/-- The octets of a list of questions, one after the other. -/
def questionsWire : List Question → List Nat
  | [] => []
  | q :: rest => q.generateNetworkFormat ++ questionsWire rest

/-- The octets of a list of resource records, one after the other. -/
def answersWire : List ResourceRecord → List Nat
  | [] => []
  | a :: rest => a.generateNetworkFormat ++ answersWire rest

/-- A well-formed uncompressed name of at most 255 octets: labels with a length from
1 to `0xBF`, each after its length octet, and a final zero octet. -/
def WellFormedName (name : List Nat) : Prop :=
  ∃ labels : List (List Nat), name = encodeName labels
    ∧ (∀ l ∈ labels, 0 < l.length ∧ l.length < 0xC0) ∧ name.length ≤ 255

/-- A question with a well-formed name, a 16-bit type and a class below `0x80`. -/
def WellFormedQuestion (q : Question) : Prop :=
  WellFormedName q.qname ∧ q.qtype < 2 ^ 16 ∧ q.qclass < 0x80

/-- A record with a well-formed name, a class below `0x80` and a 32-bit TTL that is
an A record as `setAAnswer` makes it, or a PTR record as `setPTRAnswer` makes it from
a well-formed name whose parent is the name of the record. -/
def WellFormedAnswer (a : ResourceRecord) : Prop :=
  WellFormedName a.name ∧ a.rrclass < 0x80 ∧ a.ttl < 2 ^ 32
    ∧ ((a.rrtype = DNSType.A ∧ a.rdlength = 4
        ∧ ∃ address, address < 2 ^ 32 ∧ a.rdata = bitops.addTo_u32 [] address)
      ∨ (a.rrtype = DNSType.PTR ∧ WellFormedName a.rdata
        ∧ a.rdlength = a.rdata.length % 2 ^ 16
        ∧ dns_format.withoutFirstLabel a.rdata = a.name))

/-- The question for the root name, type PTR, class IN. -/
def rootQuestion : Question :=
  { qname := [0], qtype := DNSType.PTR, qclass := DNSClass.IN,
    unicastResponseRequested := false }

/-- The packet built from the empty packet by 65536 calls of `addQuestion` with
`rootQuestion`. -/
def manyQuestions : DNSPacket :=
  (List.replicate 65536 rootQuestion).foldl DNSPacket.addQuestion DNSPacket.new

end DNSPacket

/-! # Theorems -/

/-! ## Lemmas on the byte codec -/

namespace bitops

theorem land_0xFFFF (x : Nat) : x &&& 0xFFFF = x % 65536 :=
  Nat.and_pow_two_sub_one_eq_mod x 16

theorem getU8_of_getElem? {buf : List Nat} {it x : Nat} (h : buf[it]? = some x) :
    getU8 buf it = .ok (x, it + 1) := by
  simp [getU8, h]

theorem getU8_of_lt {buf : List Nat} {it : Nat} (h : it < buf.length) :
    getU8 buf it = .ok (buf.getD it 0, it + 1) := by
  apply getU8_of_getElem?
  simp [List.getD, List.getElem?_eq_getElem h]

theorem getU8_of_le {buf : List Nat} {it : Nat} (h : buf.length ≤ it) :
    getU8 buf it = .error .UnknownFormat := by
  simp [getU8, List.getElem?_eq_none h]

/-- The octets of `seg` are the octets of `buf` from position `p` on. -/
theorem getElem?_of_prefix_drop {buf seg : List Nat} {p : Nat} (h : seg <+: buf.drop p)
    (i : Nat) (hi : i < seg.length) : buf[p + i]? = seg[i]? := by
  obtain ⟨t, ht⟩ := h
  rw [← List.getElem?_drop, ← ht, List.getElem?_append_left hi]

theorem getU16_of_getElem? {buf : List Nat} {it a b : Nat}
    (h0 : buf[it]? = some a) (h1 : buf[it + 1]? = some b) :
    getU16 buf it = .ok (merge_u8 a b, it + 2) := by
  simp [getU16, getU8, h0, h1, bind, Except.bind, pure, Except.pure]

theorem getU32_of_getElem? {buf : List Nat} {it a b c d : Nat}
    (h0 : buf[it]? = some a) (h1 : buf[it + 1]? = some b)
    (h2 : buf[it + 2]? = some c) (h3 : buf[it + 3]? = some d) :
    getU32 buf it = .ok (merge_u16 (merge_u8 a b) (merge_u8 c d), it + 4) := by
  have h2' : buf[it + 2 + 1]? = some d := h3
  simp [getU32, getU16_of_getElem? h0 h1, getU16_of_getElem? h2 h2', bind, Except.bind, pure,
    Except.pure]

theorem getU64_of_getElem? {buf : List Nat} {it a b c d e f g h : Nat}
    (h0 : buf[it]? = some a) (h1 : buf[it + 1]? = some b)
    (h2 : buf[it + 2]? = some c) (h3 : buf[it + 3]? = some d)
    (h4 : buf[it + 4]? = some e) (h5 : buf[it + 5]? = some f)
    (h6 : buf[it + 6]? = some g) (h7 : buf[it + 7]? = some h) :
    getU64 buf it = .ok (merge_u32 (merge_u16 (merge_u8 a b) (merge_u8 c d))
      (merge_u16 (merge_u8 e f) (merge_u8 g h)), it + 8) := by
  have h5' : buf[it + 4 + 1]? = some f := h5
  have h6' : buf[it + 4 + 2]? = some g := h6
  have h7' : buf[it + 4 + 3]? = some h := h7
  simp [getU64, getU32_of_getElem? h0 h1 h2 h3, getU32_of_getElem? h4 h5' h6' h7', bind,
    Except.bind, pure, Except.pure]

theorem divide_u16_eq (v : Nat) (h : v < 2 ^ 16) : divide_u16 v = (v / 2 ^ 8, v % 2 ^ 8) := by
  simp only [divide_u16, land_0xFFFF, Nat.shiftRight_eq_div_pow]
  ext <;> simp <;> omega

theorem divide_u32_eq (v : Nat) (h : v < 2 ^ 32) :
    divide_u32 v = [v / 2 ^ 24, v / 2 ^ 16 % 2 ^ 8, v / 2 ^ 8 % 2 ^ 8, v % 2 ^ 8] := by
  simp only [divide_u32, land_0xFFFF, Nat.shiftRight_eq_div_pow]
  simp
  omega

theorem divide_u64_eq (v : Nat) (h : v < 2 ^ 64) :
    divide_u64 v = [v / 2 ^ 56, v / 2 ^ 48 % 2 ^ 8, v / 2 ^ 40 % 2 ^ 8, v / 2 ^ 32 % 2 ^ 8,
      v / 2 ^ 24 % 2 ^ 8, v / 2 ^ 16 % 2 ^ 8, v / 2 ^ 8 % 2 ^ 8, v % 2 ^ 8] := by
  simp only [divide_u64, land_0xFFFF, Nat.shiftRight_eq_div_pow]
  simp
  omega

theorem addTo_u16_eq (buf : List Nat) (v : Nat) (h : v < 2 ^ 16) :
    addTo_u16 buf v = buf ++ [v / 2 ^ 8, v % 2 ^ 8] := by
  simp [addTo_u16, divide_u16_eq v h]

theorem addTo_u32_eq (buf : List Nat) (v : Nat) (h : v < 2 ^ 32) :
    addTo_u32 buf v = buf ++ [v / 2 ^ 24, v / 2 ^ 16 % 2 ^ 8, v / 2 ^ 8 % 2 ^ 8, v % 2 ^ 8] := by
  simp [addTo_u32, divide_u32_eq v h]

theorem addTo_u64_eq (buf : List Nat) (v : Nat) (h : v < 2 ^ 64) :
    addTo_u64 buf v = buf ++ [v / 2 ^ 56, v / 2 ^ 48 % 2 ^ 8, v / 2 ^ 40 % 2 ^ 8,
      v / 2 ^ 32 % 2 ^ 8, v / 2 ^ 24 % 2 ^ 8, v / 2 ^ 16 % 2 ^ 8, v / 2 ^ 8 % 2 ^ 8, v % 2 ^ 8] := by
  simp [addTo_u64, divide_u64_eq v h]

theorem merge_u8_divide (v : Nat) (h : v < 2 ^ 16) : merge_u8 (v / 2 ^ 8) (v % 2 ^ 8) = v := by
  simp only [merge_u8, Nat.shiftLeft_eq]
  omega

theorem merge_u16_divide (v : Nat) (h : v < 2 ^ 32) :
    merge_u16 (merge_u8 (v / 2 ^ 24) (v / 2 ^ 16 % 2 ^ 8))
      (merge_u8 (v / 2 ^ 8 % 2 ^ 8) (v % 2 ^ 8)) = v := by
  simp only [merge_u16, merge_u8, Nat.shiftLeft_eq]
  omega

theorem merge_u32_divide (v : Nat) (h : v < 2 ^ 64) :
    merge_u32
      (merge_u16 (merge_u8 (v / 2 ^ 56) (v / 2 ^ 48 % 2 ^ 8))
        (merge_u8 (v / 2 ^ 40 % 2 ^ 8) (v / 2 ^ 32 % 2 ^ 8)))
      (merge_u16 (merge_u8 (v / 2 ^ 24 % 2 ^ 8) (v / 2 ^ 16 % 2 ^ 8))
        (merge_u8 (v / 2 ^ 8 % 2 ^ 8) (v % 2 ^ 8))) = v := by
  have hhi : v / 2 ^ 32 < 2 ^ 32 := by omega
  have hlo : v % 2 ^ 32 < 2 ^ 32 := by omega
  have e1 := merge_u16_divide (v / 2 ^ 32) hhi
  have e2 := merge_u16_divide (v % 2 ^ 32) hlo
  have a1 : v / 2 ^ 32 / 2 ^ 24 = v / 2 ^ 56 := by omega
  have a2 : v / 2 ^ 32 / 2 ^ 16 % 2 ^ 8 = v / 2 ^ 48 % 2 ^ 8 := by omega
  have a3 : v / 2 ^ 32 / 2 ^ 8 % 2 ^ 8 = v / 2 ^ 40 % 2 ^ 8 := by omega
  have a4 : v / 2 ^ 32 % 2 ^ 8 = v / 2 ^ 32 % 2 ^ 8 := rfl
  have b1 : v % 2 ^ 32 / 2 ^ 24 = v / 2 ^ 24 % 2 ^ 8 := by omega
  have b2 : v % 2 ^ 32 / 2 ^ 16 % 2 ^ 8 = v / 2 ^ 16 % 2 ^ 8 := by omega
  have b3 : v % 2 ^ 32 / 2 ^ 8 % 2 ^ 8 = v / 2 ^ 8 % 2 ^ 8 := by omega
  have b4 : v % 2 ^ 32 % 2 ^ 8 = v % 2 ^ 8 := by omega
  rw [a1, a2, a3] at e1
  rw [b1, b2, b3, b4] at e2
  rw [e1, e2]
  simp only [merge_u32, Nat.shiftLeft_eq]
  omega

/-- Reading at the end of `buf` in `buf ++ seg`: the octet at relative index `i`. -/
theorem getElem?_append_at (buf seg : List Nat) (i : Nat) :
    (buf ++ seg)[buf.length + i]? = seg[i]? := by
  rw [List.getElem?_append_right (by omega)]
  simp

end bitops

open bitops

/-- C4: for every 16-, 32- and 64-bit value, `addTo` on any buffer followed by
`getU16`/`getU32`/`getU64` at the position of the write returns the value and
advances the cursor by 2, 4 and 8 octets; the octets appended are the value's
bytes, most significant first; an octet pushed on a buffer is returned unchanged
by `getU8`. -/
theorem C4_write_then_read (buf : List Nat) (b w d q : Nat)
    (hw : w < 2 ^ 16) (hd : d < 2 ^ 32) (hq : q < 2 ^ 64) :
    (getU16 (addTo_u16 buf w) buf.length = .ok (w, buf.length + 2)
      ∧ addTo_u16 buf w = buf ++ [w / 2 ^ 8, w % 2 ^ 8])
    ∧ (getU32 (addTo_u32 buf d) buf.length = .ok (d, buf.length + 4)
      ∧ addTo_u32 buf d
          = buf ++ [d / 2 ^ 24, d / 2 ^ 16 % 2 ^ 8, d / 2 ^ 8 % 2 ^ 8, d % 2 ^ 8])
    ∧ (getU64 (addTo_u64 buf q) buf.length = .ok (q, buf.length + 8)
      ∧ addTo_u64 buf q
          = buf ++ [q / 2 ^ 56, q / 2 ^ 48 % 2 ^ 8, q / 2 ^ 40 % 2 ^ 8, q / 2 ^ 32 % 2 ^ 8,
              q / 2 ^ 24 % 2 ^ 8, q / 2 ^ 16 % 2 ^ 8, q / 2 ^ 8 % 2 ^ 8, q % 2 ^ 8])
    ∧ getU8 (buf ++ [b]) buf.length = .ok (b, buf.length + 1) := by
  have e0 : buf.length + 0 = buf.length := rfl
  refine ⟨⟨?_, addTo_u16_eq buf w hw⟩, ⟨?_, addTo_u32_eq buf d hd⟩,
    ⟨?_, addTo_u64_eq buf q hq⟩, ?_⟩
  · have r := getU16_of_getElem? (e0 ▸ getElem?_append_at buf [w / 2 ^ 8, w % 2 ^ 8] 0)
      (getElem?_append_at buf _ 1)
    rw [addTo_u16_eq buf w hw, r]
    exact congrArg (fun x => Except.ok (x, buf.length + 2)) (merge_u8_divide w hw)
  · have r := getU32_of_getElem?
      (e0 ▸ getElem?_append_at buf [d / 2 ^ 24, d / 2 ^ 16 % 2 ^ 8, d / 2 ^ 8 % 2 ^ 8, d % 2 ^ 8] 0)
      (getElem?_append_at buf _ 1) (getElem?_append_at buf _ 2) (getElem?_append_at buf _ 3)
    rw [addTo_u32_eq buf d hd, r]
    exact congrArg (fun x => Except.ok (x, buf.length + 4)) (merge_u16_divide d hd)
  · have r := getU64_of_getElem?
      (e0 ▸ getElem?_append_at buf [q / 2 ^ 56, q / 2 ^ 48 % 2 ^ 8, q / 2 ^ 40 % 2 ^ 8,
        q / 2 ^ 32 % 2 ^ 8, q / 2 ^ 24 % 2 ^ 8, q / 2 ^ 16 % 2 ^ 8, q / 2 ^ 8 % 2 ^ 8, q % 2 ^ 8] 0)
      (getElem?_append_at buf _ 1) (getElem?_append_at buf _ 2) (getElem?_append_at buf _ 3)
      (getElem?_append_at buf _ 4) (getElem?_append_at buf _ 5) (getElem?_append_at buf _ 6)
      (getElem?_append_at buf _ 7)
    rw [addTo_u64_eq buf q hq, r]
    exact congrArg (fun x => Except.ok (x, buf.length + 8)) (merge_u32_divide q hq)
  · exact getU8_of_getElem? (e0 ▸ getElem?_append_at buf [b] 0)

open bitops

/-- C4 at a concrete buffer `[1, 2, 3]` and the values `0xBEEF`, `0xDEADBEEF`,
`0x0123456789ABCDEF` and `0x7F`. -/
theorem C4_write_then_read_witness :
    ((0xBEEF : Nat) < 2 ^ 16 ∧ (0xDEADBEEF : Nat) < 2 ^ 32 ∧ (0x0123456789ABCDEF : Nat) < 2 ^ 64)
    ∧ getU16 (addTo_u16 [1, 2, 3] 0xBEEF) 3 = .ok (0xBEEF, 5)
    ∧ addTo_u16 [1, 2, 3] 0xBEEF = [1, 2, 3, 0xBE, 0xEF]
    ∧ getU32 (addTo_u32 [1, 2, 3] 0xDEADBEEF) 3 = .ok (0xDEADBEEF, 7)
    ∧ addTo_u32 [1, 2, 3] 0xDEADBEEF = [1, 2, 3, 0xDE, 0xAD, 0xBE, 0xEF]
    ∧ getU64 (addTo_u64 [1, 2, 3] 0x0123456789ABCDEF) 3 = .ok (0x0123456789ABCDEF, 11)
    ∧ addTo_u64 [1, 2, 3] 0x0123456789ABCDEF
        = [1, 2, 3, 0x01, 0x23, 0x45, 0x67, 0x89, 0xAB, 0xCD, 0xEF]
    ∧ getU8 ([1, 2, 3] ++ [0x7F]) 3 = .ok (0x7F, 4) := by
  have h := C4_write_then_read [1, 2, 3] 0x7F 0xBEEF 0xDEADBEEF 0x0123456789ABCDEF
    (by decide) (by decide) (by decide)
  exact ⟨by decide, h.1.1, h.1.2, h.2.1.1, h.2.1.2, h.2.2.1.1, h.2.2.1.2, h.2.2.2⟩

namespace bitops

theorem getU16_of_lt {buf : List Nat} {it : Nat} (h : it + 1 < buf.length) :
    getU16 buf it = .ok (merge_u8 (buf.getD it 0) (buf.getD (it + 1) 0), it + 2) := by
  simp [getU16, getU8_of_lt (Nat.lt_of_succ_lt h), getU8_of_lt h, bind, Except.bind, pure,
    Except.pure]

theorem getU16_of_le {buf : List Nat} {it : Nat} (h : buf.length ≤ it + 1) :
    getU16 buf it = .error .UnknownFormat := by
  by_cases h0 : it < buf.length
  · simp [getU16, getU8_of_lt h0, getU8_of_le h, bind, Except.bind]
  · simp [getU16, getU8_of_le (Nat.le_of_not_lt h0), bind, Except.bind]

theorem getU32_of_lt {buf : List Nat} {it : Nat} (h : it + 3 < buf.length) :
    ∃ v, getU32 buf it = .ok (v, it + 4) := by
  have h1 : it + 1 < buf.length := by omega
  have h2 : it + 2 + 1 < buf.length := by omega
  refine ⟨merge_u16 (merge_u8 (buf.getD it 0) (buf.getD (it + 1) 0))
    (merge_u8 (buf.getD (it + 2) 0) (buf.getD (it + 2 + 1) 0)), ?_⟩
  simp [getU32, getU16_of_lt h1, getU16_of_lt h2, bind, Except.bind, pure, Except.pure]

theorem getU32_of_le {buf : List Nat} {it : Nat} (h : buf.length ≤ it + 3) :
    getU32 buf it = .error .UnknownFormat := by
  by_cases h0 : it + 1 < buf.length
  · have h2 : buf.length ≤ it + 2 + 1 := by omega
    simp [getU32, getU16_of_lt h0, getU16_of_le h2, bind, Except.bind]
  · simp [getU32, getU16_of_le (Nat.le_of_not_lt h0), bind, Except.bind]

theorem getU64_of_lt {buf : List Nat} {it : Nat} (h : it + 7 < buf.length) :
    ∃ v, getU64 buf it = .ok (v, it + 8) := by
  obtain ⟨a, ha⟩ := @getU32_of_lt buf it (by omega)
  obtain ⟨b, hb⟩ := @getU32_of_lt buf (it + 4) (by omega)
  refine ⟨merge_u32 a b, ?_⟩
  simp [getU64, ha, hb, bind, Except.bind, pure, Except.pure]

theorem getU64_of_le {buf : List Nat} {it : Nat} (h : buf.length ≤ it + 7) :
    getU64 buf it = .error .UnknownFormat := by
  by_cases h0 : it + 3 < buf.length
  · obtain ⟨a, ha⟩ := getU32_of_lt h0
    have h2 : buf.length ≤ it + 4 + 3 := by omega
    simp [getU64, ha, getU32_of_le h2, bind, Except.bind]
  · simp [getU64, getU32_of_le (Nat.le_of_not_lt h0), bind, Except.bind]

end bitops

/-- C5: a read of 1, 2, 4 or 8 octets fails with `UnknownFormat` exactly when fewer
than that many octets remain between the cursor and the end of the buffer, and
otherwise succeeds, leaving the cursor that many octets further. -/
theorem C5_read_past_end (buf : List Nat) (it : Nat) :
    (getU8 buf it = .error .UnknownFormat ↔ buf.length - it < 1)
    ∧ ((∃ v, getU8 buf it = .ok (v, it + 1)) ↔ 1 ≤ buf.length - it)
    ∧ (getU16 buf it = .error .UnknownFormat ↔ buf.length - it < 2)
    ∧ ((∃ v, getU16 buf it = .ok (v, it + 2)) ↔ 2 ≤ buf.length - it)
    ∧ (getU32 buf it = .error .UnknownFormat ↔ buf.length - it < 4)
    ∧ ((∃ v, getU32 buf it = .ok (v, it + 4)) ↔ 4 ≤ buf.length - it)
    ∧ (getU64 buf it = .error .UnknownFormat ↔ buf.length - it < 8)
    ∧ ((∃ v, getU64 buf it = .ok (v, it + 8)) ↔ 8 ≤ buf.length - it) := by
  refine ⟨?_, ?_, ?_, ?_, ?_, ?_, ?_, ?_⟩
  · by_cases h : it < buf.length
    · simp [getU8_of_lt h]; omega
    · simp [getU8_of_le (Nat.le_of_not_lt h)]; omega
  · by_cases h : it < buf.length
    · simp [getU8_of_lt h]; omega
    · simp [getU8_of_le (Nat.le_of_not_lt h)]; omega
  · by_cases h : it + 1 < buf.length
    · simp [getU16_of_lt h]; omega
    · simp [getU16_of_le (Nat.le_of_not_lt h)]; omega
  · by_cases h : it + 1 < buf.length
    · simp [getU16_of_lt h]; omega
    · simp [getU16_of_le (Nat.le_of_not_lt h)]; omega
  · by_cases h : it + 3 < buf.length
    · obtain ⟨v, hv⟩ := getU32_of_lt h
      simp [hv]; omega
    · simp [getU32_of_le (Nat.le_of_not_lt h)]; omega
  · by_cases h : it + 3 < buf.length
    · obtain ⟨v, hv⟩ := getU32_of_lt h
      simp [hv]; omega
    · simp [getU32_of_le (Nat.le_of_not_lt h)]; omega
  · by_cases h : it + 7 < buf.length
    · obtain ⟨v, hv⟩ := getU64_of_lt h
      simp [hv]; omega
    · simp [getU64_of_le (Nat.le_of_not_lt h)]; omega
  · by_cases h : it + 7 < buf.length
    · obtain ⟨v, hv⟩ := getU64_of_lt h
      simp [hv]; omega
    · simp [getU64_of_le (Nat.le_of_not_lt h)]; omega

open bitops

/-! ## ICMP echo codec -/

/-- One step of the one's-complement sum stays a 16-bit word, is congruent to the
ordinary sum modulo `0xFFFF`, and is zero only for two zero words. -/
theorem onesComplementAdd_spec (a b : Nat) (ha : a ≤ 65535) (hb : b ≤ 65535) :
    ∃ c, onesComplementAdd a b + 65535 * c = a + b ∧ onesComplementAdd a b ≤ 65535
      ∧ (onesComplementAdd a b = 0 → a + b = 0) := by
  unfold onesComplementAdd
  by_cases h : 2 ^ 16 ≤ a + b
  · exact ⟨1, by simp only [h, if_true]; omega, by simp only [h, if_true]; omega,
      by simp only [h, if_true]; omega⟩
  · exact ⟨0, by simp only [h, if_false]; omega, by simp only [h, if_false]; omega,
      by simp only [h, if_false]; omega⟩

theorem foldl_onesComplementAdd_spec (ws : List Nat) (h : ∀ w ∈ ws, w ≤ 65535) :
    ∀ acc, acc ≤ 65535 →
      ∃ k, ws.foldl onesComplementAdd acc + 65535 * k = acc + ws.sum
        ∧ ws.foldl onesComplementAdd acc ≤ 65535
        ∧ (ws.foldl onesComplementAdd acc = 0 → acc + ws.sum = 0) := by
  induction ws with
  | nil => intro acc hacc; exact ⟨0, by simp, by simpa using hacc, by simp⟩
  | cons w ws ih =>
    intro acc hacc
    have hw : w ≤ 65535 := h w (List.mem_cons_self _ _)
    obtain ⟨c, hc1, hc2, hc3⟩ := onesComplementAdd_spec acc w hacc hw
    obtain ⟨k, hk1, hk2, hk3⟩ :=
      ih (fun x hx => h x (List.mem_cons_of_mem _ hx)) (onesComplementAdd acc w) hc2
    refine ⟨k + c, ?_, ?_, ?_⟩
    · simp only [List.foldl_cons, List.sum_cons]; omega
    · simpa using hk2
    · intro h0
      simp only [List.foldl_cons] at h0
      have := hk3 h0
      simp only [List.sum_cons]
      omega

theorem onesComplementSum_spec (ws : List Nat) (h : ∀ w ∈ ws, w ≤ 65535) :
    ∃ k, onesComplementSum ws + 65535 * k = ws.sum ∧ onesComplementSum ws ≤ 65535
      ∧ (onesComplementSum ws = 0 → ws.sum = 0) := by
  obtain ⟨k, h1, h2, h3⟩ := foldl_onesComplementAdd_spec ws h 0 (by omega)
  exact ⟨k, by simpa [onesComplementSum] using h1, h2, by simpa [onesComplementSum] using h3⟩

namespace ICMPEchoPacket

theorem calcChecksum_lt (p : ICMPEchoPacket) : p.calcChecksum < 2 ^ 16 := by
  unfold calcChecksum
  exact Nat.mod_lt _ (by decide)

/-- The twelve octets written by `generateNetworkFormat`. -/
theorem generateNetworkFormat_eq (p : ICMPEchoPacket) (h : p.InRange) :
    p.generateNetworkFormat =
      [p.type.toNat, p.code, p.calcChecksum / 2 ^ 8, p.calcChecksum % 2 ^ 8,
        p.identifier / 2 ^ 8, p.identifier % 2 ^ 8, p.seqNumber / 2 ^ 8, p.seqNumber % 2 ^ 8,
        p.data / 2 ^ 24, p.data / 2 ^ 16 % 2 ^ 8, p.data / 2 ^ 8 % 2 ^ 8, p.data % 2 ^ 8] := by
  obtain ⟨_, hi, hs, hd⟩ := h
  simp only [generateNetworkFormat]
  rw [addTo_u16_eq _ _ p.calcChecksum_lt, addTo_u16_eq _ _ hi, addTo_u16_eq _ _ hs,
    addTo_u32_eq _ _ hd]
  simp

/-- The folding steps of `calcChecksum` on a sum that fits 20 bits. -/
theorem fold_arith (s : Nat) :
    (2 ^ 32 - 1 - ((s / 2 ^ 16 + s % 2 ^ 16) % 2 ^ 32
        + (s / 2 ^ 16 + s % 2 ^ 16) % 2 ^ 32 / 2 ^ 16) % 2 ^ 32) % 2 ^ 16
      = 65535 - (s / 65536 + s % 65536 + (s / 65536 + s % 65536) / 65536) % 65536 := by
  omega

/-- The folded sum is a 16-bit word congruent to the sum modulo `0xFFFF`, and zero
only for a zero sum. -/
theorem fold_spec (s : Nat) (hs : s < 2 ^ 20) :
    ∃ k, (s / 65536 + s % 65536 + (s / 65536 + s % 65536) / 65536) % 65536 + 65535 * k = s
      ∧ (s / 65536 + s % 65536 + (s / 65536 + s % 65536) / 65536) % 65536 ≤ 65535
      ∧ ((s / 65536 + s % 65536 + (s / 65536 + s % 65536) / 65536) % 65536 = 0 → s = 0) := by
  have hq : s / 65536 ≤ 15 := by omega
  have hs' : s / 65536 + s % 65536 + 65535 * (s / 65536) = s := by omega
  have hlo : s / 65536 ≤ s / 65536 + s % 65536 := by omega
  have hhi : s / 65536 + s % 65536 ≤ s / 65536 + 65535 := by omega
  generalize s / 65536 + s % 65536 = f at hs' hlo hhi ⊢
  generalize s / 65536 = q at hs' hq hlo hhi
  by_cases h : f < 65536
  · have e : (f + f / 65536) % 65536 = f := by omega
    rw [e]
    exact ⟨q, by omega, by omega, by omega⟩
  · have hf : f / 65536 = 1 := by omega
    have e : (f + f / 65536) % 65536 = f - 65535 := by omega
    rw [e]
    exact ⟨q + 1, by omega, by omega, by omega⟩

/-- The checksum in arithmetic form. -/
theorem calcChecksum_eq (p : ICMPEchoPacket) (h : p.InRange) :
    p.calcChecksum =
      65535 - ((p.type.toNat * 256 + p.code + p.identifier + p.seqNumber
          + (p.data / 65536 + p.data % 65536)) / 65536
        + (p.type.toNat * 256 + p.code + p.identifier + p.seqNumber
          + (p.data / 65536 + p.data % 65536)) % 65536
        + ((p.type.toNat * 256 + p.code + p.identifier + p.seqNumber
          + (p.data / 65536 + p.data % 65536)) / 65536
          + (p.type.toNat * 256 + p.code + p.identifier + p.seqNumber
          + (p.data / 65536 + p.data % 65536)) % 65536) / 65536) % 65536 := by
  obtain ⟨hc, hi, hs, hd⟩ := h
  have ht : p.type.toNat ≤ 8 := by cases p.type <;> simp [ICMPType.toNat]
  have e0 : p.type.toNat % 2 ^ 16 * 2 ^ 8 = p.type.toNat * 256 := by omega
  have e1 : (p.type.toNat * 256 + p.code + p.identifier + p.seqNumber) % 2 ^ 32
      = p.type.toNat * 256 + p.code + p.identifier + p.seqNumber := Nat.mod_eq_of_lt (by omega)
  have e2 : p.data % (1 * 2 ^ 16) % 2 ^ 16 = p.data % 65536 := by omega
  have e3 : p.data / 2 ^ 16 % 2 ^ 16 = p.data / 65536 := by omega
  have e4 : (p.type.toNat * 256 + p.code + p.identifier + p.seqNumber
      + (p.data / 65536 + p.data % 65536)) % 2 ^ 32
      = p.type.toNat * 256 + p.code + p.identifier + p.seqNumber
      + (p.data / 65536 + p.data % 65536) := Nat.mod_eq_of_lt (by omega)
  simp only [calcChecksum, land_0xFFFF, Nat.shiftRight_eq_div_pow, Nat.shiftLeft_eq]
  rw [e0, e1, e2, e3, e4]
  exact fold_arith _

end ICMPEchoPacket

/-- The Internet checksum over five 16-bit words, stated on the words alone: with
`ck` the complement of the folded sum `r` of the five words, the six words sum to
`0xFFFF` in one's-complement arithmetic and `ck` is the complement of the
one's-complement sum of the five. -/
theorem checksum_words (w0 ck w2 w3 w4 w5 r k : Nat)
    (h0 : w0 ≤ 65535) (h2 : w2 ≤ 65535) (h3 : w3 ≤ 65535) (h4 : w4 ≤ 65535) (h5 : w5 ≤ 65535)
    (hr : r + 65535 * k = w0 + w2 + w3 + w4 + w5) (hr1 : r ≤ 65535)
    (hr0 : r = 0 → w0 + w2 + w3 + w4 + w5 = 0) (hck : ck = 65535 - r) :
    onesComplementSum [w0, ck, w2, w3, w4, w5] = 65535
    ∧ ck = 65535 - onesComplementSum [w0, w2, w3, w4, w5] := by
  obtain ⟨k6, a6, b6, c6⟩ := onesComplementSum_spec [w0, ck, w2, w3, w4, w5] (by
    intro w hw
    simp only [List.mem_cons, List.mem_singleton, List.not_mem_nil, or_false] at hw
    omega)
  obtain ⟨k5, a5, b5, c5⟩ := onesComplementSum_spec [w0, w2, w3, w4, w5] (by
    intro w hw
    simp only [List.mem_cons, List.mem_singleton, List.not_mem_nil, or_false] at hw
    omega)
  simp only [List.sum_cons, List.sum_nil] at a6 c6 a5 c5
  generalize onesComplementSum [w0, ck, w2, w3, w4, w5] = T at a6 b6 c6 ⊢
  generalize onesComplementSum [w0, w2, w3, w4, w5] = G at a5 b5 c5 ⊢
  constructor
  · omega
  · omega

/-- C3: the six big-endian 16-bit words of the twelve octets written by
`generateNetworkFormat` have one's-complement sum `0xFFFF`; the second word, which is
the value of `calcChecksum`, is the complement of the one's-complement sum of the
other five words. -/
theorem C3_checksum_validates (E : ICMPEchoPacket) (h : E.InRange) :
    E.generateNetworkFormat.length = 12
    ∧ onesComplementSum (words16 E.generateNetworkFormat) = 0xFFFF
    ∧ (words16 E.generateNetworkFormat).getD 1 0 = E.calcChecksum
    ∧ E.calcChecksum
        = 0xFFFF - onesComplementSum ((words16 E.generateNetworkFormat).eraseIdx 1) := by
  have hc := ICMPEchoPacket.calcChecksum_eq E h
  have hck := E.calcChecksum_lt
  have hgen := ICMPEchoPacket.generateNetworkFormat_eq E h
  obtain ⟨hc8, hi, hs, hd⟩ := h
  have ht : E.type.toNat ≤ 8 := by cases E.type <;> simp [ICMPType.toNat]
  have w1 : E.calcChecksum / 2 ^ 8 * 2 ^ 8 + E.calcChecksum % 2 ^ 8 = E.calcChecksum := by omega
  have w2 : E.identifier / 2 ^ 8 * 2 ^ 8 + E.identifier % 2 ^ 8 = E.identifier := by omega
  have w3 : E.seqNumber / 2 ^ 8 * 2 ^ 8 + E.seqNumber % 2 ^ 8 = E.seqNumber := by omega
  have w4 : E.data / 2 ^ 24 * 2 ^ 8 + E.data / 2 ^ 16 % 2 ^ 8 = E.data / 65536 := by omega
  have w5 : E.data / 2 ^ 8 % 2 ^ 8 * 2 ^ 8 + E.data % 2 ^ 8 = E.data % 65536 := by omega
  have w0 : E.type.toNat * 2 ^ 8 + E.code = E.type.toNat * 256 + E.code := by omega
  have hwords : words16 E.generateNetworkFormat
      = [E.type.toNat * 256 + E.code, E.calcChecksum, E.identifier, E.seqNumber,
          E.data / 65536, E.data % 65536] := by
    rw [hgen]
    simp only [words16, w0, w1, w2, w3, w4, w5]
  have b0 : E.type.toNat * 256 + E.code ≤ 65535 := by omega
  have bi : E.identifier ≤ 65535 := by omega
  have bs : E.seqNumber ≤ 65535 := by omega
  have b4 : E.data / 65536 ≤ 65535 := by omega
  have b5 : E.data % 65536 ≤ 65535 := by omega
  have hS : E.type.toNat * 256 + E.code + E.identifier + E.seqNumber
      + (E.data / 65536 + E.data % 65536) < 2 ^ 20 := by omega
  have hassoc : E.type.toNat * 256 + E.code + E.identifier + E.seqNumber
      + (E.data / 65536 + E.data % 65536)
      = E.type.toNat * 256 + E.code + E.identifier + E.seqNumber
        + E.data / 65536 + E.data % 65536 := by omega
  obtain ⟨k, hk, hk1, hk0⟩ := ICMPEchoPacket.fold_spec _ hS
  have hsum := checksum_words (E.type.toNat * 256 + E.code) E.calcChecksum E.identifier
    E.seqNumber (E.data / 65536) (E.data % 65536) _ k b0 bi bs b4 b5
    (hk.trans hassoc) hk1 (fun h0 => (hk0 h0).symm.trans hassoc |>.symm) hc
  refine ⟨by rw [hgen]; simp only [List.length_cons, List.length_nil], ?_, ?_, ?_⟩
  · rw [hwords]; exact hsum.1
  · rw [hwords]; simp
  · rw [hwords]; exact hsum.2

/-- C3 at the echo request with identifier `0xABCD`, sequence number 1 and the magic data. -/
theorem C3_checksum_validates_witness :
    (ICMPEchoPacket.mk .REQUEST 0 0xABCD 1 0x054BE403).InRange
    ∧ onesComplementSum (words16
        (ICMPEchoPacket.mk .REQUEST 0 0xABCD 1 0x054BE403).generateNetworkFormat) = 0xFFFF :=
  ⟨by decide, (C3_checksum_validates ⟨.REQUEST, 0, 0xABCD, 1, 0x054BE403⟩ (by decide)).2.1⟩

open bitops

namespace ICMPEchoPacket

/-- Decoding twelve octets without IP header, in terms of the values read. -/
theorem decode_twelve (t c k0 k1 i0 i1 s0 s1 d0 d1 d2 d3 : Nat) :
    decode [t, c, k0, k1, i0, i1, s0, s1, d0, d1, d2, d3] 12 false =
      if t ≠ ICMPType.REPLY.toNat then .error .UnknownFormat
      else if (ICMPEchoPacket.mk .REPLY c (merge_u8 i0 i1) (merge_u8 s0 s1)
            (merge_u16 (merge_u8 d0 d1) (merge_u8 d2 d3))).calcChecksum ≠ merge_u8 k0 k1
        then .error .UnknownFormat
      else .ok (ICMPEchoPacket.mk .REPLY c (merge_u8 i0 i1) (merge_u8 s0 s1)
            (merge_u16 (merge_u8 d0 d1) (merge_u8 d2 d3))) := by
  simp only [decode, getU8, getU16, getU32, bind, Except.bind, pure, Except.pure]
  by_cases ht : t = ICMPType.REPLY.toNat
  · by_cases hk : (ICMPEchoPacket.mk .REPLY c (merge_u8 i0 i1) (merge_u8 s0 s1)
        (merge_u16 (merge_u8 d0 d1) (merge_u8 d2 d3))).calcChecksum = merge_u8 k0 k1
    · simp [ht, hk, throw, throwThe, MonadExceptOf.throw]
    · simp [ht, hk, throw, throwThe, MonadExceptOf.throw]
  · simp [ht, throw, throwThe, MonadExceptOf.throw]

end ICMPEchoPacket

/-- C2 as stated fails on the packet the probe itself sends: an echo REQUEST with
identifier `0xABCD`, sequence number 1 and the magic data is serialised to twelve
octets that the decoder rejects with `UnknownFormat`. -/
theorem C2_counterexample_request :
    (ICMPEchoPacket.mk .REQUEST 0 0xABCD 1 0x054BE403).InRange
    ∧ (ICMPEchoPacket.mk .REQUEST 0 0xABCD 1 0x054BE403).generateNetworkFormat
        = [8, 0, 0x62, 0xE2, 0xAB, 0xCD, 0, 1, 0x05, 0x4B, 0xE4, 0x03]
    ∧ ICMPEchoPacket.decode
        (ICMPEchoPacket.mk .REQUEST 0 0xABCD 1 0x054BE403).generateNetworkFormat 12 false
        = .error .UnknownFormat :=
  ⟨by decide, rfl, rfl⟩

/-- C2 (amended): for every echo packet whose fields fit their types, decoding the
twelve serialised octets returns the packet itself when its type is REPLY, and fails
with `UnknownFormat` when its type is REQUEST. -/
theorem C2_roundtrip_reply_only (E : ICMPEchoPacket) (h : E.InRange) :
    (E.type = .REPLY → ICMPEchoPacket.decode E.generateNetworkFormat 12 false = .ok E)
    ∧ (E.type = .REQUEST →
        ICMPEchoPacket.decode E.generateNetworkFormat 12 false = .error .UnknownFormat) := by
  rw [ICMPEchoPacket.generateNetworkFormat_eq E h, ICMPEchoPacket.decode_twelve]
  obtain ⟨hc, hi, hs, hd⟩ := h
  rw [merge_u8_divide _ E.calcChecksum_lt, merge_u8_divide _ hi, merge_u8_divide _ hs,
    merge_u16_divide _ hd]
  constructor
  · intro ht
    have hE : ICMPEchoPacket.mk .REPLY E.code E.identifier E.seqNumber E.data = E := by
      cases E; simp_all
    rw [hE]
    simp [ht, ICMPType.toNat]
  · intro ht
    simp [ht, ICMPType.toNat]

/-- C2 (amended) at the echo reply with identifier `0xABCD`, sequence number 1 and the
magic data. -/
theorem C2_roundtrip_reply_only_witness :
    (ICMPEchoPacket.mk .REPLY 0 0xABCD 1 0x054BE403).InRange
    ∧ ICMPEchoPacket.decode
        (ICMPEchoPacket.mk .REPLY 0 0xABCD 1 0x054BE403).generateNetworkFormat 12 false
        = .ok (ICMPEchoPacket.mk .REPLY 0 0xABCD 1 0x054BE403) :=
  ⟨by decide, (C2_roundtrip_reply_only ⟨.REPLY, 0, 0xABCD, 1, 0x054BE403⟩ (by decide)).1 rfl⟩

open bitops

namespace dns_format

theorem lowerCaseLoop_eq (res : List Nat) : lowerCaseLoop res = res := by
  unfold lowerCaseLoop
  suffices h : ∀ (l : List Nat) (st : List Nat × Nat),
      (l.foldl (fun (st : List Nat × Nat) c => (st.1, lowerCaseOctet c)) st).1 = st.1 from
    h res (res, 0)
  intro l
  induction l with
  | nil => intro st; rfl
  | cons c l ih => intro st; simp only [List.foldl_cons]; rw [ih]

theorem isPointer_false_of_lt : ∀ n, n < 192 → isPointer n = false := by
  decide!

theorem pointer_octet : ∀ h, h < 64 → isPointer (0xC0 + h) = true ∧ getOffset (0xC0 + h) = h := by
  decide!

theorem getDomainNameFrom_zero (buf : List Nat) (it : Nat) (res : List Nat) (count : Nat) :
    getDomainNameFrom buf 0 it res count = .error .UnknownFormat := by
  simp only [getDomainNameFrom]

/-- One iteration inside a label: the octet is appended and `count` goes down. -/
theorem getDomainNameFrom_inner (buf : List Nat) (m it : Nat) (res : List Nat) (count x : Nat)
    (hx : buf[it]? = some x) (hc : 2 ≤ count) :
    getDomainNameFrom buf (m + 1) it res count
      = getDomainNameFrom buf m (it + 1) (res ++ [x]) (count - 1) := by
  have h0 : ¬ (count - 1 = 0) := by omega
  simp only [getDomainNameFrom, getU8_of_getElem? hx, h0, if_false]

/-- The iteration that reads the terminating zero octet. -/
theorem getDomainNameFrom_end (buf : List Nat) (m it : Nat) (res : List Nat)
    (hx : buf[it]? = some 0) :
    getDomainNameFrom buf (m + 1) it res 1 = .ok (res ++ [0], it + 1) := by
  simp only [getDomainNameFrom, getU8_of_getElem? hx, lowerCaseLoop_eq]
  simp

/-- The iteration that reads the length octet of a label. -/
theorem getDomainNameFrom_length (buf : List Nat) (m it : Nat) (res : List Nat) (x : Nat)
    (hx : buf[it]? = some x) (h0 : x ≠ 0) (hp : isPointer x = false) :
    getDomainNameFrom buf (m + 1) it res 1
      = getDomainNameFrom buf m (it + 1) (res ++ [x]) (x + 1) := by
  simp only [getDomainNameFrom, getU8_of_getElem? hx, hp]
  simp [h0]

/-- The iteration that reads a compression pointer and decodes its target. -/
theorem getDomainNameFrom_pointer (buf : List Nat) (m it : Nat) (res : List Nat) (x lo : Nat)
    (hx : buf[it]? = some x) (hlo : buf[it + 1]? = some lo) (h0 : x ≠ 0)
    (hp : isPointer x = true) :
    getDomainNameFrom buf (m + 2) it res 1
      = if ((getOffset x <<< 8) + lo) % 2 ^ 16 ≥ buf.length then .error .UnknownFormat
        else match getDomainNameFrom buf m (((getOffset x <<< 8) + lo) % 2 ^ 16) [] 1 with
          | .error e => .error e
          | .ok (fromPtr, _) => .ok (res ++ fromPtr, it + 2) := by
  simp only [getDomainNameFrom, getU8_of_getElem? hx, getU8_of_getElem? hlo, hp, lowerCaseLoop_eq]
  simp [h0]

end dns_format

open bitops

namespace dns_format

theorem prefix_drop_split {buf a b : List Nat} {p : Nat} (h : a ++ b <+: buf.drop p) :
    a <+: buf.drop p ∧ b <+: buf.drop (p + a.length) := by
  obtain ⟨t, ht⟩ := h
  refine ⟨⟨b ++ t, by simpa using ht⟩, ⟨t, ?_⟩⟩
  have h2 : (buf.drop p).drop a.length = b ++ t := by
    rw [← ht]; simp
  rw [← h2, List.drop_drop]

theorem prefix_drop_head {buf xs : List Nat} {x p : Nat} (h : x :: xs <+: buf.drop p) :
    buf[p]? = some x := by
  have := getElem?_of_prefix_drop h 0 (by simp)
  simpa using this

theorem prefix_drop_tail {buf xs : List Nat} {x p : Nat} (h : x :: xs <+: buf.drop p) :
    xs <+: buf.drop (p + 1) :=
  (prefix_drop_split (a := [x]) (b := xs) h).2

/-- Reading the octets of a label after its length octet. -/
theorem getDomainNameFrom_content (buf : List Nat) (m : Nat) (content : List Nat) :
    ∀ (p : Nat) (res : List Nat), content <+: buf.drop p →
      getDomainNameFrom buf (m + content.length) p res (content.length + 1)
        = getDomainNameFrom buf m (p + content.length) (res ++ content) 1 := by
  induction content with
  | nil => intro p res _; simp
  | cons x xs ih =>
    intro p res h
    have e : m + (x :: xs).length = (m + xs.length) + 1 := by simp; omega
    rw [e, getDomainNameFrom_inner buf _ p res _ x (prefix_drop_head h) (by simp)]
    have := ih (p + 1) (res ++ [x]) (prefix_drop_tail h)
    simp only [List.length_cons, Nat.add_sub_cancel] at this ⊢
    rw [this]
    congr 1
    · omega
    · simp

/-- Reading a run of labels, none of whose length octets is zero or a pointer. -/
theorem getDomainNameFrom_labels (buf : List Nat) (m : Nat) (labels : List (List Nat))
    (hl : ∀ l ∈ labels, 0 < l.length ∧ l.length < 0xC0) :
    ∀ (p : Nat) (res : List Nat), encodeLabels labels <+: buf.drop p →
      getDomainNameFrom buf (m + (encodeLabels labels).length) p res 1
        = getDomainNameFrom buf m (p + (encodeLabels labels).length)
            (res ++ encodeLabels labels) 1 := by
  induction labels with
  | nil => intro p res _; simp [encodeLabels]
  | cons l ls ih =>
    intro p res h
    have hl0 := hl l (List.mem_cons_self _ _)
    have hls : ∀ l ∈ ls, 0 < l.length ∧ l.length < 0xC0 :=
      fun x hx => hl x (List.mem_cons_of_mem _ hx)
    simp only [encodeLabels, List.cons_append] at h ⊢
    have hhead := prefix_drop_head h
    have htail := prefix_drop_tail h
    obtain ⟨hcont, hrest⟩ := prefix_drop_split htail
    have e : m + (l.length :: (l ++ encodeLabels ls)).length
        = ((m + (encodeLabels ls).length) + l.length) + 1 := by
      simp only [List.length_cons, List.length_append]; omega
    rw [e, getDomainNameFrom_length buf _ p res l.length hhead (by omega)
      (isPointer_false_of_lt _ hl0.2),
      getDomainNameFrom_content buf _ l (p + 1) _ hcont, ih hls _ _ hrest]
    congr 1
    · simp only [List.length_cons, List.length_append]; omega
    · simp

/-- Reading an uncompressed name returns its octets and leaves the cursor after it. -/
theorem getDomainNameFrom_name (buf : List Nat) (m : Nat) (labels : List (List Nat))
    (hl : ∀ l ∈ labels, 0 < l.length ∧ l.length < 0xC0) (p : Nat) (res : List Nat)
    (h : encodeName labels <+: buf.drop p) (hm : (encodeName labels).length ≤ m) :
    getDomainNameFrom buf m p res 1
      = .ok (res ++ encodeName labels, p + (encodeName labels).length) := by
  obtain ⟨hlab, hzero⟩ := prefix_drop_split (a := encodeLabels labels) (b := [0]) h
  have hz := prefix_drop_head hzero
  simp only [encodeName, List.length_append, List.length_singleton] at hm ⊢
  obtain ⟨r, rfl⟩ : ∃ r, m = (r + 1) + (encodeLabels labels).length := ⟨m - (encodeLabels labels).length - 1, by omega⟩
  rw [getDomainNameFrom_labels buf _ labels hl p res hlab, getDomainNameFrom_end buf r _ _ hz]
  simp [Nat.add_assoc]

theorem encodeLabels_append (a b : List (List Nat)) :
    encodeLabels (a ++ b) = encodeLabels a ++ encodeLabels b := by
  induction a with
  | nil => rfl
  | cons l ls ih => simp [encodeLabels, ih]

theorem lt_length_of_prefix_drop {buf seg : List Nat} {p : Nat} (h : seg <+: buf.drop p)
    (hne : seg ≠ []) : p < buf.length := by
  by_contra hge
  have : buf.drop p = [] := List.drop_eq_nil_of_le (by omega)
  rw [this] at h
  exact hne (List.prefix_nil.mp h)

end dns_format

open dns_format

/-- C6 (amended): in a message that holds an uncompressed name at offset `o`, a name
made of literal labels followed by a pointer to `o` decodes to the uncompressed
encoding of those labels followed by the name at `o`, and the cursor ends just
after the pointer, provided the octets read (the literal labels, the two pointer
octets and the name at `o`) number at most 255. -/
theorem C6_compressed_name_decodes (buf : List Nat) (p o : Nat) (L N : List (List Nat))
    (hL : ∀ l ∈ L, 0 < l.length ∧ l.length < 0xC0)
    (hN : ∀ l ∈ N, 0 < l.length ∧ l.length < 0xC0)
    (ho : o < 2 ^ 14)
    (hname : encodeName N <+: buf.drop o)
    (hcomp : encodeLabels L ++ pointerTo o <+: buf.drop p)
    (hlen : (encodeLabels L).length + 2 + (encodeName N).length ≤ 255) :
    getDomainName buf p 255
      = .ok (encodeName (L ++ N), p + (encodeLabels L).length + 2) := by
  obtain ⟨hlab, hptr⟩ := prefix_drop_split hcomp
  have hhi := prefix_drop_head hptr
  have hlo : buf[p + (encodeLabels L).length + 1]? = some (o % 256) :=
    prefix_drop_head (prefix_drop_tail hptr)
  have hq : o / 256 < 64 := by omega
  obtain ⟨hisp, hoff⟩ := pointer_octet (o / 256) hq
  have holt : o < buf.length :=
    lt_length_of_prefix_drop hname (by simp [encodeName])
  have hval : ((getOffset (0xC0 + o / 256) <<< 8) + o % 256) % 2 ^ 16 = o := by
    rw [hoff, Nat.shiftLeft_eq]; omega
  obtain ⟨m, hm⟩ : ∃ m, 255 = (m + 2) + (encodeLabels L).length :=
    ⟨255 - 2 - (encodeLabels L).length, by omega⟩
  have hmN : (encodeName N).length ≤ m := by omega
  unfold getDomainName
  rw [hm, getDomainNameFrom_labels buf _ L hL p [] hlab,
    getDomainNameFrom_pointer buf m _ _ _ _ hhi hlo (by omega) hisp, hval,
    getDomainNameFrom_name buf m N hN o [] hname hmN]
  have hnot : ¬ (o ≥ buf.length) := by omega
  simp only [hnot, if_false, List.nil_append, encodeName, encodeLabels_append,
    List.append_assoc]

/-- C6 (amended) at an 8-octet message: the name `ab.` at offset 0 and, at offset 4,
the label `x` followed by a pointer to offset 0. -/
theorem C6_compressed_name_decodes_witness :
    (encodeName [[0x61, 0x62]] <+: [2, 0x61, 0x62, 0, 1, 0x78, 0xC0, 0].drop 0)
    ∧ (encodeLabels [[0x78]] ++ pointerTo 0 <+: [2, 0x61, 0x62, 0, 1, 0x78, 0xC0, 0].drop 4)
    ∧ getDomainName [2, 0x61, 0x62, 0, 1, 0x78, 0xC0, 0] 4 255
        = .ok ([1, 0x78, 2, 0x61, 0x62, 0], 8) :=
  ⟨by decide, by decide,
    C6_compressed_name_decodes [2, 0x61, 0x62, 0, 1, 0x78, 0xC0, 0] 4 0 [[0x78]] [[0x61, 0x62]]
      (by decide) (by decide) (by decide) (by decide) (by decide) (by decide)⟩

open bitops dns_format

/-- C6 as stated fails at the 255-octet bound: the name at offset 0 is well formed
and has 255 octets, so the decoded total is within the bound, yet decoding the
pointer to it at offset 255 fails, because the two pointer octets have already
been counted against the bound. -/
theorem C6_counterexample_pointer_octets_counted :
    (∀ l ∈ longNameLabels, 0 < l.length ∧ l.length ≤ 63)
    ∧ encodeName longNameLabels <+: longNameMessage.drop 0
    ∧ encodeLabels [] ++ pointerTo 0 <+: longNameMessage.drop 255
    ∧ (encodeName ([] ++ longNameLabels)).length = 255
    ∧ getDomainName longNameMessage 0 255 = .ok (encodeName longNameLabels, 255)
    ∧ getDomainName longNameMessage 255 255 = .error .UnknownFormat := by
  refine ⟨by decide!, by decide!, by decide!, by decide!, by decide!, by decide!⟩

open bitops

namespace dns_format

/-- Every run of the name decoder either throws `UnknownFormat` or returns a vector
that grew by at most `maxLength` octets, with the cursor moved forward inside the
buffer. -/
theorem getDomainNameFrom_spec (buf : List Nat) (m : Nat) :
    ∀ (it : Nat) (res : List Nat) (count : Nat),
      (∀ e, getDomainNameFrom buf m it res count = .error e → e = .UnknownFormat)
      ∧ (∀ name it', getDomainNameFrom buf m it res count = .ok (name, it') →
          name.length ≤ res.length + m ∧ it < it' ∧ it' ≤ buf.length) := by
  induction m using Nat.strong_induction_on with
  | _ m ih =>
    intro it res count
    cases m with
    | zero => simp [getDomainNameFrom]
    | succ m =>
      simp only [getDomainNameFrom]
      by_cases hlt : it < buf.length
      · rw [getU8_of_lt hlt]
        simp only [lowerCaseLoop_eq]
        split_ifs with hc h0 hp
        · simp; omega
        · cases m with
          | zero => simp
          | succ m' =>
            simp only
            by_cases hlt2 : it + 1 < buf.length
            · rw [getU8_of_lt hlt2]
              simp only
              split_ifs with hoff
              · simp
              · have hrec := ih m' (by omega)
                  (((getOffset (buf.getD it 0) <<< 8) + buf.getD (it + 1) 0) % 2 ^ 16) [] 1
                cases hr : getDomainNameFrom buf m'
                  (((getOffset (buf.getD it 0) <<< 8) + buf.getD (it + 1) 0) % 2 ^ 16) [] 1 with
                | error e => simpa using hrec.1 e hr
                | ok r =>
                  obtain ⟨fromPtr, itp⟩ := r
                  have := hrec.2 _ _ hr
                  simp at this ⊢
                  omega
            · rw [getU8_of_le (Nat.le_of_not_lt hlt2)]
              simp
        · have hrec := ih m (by omega) (it + 1) (res ++ [buf.getD it 0]) (buf.getD it 0 + 1)
          refine ⟨hrec.1, fun name it' h => ?_⟩
          have := hrec.2 name it' h
          simp at this
          omega
        · have hrec := ih m (by omega) (it + 1) (res ++ [buf.getD it 0]) (count - 1)
          refine ⟨hrec.1, fun name it' h => ?_⟩
          have := hrec.2 name it' h
          simp at this
          omega
      · rw [getU8_of_le (Nat.le_of_not_lt hlt)]
        simp

/-- A set of positions each holding a compression pointer to a position of the set
(a cycle of pointers, such as a pointer to itself) makes the decoder fail at each of
them, whatever bound it is given. -/
theorem getDomainNameFrom_pointer_cycle (buf : List Nat) (S : Nat → Prop)
    (hS : ∀ p, S p → ∃ q, S q ∧ q < 2 ^ 14 ∧ buf[p]? = some (0xC0 + q / 256)
      ∧ buf[p + 1]? = some (q % 256)) :
    ∀ m p, S p → getDomainNameFrom buf m p [] 1 = .error .UnknownFormat := by
  intro m
  induction m using Nat.strong_induction_on with
  | _ m ih =>
    intro p hp
    obtain ⟨q, hq, hq14, hhi, hlo⟩ := hS p hp
    have hq64 : q / 256 < 64 := by omega
    obtain ⟨hisp, hoff⟩ := pointer_octet (q / 256) hq64
    have hval : ((getOffset (0xC0 + q / 256) <<< 8) + q % 256) % 2 ^ 16 = q := by
      rw [hoff, Nat.shiftLeft_eq]; omega
    match m with
    | 0 => simp [getDomainNameFrom]
    | 1 => simp [getDomainNameFrom, getU8_of_getElem? hhi, hisp]
    | m + 2 =>
      rw [getDomainNameFrom_pointer buf m p [] _ _ hhi hlo (by omega) hisp, hval,
        ih m (by omega) q hq]
      simp

end dns_format

open dns_format

/-- C8: with the default bound of 255, `getDomainName` on any message and any start
position either fails with `UnknownFormat` or returns a name of at most 255 octets
(the decoder is a total function of its inputs); and at every position of a set of
positions that each hold a compression pointer to a position of the set (a cycle of
pointers, for example a pointer that points at itself) it fails. -/
theorem C8_getDomainName_terminates (buf : List Nat) (it : Nat) :
    (getDomainName buf it 255 = .error .UnknownFormat
      ∨ ∃ name it', getDomainName buf it 255 = .ok (name, it') ∧ name.length ≤ 255)
    ∧ (∀ S : Nat → Prop,
        (∀ p, S p → ∃ q, S q ∧ q < 2 ^ 14 ∧ buf[p]? = some (0xC0 + q / 256)
          ∧ buf[p + 1]? = some (q % 256)) →
        S it → getDomainName buf it 255 = .error .UnknownFormat) := by
  constructor
  · have h := getDomainNameFrom_spec buf 255 it [] 1
    unfold getDomainName
    cases hr : getDomainNameFrom buf 255 it [] 1 with
    | error e => left; rw [h.1 e hr]
    | ok r =>
      obtain ⟨name, it'⟩ := r
      right
      exact ⟨name, it', rfl, by simpa using (h.2 name it' hr).1⟩
  · intro S hS hit
    exact getDomainNameFrom_pointer_cycle buf S hS 255 it hit

/-- C8 at a pointer to itself and at two pointers that point at each other. -/
theorem C8_getDomainName_terminates_witness :
    getDomainName [0xC0, 0x00] 0 255 = .error .UnknownFormat
    ∧ getDomainName [0xC0, 0x02, 0xC0, 0x00] 0 255 = .error .UnknownFormat :=
  ⟨(C8_getDomainName_terminates [0xC0, 0x00] 0).2 (fun p => p = 0)
      (fun p hp => ⟨0, rfl, by decide, by subst hp; decide, by subst hp; decide⟩) rfl,
    (C8_getDomainName_terminates [0xC0, 0x02, 0xC0, 0x00] 0).2 (fun p => p = 0 ∨ p = 2)
      (fun p hp => by
        rcases hp with hp | hp
        · exact ⟨2, Or.inr rfl, by decide, by subst hp; decide, by subst hp; decide⟩
        · exact ⟨0, Or.inl rfl, by decide, by subst hp; decide, by subst hp; decide⟩)
      (Or.inl rfl)⟩

open bitops dns_format

namespace bitops

theorem getU16_cases (buf : List Nat) (it : Nat) :
    getU16 buf it = .error .UnknownFormat
      ∨ ∃ v, getU16 buf it = .ok (v, it + 2) ∧ it + 2 ≤ buf.length := by
  by_cases h : it + 1 < buf.length
  · exact Or.inr ⟨_, getU16_of_lt h, by omega⟩
  · exact Or.inl (getU16_of_le (Nat.le_of_not_lt h))

theorem getU32_cases (buf : List Nat) (it : Nat) :
    getU32 buf it = .error .UnknownFormat
      ∨ ∃ v, getU32 buf it = .ok (v, it + 4) ∧ it + 4 ≤ buf.length := by
  by_cases h : it + 3 < buf.length
  · obtain ⟨v, hv⟩ := getU32_of_lt h
    exact Or.inr ⟨v, hv, by omega⟩
  · exact Or.inl (getU32_of_le (Nat.le_of_not_lt h))

end bitops

namespace dns_format

theorem getDomainName_cases (buf : List Nat) (it : Nat) :
    getDomainName buf it 255 = .error .UnknownFormat
      ∨ ∃ name it', getDomainName buf it 255 = .ok (name, it') ∧ name.length ≤ 255
          ∧ it < it' ∧ it' ≤ buf.length := by
  have h := getDomainNameFrom_spec buf 255 it [] 1
  unfold getDomainName
  cases hr : getDomainNameFrom buf 255 it [] 1 with
  | error e => left; rw [h.1 e hr]
  | ok r =>
    obtain ⟨name, it'⟩ := r
    right
    have := h.2 name it' hr
    exact ⟨name, it', rfl, by simpa using this.1, this.2.1, this.2.2⟩

theorem skipOctets_cases (buf : List Nat) (n : Nat) :
    ∀ it, it ≤ buf.length →
      (skipOctets buf n it = .error .UnknownFormat
        ∨ (skipOctets buf n it = .ok (it + n) ∧ it + n ≤ buf.length)) := by
  induction n with
  | zero => intro it h; right; exact ⟨rfl, h⟩
  | succ n ih =>
    intro it h
    by_cases hlt : it < buf.length
    · rcases ih (it + 1) (by omega) with h1 | ⟨h1, h2⟩
      · left; simp [skipOctets, getU8_of_lt hlt, h1]
      · right
        refine ⟨?_, by omega⟩
        simp [skipOctets, getU8_of_lt hlt, h1]; omega
    · left; simp [skipOctets, getU8_of_le (Nat.le_of_not_lt hlt)]

theorem getQuestion_cases (buf : List Nat) (it : Nat) :
    getQuestion buf it = .error .UnknownFormat
      ∨ ∃ q it', getQuestion buf it = .ok (q, it') ∧ it < it' ∧ it' ≤ buf.length := by
  rcases getDomainName_cases buf it with h1 | ⟨name, i1, h1, -, hlt, -⟩
  · left; simp [getQuestion, h1, bind, Except.bind]
  · rcases getU16_cases buf i1 with h2 | ⟨t, h2, -⟩
    · left; simp [getQuestion, h1, h2, bind, Except.bind]
    · rcases getU16_cases buf (i1 + 2) with h3 | ⟨c, h3, hle⟩
      · left; simp [getQuestion, h1, h2, h3, bind, Except.bind]
      · right
        cases hq : getQuestion buf it with
        | error e => simp [getQuestion, h1, h2, h3, bind, Except.bind, pure, Except.pure] at hq
        | ok r =>
          obtain ⟨q, it'⟩ := r
          simp [getQuestion, h1, h2, h3, bind, Except.bind, pure, Except.pure] at hq
          exact ⟨q, it', rfl, by omega, by omega⟩

theorem getResourceRecord_cases (buf : List Nat) (it : Nat) :
    getResourceRecord buf it = .error .UnknownFormat
      ∨ ∃ rr it', getResourceRecord buf it = .ok (rr, it') ∧ it < it' ∧ it' ≤ buf.length := by
  rcases getDomainName_cases buf it with h1 | ⟨name, i1, h1, -, hlt, -⟩
  · left; simp [getResourceRecord, h1, bind, Except.bind]
  rcases getU16_cases buf i1 with h2 | ⟨t, h2, -⟩
  · left; simp [getResourceRecord, h1, h2, bind, Except.bind]
  rcases getU16_cases buf (i1 + 2) with h3 | ⟨c, h3, -⟩
  · left; simp [getResourceRecord, h1, h2, h3, bind, Except.bind]
  rcases getU32_cases buf (i1 + 2 + 2) with h4 | ⟨ttl, h4, -⟩
  · left; simp [getResourceRecord, h1, h2, h3, h4, bind, Except.bind]
  rcases getU16_cases buf (i1 + 2 + 2 + 4) with h5 | ⟨rdl, h5, hle5⟩
  · left; simp [getResourceRecord, h1, h2, h3, h4, h5, bind, Except.bind]
  by_cases hptr : t = DNSType.PTR
  · rcases getDomainName_cases buf (i1 + 2 + 2 + 4 + 2) with h6 | ⟨dom, i6, h6, -, hlt6, hle6⟩
    · left; simp [getResourceRecord, h1, h2, h3, h4, h5, hptr, h6, bind, Except.bind]
    · by_cases hne : withoutFirstLabel dom = name
      · right
        cases hq : getResourceRecord buf it with
        | error e =>
          simp [getResourceRecord, h1, h2, h3, h4, h5, hptr, h6, bind, Except.bind, pure,
            Except.pure, ResourceRecord.setPTRAnswer, ResourceRecord.getPtrAnswer,
            ResourceRecord.new, hne] at hq
        | ok r =>
          obtain ⟨rr, it'⟩ := r
          simp [getResourceRecord, h1, h2, h3, h4, h5, hptr, h6, bind, Except.bind, pure,
            Except.pure, ResourceRecord.setPTRAnswer, ResourceRecord.getPtrAnswer,
            ResourceRecord.new, hne] at hq
          exact ⟨rr, it', rfl, by omega, by omega⟩
      · left
        simp [getResourceRecord, h1, h2, h3, h4, h5, hptr, h6, bind, Except.bind, pure,
          Except.pure, ResourceRecord.setPTRAnswer, ResourceRecord.getPtrAnswer,
          ResourceRecord.new, hne, throw, throwThe, MonadExceptOf.throw]
  · by_cases ha : t = DNSType.A
    · have hpa : ¬ (DNSType.A = DNSType.PTR) := by decide
      by_cases h4' : rdl = 4
      · rcases getU32_cases buf (i1 + 2 + 2 + 4 + 2) with h6 | ⟨addr, h6, hle6⟩
        · left
          simp [getResourceRecord, h1, h2, h3, h4, h5, ha, hpa, h4', h6, bind, Except.bind,
            pure, Except.pure]
        · right
          cases hq : getResourceRecord buf it with
          | error e =>
            simp [getResourceRecord, h1, h2, h3, h4, h5, ha, hpa, h4', h6, bind, Except.bind,
              pure, Except.pure] at hq
          | ok r =>
            obtain ⟨rr, it'⟩ := r
            simp [getResourceRecord, h1, h2, h3, h4, h5, ha, hpa, h4', h6, bind, Except.bind,
              pure, Except.pure] at hq
            exact ⟨rr, it', rfl, by omega, by omega⟩
      · left
        simp [getResourceRecord, h1, h2, h3, h4, h5, ha, hpa, h4', bind, Except.bind, pure,
          Except.pure, throw, throwThe, MonadExceptOf.throw]
    · rcases skipOctets_cases buf rdl (i1 + 2 + 2 + 4 + 2) hle5 with h6 | ⟨h6, hle6⟩
      · left
        simp [getResourceRecord, h1, h2, h3, h4, h5, ha, hptr, h6, bind, Except.bind, pure,
          Except.pure]
      · right
        cases hq : getResourceRecord buf it with
        | error e =>
          simp [getResourceRecord, h1, h2, h3, h4, h5, ha, hptr, h6, bind, Except.bind, pure,
            Except.pure] at hq
        | ok r =>
          obtain ⟨rr, it'⟩ := r
          simp [getResourceRecord, h1, h2, h3, h4, h5, ha, hptr, h6, bind, Except.bind, pure,
            Except.pure] at hq
          exact ⟨rr, it', rfl, by omega, by omega⟩

end dns_format

open bitops dns_format

namespace DNSPacket

theorem addQuestion_counts (p : DNSPacket) (q : Question) :
    (p.addQuestion q).getANCount = p.getANCount ∧ (p.addQuestion q).getNSCount = p.getNSCount
      ∧ (p.addQuestion q).getARCount = p.getARCount := by
  simp [addQuestion, setQDCount, getANCount, getNSCount, getARCount, List.getD,
    List.getElem?_set]

theorem addAnswer_counts (p : DNSPacket) (a : ResourceRecord) :
    (p.addAnswer a).getNSCount = p.getNSCount ∧ (p.addAnswer a).getARCount = p.getARCount := by
  simp [addAnswer, setANCount, getNSCount, getARCount, List.getD, List.getElem?_set]

theorem skipQuestions_cases (buf : List Nat) (n : Nat) :
    ∀ it, it ≤ buf.length →
      (skipQuestions buf n it = .error .UnknownFormat
        ∨ ∃ it', skipQuestions buf n it = .ok it' ∧ it ≤ it' ∧ it' ≤ buf.length) := by
  induction n with
  | zero => intro it h; exact Or.inr ⟨it, rfl, Nat.le_refl _, h⟩
  | succ n ih =>
    intro it _
    rcases getQuestion_cases buf it with h1 | ⟨q, i1, h1, hlt, hle⟩
    · left; simp [skipQuestions, h1]
    · rcases ih i1 hle with h2 | ⟨i2, h2, hle1, hle2⟩
      · left; simp [skipQuestions, h1, h2]
      · right; exact ⟨i2, by simp [skipQuestions, h1, h2], by omega, hle2⟩

theorem readUnsupported_cases (buf : List Nat) (n : Nat) :
    ∀ it, it ≤ buf.length →
      (readUnsupported buf n it = .error .UnknownFormat
        ∨ ∃ it', readUnsupported buf n it = .ok it' ∧ it ≤ it' ∧ it' ≤ buf.length) := by
  induction n with
  | zero => intro it h; exact Or.inr ⟨it, rfl, Nat.le_refl _, h⟩
  | succ n ih =>
    intro it _
    rcases getResourceRecord_cases buf it with h1 | ⟨q, i1, h1, hlt, hle⟩
    · left; simp [readUnsupported, h1]
    · rcases ih i1 hle with h2 | ⟨i2, h2, hle1, hle2⟩
      · left; simp [readUnsupported, h1, h2]
      · right; exact ⟨i2, by simp [readUnsupported, h1, h2], by omega, hle2⟩

/-- The questions loop moves the cursor as `skipQuestions` does and leaves the
answer, authority and additional counts of the header as they were. -/
theorem readQuestions_skip (buf : List Nat) (n : Nat) :
    ∀ (p : DNSPacket) (it : Nat),
      (∀ e, skipQuestions buf n it = .error e → readQuestions buf n p it = .error e)
      ∧ (∀ it', skipQuestions buf n it = .ok it' →
          ∃ p', readQuestions buf n p it = .ok (p', it') ∧ p'.getANCount = p.getANCount
            ∧ p'.getNSCount = p.getNSCount ∧ p'.getARCount = p.getARCount) := by
  induction n with
  | zero =>
    intro p it
    refine ⟨fun e h => by simp [skipQuestions] at h, fun it' h => ?_⟩
    simp only [skipQuestions, Except.ok.injEq] at h
    exact ⟨p, by simp [readQuestions, h], rfl, rfl, rfl⟩
  | succ n ih =>
    intro p it
    cases h1 : getQuestion buf it with
    | error e1 =>
      refine ⟨fun e h => ?_, fun it' h => ?_⟩
      · simp only [skipQuestions, h1, Except.error.injEq] at h
        simp [readQuestions, h1, h]
      · simp [skipQuestions, h1] at h
    | ok r =>
      obtain ⟨q, i1⟩ := r
      obtain ⟨he, hok⟩ := ih (p.addQuestion q) i1
      obtain ⟨c1, c2, c3⟩ := addQuestion_counts p q
      refine ⟨fun e h => ?_, fun it' h => ?_⟩
      · simp only [skipQuestions, h1] at h
        simp only [readQuestions, h1]
        exact he e h
      · simp only [skipQuestions, h1] at h
        obtain ⟨p', hp', a1, a2, a3⟩ := hok it' h
        exact ⟨p', by simp only [readQuestions, h1]; exact hp', a1.trans c1, a2.trans c2,
          a3.trans c3⟩

/-- The answers loop moves the cursor as the loop over dropped records does and
leaves the authority and additional counts of the header as they were. -/
theorem readAnswers_skip (buf : List Nat) (n : Nat) :
    ∀ (p : DNSPacket) (it : Nat),
      (∀ e, readUnsupported buf n it = .error e → readAnswers buf n p it = .error e)
      ∧ (∀ it', readUnsupported buf n it = .ok it' →
          ∃ p', readAnswers buf n p it = .ok (p', it')
            ∧ p'.getNSCount = p.getNSCount ∧ p'.getARCount = p.getARCount) := by
  induction n with
  | zero =>
    intro p it
    refine ⟨fun e h => by simp [readUnsupported] at h, fun it' h => ?_⟩
    simp only [readUnsupported, Except.ok.injEq] at h
    exact ⟨p, by simp [readAnswers, h], rfl, rfl⟩
  | succ n ih =>
    intro p it
    cases h1 : getResourceRecord buf it with
    | error e1 =>
      refine ⟨fun e h => ?_, fun it' h => ?_⟩
      · simp only [readUnsupported, h1, Except.error.injEq] at h
        simp [readAnswers, h1, h]
      · simp [readUnsupported, h1] at h
    | ok r =>
      obtain ⟨a, i1⟩ := r
      obtain ⟨he, hok⟩ := ih (p.addAnswer a) i1
      obtain ⟨c2, c3⟩ := addAnswer_counts p a
      refine ⟨fun e h => ?_, fun it' h => ?_⟩
      · simp only [readUnsupported, h1] at h
        simp only [readAnswers, h1]
        exact he e h
      · simp only [readUnsupported, h1] at h
        obtain ⟨p', hp', a2, a3⟩ := hok it' h
        exact ⟨p', by simp only [readAnswers, h1]; exact hp', a2.trans c2, a3.trans c3⟩

theorem readHeader_short (buf : List Nat) (n : Nat) :
    ∀ (i : Nat) (p : DNSPacket) (it : Nat), it ≤ buf.length → buf.length < it + n →
      readHeader buf n i p it = .error .UnknownFormat := by
  induction n with
  | zero => intro i p it h0 h; omega
  | succ n ih =>
    intro i p it h0 h
    by_cases hlt : it < buf.length
    · simp only [readHeader, getU8_of_lt hlt]
      exact ih _ _ _ (by omega) (by omega)
    · simp [readHeader, getU8_of_le (Nat.le_of_not_lt hlt)]

/-- The header loop copies the first twelve octets of the message. -/
theorem readHeader_twelve (raw : List Nat) (h : HEADER_SIZE ≤ raw.length) :
    ∃ p, readHeader raw HEADER_SIZE 0 DNSPacket.new 0 = .ok (p, 12)
      ∧ p.header = raw.take 12 ∧ p.questions = [] ∧ p.answers = [] := by
  rcases raw with _ | ⟨b0, raw⟩
  · simp [DNSPacket.HEADER_SIZE] at h
  rcases raw with _ | ⟨b1, raw⟩
  · simp [DNSPacket.HEADER_SIZE] at h
  rcases raw with _ | ⟨b2, raw⟩
  · simp [DNSPacket.HEADER_SIZE] at h
  rcases raw with _ | ⟨b3, raw⟩
  · simp [DNSPacket.HEADER_SIZE] at h
  rcases raw with _ | ⟨b4, raw⟩
  · simp [DNSPacket.HEADER_SIZE] at h
  rcases raw with _ | ⟨b5, raw⟩
  · simp [DNSPacket.HEADER_SIZE] at h
  rcases raw with _ | ⟨b6, raw⟩
  · simp [DNSPacket.HEADER_SIZE] at h
  rcases raw with _ | ⟨b7, raw⟩
  · simp [DNSPacket.HEADER_SIZE] at h
  rcases raw with _ | ⟨b8, raw⟩
  · simp [DNSPacket.HEADER_SIZE] at h
  rcases raw with _ | ⟨b9, raw⟩
  · simp [DNSPacket.HEADER_SIZE] at h
  rcases raw with _ | ⟨b10, raw⟩
  · simp [DNSPacket.HEADER_SIZE] at h
  rcases raw with _ | ⟨b11, raw⟩
  · simp [DNSPacket.HEADER_SIZE] at h
  exact ⟨⟨[b0, b1, b2, b3, b4, b5, b6, b7, b8, b9, b10, b11], [], []⟩,
    by simp [readHeader, getU8, HEADER_SIZE, DNSPacket.new], rfl, rfl, rfl⟩

/-- The constructor's reads end where the records of the message end. -/
theorem readSections_end (raw : List Nat) :
    (∀ e, sectionsEnd raw = .error e → readSections raw = .error e)
    ∧ (∀ it, sectionsEnd raw = .ok it → ∃ p, readSections raw = .ok (p, it)) := by
  by_cases hlen : raw.length < HEADER_SIZE
  · have hh := readHeader_short raw HEADER_SIZE 0 DNSPacket.new 0 (Nat.zero_le _) (by omega)
    constructor
    · intro e h
      simp only [sectionsEnd, hlen, if_true, Except.error.injEq] at h
      simp [readSections, hh, bind, Except.bind, h]
    · intro it h
      simp [sectionsEnd, hlen] at h
  · obtain ⟨p0, hp0, hhead, -, -⟩ := readHeader_twelve raw (Nat.le_of_not_lt hlen)
    have hl : 12 ≤ raw.length := Nat.le_of_not_lt hlen
    have g : ∀ i, i < 12 → p0.header.getD i 0 = raw.getD i 0 := by
      intro i hi
      rw [hhead]
      simp [List.getD, List.getElem?_take, hi]
    have hqd : p0.getQDCount = merge_u8 (raw.getD 4 0) (raw.getD 5 0) := by
      simp only [getQDCount, g 4 (by omega), g 5 (by omega)]
    have han : p0.getANCount = merge_u8 (raw.getD 6 0) (raw.getD 7 0) := by
      simp only [getANCount, g 6 (by omega), g 7 (by omega)]
    have hns : p0.getNSCount = merge_u8 (raw.getD 8 0) (raw.getD 9 0) := by
      simp only [getNSCount, g 8 (by omega), g 9 (by omega)]
    have har : p0.getARCount = merge_u8 (raw.getD 10 0) (raw.getD 11 0) := by
      simp only [getARCount, g 10 (by omega), g 11 (by omega)]
    have hlen' : ¬ raw.length < 12 := by omega
    simp only [sectionsEnd, HEADER_SIZE, hlen', if_false, ← hqd, ← han, ← hns, ← har]
    obtain ⟨qe, qok⟩ := readQuestions_skip raw p0.getQDCount p0 12
    cases h1 : skipQuestions raw p0.getQDCount 12 with
    | error e1 =>
      have := qe e1 h1
      constructor
      · intro e h
        simp only [Except.error.injEq] at h
        simp [readSections, hp0, this, bind, Except.bind, h]
      · intro it h
        simp at h
    | ok i1 =>
      obtain ⟨p1, hp1, a1, a2, a3⟩ := qok i1 h1
      obtain ⟨ae, aok⟩ := readAnswers_skip raw p1.getANCount p1 i1
      simp only [← a1, ← a2, ← a3]
      cases h2 : readUnsupported raw p1.getANCount i1 with
      | error e2 =>
        have := ae e2 h2
        constructor
        · intro e h
          simp only [Except.error.injEq] at h
          simp [readSections, hp0, hp1, this, bind, Except.bind, h]
        · intro it h
          simp at h
      | ok i2 =>
        obtain ⟨p2, hp2, c2, c3⟩ := aok i2 h2
        simp only [← c2, ← c3]
        constructor
        · intro e h
          simp [readSections, hp0, hp1, hp2, bind, Except.bind, h]
        · intro it h
          exact ⟨p2, by simp [readSections, hp0, hp1, hp2, bind, Except.bind, h, pure,
            Except.pure]⟩

theorem sectionsEnd_cases (raw : List Nat) :
    sectionsEnd raw = .error .UnknownFormat
      ∨ ∃ it, sectionsEnd raw = .ok it ∧ 12 ≤ it ∧ it ≤ raw.length := by
  by_cases hlen : raw.length < HEADER_SIZE
  · left; simp [sectionsEnd, hlen]
  · have hl : 12 ≤ raw.length := Nat.le_of_not_lt hlen
    have hlen' : ¬ raw.length < 12 := by omega
    simp only [sectionsEnd, HEADER_SIZE, hlen', if_false]
    rcases skipQuestions_cases raw (merge_u8 (raw.getD 4 0) (raw.getD 5 0)) 12 hl with
      h1 | ⟨i1, h1, l1, u1⟩
    · left; simp only [h1]
    · rcases readUnsupported_cases raw (merge_u8 (raw.getD 6 0) (raw.getD 7 0)) i1 u1 with
        h2 | ⟨i2, h2, l2, u2⟩
      · left; simp only [h1, h2]
      · rcases readUnsupported_cases raw
          (merge_u8 (raw.getD 10 0) (raw.getD 11 0) + merge_u8 (raw.getD 8 0) (raw.getD 9 0))
          i2 u2 with h3 | ⟨i3, h3, l3, u3⟩
        · left; simp only [h1, h2, h3]
        · right; exact ⟨i3, by simp only [h1, h2, h3], by omega, u3⟩

end DNSPacket

/-- C10: `DNSPacket(raw, n)` succeeds exactly when the 12-octet header followed by
`qd` questions, `an` answers and `ns + ar` further records ends at offset `n`; in
every other case, whether the records end before `n`, after `n`, or cannot be read
to their end, it fails with `UnknownFormat`; on success `n` lies between 12 and the
length of the buffer. -/
theorem C10_exact_length (raw : List Nat) (n : Nat) :
    ((∃ p, DNSPacket.parse raw n = .ok p) ↔ DNSPacket.sectionsEnd raw = .ok n)
    ∧ (DNSPacket.parse raw n = .error .UnknownFormat ↔ DNSPacket.sectionsEnd raw ≠ .ok n)
    ∧ ((∃ p, DNSPacket.parse raw n = .ok p) → 12 ≤ n ∧ n ≤ raw.length) := by
  obtain ⟨he, hok⟩ := DNSPacket.readSections_end raw
  have key : ((∃ p, DNSPacket.parse raw n = .ok p) ↔ DNSPacket.sectionsEnd raw = .ok n)
      ∧ (DNSPacket.parse raw n = .error .UnknownFormat ↔ DNSPacket.sectionsEnd raw ≠ .ok n) := by
    rcases DNSPacket.sectionsEnd_cases raw with h | ⟨it, h, -, -⟩
    · have hr := he _ h
      simp [DNSPacket.parse, hr, h, bind, Except.bind]
    · obtain ⟨p, hp⟩ := hok it h
      by_cases hn : it = n
      · subst hn
        simp [DNSPacket.parse, hp, h, bind, Except.bind, pure, Except.pure]
      · have hn' : ¬ (n = it) := fun e => hn e.symm
        simp [DNSPacket.parse, hp, h, bind, Except.bind, pure, Except.pure, hn, hn', throw,
          throwThe, MonadExceptOf.throw]
  refine ⟨key.1, key.2, fun hp => ?_⟩
  have hs := key.1.mp hp
  rcases DNSPacket.sectionsEnd_cases raw with h | ⟨it, h, l, u⟩
  · rw [h] at hs; cases hs
  · rw [h] at hs
    simp only [Except.ok.injEq] at hs
    subst hs
    exact ⟨l, u⟩

/-- C10 at a 17-octet query with one question for the root name: it parses with
length 17 and is refused with length 18 (a missing octet) and 16 (a trailing octet). -/
theorem C10_exact_length_witness :
    DNSPacket.sectionsEnd [0, 0, 0, 0, 0, 1, 0, 0, 0, 0, 0, 0, 0, 0, 1, 0, 1] = .ok 17
    ∧ (∃ p, DNSPacket.parse [0, 0, 0, 0, 0, 1, 0, 0, 0, 0, 0, 0, 0, 0, 1, 0, 1] 17 = .ok p)
    ∧ DNSPacket.parse [0, 0, 0, 0, 0, 1, 0, 0, 0, 0, 0, 0, 0, 0, 1, 0, 1] 18
        = .error .UnknownFormat
    ∧ DNSPacket.parse [0, 0, 0, 0, 0, 1, 0, 0, 0, 0, 0, 0, 0, 0, 1, 0, 1] 16
        = .error .UnknownFormat :=
  ⟨by decide!,
    (C10_exact_length [0, 0, 0, 0, 0, 1, 0, 0, 0, 0, 0, 0, 0, 0, 1, 0, 1] 17).1.mpr (by decide!),
    (C10_exact_length [0, 0, 0, 0, 0, 1, 0, 0, 0, 0, 0, 0, 0, 0, 1, 0, 1] 18).2.1.mpr
      (by decide!),
    (C10_exact_length [0, 0, 0, 0, 0, 1, 0, 0, 0, 0, 0, 0, 0, 0, 1, 0, 1] 16).2.1.mpr
      (by decide!)⟩

open bitops dns_format

/-- C1 (code defect, evaluated): a 19-octet query with one question (`a.`, type PTR,
class IN) parses to a packet whose header says two questions while it holds one,
because the parsing constructor adds each question with `addQuestion`, which
increments the count already read from the wire; the serialisation of that packet
carries the count 2 before a single question, and parsing it again fails. -/
theorem C1_reparse_fails_after_count_doubling :
    DNSPacket.parse [0, 0, 0, 0, 0, 1, 0, 0, 0, 0, 0, 0, 1, 0x61, 0, 0, 12, 0, 1] 19
      = .ok ⟨[0, 0, 0, 0, 0, 2, 0, 0, 0, 0, 0, 0], [⟨[1, 0x61, 0], 12, 1, false⟩], []⟩
    ∧ DNSPacket.generateNetworkFormat
        ⟨[0, 0, 0, 0, 0, 2, 0, 0, 0, 0, 0, 0], [⟨[1, 0x61, 0], 12, 1, false⟩], []⟩
      = [0, 0, 0, 0, 0, 2, 0, 0, 0, 0, 0, 0, 1, 0x61, 0, 0, 12, 0, 1]
    ∧ DNSPacket.parse [0, 0, 0, 0, 0, 2, 0, 0, 0, 0, 0, 0, 1, 0x61, 0, 0, 12, 0, 1] 19
      = .error .UnknownFormat := by
  refine ⟨by decide!, by decide!, by decide!⟩

/-- C7 (code defect, evaluated): in a 21-octet receive buffer holding an 18-octet
datagram, the question name is a pointer to offset 18, the first octet after the
datagram; the pointer is checked against the end of the buffer only, so parsing
succeeds and the name is read from the three stale octets behind the datagram. -/
theorem C7_pointer_past_datagram_accepted :
    DNSPacket.parse
        [0, 0, 0, 0, 0, 1, 0, 0, 0, 0, 0, 0, 0xC0, 18, 0, 12, 0, 1, 1, 0x78, 0] 18
      = .ok ⟨[0, 0, 0, 0, 0, 2, 0, 0, 0, 0, 0, 0], [⟨[1, 0x78, 0], 12, 1, false⟩], []⟩
    ∧ DNSPacket.parse [0, 0, 0, 0, 0, 1, 0, 0, 0, 0, 0, 0, 0xC0, 18, 0, 12, 0, 1] 18
      = .error .UnknownFormat := by
  refine ⟨by decide!, by decide!⟩

/-- C9 (code defect, evaluated): the name `A.` is returned with its upper-case
letter, since the lower-casing loop writes to a copy of each octet; in general the
loop returns its argument unchanged, and the names `A.` and `a.` decode to different
octet sequences. -/
theorem C9_upper_case_kept :
    getDomainName [1, 0x41, 0] 0 255 = .ok ([1, 0x41, 0], 3)
    ∧ getDomainName [1, 0x61, 0] 0 255 = .ok ([1, 0x61, 0], 3)
    ∧ (∀ res, lowerCaseLoop res = res) := by
  refine ⟨by decide!, by decide!, lowerCaseLoop_eq⟩

open bitops dns_format

/-- C11 (code defect, evaluated): for the class word `0x0081` the question is returned
with `qclass = 1`, the class IN, not `0x0081`: `getQuestion` masks the class with
`0x7F`, which removes bits 7 to 15, instead of removing the top bit alone. The flag
follows bit 15 as claimed (class word `0x8001`). -/
theorem C11_class_masked_to_seven_bits :
    getQuestion [0, 0, 12, 0x00, 0x81] 0 = .ok (⟨[0], 12, 1, false⟩, 5)
    ∧ (0x0081 &&& 0x7FFF : Nat) = 0x81
    ∧ getQuestion [0, 0, 12, 0x80, 0x01] 0 = .ok (⟨[0], 12, 1, true⟩, 5)
    ∧ (1 : Nat) = DNSClass.IN := by
  refine ⟨by decide!, by decide!, by decide!, rfl⟩

namespace DNSPacket

theorem getOpcode_eq : ∀ h2, h2 < 256 →
    (((h2 <<< 1) % 2 ^ 8) &&& 0xF0) = 16 * ((h2 >>> 3) &&& 0xF) := by
  decide!

theorem getRCode_eq : ∀ h3, h3 < 256 →
    (((h3 <<< 4) % 2 ^ 8) &&& 0xF0) = 16 * (h3 &&& 0xF) := by
  decide!

end DNSPacket

/-- C13 (code defect, evaluated): for the header with flags word `0x0803` (opcode 1,
rcode 3) `getOpcode` returns `0x10` and `getRCode` returns `0x30`, not 1 and 3: both
getters shift their field to the high nibble of the octet, so for every header they
return sixteen times the 4-bit field. -/
theorem C13_fields_left_aligned :
    DNSPacket.getOpcode ⟨[0, 0, 0x08, 0x03, 0, 0, 0, 0, 0, 0, 0, 0], [], []⟩ = 0x10
    ∧ DNSPacket.getRCode ⟨[0, 0, 0x08, 0x03, 0, 0, 0, 0, 0, 0, 0, 0], [], []⟩ = 0x30
    ∧ ((0x0803 >>> 11) &&& 0xF : Nat) = 1 ∧ (0x0803 &&& 0xF : Nat) = 3
    ∧ (∀ p : DNSPacket, p.header.getD 2 0 < 256 →
        p.getOpcode = 16 * ((p.header.getD 2 0 >>> 3) &&& 0xF))
    ∧ (∀ p : DNSPacket, p.header.getD 3 0 < 256 →
        p.getRCode = 16 * (p.header.getD 3 0 &&& 0xF)) := by
  refine ⟨by decide!, by decide!, by decide!, by decide!, ?_, ?_⟩
  · intro p h; exact DNSPacket.getOpcode_eq _ h
  · intro p h; exact DNSPacket.getRCode_eq _ h

/-- C14: for every packet whose header octets 2 and 3 are octets, `ignorePacket` is
true exactly when bits 3 to 6 of octet 2 (the opcode) or the low four bits of octet 3
(the rcode) are not all zero; two packets that agree on these two fields get the same
answer, whatever their other header bits. -/
theorem C14_ignorePacket_iff (p : DNSPacket)
    (h2 : p.header.getD 2 0 < 256) (h3 : p.header.getD 3 0 < 256) :
    (SDServerClient.ignorePacket p = true ↔
      ((p.header.getD 2 0 >>> 3) &&& 0xF ≠ 0 ∨ p.header.getD 3 0 &&& 0xF ≠ 0))
    ∧ (∀ q : DNSPacket, q.header.getD 2 0 < 256 → q.header.getD 3 0 < 256 →
        (q.header.getD 2 0 >>> 3) &&& 0xF = (p.header.getD 2 0 >>> 3) &&& 0xF →
        q.header.getD 3 0 &&& 0xF = p.header.getD 3 0 &&& 0xF →
        SDServerClient.ignorePacket q = SDServerClient.ignorePacket p) := by
  have key : ∀ r : DNSPacket, r.header.getD 2 0 < 256 → r.header.getD 3 0 < 256 →
      (SDServerClient.ignorePacket r = true ↔
        ((r.header.getD 2 0 >>> 3) &&& 0xF ≠ 0 ∨ r.header.getD 3 0 &&& 0xF ≠ 0)) := by
    intro r r2 r3
    have ho : r.getOpcode = 16 * ((r.header.getD 2 0 >>> 3) &&& 0xF) :=
      DNSPacket.getOpcode_eq _ r2
    have hr : r.getRCode = 16 * (r.header.getD 3 0 &&& 0xF) := DNSPacket.getRCode_eq _ r3
    unfold SDServerClient.ignorePacket
    rw [ho, hr]
    generalize (r.header.getD 2 0 >>> 3) &&& 0xF = a
    generalize r.header.getD 3 0 &&& 0xF = b
    by_cases ha : a = 0
    · by_cases hb : b = 0
      · simp [ha, hb]
      · simp [ha, hb]
    · simp [ha]
  refine ⟨key p h2 h3, fun q q2 q3 e2 e3 => ?_⟩
  have kp := key p h2 h3
  have kq := key q q2 q3
  rw [e2, e3] at kq
  cases hp : SDServerClient.ignorePacket p <;> cases hq : SDServerClient.ignorePacket q <;>
    simp_all

/-- C14 at the header of a standard query with the RD bit set (`0x0100`), which is
not ignored, and at a header with opcode 2, which is. -/
theorem C14_ignorePacket_iff_witness :
    SDServerClient.ignorePacket ⟨[0, 0, 0x01, 0x00, 0, 0, 0, 0, 0, 0, 0, 0], [], []⟩ = false
    ∧ (SDServerClient.ignorePacket ⟨[0, 0, 0x10, 0x00, 0, 0, 0, 0, 0, 0, 0, 0], [], []⟩ = true ↔
        (((0x10 : Nat) >>> 3) &&& 0xF ≠ 0 ∨ (0x00 : Nat) &&& 0xF ≠ 0)) :=
  ⟨by decide,
    (C14_ignorePacket_iff ⟨[0, 0, 0x10, 0x00, 0, 0, 0, 0, 0, 0, 0, 0], [], []⟩
      (by decide) (by decide)).1⟩

open bitops dns_format

namespace dns_format

theorem getD_zero_append (res l : List Nat) (h : res ≠ []) :
    (res ++ l).getD 0 0 = res.getD 0 0 := by
  cases res with
  | nil => exact absurd rfl h
  | cons a t => rfl

/-- Every name the decoder returns holds its whole first label: it is not empty and
its first octet plus one is at most its length, so `withoutFirstLabel` is applied
inside the domain on which the source defines it. -/
theorem getDomainNameFrom_first_label (buf : List Nat) (m : Nat) :
    ∀ (it : Nat) (res : List Nat) (count : Nat),
      ((res = [] ∧ count = 1)
        ∨ (res ≠ [] ∧ 1 ≤ count ∧ res.getD 0 0 + 1 ≤ res.length + (count - 1))) →
      ∀ name it', getDomainNameFrom buf m it res count = .ok (name, it') →
        name ≠ [] ∧ name.getD 0 0 + 1 ≤ name.length := by
  induction m using Nat.strong_induction_on with
  | _ m ih =>
    intro it res count hinv name it'
    cases m with
    | zero => simp [getDomainNameFrom]
    | succ m =>
      simp only [getDomainNameFrom]
      by_cases hlt : it < buf.length
      · rw [getU8_of_lt hlt]
        simp only [lowerCaseLoop_eq]
        generalize buf.getD it 0 = x
        split_ifs with hc h0 hp
        · intro h
          simp only [Except.ok.injEq, Prod.mk.injEq] at h
          obtain ⟨rfl, -⟩ := h
          rcases hinv with ⟨rfl, -⟩ | ⟨hne, -, hle⟩
          · refine ⟨by simp, ?_⟩
            show x + 1 ≤ 1
            omega
          · rw [getD_zero_append _ _ hne]
            refine ⟨by simp, ?_⟩
            simp only [List.length_append, List.length_singleton]
            omega
        · cases m with
          | zero => simp
          | succ m' =>
            simp only
            by_cases hlt2 : it + 1 < buf.length
            · rw [getU8_of_lt hlt2]
              simp only
              generalize ((getOffset x <<< 8) + buf.getD (it + 1) 0) % 2 ^ 16 = off
              split_ifs with hoff
              · simp
              · cases hr : getDomainNameFrom buf m' off [] 1 with
                | error e => simp
                | ok r =>
                  obtain ⟨fromPtr, itp⟩ := r
                  have hrec := ih m' (by omega) _ [] 1 (Or.inl ⟨rfl, rfl⟩) fromPtr itp hr
                  intro h
                  simp only [List.dropLast_concat, Except.ok.injEq, Prod.mk.injEq] at h
                  obtain ⟨rfl, -⟩ := h
                  rcases hinv with ⟨rfl, -⟩ | ⟨hne, -, hle⟩
                  · rw [List.nil_append]; exact hrec
                  · rw [getD_zero_append _ _ hne]
                    refine ⟨by simp [hne], ?_⟩
                    simp only [List.length_append]
                    omega
            · rw [getU8_of_le (Nat.le_of_not_lt hlt2)]
              simp
        · apply ih m (by omega) (it + 1) (res ++ [x]) (x + 1)
          right
          rcases hinv with ⟨rfl, -⟩ | ⟨hne, -, hle⟩
          · refine ⟨by simp, by omega, ?_⟩
            show x + 1 ≤ 1 + (x + 1 - 1)
            omega
          · rw [getD_zero_append _ _ hne]
            refine ⟨by simp, by omega, ?_⟩
            simp only [List.length_append, List.length_singleton]
            omega
        · apply ih m (by omega) (it + 1) (res ++ [x]) (count - 1)
          right
          rcases hinv with ⟨-, rfl⟩ | ⟨hne, -, hle⟩
          · exact absurd rfl hc
          · rw [getD_zero_append _ _ hne]
            refine ⟨by simp, by omega, ?_⟩
            simp only [List.length_append, List.length_singleton]
            omega
      · rw [getU8_of_le (Nat.le_of_not_lt hlt)]
        simp

theorem getDomainName_first_label (buf : List Nat) (it : Nat) (name : List Nat) (it' : Nat)
    (h : getDomainName buf it 255 = .ok (name, it')) :
    name ≠ [] ∧ name.getD 0 0 + 1 ≤ name.length :=
  getDomainNameFrom_first_label buf 255 it [] 1 (Or.inl ⟨rfl, rfl⟩) name it' h

end dns_format

/-- C12: for a record whose name, type word PTR, class, ttl and rdlength have been
read, `getResourceRecord` fails when the rdata name cannot be decoded, and otherwise
succeeds exactly when the decoded rdata name without its first label is equal to the
decoded record name, failing with `UnknownFormat` for every other PTR record; the
decoded rdata name always holds its whole first label. -/
theorem C12_ptr_parent_checked (buf : List Nat) (it : Nat) (name : List Nat)
    (i1 i2 i3 i4 i5 c ttl rdl : Nat)
    (h1 : getDomainName buf it 255 = .ok (name, i1))
    (h2 : getU16 buf i1 = .ok (DNSType.PTR, i2))
    (h3 : getU16 buf i2 = .ok (c, i3))
    (h4 : getU32 buf i3 = .ok (ttl, i4))
    (h5 : getU16 buf i4 = .ok (rdl, i5)) :
    (∀ e, getDomainName buf i5 255 = .error e → getResourceRecord buf it = .error e)
    ∧ (∀ dom i6, getDomainName buf i5 255 = .ok (dom, i6) →
        dom.getD 0 0 + 1 ≤ dom.length
        ∧ (withoutFirstLabel dom = name →
            getResourceRecord buf it = .ok
              ({ name := name, rrclass := c &&& 0x7F, ttl := ttl, rrtype := DNSType.PTR,
                 rdlength := dom.length % 2 ^ 16, rdata := dom }, i6))
        ∧ (withoutFirstLabel dom ≠ name →
            getResourceRecord buf it = .error .UnknownFormat)) := by
  constructor
  · intro e h6
    simp [getResourceRecord, h1, h2, h3, h4, h5, h6, bind, Except.bind]
  · intro dom i6 h6
    refine ⟨(getDomainName_first_label buf i5 dom i6 h6).2, fun hp => ?_, fun hp => ?_⟩
    · simp [getResourceRecord, h1, h2, h3, h4, h5, h6, bind, Except.bind, pure, Except.pure,
        ResourceRecord.setPTRAnswer, ResourceRecord.getPtrAnswer, ResourceRecord.new, hp]
    · simp [getResourceRecord, h1, h2, h3, h4, h5, h6, bind, Except.bind, pure, Except.pure,
        ResourceRecord.setPTRAnswer, ResourceRecord.getPtrAnswer, ResourceRecord.new, hp,
        throw, throwThe, MonadExceptOf.throw]

/-- C12 at two PTR records for the name `b.`: with rdata `a.b.` the record is
returned, with rdata `a.c.` it is refused. -/
theorem C12_ptr_parent_checked_witness :
    getResourceRecord [1, 0x62, 0, 0, 12, 0, 1, 0, 0, 0, 9, 0, 5, 1, 0x61, 1, 0x62, 0] 0
      = .ok (⟨[1, 0x62, 0], 1, 9, 12, 5, [1, 0x61, 1, 0x62, 0]⟩, 18)
    ∧ getResourceRecord [1, 0x62, 0, 0, 12, 0, 1, 0, 0, 0, 9, 0, 5, 1, 0x61, 1, 0x63, 0] 0
      = .error .UnknownFormat :=
  ⟨((C12_ptr_parent_checked [1, 0x62, 0, 0, 12, 0, 1, 0, 0, 0, 9, 0, 5, 1, 0x61, 1, 0x62, 0]
      0 [1, 0x62, 0] 3 5 7 11 13 1 9 5 (by decide!) (by decide!) (by decide!) (by decide!)
      (by decide!)).2 [1, 0x61, 1, 0x62, 0] 18 (by decide!)).2.1 (by decide!),
   ((C12_ptr_parent_checked [1, 0x62, 0, 0, 12, 0, 1, 0, 0, 0, 9, 0, 5, 1, 0x61, 1, 0x63, 0]
      0 [1, 0x62, 0] 3 5 7 11 13 1 9 5 (by decide!) (by decide!) (by decide!) (by decide!)
      (by decide!)).2 [1, 0x61, 1, 0x63, 0] 18 (by decide!)).2.2 (by decide!)⟩

/-! ## Rolling window -/

theorem paddedWindow_length (S : List Int) : (paddedWindow S).length = 10 := by
  simp only [paddedWindow, List.length_drop, List.length_append, List.length_replicate]
  omega

theorem paddedWindow_snoc (S : List Int) (s : Int) :
    paddedWindow (S ++ [s]) = (paddedWindow S).drop 1 ++ [s] := by
  unfold paddedWindow
  rw [List.drop_drop, ← List.append_assoc, List.length_append, List.length_singleton,
    List.drop_append_of_le_length (by
      simp only [List.length_append, List.length_replicate]; omega)]

theorem paddedWindow_eq (S : List Int) :
    paddedWindow S = List.replicate (10 - S.length) 0 ++ S.drop (S.length - 10) := by
  unfold paddedWindow
  rw [List.drop_append_eq_append_drop, List.drop_replicate, List.length_replicate]

theorem sum_drop_one (L : List Int) : (L.drop 1).sum = L.sum - L.getD 0 0 := by
  cases L with
  | nil => simp
  | cons a t => simp

theorem getD_replicate_zero (n i : Nat) : (List.replicate n (0 : Int)).getD i 0 = 0 := by
  rw [List.getD_eq_getElem?_getD, List.getElem?_replicate]
  split <;> rfl

theorem getD_drop_one_append (L : List Int) (s : Int) (j : Nat) (hL : L.length = 10)
    (hj : j < 10) :
    (L.drop 1 ++ [s]).getD j 0 = if j = 9 then s else L.getD (j + 1) 0 := by
  have hdl : (L.drop 1).length = 9 := by rw [List.length_drop, hL]
  simp only [List.getD_eq_getElem?_getD]
  by_cases h9 : j = 9
  · subst h9
    rw [List.getElem?_append_right (by omega), hdl]
    simp
  · simp only [h9, if_false]
    rw [List.getElem?_append_left (by omega), List.getElem?_drop, Nat.add_comm 1 j]

namespace TimeMemory

theorem Holds_new : TimeMemory.new.Holds [] := by
  have hp : paddedWindow [] = List.replicate 10 0 := rfl
  refine ⟨rfl, rfl, List.length_replicate _ _, ?_, ?_⟩
  · rw [hp]; rfl
  · intro j hj
    rw [hp]
    show (List.replicate 10 (0 : Int)).getD _ 0 = _
    rw [getD_replicate_zero, getD_replicate_zero]

theorem Holds_push (tMem : TimeMemory) (S : List Int) (s : Int) (h : tMem.Holds S) :
    (tMem.push s).Holds (S ++ [s]) := by
  obtain ⟨hidx, hcnt, hlen, hsum, hring⟩ := h
  have hpl := paddedWindow_length S
  refine ⟨?_, ?_, ?_, ?_, ?_⟩
  · simp only [push, hidx, List.length_append, List.length_singleton]; omega
  · simp only [push, hcnt, List.length_append, List.length_singleton]; omega
  · simp only [push, List.length_set, hlen]
  · have h0 := hring 0 (by decide)
    simp only [Nat.add_zero] at h0
    simp only [push]
    rw [paddedWindow_snoc, List.sum_append, sum_drop_one, h0, hsum]
    simp
  · intro j hj
    simp only [push]
    rw [paddedWindow_snoc, getD_drop_one_append _ _ _ hpl hj]
    have hIdx : (tMem.lastIdx + 1) % 10 < tMem.latencies.length := by
      rw [hlen]; exact Nat.mod_lt _ (by decide)
    by_cases h9 : j = 9
    · subst h9
      have e : ((tMem.lastIdx + 1) % 10 + 1 + 9) % 10 = (tMem.lastIdx + 1) % 10 := by omega
      simp only [if_true, e, List.getD_eq_getElem?_getD]
      rw [List.getElem?_set_self hIdx]
      rfl
    · have hne : (tMem.lastIdx + 1) % 10 ≠ ((tMem.lastIdx + 1) % 10 + 1 + j) % 10 := by omega
      have e : ((tMem.lastIdx + 1) % 10 + 1 + j) % 10 = (tMem.lastIdx + 1 + (j + 1)) % 10 := by
        omega
      have hr := hring (j + 1) (by omega)
      simp only [List.getD_eq_getElem?_getD] at hr
      simp only [h9, if_false, List.getD_eq_getElem?_getD]
      rw [List.getElem?_set_ne hne, e]
      exact hr

theorem map_getD_range (L : List Int) :
    (List.range L.length).map (fun j => L.getD j 0) = L := by
  apply List.ext_getElem
  · simp
  · intro i h1 h2
    simp [List.getD_eq_getElem?_getD, List.getElem?_eq_getElem h2]

/-- A window that holds the samples `S` has as its contents the last
`min S.length 10` of them, and their sum as its `sum`. -/
theorem held_of_Holds (tMem : TimeMemory) (S : List Int) (h : tMem.Holds S) :
    tMem.held = S.drop (S.length - min S.length 10)
    ∧ tMem.sum = (S.drop (S.length - min S.length 10)).sum := by
  obtain ⟨hidx, hcnt, hlen, hsum, hring⟩ := h
  have hd : S.length - min S.length 10 = S.length - 10 := by omega
  have hdl : (S.drop (S.length - 10)).length = min S.length 10 := by
    simp only [List.length_drop]; omega
  constructor
  · rw [hd]
    have key : tMem.held
        = (List.range (S.drop (S.length - 10)).length).map
            (fun j => (S.drop (S.length - 10)).getD j 0) := by
      unfold held
      rw [hdl, hcnt]
      apply List.map_congr_left
      intro j hj
      have hj' : j < min S.length 10 := List.mem_range.mp hj
      have e : (tMem.lastIdx + 10 - min S.length 10 + 1 + j) % 10
          = (tMem.lastIdx + 1 + (10 - min S.length 10 + j)) % 10 := by
        congr 1; omega
      rw [e, hring _ (by omega), paddedWindow_eq]
      have hrl : (List.replicate (10 - S.length) (0 : Int)).length = 10 - S.length :=
        List.length_replicate _ _
      simp only [List.getD_eq_getElem?_getD]
      rw [List.getElem?_append_right (by rw [hrl]; omega), hrl]
      congr 2
      omega
    rw [key, map_getD_range]
  · rw [hsum, paddedWindow_eq, hd]
    simp

end TimeMemory

namespace Host

theorem updateExpired_tcpExpiration (h : Host) (t : Int) :
    (h.updateExpired t).tcpExpiration = h.tcpExpiration := by
  unfold updateExpired
  simp only
  split_ifs <;> rfl

theorem updateExpired_udpExpiration (h : Host) (t : Int) :
    (h.updateExpired t).udpExpiration = h.udpExpiration := by
  unfold updateExpired
  simp only
  split_ifs <;> rfl

theorem updateExpired_tcpExpired (h : Host) (t : Int) :
    (h.updateExpired t).tcpExpired = decide (t > h.tcpExpiration) := by
  unfold updateExpired
  simp only
  split_ifs <;> simp_all

theorem updateExpired_udpExpired (h : Host) (t : Int) :
    (h.updateExpired t).udpExpired = decide (t > h.udpExpiration) := by
  unfold updateExpired
  simp only
  split_ifs <;> simp_all

theorem updateExpired_tcpTime (h : Host) (t : Int) :
    (h.updateExpired t).tcpTime = if t > h.tcpExpiration then TimeMemory.new else h.tcpTime := by
  unfold updateExpired
  simp only
  split_ifs <;> rfl

theorem updateExpired_udpTime (h : Host) (t : Int) :
    (h.updateExpired t).udpTime = if t > h.udpExpiration then TimeMemory.new else h.udpTime := by
  unfold updateExpired
  simp only
  split_ifs <;> rfl

theorem updateExpired_icmpTime (h : Host) (t : Int) :
    (h.updateExpired t).icmpTime
      = if t > h.udpExpiration then TimeMemory.new else h.icmpTime := by
  unfold updateExpired
  simp only
  split_ifs <;> rfl

/-- The refresh leaves the window of a protocol whose deadline has not passed. -/
theorem updateExpired_getForProtocol (h : Host) (p : ProtocolType) (t : Int)
    (ht : t ≤ h.deadline p) :
    (h.updateExpired t).getForProtocol p = h.getForProtocol p := by
  cases p
  · have : ¬ t > h.udpExpiration := by simpa [deadline] using ht
    simp [getForProtocol, updateExpired_icmpTime, this]
  · have : ¬ t > h.tcpExpiration := by simpa [deadline] using ht
    simp [getForProtocol, updateExpired_tcpTime, this]
  · have : ¬ t > h.udpExpiration := by simpa [deadline] using ht
    simp [getForProtocol, updateExpired_udpTime, this]

theorem updateExpired_deadline (h : Host) (p : ProtocolType) (t : Int) :
    (h.updateExpired t).deadline p = h.deadline p := by
  unfold deadline
  rw [updateExpired_tcpExpiration, updateExpired_udpExpiration]

theorem setForProtocol_deadline (h : Host) (p q : ProtocolType) (tm : TimeMemory) :
    (h.setForProtocol p tm).deadline q = h.deadline q := by
  cases p <;> rfl

theorem getForProtocol_setForProtocol (h : Host) (p : ProtocolType) (tm : TimeMemory) :
    (h.setForProtocol p tm).getForProtocol p = tm := by
  cases p <;> rfl

theorem addLatency_deadline (h : Host) (p q : ProtocolType) (s t : Int) :
    (h.addLatency p s t).deadline q = h.deadline q := by
  unfold addLatency
  simp only
  rw [updateExpired_deadline, setForProtocol_deadline]

/-- A sample added while the protocol is unexpired is pushed on its window. -/
theorem addLatency_getForProtocol (h : Host) (p : ProtocolType) (s t : Int)
    (ht : t ≤ h.deadline p) :
    (h.addLatency p s t).getForProtocol p = (h.getForProtocol p).push s := by
  unfold addLatency
  simp only
  rw [updateExpired_getForProtocol _ _ _ (by rw [setForProtocol_deadline]; exact ht),
    getForProtocol_setForProtocol]

theorem addLatencies_Holds (p : ProtocolType) (pushes : List (Int × Int)) :
    ∀ (h : Host) (S : List Int), (h.getForProtocol p).Holds S →
      (∀ x ∈ pushes, x.2 ≤ h.deadline p) →
      ((h.addLatencies p pushes).getForProtocol p).Holds (S ++ pushes.map (fun x => x.1)) := by
  induction pushes with
  | nil => intro h S hS _; simpa [addLatencies] using hS
  | cons x xs ih =>
    intro h S hS hal
    have hx := hal x (List.mem_cons_self _ _)
    have hstep : ((h.addLatency p x.1 x.2).getForProtocol p).Holds (S ++ [x.1]) := by
      rw [addLatency_getForProtocol _ _ _ _ hx]
      exact TimeMemory.Holds_push _ _ _ hS
    have := ih (h.addLatency p x.1 x.2) (S ++ [x.1]) hstep (by
      intro y hy
      rw [addLatency_deadline]
      exact hal y (List.mem_cons_of_mem _ hy))
    simpa [addLatencies, List.append_assoc] using this

end Host

/-- C15: when `k ≥ 1` samples are pushed with `Host::addLatency` on an empty window of
one protocol, each at a time at which the protocol's deadline has not passed, the
window holds the last `min k 10` of them in order, its count is `min k 10`, and
`getLatency` returns their sum divided by `min k 10`, the division truncating. -/
theorem C15_rolling_window (h : Host) (p : ProtocolType) (pushes : List (Int × Int))
    (hfresh : h.getForProtocol p = TimeMemory.new)
    (halive : ∀ x ∈ pushes, x.2 ≤ h.deadline p)
    (hk : 1 ≤ pushes.length) :
    ((h.addLatencies p pushes).getForProtocol p).held
        = (pushes.map (fun x => x.1)).drop (pushes.length - min pushes.length 10)
    ∧ ((h.addLatencies p pushes).getForProtocol p).count = min pushes.length 10
    ∧ (h.addLatencies p pushes).getLatency p
        = .ok (Int.tdiv
            ((pushes.map (fun x => x.1)).drop (pushes.length - min pushes.length 10)).sum
            (min pushes.length 10 : Nat)) := by
  have hH := Host.addLatencies_Holds p pushes h [] (by rw [hfresh]; exact TimeMemory.Holds_new)
    halive
  rw [List.nil_append] at hH
  obtain ⟨hheld, hsum⟩ := TimeMemory.held_of_Holds _ _ hH
  have hcnt : ((h.addLatencies p pushes).getForProtocol p).count = min pushes.length 10 := by
    have := hH.2.1
    simpa using this
  simp only [List.length_map] at hheld hsum
  refine ⟨hheld, hcnt, ?_⟩
  have hne : ((h.addLatencies p pushes).getForProtocol p).count ≠ 0 := by
    rw [hcnt]; omega
  simp only [Host.getLatency, hne, ne_eq, not_false_eq_true, if_true]
  rw [hsum, hcnt]

/-- C15 at twelve samples 1, 2, ..., 12 pushed on the UDP window of a host whose UDP
deadline is 100: the window holds 3, ..., 12 and the latency is 75 / 10 = 7. -/
theorem C15_rolling_window_witness :
    (({ Host.new with udpExpiration := 100 }).addLatencies .UDP
        [(1, 1), (2, 2), (3, 3), (4, 4), (5, 5), (6, 6), (7, 7), (8, 8), (9, 9), (10, 10),
          (11, 11), (12, 12)]).getLatency .UDP = .ok 7 := by
  have h := (C15_rolling_window { Host.new with udpExpiration := 100 } .UDP
    [(1, 1), (2, 2), (3, 3), (4, 4), (5, 5), (6, 6), (7, 7), (8, 8), (9, 9), (10, 10),
      (11, 11), (12, 12)] rfl (by decide) (by decide)).2.2
  rw [h]
  decide

namespace LatencyDatabase

theorem find_put_self (data : Data) (a : Nat) (h : Host) : find (put data a h) a = some h := by
  induction data with
  | nil => simp [put, find]
  | cons e rest ih =>
    obtain ⟨b, x⟩ := e
    unfold put
    by_cases h1 : b = a
    · simp [h1, find]
    · by_cases h2 : a < b
      · simp [h1, h2, find]
      · simp [h1, h2, find, ih]

theorem find_put_ne (data : Data) (a b : Nat) (h : Host) (hne : b ≠ a) :
    find (put data a h) b = find data b := by
  induction data with
  | nil => simp [put, find, Ne.symm hne]
  | cons e rest ih =>
    obtain ⟨c, x⟩ := e
    unfold put
    by_cases h1 : c = a
    · subst h1
      simp [find, Ne.symm hne]
    · by_cases h2 : a < c
      · simp [h1, h2, find, Ne.symm hne]
      · by_cases h3 : c = b
        · subst h3
          simp [h1, h2, find]
        · simp [h1, h2, find, h3, ih]

theorem mem_put (data : Data) (a : Nat) (h : Host) (e : Nat × Host)
    (he : e ∈ put data a h) : e = (a, h) ∨ e ∈ data := by
  induction data with
  | nil => simpa [put] using he
  | cons d rest ih =>
    obtain ⟨c, x⟩ := d
    unfold put at he
    by_cases h1 : c = a
    · simp only [h1, if_true, List.mem_cons] at he
      rcases he with he | he
      · exact Or.inl he
      · exact Or.inr (List.mem_cons_of_mem _ he)
    · by_cases h2 : a < c
      · simp only [h1, h2, if_true, if_false, List.mem_cons] at he
        rcases he with he | he | he
        · exact Or.inl he
        · exact Or.inr (by rw [he]; exact List.mem_cons_self _ _)
        · exact Or.inr (List.mem_cons_of_mem _ he)
      · simp only [h1, h2, if_false, List.mem_cons] at he
        rcases he with he | he
        · exact Or.inr (by rw [he]; exact List.mem_cons_self _ _)
        · rcases ih he with h' | h'
          · exact Or.inl h'
          · exact Or.inr (List.mem_cons_of_mem _ h')

theorem mem_erase (data : Data) (a : Nat) (e : Nat × Host) (he : e ∈ erase data a) :
    e ∈ data ∧ e.1 ≠ a := by
  simpa [erase] using he

theorem find_eq_none_iff (data : Data) (a : Nat) :
    find data a = none ↔ ∀ e ∈ data, e.1 ≠ a := by
  induction data with
  | nil => simp [find]
  | cons d rest ih =>
    obtain ⟨c, x⟩ := d
    by_cases h1 : c = a
    · simp [find, h1]
    · simp [find, h1, ih]

theorem find_some_mem (data : Data) (a : Nat) (h : Host) (hf : find data a = some h) :
    (a, h) ∈ data := by
  induction data with
  | nil => simp [find] at hf
  | cons d rest ih =>
    obtain ⟨c, x⟩ := d
    by_cases h1 : c = a
    · simp only [find, h1, if_true, Option.some.injEq] at hf
      subst h1; subst hf
      exact List.mem_cons_self _ _
    · simp only [find, h1, if_false] at hf
      exact List.mem_cons_of_mem _ (ih hf)

theorem find_erase_self (data : Data) (a : Nat) : find (erase data a) a = none := by
  rw [find_eq_none_iff]
  intro e he
  exact (mem_erase data a e he).2

theorem find_erase_ne (data : Data) (a b : Nat) (hne : b ≠ a) :
    find (erase data a) b = find data b := by
  induction data with
  | nil => rfl
  | cons d rest ih =>
    obtain ⟨c, x⟩ := d
    by_cases h1 : c = a
    · have hcb : ¬ c = b := fun e => hne (e.symm.trans h1)
      have : erase ((c, x) :: rest) a = erase rest a := by simp [erase, h1]
      rw [this, ih]
      simp [find, hcb]
    · have : erase ((c, x) :: rest) a = (c, x) :: erase rest a := by simp [erase, h1]
      rw [this]
      by_cases h3 : c = b
      · simp [find, h3]
      · simp only [find, h3, if_false]
        exact ih

end LatencyDatabase

namespace Host

theorem isAnyProtocolAvailable_updateExpired (h : Host) (t : Int) :
    (h.updateExpired t).isAnyProtocolAvailable
      = (decide (t ≤ h.tcpExpiration) || decide (t ≤ h.udpExpiration)) := by
  unfold isAnyProtocolAvailable
  rw [updateExpired_tcpExpired, updateExpired_udpExpired]
  by_cases h1 : t > h.tcpExpiration <;> by_cases h2 : t > h.udpExpiration <;>
    simp [h1, h2, Int.not_le.mpr, Int.not_lt.mp]

theorem isProtocolAvailable_updateExpired (h : Host) (p : ProtocolType) (t : Int) :
    (h.updateExpired t).isProtocolAvailable p = decide (t ≤ h.deadline p) := by
  unfold isProtocolAvailable deadline
  rw [updateExpired_tcpExpired, updateExpired_udpExpired]
  by_cases hp : p = ProtocolType.TCP
  · by_cases h1 : t > h.tcpExpiration
    · simp [hp, h1]
    · simp [hp, h1]; omega
  · by_cases h2 : t > h.udpExpiration
    · simp [hp, h2]
    · simp [hp, h2]; omega

/-- The refresh resets the window of a protocol whose deadline has passed. -/
theorem updateExpired_getForProtocol_expired (h : Host) (p : ProtocolType) (t : Int)
    (ht : t > h.deadline p) :
    (h.updateExpired t).getForProtocol p = TimeMemory.new := by
  cases p
  · have : t > h.udpExpiration := by simpa [deadline] using ht
    simp [getForProtocol, updateExpired_icmpTime, this]
  · have : t > h.tcpExpiration := by simpa [deadline] using ht
    simp [getForProtocol, updateExpired_tcpTime, this]
  · have : t > h.udpExpiration := by simpa [deadline] using ht
    simp [getForProtocol, updateExpired_udpTime, this]

theorem addLatency_tcpExpiration (h : Host) (p : ProtocolType) (s t : Int) :
    (h.addLatency p s t).tcpExpiration = h.tcpExpiration := by
  unfold addLatency
  simp only
  rw [updateExpired_tcpExpiration]
  cases p <;> rfl

theorem addLatency_udpExpiration (h : Host) (p : ProtocolType) (s t : Int) :
    (h.addLatency p s t).udpExpiration = h.udpExpiration := by
  unfold addLatency
  simp only
  rw [updateExpired_udpExpiration]
  cases p <;> rfl

end Host

open LatencyDatabase

/-- C19: when `P` has no entry, or both deadlines of its entry have passed at the
first clock reading of the call, `setConnectionAvailable(p, P, ttl)` for `p` UDP or TCP
leaves `P` with three empty windows, the deadline of `p` equal to the reading `tNow`
plus `ttl` and the other deadline at `time_point_t::min()`; `p` is then available
when the last reading of the call is not after the new deadline, and the other of
UDP and TCP is not available. -/
theorem C19_first_sight_rebuilds_host (data : Data) (P : Nat) (ttl tUpdate tNow tSet : Int)
    (hstart : find data P = none
      ∨ ∃ h, find data P = some h ∧ tUpdate > h.tcpExpiration ∧ tUpdate > h.udpExpiration)
    (hclock : time_point_min < tSet) :
    (∃ h', find (setConnectionAvailable data .UDP P ttl tUpdate tNow tSet) P = some h'
      ∧ h'.udpTime = TimeMemory.new ∧ h'.tcpTime = TimeMemory.new
      ∧ h'.icmpTime = TimeMemory.new
      ∧ h'.udpExpiration = tNow + ttl ∧ h'.tcpExpiration = time_point_min
      ∧ (tSet ≤ tNow + ttl → h'.isProtocolAvailable .UDP = true)
      ∧ h'.isProtocolAvailable .TCP = false)
    ∧ (∃ h', find (setConnectionAvailable data .TCP P ttl tUpdate tNow tSet) P = some h'
      ∧ h'.udpTime = TimeMemory.new ∧ h'.tcpTime = TimeMemory.new
      ∧ h'.icmpTime = TimeMemory.new
      ∧ h'.tcpExpiration = tNow + ttl ∧ h'.udpExpiration = time_point_min
      ∧ (tSet ≤ tNow + ttl → h'.isProtocolAvailable .TCP = true)
      ∧ h'.isProtocolAvailable .UDP = false) := by
  -- the host the setter is applied to is a rebuilt host with empty windows
  have hbase : ∃ b : Host,
      (let host := ((find data P).getD Host.new).updateExpired tUpdate
       if !host.isAnyProtocolAvailable then Host.new else host) = b
      ∧ b.udpTime = TimeMemory.new ∧ b.tcpTime = TimeMemory.new ∧ b.icmpTime = TimeMemory.new
      ∧ b.udpExpiration = time_point_min ∧ b.tcpExpiration = time_point_min := by
    refine ⟨_, rfl, ?_⟩
    rcases hstart with hn | ⟨h, hs, h1, h2⟩
    · simp only [hn, Option.getD_none]
      by_cases hav : (Host.new.updateExpired tUpdate).isAnyProtocolAvailable
      · simp only [hav, Bool.not_true, Bool.false_eq_true, if_false]
        refine ⟨?_, ?_, ?_, ?_, ?_⟩
        · rw [Host.updateExpired_udpTime]; split_ifs <;> rfl
        · rw [Host.updateExpired_tcpTime]; split_ifs <;> rfl
        · rw [Host.updateExpired_icmpTime]; split_ifs <;> rfl
        · rw [Host.updateExpired_udpExpiration]; rfl
        · rw [Host.updateExpired_tcpExpiration]; rfl
      · simp only [hav, Bool.not_false, if_true]
        exact ⟨rfl, rfl, rfl, rfl, rfl⟩
    · have hav : (h.updateExpired tUpdate).isAnyProtocolAvailable = false := by
        rw [Host.isAnyProtocolAvailable_updateExpired]
        simp [Int.not_le.mpr h1, Int.not_le.mpr h2]
      simp only [hs, Option.getD_some, hav, Bool.not_false, if_true]
      exact ⟨rfl, rfl, rfl, rfl, rfl⟩
  obtain ⟨b, hb, b1, b2, b3, b4, b5⟩ := hbase
  simp only at hb
  constructor
  · refine ⟨(b.setUDPExpiration (tNow + ttl) tSet), ?_, ?_, ?_, ?_, ?_, ?_, ?_, ?_⟩
    · simp only [setConnectionAvailable, hb]
      simp [find_put_self]
    · simp only [Host.setUDPExpiration, Host.updateExpired_udpTime, b1]; split_ifs <;> rfl
    · simp only [Host.setUDPExpiration, Host.updateExpired_tcpTime, b2]; split_ifs <;> rfl
    · simp only [Host.setUDPExpiration, Host.updateExpired_icmpTime, b3]; split_ifs <;> rfl
    · simp only [Host.setUDPExpiration, Host.updateExpired_udpExpiration]
    · simp only [Host.setUDPExpiration, Host.updateExpired_tcpExpiration, b5]
    · intro hle
      simp only [Host.setUDPExpiration, Host.isProtocolAvailable_updateExpired, Host.deadline]
      simpa using hle
    · simp only [Host.setUDPExpiration, Host.isProtocolAvailable_updateExpired, Host.deadline,
        b5]
      simpa using hclock
  · refine ⟨(b.setTCPExpiration (tNow + ttl) tSet), ?_, ?_, ?_, ?_, ?_, ?_, ?_, ?_⟩
    · simp only [setConnectionAvailable, hb]
      simp [find_put_self]
    · simp only [Host.setTCPExpiration, Host.updateExpired_udpTime, b1]; split_ifs <;> rfl
    · simp only [Host.setTCPExpiration, Host.updateExpired_tcpTime, b2]; split_ifs <;> rfl
    · simp only [Host.setTCPExpiration, Host.updateExpired_icmpTime, b3]; split_ifs <;> rfl
    · simp only [Host.setTCPExpiration, Host.updateExpired_tcpExpiration]
    · simp only [Host.setTCPExpiration, Host.updateExpired_udpExpiration, b4]
    · intro hle
      simp only [Host.setTCPExpiration, Host.isProtocolAvailable_updateExpired, Host.deadline]
      simpa using hle
    · simp only [Host.setTCPExpiration, Host.isProtocolAvailable_updateExpired, Host.deadline,
        b4]
      simpa using hclock

open LatencyDatabase

/-- C19 at an empty map: peer 1 announced over UDP with ttl 5 at time 0. -/
theorem C19_first_sight_rebuilds_host_witness :
    ∃ h', find (setConnectionAvailable [] .UDP 1 5 0 0 0) 1 = some h'
      ∧ h'.udpTime = TimeMemory.new ∧ h'.tcpTime = TimeMemory.new
      ∧ h'.icmpTime = TimeMemory.new
      ∧ h'.udpExpiration = 0 + 5 ∧ h'.tcpExpiration = time_point_min
      ∧ ((0 : Int) ≤ 0 + 5 → h'.isProtocolAvailable .UDP = true)
      ∧ h'.isProtocolAvailable .TCP = false :=
  (C19_first_sight_rebuilds_host [] 1 5 0 0 0 (Or.inl rfl) (by decide)).1

/-- C17: for a peer `P` with an entry whose UDP deadline has not passed at the clock
readings of the call, `setConnectionAvailable(TCP, P, ttl)` leaves the UDP window, the
ICMP window and the UDP deadline of `P` as they were and sets the TCP deadline to the
reading `tNow` plus `ttl`; the entries of all other peers are unchanged. -/
theorem C17_tcp_leaves_udp (data : Data) (P : Nat) (h : Host) (ttl tUpdate tNow tSet : Int)
    (hfind : find data P = some h)
    (h1 : tUpdate ≤ h.udpExpiration) (h3 : tSet ≤ h.udpExpiration) :
    (∃ h', find (setConnectionAvailable data .TCP P ttl tUpdate tNow tSet) P = some h'
      ∧ h'.udpTime = h.udpTime ∧ h'.icmpTime = h.icmpTime
      ∧ h'.udpExpiration = h.udpExpiration ∧ h'.tcpExpiration = tNow + ttl)
    ∧ (∀ Q, Q ≠ P →
        find (setConnectionAvailable data .TCP P ttl tUpdate tNow tSet) Q = find data Q) := by
  have hav : (h.updateExpired tUpdate).isAnyProtocolAvailable = true := by
    rw [Host.isAnyProtocolAvailable_updateExpired]
    simp [h1]
  have n1 : ¬ tUpdate > h.udpExpiration := Int.not_lt.mpr h1
  have n3 : ¬ tSet > h.udpExpiration := Int.not_lt.mpr h3
  have hset : setConnectionAvailable data .TCP P ttl tUpdate tNow tSet
      = put data P ((h.updateExpired tUpdate).setTCPExpiration (tNow + ttl) tSet) := by
    simp [setConnectionAvailable, hfind, hav]
  rw [hset]
  constructor
  · refine ⟨_, find_put_self _ _ _, ?_, ?_, ?_, ?_⟩
    · simp only [Host.setTCPExpiration, Host.updateExpired_udpTime,
        Host.updateExpired_udpExpiration, n1, n3, if_false]
    · simp only [Host.setTCPExpiration, Host.updateExpired_icmpTime,
        Host.updateExpired_udpExpiration, n1, n3, if_false]
    · simp only [Host.setTCPExpiration, Host.updateExpired_udpExpiration]
    · simp only [Host.setTCPExpiration, Host.updateExpired_tcpExpiration]
  · intro Q hQ
    exact find_put_ne _ _ _ _ hQ

/-- C17 at a map with peer 1, whose UDP deadline is 100: announcing it over TCP at
time 50 with ttl 5 keeps its UDP deadline and sets the TCP deadline to 55. -/
theorem C17_tcp_leaves_udp_witness :
    ∃ h', find (setConnectionAvailable [(1, { Host.new with udpExpiration := 100 })]
          .TCP 1 5 50 50 50) 1 = some h'
      ∧ h'.udpTime = ({ Host.new with udpExpiration := 100 } : Host).udpTime
      ∧ h'.icmpTime = ({ Host.new with udpExpiration := 100 } : Host).icmpTime
      ∧ h'.udpExpiration = ({ Host.new with udpExpiration := 100 } : Host).udpExpiration
      ∧ h'.tcpExpiration = 50 + 5 :=
  (C17_tcp_leaves_udp [(1, { Host.new with udpExpiration := 100 })] 1
    { Host.new with udpExpiration := 100 } 5 50 50 50 rfl (by decide) (by decide)).1

/-- C18 (amended): `addLatency(p, P, ms)` removes the entry of `P` when, at the first
clock reading, `P` has no entry or both deadlines of its entry have passed; when some
protocol is available but `p` is not, the entry of `P` becomes the refreshed host
without the sample: each window whose deadline has not passed is as it was and each
window whose deadline has passed is empty; the entries of other peers are unchanged.
Here the host of `P` is its entry, or a new `Host` when it has none. -/
theorem C18_addLatency_unavailable (data : Data) (p : ProtocolType) (P : Nat)
    (ms tUpdate tAdd : Int) :
    (tUpdate > ((find data P).getD Host.new).tcpExpiration
        ∧ tUpdate > ((find data P).getD Host.new).udpExpiration →
      find (addLatency data p P ms tUpdate tAdd) P = none)
    ∧ ((tUpdate ≤ ((find data P).getD Host.new).tcpExpiration
          ∨ tUpdate ≤ ((find data P).getD Host.new).udpExpiration)
        ∧ tUpdate > ((find data P).getD Host.new).deadline p →
      ∃ h', find (addLatency data p P ms tUpdate tAdd) P = some h'
        ∧ ∀ q, h'.getForProtocol q
            = if tUpdate > ((find data P).getD Host.new).deadline q then TimeMemory.new
              else ((find data P).getD Host.new).getForProtocol q)
    ∧ (∀ Q, Q ≠ P → find (addLatency data p P ms tUpdate tAdd) Q = find data Q) := by
  obtain ⟨h0, hh0⟩ : ∃ h0, (find data P).getD Host.new = h0 := ⟨_, rfl⟩
  rw [hh0]
  refine ⟨?_, ?_, ?_⟩
  · rintro ⟨h1, h2⟩
    have hav : (h0.updateExpired tUpdate).isAnyProtocolAvailable = false := by
      rw [Host.isAnyProtocolAvailable_updateExpired]
      simp [Int.not_le.mpr h1, Int.not_le.mpr h2]
    simp only [addLatency, hh0, hav, Bool.not_false, if_true]
    exact find_erase_self _ _
  · rintro ⟨hany, hp⟩
    have hav : (h0.updateExpired tUpdate).isAnyProtocolAvailable = true := by
      rw [Host.isAnyProtocolAvailable_updateExpired]
      rcases hany with h | h
      · simp [h]
      · simp [h]
    have hnp : (h0.updateExpired tUpdate).isProtocolAvailable p = false := by
      rw [Host.isProtocolAvailable_updateExpired]
      simpa using hp
    simp only [addLatency, hh0, hav, hnp, Bool.not_true, Bool.not_false, Bool.false_eq_true,
      if_true, if_false]
    refine ⟨_, find_put_self _ _ _, fun q => ?_⟩
    by_cases hq : tUpdate > h0.deadline q
    · simp only [hq, if_true]
      exact Host.updateExpired_getForProtocol_expired _ _ _ hq
    · simp only [hq, if_false]
      exact Host.updateExpired_getForProtocol _ _ _ (Int.not_lt.mp hq)
  · intro Q hQ
    simp only [addLatency, hh0]
    split_ifs
    · exact find_erase_ne _ _ _ hQ
    · exact find_put_ne _ _ _ _ hQ
    · exact find_put_ne _ _ _ _ hQ

/-- C18 (amended) at a map with peer 1, whose TCP deadline is 10 and UDP deadline 100
and whose TCP window holds the sample 5: a TCP sample offered at time 50 is not
pushed, and the entry is left with an empty TCP window. -/
theorem C18_addLatency_unavailable_witness :
    ∃ h', find (addLatency
          [(1, { Host.new with tcpExpiration := 10, udpExpiration := 100,
                               tcpTime := TimeMemory.new.push 5 })] .TCP 1 7 50 50) 1 = some h'
      ∧ ∀ q, h'.getForProtocol q
          = if (50 : Int) > ((find
                [(1, { Host.new with tcpExpiration := 10, udpExpiration := 100,
                                     tcpTime := TimeMemory.new.push 5 })] 1).getD
                Host.new).deadline q
            then TimeMemory.new
            else ((find
                [(1, { Host.new with tcpExpiration := 10, udpExpiration := 100,
                                     tcpTime := TimeMemory.new.push 5 })] 1).getD
                Host.new).getForProtocol q :=
  (C18_addLatency_unavailable
    [(1, { Host.new with tcpExpiration := 10, udpExpiration := 100,
                         tcpTime := TimeMemory.new.push 5 })] .TCP 1 7 50 50).2.1
    ⟨Or.inr (by decide), by decide⟩

/-- C18 as stated fails: peer 1 has TCP deadline 10, UDP deadline 100 and a TCP window
holding the sample 5; at time 50 TCP is not available, yet `addLatency(TCP, 1, 7)`
changes the TCP window, from one sample to none, because the call first refreshes
the host and the refresh resets the window of every expired protocol. -/
theorem C18_counterexample_window_reset :
    (find [(1, { Host.new with tcpExpiration := 10, udpExpiration := 100,
                               tcpTime := TimeMemory.new.push 5,
                               tcpExpired := false, udpExpired := false })] 1).map
        (fun h => (h.tcpTime.count, h.tcpTime.held)) = some (1, [5])
    ∧ (((find [(1, { Host.new with tcpExpiration := 10, udpExpiration := 100,
                                   tcpTime := TimeMemory.new.push 5,
                                   tcpExpired := false, udpExpired := false })] 1).getD
          Host.new).updateExpired 50).isProtocolAvailable .TCP = false
    ∧ (find (addLatency
          [(1, { Host.new with tcpExpiration := 10, udpExpiration := 100,
                               tcpTime := TimeMemory.new.push 5,
                               tcpExpired := false, udpExpired := false })]
          .TCP 1 7 50 50) 1).map
        (fun h => (h.tcpTime.count, h.tcpTime.held)) = some (0, []) := by
  refine ⟨by decide!, by decide!, by decide!⟩

open LatencyDatabase

namespace LatencyDatabase

/-- Every pair `getAll` returns or keeps is an entry of the map refreshed at one of
the clock readings and found available. -/
theorem getAllFrom_mem (times : Nat → Int) (data : Data) :
    ∀ (i : Nat) (e : Nat × Host),
      (e ∈ (getAllFrom times i data).1 ∨ e ∈ (getAllFrom times i data).2) →
      ∃ h j, (e.1, h) ∈ data ∧ e.2 = h.updateExpired (times j)
        ∧ (h.updateExpired (times j)).isAnyProtocolAvailable = true := by
  induction data with
  | nil => intro i e he; simp [getAllFrom] at he
  | cons d rest ih =>
    obtain ⟨a, h⟩ := d
    intro i e he
    simp only [getAllFrom] at he
    by_cases hav : (h.updateExpired (times i)).isAnyProtocolAvailable = true
    · simp only [hav, Bool.not_true, Bool.false_eq_true, if_false, List.mem_cons] at he
      have hcase : e = (a, h.updateExpired (times i))
          ∨ (e ∈ (getAllFrom times (i + 1) rest).1 ∨ e ∈ (getAllFrom times (i + 1) rest).2) := by
        rcases he with (he | he) | (he | he)
        · exact Or.inl he
        · exact Or.inr (Or.inl he)
        · exact Or.inl he
        · exact Or.inr (Or.inr he)
      rcases hcase with he | he
      · subst he
        exact ⟨h, i, List.mem_cons_self _ _, rfl, hav⟩
      · obtain ⟨h', j, hm, h2, h3⟩ := ih (i + 1) e he
        exact ⟨h', j, List.mem_cons_of_mem _ hm, h2, h3⟩
    · have hav' : (h.updateExpired (times i)).isAnyProtocolAvailable = false := by
        simpa using hav
      simp only [hav', Bool.not_false, if_true] at he
      obtain ⟨h', j, hm, h2, h3⟩ := ih (i + 1) e he
      exact ⟨h', j, List.mem_cons_of_mem _ hm, h2, h3⟩

/-- A call of `addLatency` keeps the deadlines of every entry of `P`. -/
theorem addLatency_keeps_deadlines (P : Nat) (D : Int) (data : Data) (p : ProtocolType)
    (a : Nat) (ms t1 t2 : Int)
    (hinv : ∀ e ∈ data, e.1 = P → e.2.tcpExpiration = time_point_min
      ∧ (e.2.udpExpiration = D ∨ e.2.udpExpiration = time_point_min)) :
    ∀ e ∈ addLatency data p a ms t1 t2, e.1 = P → e.2.tcpExpiration = time_point_min
      ∧ (e.2.udpExpiration = D ∨ e.2.udpExpiration = time_point_min) := by
  have hbase : ∀ h0, (find data a).getD Host.new = h0 → a = P →
      h0.tcpExpiration = time_point_min
        ∧ (h0.udpExpiration = D ∨ h0.udpExpiration = time_point_min) := by
    intro h0 hh0 haP
    cases hf : find data a with
    | none =>
      rw [hf] at hh0
      subst hh0
      exact ⟨rfl, Or.inr rfl⟩
    | some h =>
      rw [hf] at hh0
      subst hh0
      exact hinv (a, h) (find_some_mem _ _ _ hf) haP
  intro e he hP
  unfold addLatency at he
  simp only at he
  split_ifs at he
  · exact hinv e (mem_erase _ _ _ he).1 hP
  · rcases mem_put _ _ _ _ he with he | he
    · subst he
      have := hbase _ rfl hP
      simpa only [Host.updateExpired_tcpExpiration, Host.updateExpired_udpExpiration] using this
    · exact hinv e he hP
  · rcases mem_put _ _ _ _ he with he | he
    · subst he
      have := hbase _ rfl hP
      simpa only [Host.addLatency_tcpExpiration, Host.addLatency_udpExpiration,
        Host.updateExpired_tcpExpiration, Host.updateExpired_udpExpiration] using this
    · exact hinv e he hP

theorem addLatencyCalls_keeps_deadlines (P : Nat) (D : Int)
    (calls : List (ProtocolType × Nat × Int × Int × Int)) :
    ∀ data : Data,
      (∀ e ∈ data, e.1 = P → e.2.tcpExpiration = time_point_min
        ∧ (e.2.udpExpiration = D ∨ e.2.udpExpiration = time_point_min)) →
      ∀ e ∈ addLatencyCalls data calls, e.1 = P → e.2.tcpExpiration = time_point_min
        ∧ (e.2.udpExpiration = D ∨ e.2.udpExpiration = time_point_min) := by
  induction calls with
  | nil => intro data hinv; simpa [addLatencyCalls] using hinv
  | cons c cs ih =>
    intro data hinv
    have := ih _ (addLatency_keeps_deadlines P D data c.1 c.2.1 c.2.2.1 c.2.2.2.1 c.2.2.2.2 hinv)
    simpa [addLatencyCalls] using this

end LatencyDatabase

/-- C16: from a map with no entry for `P`, after `setConnectionAvailable(UDP, P, ttl)`
whose deadline is the clock reading `tNow` plus `ttl`, and after any sequence of
`addLatency` calls, a `getAll()` whose clock readings are all later than that
deadline returns no pair for `P` and leaves no entry for `P` in the map. -/
theorem C16_expired_peer_dropped (data : Data) (P : Nat) (ttl tUpdate tNow tSet : Int)
    (calls : List (ProtocolType × Nat × Int × Int × Int)) (times : Nat → Int)
    (habsent : find data P = none)
    (hlate : ∀ i, times i > tNow + ttl)
    (hclock : ∀ i, times i > time_point_min) :
    (∀ e ∈ (getAll (addLatencyCalls
        (setConnectionAvailable data .UDP P ttl tUpdate tNow tSet) calls) times).1, e.1 ≠ P)
    ∧ find (getAll (addLatencyCalls
        (setConnectionAvailable data .UDP P ttl tUpdate tNow tSet) calls) times).2 P = none := by
  have hinv1 : ∀ e ∈ setConnectionAvailable data .UDP P ttl tUpdate tNow tSet, e.1 = P →
      e.2.tcpExpiration = time_point_min
        ∧ (e.2.udpExpiration = tNow + ttl ∨ e.2.udpExpiration = time_point_min) := by
    intro e he hP
    have hset : setConnectionAvailable data .UDP P ttl tUpdate tNow tSet
        = put data P ((if !(Host.new.updateExpired tUpdate).isAnyProtocolAvailable then Host.new
            else Host.new.updateExpired tUpdate).setUDPExpiration (tNow + ttl) tSet) := by
      simp [setConnectionAvailable, habsent]
    have hb : (if !(Host.new.updateExpired tUpdate).isAnyProtocolAvailable then Host.new
        else Host.new.updateExpired tUpdate).tcpExpiration = time_point_min := by
      split_ifs
      · rfl
      · rw [Host.updateExpired_tcpExpiration]; rfl
    rw [hset] at he
    rcases mem_put _ _ _ _ he with he | he
    · subst he
      simp only [Host.setUDPExpiration, Host.updateExpired_tcpExpiration,
        Host.updateExpired_udpExpiration]
      exact ⟨hb, Or.inl trivial⟩
    · exact absurd hP ((find_eq_none_iff _ _).mp habsent e he)
  have hinv2 := addLatencyCalls_keeps_deadlines P (tNow + ttl) calls _ hinv1
  have key : ∀ e, (e ∈ (getAll (addLatencyCalls
        (setConnectionAvailable data .UDP P ttl tUpdate tNow tSet) calls) times).1
      ∨ e ∈ (getAll (addLatencyCalls
        (setConnectionAvailable data .UDP P ttl tUpdate tNow tSet) calls) times).2) →
      e.1 ≠ P := by
    intro e he hP
    obtain ⟨h, j, hm, -, hav⟩ := getAllFrom_mem times _ 0 e he
    obtain ⟨htcp, hudp⟩ := hinv2 (e.1, h) hm hP
    rw [Host.isAnyProtocolAvailable_updateExpired] at hav
    have c1 := hclock j
    have c2 := hlate j
    simp only at htcp hudp
    rcases hudp with hudp | hudp
    · rw [htcp, hudp] at hav
      simp [Int.not_le.mpr c1, Int.not_le.mpr c2] at hav
    · rw [htcp, hudp] at hav
      simp [Int.not_le.mpr c1] at hav
  exact ⟨fun e he => key e (Or.inl he),
    (find_eq_none_iff _ _).mpr (fun e he => key e (Or.inr he))⟩

/-- C16 at an empty map: peer 1 is announced over UDP at time 0 with ttl 5, a UDP
sample is recorded at time 1, and `getAll()` at time 6 returns nothing and leaves
the map empty. -/
theorem C16_expired_peer_dropped_witness :
    getAll (addLatencyCalls (setConnectionAvailable [] .UDP 1 5 0 0 0)
        [(.UDP, 1, 250, 1, 1)]) (fun _ => 6) = ([], [])
    ∧ find (getAll (addLatencyCalls (setConnectionAvailable [] .UDP 1 5 0 0 0)
        [(.UDP, 1, 250, 1, 1)]) (fun _ => 6)).2 1 = none :=
  ⟨by decide!,
    (C16_expired_peer_dropped [] 1 5 0 0 0 [(.UDP, 1, 250, 1, 1)] (fun _ => 6) rfl
      (fun _ => (by decide : (6 : Int) > 0 + 5))
      (fun _ => (by decide : (6 : Int) > time_point_min))).2⟩

namespace Host

theorem getLatency_of_known (h : Host) (p : ProtocolType) (hk : h.isLatencyKnown p = true) :
    h.getLatency p = .ok (h.latencyCount p) := by
  have hc : (h.getForProtocol p).count ≠ 0 := by
    simpa [isLatencyKnown] using hk
  simp [latencyCount, getLatency, hc]

/-- The averaging loop never throws: from an accumulator in the range of `u32` and a
counter in the range of `u8` it ends with the exact sum reduced modulo `2^32` and the
number of visited non-empty windows reduced modulo `2^8`. -/
theorem averageLoop_eq (h : Host) :
    ∀ (ps : List ProtocolType) (s : Int) (c : Nat), 0 ≤ s → s < 2 ^ 32 → c < 2 ^ 8 →
      h.averageLoop ps s c
        = .ok ((s + h.exactLatencySum ps) % 2 ^ 32, (c + (h.knownProtocols ps).length) % 2 ^ 8) := by
  intro ps
  induction ps with
  | nil =>
    intro s c h0 h1 h2
    simp only [averageLoop, exactLatencySum, knownProtocols, List.filter_nil, List.map_nil,
      List.sum_nil, List.length_nil, add_zero]
    rw [Int.emod_eq_of_lt h0 h1, Nat.mod_eq_of_lt h2]
  | cons p rest ih =>
    intro s c h0 h1 h2
    by_cases hk : h.isLatencyKnown p = true
    · have e1 : h.exactLatencySum (p :: rest) = h.latencyCount p + h.exactLatencySum rest := by
        simp [exactLatencySum, knownProtocols, hk]
      have e2 : (h.knownProtocols (p :: rest)).length = (h.knownProtocols rest).length + 1 := by
        simp [knownProtocols, hk]
      simp only [averageLoop, hk, if_true, getLatency_of_known h p hk]
      rw [ih _ _ (Int.emod_nonneg _ (by norm_num)) (Int.emod_lt_of_pos _ (by norm_num))
        (Nat.mod_lt _ (by norm_num)), e1, e2, Int.emod_add_emod, Nat.mod_add_mod]
      congr 3
      · ring
      · ring
    · have hk' : h.isLatencyKnown p = false := by simpa using hk
      have e1 : h.exactLatencySum (p :: rest) = h.exactLatencySum rest := by
        simp [exactLatencySum, knownProtocols, hk']
      have e2 : (h.knownProtocols (p :: rest)).length = (h.knownProtocols rest).length := by
        simp [knownProtocols, hk']
      simp only [averageLoop, hk', Bool.false_eq_true, if_false]
      rw [ih _ _ h0 h1 h2, e1, e2]

theorem knownProtocols_length_le (h : Host) (ps : List ProtocolType) :
    (h.knownProtocols ps).length ≤ ps.length :=
  List.length_filter_le _ _

end Host

set_option maxRecDepth 100000 in
/-- C20 (counterexample): a host whose only sample is a UDP latency of `2^32`
microseconds has `getLatency(UDP) = 2^32`, so the exact mean is `2^32 / 1`, but
`getAverageLatency()` divides 0 by 1; with a single sample of -1 microsecond it
divides `2^32 - 1` by 1. -/
theorem C20_counterexample_sum_wraps :
    (({ Host.new with udpExpiration := 100 } : Host).addLatency .UDP 4294967296 1).getLatency .UDP
        = .ok 4294967296
    ∧ (({ Host.new with udpExpiration := 100 } : Host).addLatency .UDP 4294967296 1).exactLatencySum
        allProtocols = 4294967296
    ∧ (({ Host.new with udpExpiration := 100 } : Host).addLatency .UDP 4294967296 1).getAverageLatency
        = .ok (AverageLatency.quotient 0 1)
    ∧ (({ Host.new with udpExpiration := 100 } : Host).addLatency .UDP (-1) 1).exactLatencySum
        allProtocols = -1
    ∧ (({ Host.new with udpExpiration := 100 } : Host).addLatency .UDP (-1) 1).getAverageLatency
        = .ok (AverageLatency.quotient 4294967295 1) := by
  decide!

/-- C20 (amended): `getAverageLatency()` never throws; when all three windows are
empty it returns the largest double, otherwise it divides, by the number of
protocols with a non-empty window, the sum of their `getLatency(p)` reduced modulo
`2^32`, which is the exact sum when that sum lies in `[0, 2^32)`; protocols with an
empty window contribute to neither. -/
theorem C20_average_modulo_u32 (h : Host) :
    (h.knownProtocols allProtocols = [] → h.getAverageLatency = .ok AverageLatency.max)
    ∧ (h.knownProtocols allProtocols ≠ [] →
        h.getAverageLatency = .ok (AverageLatency.quotient
          (h.exactLatencySum allProtocols % 2 ^ 32) (h.knownProtocols allProtocols).length))
    ∧ (h.knownProtocols allProtocols ≠ [] → 0 ≤ h.exactLatencySum allProtocols →
        h.exactLatencySum allProtocols < 2 ^ 32 →
        h.getAverageLatency = .ok (AverageLatency.quotient
          (h.exactLatencySum allProtocols) (h.knownProtocols allProtocols).length)) := by
  have hloop := Host.averageLoop_eq h allProtocols 0 0 (le_refl _) (by norm_num) (by norm_num)
  have hlen : (h.knownProtocols allProtocols).length ≤ 3 :=
    Host.knownProtocols_length_le h allProtocols
  have hmod : (0 + (h.knownProtocols allProtocols).length) % 2 ^ 8
      = (h.knownProtocols allProtocols).length := by
    rw [Nat.zero_add]
    exact Nat.mod_eq_of_lt (by omega)
  rw [hmod, Int.zero_add] at hloop
  have hne : h.knownProtocols allProtocols ≠ [] →
      h.getAverageLatency = .ok (AverageLatency.quotient
        (h.exactLatencySum allProtocols % 2 ^ 32) (h.knownProtocols allProtocols).length) := by
    intro hk
    have hpos : (h.knownProtocols allProtocols).length ≠ 0 := by
      simpa [List.length_eq_zero] using hk
    simp only [Host.getAverageLatency, hloop]
    rw [if_pos hpos]
  refine ⟨?_, hne, ?_⟩
  · intro hk
    simp only [Host.getAverageLatency, hloop, hk, List.length_nil]
    rfl
  · intro hk h0 h1
    rw [hne hk, Int.emod_eq_of_lt h0 h1]

set_option maxRecDepth 100000 in
/-- C20 (amended) at a host with a UDP window holding 10 and 20 and an ICMP window
holding 7: the result is `(15 + 7) / 2`, the TCP window being left out. -/
theorem C20_average_modulo_u32_witness :
    (((({ Host.new with udpExpiration := 100 } : Host).addLatency .UDP 10 1).addLatency
        .UDP 20 2).addLatency .ICMP 7 3).getAverageLatency
      = .ok (AverageLatency.quotient
          ((((({ Host.new with udpExpiration := 100 } : Host).addLatency .UDP 10 1).addLatency
            .UDP 20 2).addLatency .ICMP 7 3).exactLatencySum allProtocols)
          ((((({ Host.new with udpExpiration := 100 } : Host).addLatency .UDP 10 1).addLatency
            .UDP 20 2).addLatency .ICMP 7 3).knownProtocols allProtocols).length)
    ∧ (((({ Host.new with udpExpiration := 100 } : Host).addLatency .UDP 10 1).addLatency
        .UDP 20 2).addLatency .ICMP 7 3).getAverageLatency
      = .ok (AverageLatency.quotient 22 2) :=
  ⟨(C20_average_modulo_u32 (((({ Host.new with udpExpiration := 100 } : Host).addLatency
      .UDP 10 1).addLatency .UDP 20 2).addLatency .ICMP 7 3)).2.2
    (by decide!) (by decide!) (by decide!), by decide!⟩

open bitops dns_format LatencyDatabase

namespace ICMPEchoPacket

theorem decode_eq_decodeFrom (raw : List Nat) (n : Nat) (b : Bool) :
    decode raw n b =
      (if b then
        match getU8 raw 0 with
        | .error e => .error e
        | .ok (first, it) =>
          match dns_format.skipOctets raw ((first % (1 <<< 4) * 4 + 256 - 1) % 256) it with
          | .error e => .error e
          | .ok it => decodeFrom raw n it
      else decodeFrom raw n 0) := by
  cases b
  · rfl
  · simp only [decode, decodeFrom, if_true, bind, Except.bind]
    cases getU8 raw 0 with
    | error e => rfl
    | ok v =>
      obtain ⟨first, it⟩ := v
      simp only []
      cases dns_format.skipOctets raw ((first % (1 <<< 4) * 4 + 256 - 1) % 256) it <;> rfl

theorem getElem?_eq_some_getD {raw : List Nat} {i : Nat} (h : i < raw.length) :
    raw[i]? = some (raw.getD i 0) := by
  simp [List.getD, List.getElem?_eq_getElem h]

/-- With twelve octets from offset `o` on, the decoder reads the echo message at `o`:
it fails on a type octet other than REPLY, on a checksum field other than the
computed one, and when the position after the message is not `bytesToRead`. -/
theorem decodeFrom_long (raw : List Nat) (n o : Nat) (h : o + 12 ≤ raw.length) :
    decodeFrom raw n o =
      if raw.getD o 0 ≠ ICMPType.REPLY.toNat then .error .UnknownFormat
      else if (fieldsAt raw o).calcChecksum ≠ checksumAt raw o ∨ o + 12 ≠ n then
        .error .UnknownFormat
      else .ok (fieldsAt raw o) := by
  have e0 : getU8 raw o = .ok (raw.getD o 0, o + 1) := getU8_of_lt (by omega)
  have e1 : getU8 raw (o + 1) = .ok (raw.getD (o + 1) 0, o + 1 + 1) := getU8_of_lt (by omega)
  have e2 : getU16 raw (o + 1 + 1) = .ok (checksumAt raw o, o + 1 + 1 + 2) :=
    getU16_of_getElem? (getElem?_eq_some_getD (by omega)) (getElem?_eq_some_getD (by omega))
  have e3 : getU16 raw (o + 1 + 1 + 2)
      = .ok (merge_u8 (raw.getD (o + 4) 0) (raw.getD (o + 5) 0), o + 1 + 1 + 2 + 2) :=
    getU16_of_getElem? (getElem?_eq_some_getD (by omega)) (getElem?_eq_some_getD (by omega))
  have e4 : getU16 raw (o + 1 + 1 + 2 + 2)
      = .ok (merge_u8 (raw.getD (o + 6) 0) (raw.getD (o + 7) 0), o + 1 + 1 + 2 + 2 + 2) :=
    getU16_of_getElem? (getElem?_eq_some_getD (by omega)) (getElem?_eq_some_getD (by omega))
  have e5 : getU32 raw (o + 1 + 1 + 2 + 2 + 2)
      = .ok (merge_u16 (merge_u8 (raw.getD (o + 8) 0) (raw.getD (o + 9) 0))
          (merge_u8 (raw.getD (o + 10) 0) (raw.getD (o + 11) 0)), o + 1 + 1 + 2 + 2 + 2 + 4) :=
    getU32_of_getElem? (getElem?_eq_some_getD (by omega)) (getElem?_eq_some_getD (by omega))
      (getElem?_eq_some_getD (by omega)) (getElem?_eq_some_getD (by omega))
  have e6 : o + 1 + 1 + 2 + 2 + 2 + 4 = o + 12 := by omega
  simp only [decodeFrom, bind, Except.bind, e0, e1, e2, e3, e4, e5, e6, pure, Except.pure]
  by_cases ht : raw.getD o 0 = ICMPType.REPLY.toNat
  · by_cases hk : (fieldsAt raw o).calcChecksum ≠ checksumAt raw o ∨ o + 12 ≠ n
    · simp only [fieldsAt] at hk
      simp [ht, hk, throw, throwThe, MonadExceptOf.throw, fieldsAt]
    · simp only [fieldsAt] at hk
      simp [ht, hk, throw, throwThe, MonadExceptOf.throw, fieldsAt]
  · have ht2 := ht
    rw [List.getD_eq_getElem?_getD] at ht2
    simp [ht, ht2, throw, throwThe, MonadExceptOf.throw]

/-- With fewer than twelve octets from offset `o` on, the decoder fails. -/
theorem decodeFrom_short (raw : List Nat) (n o : Nat) (h : raw.length < o + 12) :
    decodeFrom raw n o = .error .UnknownFormat := by
  simp only [decodeFrom, bind, Except.bind, pure, Except.pure]
  by_cases h0 : o < raw.length
  swap
  · simp [getU8_of_le (Nat.le_of_not_lt h0)]
  rw [getU8_of_lt h0]
  by_cases ht : raw.getD o 0 = ICMPType.REPLY.toNat
  swap
  · have ht2 := ht
    rw [List.getD_eq_getElem?_getD] at ht2
    simp [ht, ht2, throw, throwThe, MonadExceptOf.throw]
  by_cases h1 : o + 1 < raw.length
  swap
  · simp [ht, getU8_of_le (Nat.le_of_not_lt h1)]
  by_cases h2 : o + 1 + 1 + 1 < raw.length
  swap
  · simp [ht, getU8_of_lt h1, getU16_of_le (Nat.le_of_not_lt h2)]
  by_cases h3 : o + 1 + 1 + 2 + 1 < raw.length
  swap
  · simp [ht, getU8_of_lt h1, getU16_of_lt h2, getU16_of_le (Nat.le_of_not_lt h3)]
  by_cases h4 : o + 1 + 1 + 2 + 2 + 1 < raw.length
  swap
  · simp [ht, getU8_of_lt h1, getU16_of_lt h2, getU16_of_lt h3,
      getU16_of_le (Nat.le_of_not_lt h4)]
  have h5 : raw.length ≤ o + 1 + 1 + 2 + 2 + 2 + 3 := by omega
  simp [ht, getU8_of_lt h1, getU16_of_lt h2, getU16_of_lt h3, getU16_of_lt h4,
    getU32_of_le h5]

theorem skipOctets_of_le (buf : List Nat) (n : Nat) :
    ∀ it, it + n ≤ buf.length → dns_format.skipOctets buf n it = .ok (it + n) := by
  induction n with
  | zero => intro it _; rfl
  | succ n ih =>
    intro it h
    have hlt : it < buf.length := by omega
    simp only [dns_format.skipOctets, getU8_of_lt hlt]
    rw [ih (it + 1) (by omega)]
    congr 1
    omega

theorem skipOctets_of_gt (buf : List Nat) (n it : Nat) (hit : it ≤ buf.length)
    (h : buf.length < it + n) : dns_format.skipOctets buf n it = .error .UnknownFormat := by
  rcases dns_format.skipOctets_cases buf n it hit with h1 | ⟨-, h2⟩
  · exact h1
  · omega

/-- The decoder in closed form: with `o` the number of octets passed before the type
octet (none without IP header), it succeeds exactly on a buffer holding twelve more
octets whose type octet is REPLY, whose checksum field is the computed checksum, and
with `bytesToRead = o + 12`; every failure is `UnknownFormat`. -/
theorem decode_eq (raw : List Nat) (n : Nat) (b : Bool) :
    decode raw n b =
      if raw.length < (if b then skippedOctets raw else 0) + 12 then .error .UnknownFormat
      else if raw.getD (if b then skippedOctets raw else 0) 0 ≠ ICMPType.REPLY.toNat then
        .error .UnknownFormat
      else if (fieldsAt raw (if b then skippedOctets raw else 0)).calcChecksum
            ≠ checksumAt raw (if b then skippedOctets raw else 0)
          ∨ (if b then skippedOctets raw else 0) + 12 ≠ n then
        .error .UnknownFormat
      else .ok (fieldsAt raw (if b then skippedOctets raw else 0)) := by
  rw [decode_eq_decodeFrom]
  have key : ∀ o, decodeFrom raw n o =
      if raw.length < o + 12 then .error .UnknownFormat
      else if raw.getD o 0 ≠ ICMPType.REPLY.toNat then .error .UnknownFormat
      else if (fieldsAt raw o).calcChecksum ≠ checksumAt raw o ∨ o + 12 ≠ n then
        .error .UnknownFormat
      else .ok (fieldsAt raw o) := by
    intro o
    by_cases h : raw.length < o + 12
    · rw [if_pos h]; exact decodeFrom_short raw n o h
    · rw [if_neg h]; exact decodeFrom_long raw n o (by omega)
  cases b
  · simp only [Bool.false_eq_true, if_false]
    exact key 0
  · simp only [if_true]
    by_cases h0 : 0 < raw.length
    · rw [getU8_of_lt h0]
      simp only []
      by_cases hs : 0 + 1 + (raw.getD 0 0 % (1 <<< 4) * 4 + 256 - 1) % 256 ≤ raw.length
      · rw [skipOctets_of_le raw _ (0 + 1) hs]
        simp only []
        have e : 0 + 1 + (raw.getD 0 0 % (1 <<< 4) * 4 + 256 - 1) % 256 = skippedOctets raw := by
          simp [skippedOctets]
        rw [e]
        exact key _
      · rw [skipOctets_of_gt raw _ (0 + 1) (by omega) (by omega)]
        simp only []
        have e : raw.length < skippedOctets raw + 12 := by
          simp only [skippedOctets]
          have : (1 <<< 4 : Nat) = 16 := rfl
          rw [this] at hs
          omega
        rw [if_pos e]
    · rw [getU8_of_le (by omega)]
      simp only []
      have e : raw.length < skippedOctets raw + 12 := by omega
      rw [if_pos e]

/-- For a length nibble `h` from 1 to 15 the decoder passes `4 * h` octets; for `h = 0`
the `u8` computation `4 * h - 1` wraps to 255 and it passes 256 octets. -/
theorem skippedOctets_eq (raw : List Nat) :
    skippedOctets raw = if raw.getD 0 0 % 16 = 0 then 256 else headerOctets raw := by
  simp only [skippedOctets, headerOctets]
  have : raw.getD 0 0 % 16 < 16 := Nat.mod_lt _ (by norm_num)
  split_ifs with h
  · rw [h]
  · omega

end ICMPEchoPacket

open bitops dns_format LatencyDatabase

/-- C28 as stated fails: twelve octets with type REPLY, code 1, data 0 and a correct
checksum are decoded without an exception, although the code is not 0 and the data is
not the magic; so are twelve octets with code 0 and data 1. -/
theorem C28_counterexample_code_and_data_unchecked :
    ICMPEchoPacket.decode [0, 1, 0xFF, 0xFE, 0, 0, 0, 0, 0, 0, 0, 0] 12 false
        = .ok (ICMPEchoPacket.mk .REPLY 1 0 0 0)
    ∧ ICMPEchoPacket.decode [0, 0, 0xFF, 0xFE, 0, 0, 0, 0, 0, 0, 0, 1] 12 false
        = .ok (ICMPEchoPacket.mk .REPLY 0 0 0 1)
    ∧ (1 : Nat) ≠ ICMPService.requestData ∧ ICMPService.requestData = 0x054BE403 := by
  decide!

/-- C28 (amended): the decoder succeeds exactly when twelve octets follow the offset
`o` it reaches (0 without IP header), the type octet is REPLY, the checksum field
equals the checksum computed over the other fields and `bytesToRead = o + 12`, and it
returns the fields read, whatever the code and the data are; every failure is
`UnknownFormat`. A decoded reply whose code is not 0 or whose data is not the magic
`0x054BE403` is dropped by `handleICMPMessage` without an exception and without a
change of the in-flight table or of the latency store. -/
theorem C28_decoder_checks_type_and_checksum (raw : List Nat) (n : Nat) (b : Bool)
    (p : ICMPEchoPacket) (requestTime : ICMPService.RequestTime) (data : Data)
    (receiveTime : Int) (senderAddr : Nat) (period tUpdate tAdd : Int) :
    (ICMPEchoPacket.decode raw n b = .ok p ↔
      (if b then ICMPEchoPacket.skippedOctets raw else 0) + 12 ≤ raw.length
      ∧ raw.getD (if b then ICMPEchoPacket.skippedOctets raw else 0) 0 = 0
      ∧ (ICMPEchoPacket.fieldsAt raw (if b then ICMPEchoPacket.skippedOctets raw else 0)).calcChecksum
          = ICMPEchoPacket.checksumAt raw (if b then ICMPEchoPacket.skippedOctets raw else 0)
      ∧ n = (if b then ICMPEchoPacket.skippedOctets raw else 0) + 12
      ∧ p = ICMPEchoPacket.fieldsAt raw (if b then ICMPEchoPacket.skippedOctets raw else 0))
    ∧ (∀ e, ICMPEchoPacket.decode raw n b = .error e → e = .UnknownFormat)
    ∧ (p.code ≠ 0 ∨ p.data ≠ 0x054BE403 →
        ICMPService.handleICMPMessage requestTime data p receiveTime senderAddr period
          tUpdate tAdd = (requestTime, data)) := by
  refine ⟨?_, ?_, ?_⟩
  · rw [ICMPEchoPacket.decode_eq]
    generalize (if b then ICMPEchoPacket.skippedOctets raw else 0) = o
    have hz : ICMPType.REPLY.toNat = 0 := rfl
    rw [hz]
    constructor
    · intro h
      split_ifs at h with h1 h2 h3
      rw [not_or, not_not, not_not] at h3
      rw [not_not] at h2
      exact ⟨by omega, h2, h3.1, h3.2.symm, by injection h with h; exact h.symm⟩
    · rintro ⟨h1, h2, h3, h4, h5⟩
      rw [if_neg (by omega), if_neg (by rw [not_not]; exact h2),
        if_neg (by rw [not_or, not_not, not_not]; exact ⟨h3, h4.symm⟩), h5]
  · intro e h
    rw [ICMPEchoPacket.decode_eq] at h
    split_ifs at h <;> injection h with h <;> exact h.symm
  · intro h
    have hm : ICMPService.requestData = 0x054BE403 := by decide
    unfold ICMPService.handleICMPMessage
    rw [hm, if_pos (Or.inr h)]

/-- C28 (amended) at the reply with code 1: it is decoded, and `handleICMPMessage`
drops it, leaving the in-flight entry of its identifier and sequence number. -/
theorem C28_decoder_checks_type_and_checksum_witness :
    ICMPEchoPacket.decode [0, 1, 0xFF, 0xFE, 0, 0, 0, 0, 0, 0, 0, 0] 12 false
        = .ok (ICMPEchoPacket.mk .REPLY 1 0 0 0)
    ∧ ICMPService.handleICMPMessage [(⟨9, 0, 0⟩, 100)] [] (ICMPEchoPacket.mk .REPLY 1 0 0 0)
        150 9 1000 150 150 = ([(⟨9, 0, 0⟩, 100)], []) :=
  ⟨(C28_decoder_checks_type_and_checksum [0, 1, 0xFF, 0xFE, 0, 0, 0, 0, 0, 0, 0, 0] 12 false
      (ICMPEchoPacket.mk .REPLY 1 0 0 0) [] [] 0 0 0 0 0).1.mpr (by decide!),
   (C28_decoder_checks_type_and_checksum [] 0 false (ICMPEchoPacket.mk .REPLY 1 0 0 0)
      [(⟨9, 0, 0⟩, 100)] [] 150 9 1000 150 150).2.2 (Or.inl (by decide))⟩

open bitops dns_format LatencyDatabase

set_option maxRecDepth 100000 in
/-- C29 fails for the length nibble 0: in `zeroNibbleDatagram` octet 0 is `0x40`, so
`h = 0` and the type octet should be read at offset 0 and `bytesToRead` should be 12;
the decoder passes 256 octets instead (`ihl * 4 - 1` is computed in a `u8` and wraps
to 255), reads the reply at offset 256 and accepts the datagram with
`bytesToRead = 268`, and rejects it with `bytesToRead = 12`. For every datagram
whose length nibble `h` is not 0 the decoder does read the echo message at offset
`4 * h` and accepts only `bytesToRead = 4 * h + 12`. -/
theorem C29_zero_length_nibble_skips_256 :
    ICMPEchoPacket.zeroNibbleDatagram.getD 0 0 % 16 = 0
    ∧ ICMPEchoPacket.zeroNibbleDatagram.length = 268
    ∧ ICMPEchoPacket.decode ICMPEchoPacket.zeroNibbleDatagram 268 true
        = .ok (ICMPEchoPacket.mk .REPLY 0 0xABCD 1 0x054BE403)
    ∧ ICMPEchoPacket.decode ICMPEchoPacket.zeroNibbleDatagram 12 true = .error .UnknownFormat
    ∧ (∀ (raw : List Nat) (n : Nat) (p : ICMPEchoPacket),
        ICMPEchoPacket.decode raw n true = .ok p →
          (raw.getD 0 0 % 16 ≠ 0 →
            n = 4 * (raw.getD 0 0 % 16) + 12
            ∧ raw.getD (4 * (raw.getD 0 0 % 16)) 0 = 0
            ∧ p = ICMPEchoPacket.fieldsAt raw (4 * (raw.getD 0 0 % 16)))
          ∧ (raw.getD 0 0 % 16 = 0 →
            n = 268 ∧ raw.getD 256 0 = 0 ∧ p = ICMPEchoPacket.fieldsAt raw 256)) := by
  refine ⟨by decide!, by decide!, by decide!, by decide!, ?_⟩
  intro raw n p h
  rw [ICMPEchoPacket.decode_eq] at h
  simp only [if_true] at h
  rw [ICMPEchoPacket.skippedOctets_eq] at h
  have hz : ICMPType.REPLY.toNat = 0 := rfl
  rw [hz] at h
  constructor
  · intro hh
    rw [if_neg hh] at h
    simp only [ICMPEchoPacket.headerOctets] at h
    split_ifs at h with h1 h2 h3
    rw [not_or, not_not, not_not] at h3
    rw [not_not] at h2
    exact ⟨h3.2.symm, h2, by injection h with h; exact h.symm⟩
  · intro hh
    rw [if_pos hh] at h
    split_ifs at h with h1 h2 h3
    rw [not_or, not_not, not_not] at h3
    rw [not_not] at h2
    exact ⟨h3.2.symm, h2, by injection h with h; exact h.symm⟩

set_option maxRecDepth 100000 in
/-- C29 for the length nibble 5: the datagram with a 20-octet header is accepted with
`bytesToRead = 32`, and the reply is read at offset 20. -/
theorem C29_zero_length_nibble_skips_256_witness :
    ICMPEchoPacket.decode ICMPEchoPacket.plainDatagram 32 true
        = .ok (ICMPEchoPacket.mk .REPLY 0 0xABCD 1 0x054BE403)
    ∧ (32 = 4 * (ICMPEchoPacket.plainDatagram.getD 0 0 % 16) + 12
      ∧ ICMPEchoPacket.plainDatagram.getD (4 * (ICMPEchoPacket.plainDatagram.getD 0 0 % 16)) 0 = 0
      ∧ ICMPEchoPacket.mk .REPLY 0 0xABCD 1 0x054BE403
          = ICMPEchoPacket.fieldsAt ICMPEchoPacket.plainDatagram
              (4 * (ICMPEchoPacket.plainDatagram.getD 0 0 % 16))) :=
  ⟨by decide!,
    (C29_zero_length_nibble_skips_256.2.2.2.2 ICMPEchoPacket.plainDatagram 32
      (ICMPEchoPacket.mk .REPLY 0 0xABCD 1 0x054BE403) (by decide!)).1 (by decide!)⟩

open bitops dns_format LatencyDatabase

namespace ICMPService

theorem requestTime_find_eq_none_iff (requestTime : RequestTime) (k : HistoryEntry) :
    ICMPService.find requestTime k = none ↔ ∀ e ∈ requestTime, e.1 ≠ k := by
  induction requestTime with
  | nil => simp [ICMPService.find]
  | cons d rest ih =>
    obtain ⟨a, t⟩ := d
    by_cases h : a = k
    · simp [ICMPService.find, h]
    · simp [ICMPService.find, h, ih]

theorem requestTime_find_erase_self (requestTime : RequestTime) (k : HistoryEntry) :
    ICMPService.find (ICMPService.erase requestTime k) k = none := by
  rw [requestTime_find_eq_none_iff]
  intro e he
  simpa [ICMPService.erase] using (List.mem_filter.mp he).2

theorem requestTime_find_erase_ne (requestTime : RequestTime) (k j : HistoryEntry) (hne : j ≠ k) :
    ICMPService.find (ICMPService.erase requestTime k) j = ICMPService.find requestTime j := by
  induction requestTime with
  | nil => rfl
  | cons d rest ih =>
    obtain ⟨a, t⟩ := d
    by_cases h : a = k
    · have hj : ¬ a = j := by rw [h]; exact fun e => hne e.symm
      have : ICMPService.erase ((a, t) :: rest) k = ICMPService.erase rest k := by
        simp [ICMPService.erase, h]
      rw [this, ih]
      simp [ICMPService.find, hj]
    · have : ICMPService.erase ((a, t) :: rest) k = (a, t) :: ICMPService.erase rest k := by
        simp [ICMPService.erase, h]
      rw [this]
      by_cases hj : a = j
      · simp [ICMPService.find, hj]
      · simp only [ICMPService.find, hj, if_false]
        exact ih

end ICMPService

namespace LatencyDatabase

/-- A call of `addLatency` for `P` leaves the entry of every other peer. -/
theorem addLatency_find_ne (data : Data) (p : ProtocolType) (P Q : Nat) (ms tUpdate tAdd : Int)
    (hne : Q ≠ P) :
    LatencyDatabase.find (LatencyDatabase.addLatency data p P ms tUpdate tAdd) Q
      = LatencyDatabase.find data Q := by
  unfold LatencyDatabase.addLatency
  simp only
  split_ifs
  · exact find_erase_ne data P Q hne
  · exact find_put_ne data P Q _ hne
  · exact find_put_ne data P Q _ hne

/-- A sample offered for a protocol whose deadline has passed at neither clock reading
is pushed on the window of that protocol. -/
theorem addLatency_find_available (data : Data) (p : ProtocolType) (P : Nat) (h : Host)
    (ms tUpdate tAdd : Int) (hfind : LatencyDatabase.find data P = some h)
    (h1 : tUpdate ≤ h.deadline p) (h2 : tAdd ≤ h.deadline p) :
    ∃ h', LatencyDatabase.find (LatencyDatabase.addLatency data p P ms tUpdate tAdd) P = some h'
      ∧ h'.getForProtocol p = (h.getForProtocol p).push ms := by
  have hp : (h.updateExpired tUpdate).isProtocolAvailable p = true := by
    rw [Host.isProtocolAvailable_updateExpired]; simpa using h1
  have ha : (h.updateExpired tUpdate).isAnyProtocolAvailable = true := by
    rw [Host.isAnyProtocolAvailable_updateExpired]
    cases p <;> simp [Host.deadline] at h1 <;> simp [h1]
  refine ⟨(h.updateExpired tUpdate).addLatency p ms tAdd, ?_, ?_⟩
  · unfold LatencyDatabase.addLatency
    simp only [hfind, Option.getD_some, ha, hp, Bool.not_true, Bool.false_eq_true, if_false]
    exact find_put_self _ _ _
  · rw [Host.addLatency_getForProtocol _ _ _ _ (by rw [Host.updateExpired_deadline]; exact h2),
      Host.updateExpired_getForProtocol _ _ _ h1]

end LatencyDatabase

/-- C30: for a reply with type REPLY, code 0 and the magic data from sender `S`: when
the key `(S, identifier, seqNumber)` is in the in-flight table with send time
`sendTime`, `handleICMPMessage` removes exactly that key and hands the one sample
`receiveTime - sendTime` (in microseconds) for ICMP and `S` to the latency store,
which pushes it on the ICMP window of `S` when the UDP deadline of `S` has not passed
and changes no other peer; a second feed of the same reply then changes nothing. When
the key is not in the table (also when only the sender address differs from the
probed peer) nothing changes. -/
theorem C30_matching_reply_recorded_once (requestTime : ICMPService.RequestTime) (data : Data)
    (reply : ICMPEchoPacket) (receiveTime : Int) (S : Nat) (period tUpdate tAdd : Int)
    (hvalid : reply.type = .REPLY ∧ reply.code = 0 ∧ reply.data = 0x054BE403) :
    (∀ sendTime,
      ICMPService.find requestTime ⟨S, reply.identifier, reply.seqNumber⟩ = some sendTime →
        ICMPService.handleICMPMessage requestTime data reply receiveTime S period tUpdate tAdd
          = (ICMPService.erase requestTime ⟨S, reply.identifier, reply.seqNumber⟩,
              LatencyDatabase.addLatency data .ICMP S
                (Int.tdiv (receiveTime - sendTime) period) tUpdate tAdd)
        ∧ ICMPService.find (ICMPService.erase requestTime
            ⟨S, reply.identifier, reply.seqNumber⟩) ⟨S, reply.identifier, reply.seqNumber⟩ = none
        ∧ (∀ k, k ≠ ⟨S, reply.identifier, reply.seqNumber⟩ →
            ICMPService.find (ICMPService.erase requestTime
              ⟨S, reply.identifier, reply.seqNumber⟩) k = ICMPService.find requestTime k)
        ∧ (∀ h, LatencyDatabase.find data S = some h → tUpdate ≤ h.udpExpiration →
            tAdd ≤ h.udpExpiration →
            ∃ h', LatencyDatabase.find (LatencyDatabase.addLatency data .ICMP S
                (Int.tdiv (receiveTime - sendTime) period) tUpdate tAdd) S = some h'
              ∧ h'.icmpTime = h.icmpTime.push (Int.tdiv (receiveTime - sendTime) period))
        ∧ (∀ Q, Q ≠ S →
            LatencyDatabase.find (LatencyDatabase.addLatency data .ICMP S
                (Int.tdiv (receiveTime - sendTime) period) tUpdate tAdd) Q
              = LatencyDatabase.find data Q)
        ∧ (∀ receiveTime2 tUpdate2 tAdd2,
            ICMPService.handleICMPMessage
                (ICMPService.erase requestTime ⟨S, reply.identifier, reply.seqNumber⟩)
                (LatencyDatabase.addLatency data .ICMP S
                  (Int.tdiv (receiveTime - sendTime) period) tUpdate tAdd)
                reply receiveTime2 S period tUpdate2 tAdd2
              = (ICMPService.erase requestTime ⟨S, reply.identifier, reply.seqNumber⟩,
                  LatencyDatabase.addLatency data .ICMP S
                    (Int.tdiv (receiveTime - sendTime) period) tUpdate tAdd)))
    ∧ (ICMPService.find requestTime ⟨S, reply.identifier, reply.seqNumber⟩ = none →
        ICMPService.handleICMPMessage requestTime data reply receiveTime S period tUpdate tAdd
          = (requestTime, data)) := by
  obtain ⟨ht, hc, hd⟩ := hvalid
  have hm : ICMPService.requestData = 0x054BE403 := by decide
  have hguard : ¬ (reply.type ≠ ICMPType.REPLY ∨ reply.code ≠ 0
      ∨ reply.data ≠ ICMPService.requestData) := by
    rw [hm]; simp [ht, hc, hd]
  have hmiss : ∀ (rt : ICMPService.RequestTime) (d : Data) (r t1 t2 : Int),
      ICMPService.find rt ⟨S, reply.identifier, reply.seqNumber⟩ = none →
      ICMPService.handleICMPMessage rt d reply r S period t1 t2 = (rt, d) := by
    intro rt d r t1 t2 hnone
    unfold ICMPService.handleICMPMessage
    rw [if_neg hguard]
    simp only [hnone]
  refine ⟨?_, hmiss requestTime data receiveTime tUpdate tAdd⟩
  intro sendTime hfind
  refine ⟨?_, ICMPService.requestTime_find_erase_self _ _,
    fun k hk => ICMPService.requestTime_find_erase_ne _ _ _ hk,
    ?_, fun Q hQ => LatencyDatabase.addLatency_find_ne _ _ _ _ _ _ _ hQ, ?_⟩
  · unfold ICMPService.handleICMPMessage
    rw [if_neg hguard]
    simp only [hfind]
  · intro h hh h1 h2
    obtain ⟨h', e1, e2⟩ := LatencyDatabase.addLatency_find_available data .ICMP S h
      (Int.tdiv (receiveTime - sendTime) period) tUpdate tAdd hh h1 h2
    exact ⟨h', e1, e2⟩
  · intro r2 t3 t4
    exact hmiss _ _ r2 t3 t4 (ICMPService.requestTime_find_erase_self _ _)

open bitops dns_format LatencyDatabase

set_option maxRecDepth 100000 in
/-- C30 at a table holding the probe `(1, 0xABCD, 1)` sent at tick 100000, with peer 1
available over UDP and a clock of 1000 ticks in a microsecond: the reply received from
peer 1 at tick 350000 removes the key and records the one sample 250; fed again it
changes nothing; the same reply received from peer 2 changes nothing. -/
theorem C30_matching_reply_recorded_once_witness :
    ICMPService.handleICMPMessage [(⟨1, 0xABCD, 1⟩, 100000)]
        [(1, { Host.new with udpExpiration := 1000000, udpExpired := false })]
        (ICMPEchoPacket.mk .REPLY 0 0xABCD 1 0x054BE403) 350000 1 1000 350000 350000
      = (ICMPService.erase [(⟨1, 0xABCD, 1⟩, 100000)] ⟨1, 0xABCD, 1⟩,
          LatencyDatabase.addLatency
            [(1, { Host.new with udpExpiration := 1000000, udpExpired := false })]
            .ICMP 1 (Int.tdiv (350000 - 100000) 1000) 350000 350000)
    ∧ (ICMPService.handleICMPMessage [(⟨1, 0xABCD, 1⟩, 100000)]
        [(1, { Host.new with udpExpiration := 1000000, udpExpired := false })]
        (ICMPEchoPacket.mk .REPLY 0 0xABCD 1 0x054BE403) 350000 1 1000 350000 350000).1 = []
    ∧ (LatencyDatabase.find (ICMPService.handleICMPMessage [(⟨1, 0xABCD, 1⟩, 100000)]
        [(1, { Host.new with udpExpiration := 1000000, udpExpired := false })]
        (ICMPEchoPacket.mk .REPLY 0 0xABCD 1 0x054BE403) 350000 1 1000 350000 350000).2 1).map
          (fun h => (h.icmpTime.count, h.icmpTime.held)) = some (1, [250])
    ∧ ICMPService.handleICMPMessage [(⟨1, 0xABCD, 1⟩, 100000)]
        [(1, { Host.new with udpExpiration := 1000000, udpExpired := false })]
        (ICMPEchoPacket.mk .REPLY 0 0xABCD 1 0x054BE403) 350000 2 1000 350000 350000
      = ([(⟨1, 0xABCD, 1⟩, 100000)],
          [(1, { Host.new with udpExpiration := 1000000, udpExpired := false })]) :=
  ⟨((C30_matching_reply_recorded_once [(⟨1, 0xABCD, 1⟩, 100000)]
        [(1, { Host.new with udpExpiration := 1000000, udpExpired := false })]
        (ICMPEchoPacket.mk .REPLY 0 0xABCD 1 0x054BE403) 350000 1 1000 350000 350000
        ⟨rfl, rfl, rfl⟩).1 100000 (by decide!)).1,
    by decide!, by decide!, by decide!⟩

open bitops dns_format LatencyDatabase

namespace TELNETServer

/-- The average of a host is the top element exactly when it has no sample. -/
theorem averageKey_eq_top (h : Host) : averageKey h = ⊤ ↔ h.hasNoSample := by
  have hloop := Host.averageLoop_eq h allProtocols 0 0 (le_refl _) (by norm_num) (by norm_num)
  have hlen : (h.knownProtocols allProtocols).length ≤ 3 :=
    Host.knownProtocols_length_le h allProtocols
  have hmod : (0 + (h.knownProtocols allProtocols).length) % 2 ^ 8
      = (h.knownProtocols allProtocols).length := by
    rw [Nat.zero_add]
    exact Nat.mod_eq_of_lt (by omega)
  rw [hmod, Int.zero_add] at hloop
  unfold averageKey Host.getAverageLatency Host.hasNoSample
  rw [hloop]
  by_cases hk : h.knownProtocols allProtocols = []
  · simp [hk]
  · have hpos : (h.knownProtocols allProtocols).length ≠ 0 := by
      simpa [List.length_eq_zero] using hk
    simp [hk, hpos]

theorem sortHostEntries_perm (data : List (Nat × Host)) : (sortHostEntries data).Perm data :=
  List.perm_insertionSort _ data

theorem sortHostEntries_sorted (data : List (Nat × Host)) :
    (sortHostEntries data).Pairwise (fun a b => averageKey a.2 ≥ averageKey b.2) := by
  haveI : IsTotal (Nat × Host) (fun a b => ¬ compareHostEntry b a = true) :=
    ⟨fun a b => by
      simp only [compareHostEntry, decide_eq_true_eq, not_lt]
      exact le_total _ _⟩
  haveI : IsTrans (Nat × Host) (fun a b => ¬ compareHostEntry b a = true) :=
    ⟨fun a b c hab hbc => by
      simp only [compareHostEntry, decide_eq_true_eq, not_lt] at hab hbc ⊢
      exact le_trans hbc hab⟩
  have hs := List.sorted_insertionSort (fun a b => ¬ compareHostEntry b a = true) data
  refine List.Pairwise.imp ?_ hs
  intro a b hab
  simpa only [compareHostEntry, decide_eq_true_eq, not_lt] using hab

theorem updateData_eq (snapshot : List (Nat × Host)) (spaces : Nat → Nat) :
    updateData snapshot spaces
      = (List.range (sortHostEntries snapshot).length).map
          (fun i => lineOf spaces i ((sortHostEntries snapshot).getD i (0, Host.new))) := by
  unfold updateData
  simp only
  apply List.map_congr_left
  intro i hi
  have hi2 : i < (sortHostEntries snapshot).length := List.mem_range.mp hi
  simp [lineOf, List.getD_eq_getElem?_getD, List.getElem?_map, List.getElem?_eq_getElem hi2]

end TELNETServer

open bitops dns_format LatencyDatabase

set_option maxRecDepth 100000 in
/-- C21: for every snapshot, the rows that `updateData` renders are a permutation of
the snapshot, line `i` of `dataViewLines` is the line of row `i`, every row has an
average latency at least that of every later row, and no peer with a sample comes
before a peer without samples; for the snapshot of P1 (average 500), P2 (average
`300 / 2 = 150`) and P3 (no samples) the rows are P3, P1, P2. -/
theorem C21_rows_sorted_by_average (snapshot : List (Nat × Host)) (spaces : Nat → Nat) :
    (TELNETServer.sortHostEntries snapshot).Perm snapshot
    ∧ TELNETServer.updateData snapshot spaces
        = (List.range snapshot.length).map (fun i => TELNETServer.lineOf spaces i
            ((TELNETServer.sortHostEntries snapshot).getD i (0, Host.new)))
    ∧ (TELNETServer.sortHostEntries snapshot).Pairwise
        (fun a b => TELNETServer.averageKey a.2 ≥ TELNETServer.averageKey b.2)
    ∧ (TELNETServer.sortHostEntries snapshot).Pairwise
        (fun a b => b.2.hasNoSample → a.2.hasNoSample)
    ∧ (TELNETServer.sortHostEntries TELNETServer.sampleSnapshot).map (fun e => e.1) = [3, 1, 2]
    ∧ (TELNETServer.sampleSnapshot.map
        (fun e => (e.1, e.2.getAverageLatency)))
        = [(1, .ok (.quotient 500 1)), (2, .ok (.quotient 300 2)), (3, .ok .max)] := by
  refine ⟨TELNETServer.sortHostEntries_perm snapshot, ?_,
    TELNETServer.sortHostEntries_sorted snapshot, ?_, by decide!, by decide!⟩
  · rw [TELNETServer.updateData_eq, (TELNETServer.sortHostEntries_perm snapshot).length_eq]
  · refine List.Pairwise.imp ?_ (TELNETServer.sortHostEntries_sorted snapshot)
    intro a b hab hb
    rw [← TELNETServer.averageKey_eq_top] at hb ⊢
    rw [hb] at hab
    exact top_le_iff.mp hab

open bitops dns_format LatencyDatabase

namespace SDServerClient

theorem findHost_putHost_self (known : List (List Nat × Int)) (k : List Nat) (d : Int) :
    findHost (putHost known k d) k = some d := by
  induction known with
  | nil => simp [putHost, findHost]
  | cons e rest ih =>
    obtain ⟨a, t⟩ := e
    by_cases h1 : a = k
    · simp [putHost, findHost, h1]
    · by_cases h2 : k < a
      · simp [putHost, findHost, h1, h2]
      · simp [putHost, findHost, h1, h2, ih]

/-- A label found with a deadline that has not passed is known, and the probe leaves
the state as it is. -/
theorem isHostKnown_of_unexpired (st : SDServerClient) (domain : List Nat) (now d : Int)
    (hf : findHost st.knownHostNames (firstLabel domain) = some d) (hd : ¬ d < now) :
    isHostKnown st domain now = (true, st) := by
  simp [isHostKnown, hf, hd]

theorem findHost_eq_none_iff (known : List (List Nat × Int)) (k : List Nat) :
    findHost known k = none ↔ ∀ e ∈ known, e.1 ≠ k := by
  induction known with
  | nil => simp [findHost]
  | cons d rest ih =>
    obtain ⟨a, t⟩ := d
    by_cases h : a = k
    · simp [findHost, h]
    · simp [findHost, h, ih]

theorem findHost_eraseHost_self (known : List (List Nat × Int)) (k : List Nat) :
    findHost (eraseHost known k) k = none := by
  rw [findHost_eq_none_iff]
  intro e he
  simpa [eraseHost] using (List.mem_filter.mp he).2

/-- A label that is missing, or found with a deadline that has passed, is not known;
the probe changes at most the table of known hosts. -/
theorem isHostKnown_of_expired (st : SDServerClient) (domain : List Nat) (now : Int)
    (h : ∀ d, findHost st.knownHostNames (firstLabel domain) = some d → d < now) :
    (isHostKnown st domain now).1 = false
    ∧ ∀ known, { (isHostKnown st domain now).2 with knownHostNames := known }
        = { st with knownHostNames := known } := by
  cases hf : findHost st.knownHostNames (firstLabel domain) with
  | none => simp [isHostKnown, hf]
  | some d =>
    have hd := h d hf
    simp [isHostKnown, hf, hd, findHost_eraseHost_self]

end SDServerClient

open bitops dns_format LatencyDatabase

set_option maxRecDepth 100000 in
/-- C26 fails for a TTL of 65536 seconds: the PTR record `samplePTR 65536` announces
`y._opoznienia._udp.local.`, a supported service, and `handlePTRResponse` at clock
reading 0 stores the label `y` with deadline 0, not `65536` seconds later, so one tick
later `isHostKnown` is false: `addKnownHost` takes the TTL in a `u16`. For every
record with a supported service the stored deadline is `now` plus the TTL modulo
`2^16` in seconds, and `isHostKnown` holds up to that deadline. -/
theorem C26_ttl_truncated_to_16_bits :
    (SDServerClient.samplePTR 65536).ttl = 65536
    ∧ SDServerClient.supportedService (SDServerClient.samplePTR 65536).rdata = true
    ∧ firstLabel (SDServerClient.samplePTR 65536).rdata = [1, 121, 0]
    ∧ (SDServerClient.handlePTRResponse SDServerClient.sampleEngine
          (SDServerClient.samplePTR 65536) 1000 0).map (fun r => r.1.knownHostNames)
        = .ok [([1, 121, 0], 0)]
    ∧ (SDServerClient.handlePTRResponse SDServerClient.sampleEngine
          (SDServerClient.samplePTR 65536) 1000 0).map
          (fun r => (SDServerClient.isHostKnown r.1 (SDServerClient.samplePTR 65536).rdata 1).1)
        = .ok false
    ∧ (∀ (st : SDServerClient) (response : ResourceRecord) (period now : Int),
        response.rrtype = DNSType.PTR →
        SDServerClient.supportedService response.rdata = true →
        ∃ st', SDServerClient.handlePTRResponse st response period now
            = .ok (st', [SDServerClient.sendAQuery response.rdata])
          ∧ SDServerClient.findHost st'.knownHostNames (firstLabel response.rdata)
              = some (now + SDServerClient.seconds period ((response.ttl % 2 ^ 16 : Nat) : Int))
          ∧ ∀ t, t ≤ now + SDServerClient.seconds period ((response.ttl % 2 ^ 16 : Nat) : Int) →
              (SDServerClient.isHostKnown st' response.rdata t).1 = true) := by
  refine ⟨by decide!, by decide!, by decide!, by decide!, by decide!, ?_⟩
  intro st response period now hP hS
  refine ⟨SDServerClient.addKnownHost st response.rdata response.ttl period now, ?_, ?_, ?_⟩
  · simp [SDServerClient.handlePTRResponse, ResourceRecord.getPtrAnswer, hP, hS, bind,
      Except.bind, pure, Except.pure]
  · simp only [SDServerClient.addKnownHost]
    exact SDServerClient.findHost_putHost_self _ _ _
  · intro t ht
    have hf : SDServerClient.findHost
        (SDServerClient.addKnownHost st response.rdata response.ttl period now).knownHostNames
        (firstLabel response.rdata)
        = some (now + SDServerClient.seconds period ((response.ttl % 2 ^ 16 : Nat) : Int)) := by
      simp only [SDServerClient.addKnownHost]
      exact SDServerClient.findHost_putHost_self _ _ _
    rw [SDServerClient.isHostKnown_of_unexpired _ _ _ _ hf (not_lt.mpr ht)]

set_option maxRecDepth 100000 in
/-- C26 for a TTL of 4500 seconds, below `2^16`: the label `y` is stored with the
deadline 4500 seconds after the clock reading 0. -/
theorem C26_ttl_truncated_to_16_bits_witness :
    ∃ st', SDServerClient.handlePTRResponse SDServerClient.sampleEngine
          (SDServerClient.samplePTR 4500) 1000 0
        = .ok (st', [SDServerClient.sendAQuery (SDServerClient.samplePTR 4500).rdata])
      ∧ SDServerClient.findHost st'.knownHostNames
          (firstLabel (SDServerClient.samplePTR 4500).rdata)
          = some (0 + SDServerClient.seconds 1000
              (((SDServerClient.samplePTR 4500).ttl % 2 ^ 16 : Nat) : Int))
      ∧ ∀ t, t ≤ 0 + SDServerClient.seconds 1000
            (((SDServerClient.samplePTR 4500).ttl % 2 ^ 16 : Nat) : Int) →
          (SDServerClient.isHostKnown st' (SDServerClient.samplePTR 4500).rdata t).1 = true :=
  C26_ttl_truncated_to_16_bits.2.2.2.2.2 SDServerClient.sampleEngine
    (SDServerClient.samplePTR 4500) 1000 0 (by decide!) (by decide!)

open bitops dns_format LatencyDatabase

set_option maxRecDepth 100000 in
/-- C27: for an A record `r` whose rdata is the four octets `a b c d`, with
`serviceLabels` the string of `r.name` without its first label: when `serviceLabels`
is `_opoznienia._udp.local.` (resp. `_ssh._tcp.local.`) and the first label of
`r.name` is in the discovered-hosts table with a deadline that has not passed,
`handleAResponse` makes the one call `setConnectionAvailable(UDP (resp. TCP), addr,
ttl)` with `addr` the big-endian value of the four octets and `ttl` the record's TTL
in seconds; in every other case the map of the latency store is unchanged, as it is
for every packet whose source port is not 5353. After the PTR and A responses of
scenario S1, peer `10.0.0.7` has UDP available and TCP not available. -/
theorem C27_A_response_marks_available (st : SDServerClient) (data : Data)
    (r : ResourceRecord) (period tKnown tUpdate tNow tSet : Int) (a b c d : Nat)
    (hA : r.rrtype = DNSType.A) (hrdata : r.rdata = [a, b, c, d]) :
    (domainToString (withoutFirstLabel r.name) = SDServerClient.OPOZNIENIA_SERVICE →
      (∃ dl, SDServerClient.findHost st.knownHostNames (firstLabel r.name) = some dl
        ∧ ¬ dl < tKnown) →
      SDServerClient.handleAResponse st data r period tKnown tUpdate tNow tSet
        = .ok (st, LatencyDatabase.setConnectionAvailable data .UDP
            (merge_u16 (merge_u8 a b) (merge_u8 c d))
            (SDServerClient.seconds period (r.ttl : Int)) tUpdate tNow tSet))
    ∧ (domainToString (withoutFirstLabel r.name) = SDServerClient.TCP_SERVICE →
      (∃ dl, SDServerClient.findHost st.knownHostNames (firstLabel r.name) = some dl
        ∧ ¬ dl < tKnown) →
      SDServerClient.handleAResponse st data r period tKnown tUpdate tNow tSet
        = .ok (st, LatencyDatabase.setConnectionAvailable data .TCP
            (merge_u16 (merge_u8 a b) (merge_u8 c d))
            (SDServerClient.seconds period (r.ttl : Int)) tUpdate tNow tSet))
    ∧ ((domainToString (withoutFirstLabel r.name) ≠ SDServerClient.OPOZNIENIA_SERVICE
          ∧ domainToString (withoutFirstLabel r.name) ≠ SDServerClient.TCP_SERVICE)
        ∨ (∀ dl, SDServerClient.findHost st.knownHostNames (firstLabel r.name) = some dl →
            dl < tKnown) →
      ∃ st', SDServerClient.handleAResponse st data r period tKnown tUpdate tNow tSet
        = .ok (st', data))
    ∧ (∀ (packet : DNSPacket) (senderEndpoint : Endpoint) (reads : Nat → Int × Int × Int × Int),
        senderEndpoint.port ≠ 5353 →
        SDServerClient.handleResponses st data packet senderEndpoint period reads
          = .ok (st, data, []))
    ∧ (do
        let r1 ← SDServerClient.handleResponses SDServerClient.sampleEngine []
          { DNSPacket.new with answers := [SDServerClient.samplePTR 4500] }
          { address := 10 * 2 ^ 24 + 7, port := 5353 } 1000 (fun _ => (0, 0, 0, 0))
        let r2 ← SDServerClient.handleResponses r1.1 r1.2.1
          { DNSPacket.new with answers := [SDServerClient.sampleA] }
          { address := 10 * 2 ^ 24 + 7, port := 5353 } 1000 (fun _ => (5, 5, 5, 5))
        pure ((LatencyDatabase.find r2.2.1 (10 * 2 ^ 24 + 7)).map
          (fun (h : Host) => (h.isProtocolAvailable .UDP, h.isProtocolAvailable .TCP,
            h.udpExpiration))))
        = .ok (some (true, false, 5 + 4500 * 1000000000)) := by
  have hne : SDServerClient.TCP_SERVICE ≠ SDServerClient.OPOZNIENIA_SERVICE := by decide
  have haddr : r.getAddress = .ok (merge_u16 (merge_u8 a b) (merge_u8 c d)) := by
    have h4 : getU32 [a, b, c, d] 0
        = .ok (merge_u16 (merge_u8 a b) (merge_u8 c d), 0 + 4) :=
      getU32_of_getElem? rfl rfl rfl rfl
    simp [ResourceRecord.getAddress, hA, hrdata, h4]
  refine ⟨?_, ?_, ?_, ?_, by decide!⟩
  · rintro hs ⟨dl, hf, hd⟩
    have hsup : SDServerClient.supportedService r.name = true := by
      simp [SDServerClient.supportedService, hs]
    simp [SDServerClient.handleAResponse, hsup,
      SDServerClient.isHostKnown_of_unexpired st r.name tKnown dl hf hd, haddr, hs,
      hne.symm, bind, Except.bind, pure, Except.pure]
  · rintro hs ⟨dl, hf, hd⟩
    have hsup : SDServerClient.supportedService r.name = true := by
      simp [SDServerClient.supportedService, hs]
    simp [SDServerClient.handleAResponse, hsup,
      SDServerClient.isHostKnown_of_unexpired st r.name tKnown dl hf hd, haddr, hs,
      hne, bind, Except.bind, pure, Except.pure]
  · rintro (⟨h1, h2⟩ | h)
    · have hsup : SDServerClient.supportedService r.name = false := by
        simp [SDServerClient.supportedService, h1, h2]
      exact ⟨st, by simp [SDServerClient.handleAResponse, hsup, pure, Except.pure]⟩
    · by_cases hsup : SDServerClient.supportedService r.name = true
      · have hk := (SDServerClient.isHostKnown_of_expired st r.name tKnown h).1
        exact ⟨(SDServerClient.isHostKnown st r.name tKnown).2,
          by simp [SDServerClient.handleAResponse, hsup, hk, pure, Except.pure]⟩
      · exact ⟨st, by simp [SDServerClient.handleAResponse, hsup, pure, Except.pure]⟩
  · intro packet ep reads hp
    have : ep.port ≠ SDServerClient.MDNS_MULTICAST_EP.port := hp
    simp [SDServerClient.handleResponses, this, pure, Except.pure]

open bitops dns_format LatencyDatabase

set_option maxRecDepth 100000 in
/-- C27 at the A record of `y._opoznienia._udp.local.` with rdata `10 0 0 7` and TTL
4500, the label `y` being known until tick `4500 * 10^9`: the one call is
`setConnectionAvailable(UDP, 10.0.0.7, 4500 s)`. -/
theorem C27_A_response_marks_available_witness :
    SDServerClient.handleAResponse
        { SDServerClient.sampleEngine with knownHostNames := [([1, 121, 0], 4500000000000)] }
        [] SDServerClient.sampleA 1000 5 5 5 5
      = .ok ({ SDServerClient.sampleEngine with
                knownHostNames := [([1, 121, 0], 4500000000000)] },
          LatencyDatabase.setConnectionAvailable [] .UDP
            (merge_u16 (merge_u8 10 0) (merge_u8 0 7))
            (SDServerClient.seconds 1000 (SDServerClient.sampleA.ttl : Int)) 5 5 5)
    ∧ merge_u16 (merge_u8 10 0) (merge_u8 0 7) = 10 * 2 ^ 24 + 7 :=
  ⟨(C27_A_response_marks_available
      { SDServerClient.sampleEngine with knownHostNames := [([1, 121, 0], 4500000000000)] }
      [] SDServerClient.sampleA 1000 5 5 5 5 10 0 0 7 (by decide!) (by decide!)).1
      (by decide!) ⟨4500000000000, by decide!, by decide⟩,
    by decide!⟩

open bitops dns_format LatencyDatabase

namespace SDServerClient

theorem services_ne : stringToDomain TCP_SERVICE ≠ stringToDomain OPOZNIENIA_SERVICE := by
  decide

/-- The answer to an advertised question is a PTR or an A record. -/
theorem answerOf_supported (st : SDServerClient) (q : Question) (ep : Endpoint)
    (getHostAddr : Nat → Nat) (h : Advertised st q) :
    (answerOf st q ep getHostAddr).getRRType ≠ DNSType.UNSUPPORTED := by
  rcases h with ⟨ht, hn | hn⟩ | ⟨ht, hn | hn⟩
  · have h2 : ¬ stringToDomain TCP_SERVICE = stringToDomain OPOZNIENIA_SERVICE := services_ne
    simp [answerOf, ht, generatePTRAnswer, hn, h2, ResourceRecord.getRRType,
      ResourceRecord.setPTRAnswer, DNSType.PTR, DNSType.UNSUPPORTED]
  · have h2 : ¬ stringToDomain OPOZNIENIA_SERVICE = stringToDomain TCP_SERVICE :=
      fun e => services_ne e.symm
    simp [answerOf, ht, generatePTRAnswer, hn, h2, ResourceRecord.getRRType,
      ResourceRecord.setPTRAnswer, DNSType.PTR, DNSType.UNSUPPORTED]
  · have hA : ¬ DNSType.A = DNSType.PTR := by decide
    simp only [answerOf, ht, hA, if_false, generateAAnswer, List.foldl, hn, if_true]
    split_ifs <;> simp [ResourceRecord.getRRType, ResourceRecord.setAAnswer, DNSType.A,
      DNSType.UNSUPPORTED]
  · have hA : ¬ DNSType.A = DNSType.PTR := by decide
    simp only [answerOf, ht, hA, if_false, generateAAnswer, List.foldl, hn, if_true]
    simp [ResourceRecord.getRRType, ResourceRecord.setAAnswer, DNSType.A,
      DNSType.UNSUPPORTED]

/-- The PTR answer for a service name: the record named as the question, class IN, TTL
4500, with rdata `hostname.service`. -/
theorem generatePTRAnswer_of_service (st : SDServerClient) (q : Question) (srvc : List Nat)
    (hs : srvc = TCP_SERVICE ∨ srvc = OPOZNIENIA_SERVICE)
    (hn : q.qname = stringToDomain srvc) :
    generatePTRAnswer st q
      = ({ ResourceRecord.new with name := q.qname, ttl := DEFAULT_TTL, rrclass := DNSClass.IN }
          ).setPTRAnswer (stringToDomain (st.hostname ++ [46] ++ srvc)) := by
  rcases hs with hs | hs
  · subst hs
    have h2 : ¬ stringToDomain TCP_SERVICE = stringToDomain OPOZNIENIA_SERVICE := services_ne
    simp [generatePTRAnswer, generatePlainAnswer, hn, h2]
  · subst hs
    have h2 : ¬ stringToDomain OPOZNIENIA_SERVICE = stringToDomain TCP_SERVICE :=
      fun e => services_ne e.symm
    simp [generatePTRAnswer, generatePlainAnswer, hn, h2]

/-- The PTR answer for any other name has no type. -/
theorem generatePTRAnswer_of_other (st : SDServerClient) (q : Question)
    (h1 : q.qname ≠ stringToDomain TCP_SERVICE)
    (h2 : q.qname ≠ stringToDomain OPOZNIENIA_SERVICE) :
    (generatePTRAnswer st q).getRRType = DNSType.UNSUPPORTED := by
  simp [generatePTRAnswer, generatePlainAnswer, h1, h2, ResourceRecord.getRRType,
    ResourceRecord.new]

theorem qtype_cases (st : SDServerClient) (q : Question) (h : Advertised st q) :
    q.qtype = DNSType.PTR ∨ (q.qtype ≠ DNSType.PTR ∧ q.qtype = DNSType.A) := by
  rcases h with ⟨ht, -⟩ | ⟨ht, -⟩
  · exact Or.inl ht
  · exact Or.inr ⟨by rw [ht]; decide, ht⟩

/-- A multicast answer to an advertised question: one datagram to the multicast
endpoint, and the time of the send recorded for the record type. -/
theorem responseViaMulticast_of_advertised (st : SDServerClient) (q : Question)
    (ep : Endpoint) (getHostAddr : Nat → Nat) (period : Int) (rnd : Nat) (sendTime : Int)
    (h : Advertised st q) :
    responseViaMulticast st q ep getHostAddr period rnd sendTime
      = ({ st with
            lastMutlicastResponses := st.lastMutlicastResponses.set (timeIdxOf q)
                                        (some (sendTime + microseconds period (delayOf q rnd))) },
          [{ bytes := (responseWith (answerOf st q ep getHostAddr)).generateNetworkFormat,
             dst := MDNS_MULTICAST_EP, delay := delayOf q rnd }]) := by
  have hsup := answerOf_supported st q ep getHostAddr h
  rcases qtype_cases st q h with ht | ⟨hnp, ht⟩
  · simp only [answerOf, ht, if_true] at hsup
    simp [responseViaMulticast, ht, hsup, answerOf, delayOf, timeIdxOf, responseWith]
  · have hAP : ¬ DNSType.A = DNSType.PTR := by decide
    simp only [answerOf, hnp, if_false] at hsup
    simp [responseViaMulticast, hAP, ht, hsup, answerOf, delayOf, timeIdxOf, responseWith]

/-- The answer to a question with the unicast-response bit, or sent to this host
directly: unicast when a response of the type was multicast recently, else multicast. -/
theorem handleUnicastQuery_of_advertised (st : SDServerClient) (q : Question)
    (ep : Endpoint) (getHostAddr : Nat → Nat) (period now : Int) (rnd : Nat) (sendTime : Int)
    (h : Advertised st q) :
    (MulticastRecently st q period now →
      handleUnicastQuery st q ep getHostAddr period now rnd sendTime
        = (st, [{ bytes := (responseWith (answerOf st q ep getHostAddr)).generateNetworkFormat,
                  dst := ep, delay := delayOf q rnd }]))
    ∧ (¬ MulticastRecently st q period now →
      handleUnicastQuery st q ep getHostAddr period now rnd sendTime
        = responseViaMulticast st q ep getHostAddr period rnd sendTime) := by
  have hsup := answerOf_supported st q ep getHostAddr h
  have h1125 : ((DEFAULT_TTL / 4 : Nat) : Int) = 1125 := by decide
  constructor
  · rintro ⟨last, hl, hlt⟩
    have hidx : st.lastMutlicastResponses.getD
        (if q.qtype = DNSType.PTR then PTR_TIME_IDX else A_TIME_IDX) none = some last := hl
    have hAP : ¬ DNSType.A = DNSType.PTR := by decide
    rcases qtype_cases st q h with ht | ⟨hnp, ht⟩
    · simp only [answerOf, ht, if_true] at hsup
      simp only [ht, if_true, List.getD_eq_getElem?_getD] at hidx
      simp [handleUnicastQuery, ht, hidx, h1125, hlt, hsup, answerOf, delayOf, responseWith]
    · simp only [answerOf, hnp, if_false] at hsup
      simp only [hnp, if_false, List.getD_eq_getElem?_getD] at hidx
      simp [handleUnicastQuery, hAP, ht, hidx, h1125, hlt, hsup, answerOf, delayOf,
        responseWith]
  · intro hnot
    unfold handleUnicastQuery
    simp only
    cases hl : st.lastMutlicastResponses.getD
        (if q.qtype = DNSType.PTR then PTR_TIME_IDX else A_TIME_IDX) none with
    | none => simp
    | some last =>
      have hlt : last < now - seconds period 1125 := by
        by_contra hc
        exact hnot ⟨last, hl, hc⟩
      simp [h1125, hlt]

end SDServerClient

open bitops dns_format LatencyDatabase

set_option maxRecDepth 100000 in
/-- C23 as stated fails: the engine `sampleEngine` has multicast no response yet; a
PTR question for `_opoznienia._udp.local.` with the unicast-response bit set, received
from port 5353, is not ignored and matches an advertised name, and its answer is sent
to the multicast endpoint, not to the sender. -/
theorem C23_counterexample_first_answer_multicast :
    SDServerClient.ignoreQuestion SDServerClient.sampleEngine
        (SDServerClient.sampleQuestion true) = false
    ∧ SDServerClient.Advertised SDServerClient.sampleEngine (SDServerClient.sampleQuestion true)
    ∧ (SDServerClient.sampleQuestion true).unicastResponseRequested = true
    ∧ (SDServerClient.handleQuestion SDServerClient.sampleEngine SDServerClient.sampleQuery
          (SDServerClient.sampleQuestion true) { address := 10 * 2 ^ 24 + 7, port := 5353 }
          false (fun _ => 10 * 2 ^ 24 + 1) 1000 5000 0 5000).2.map (fun d => d.dst)
        = [{ address := 224 * 2 ^ 24 + 251, port := 5353 }] := by
  decide!

/-- C23 (amended): for a question that is not ignored, matches an advertised name and
comes from source port 5353: when `directedQuery` is true or the unicast-response bit
is set, the answer is sent to the sender's endpoint if this node multicast a response
of the same record type no longer than 1125 s (`DEFAULT_TTL / 4`) before, and to the
multicast endpoint otherwise; when neither holds it is sent to the multicast
endpoint. A multicast answer records its send time for the record type. -/
theorem C23_unicast_only_after_recent_multicast (st : SDServerClient) (packet : DNSPacket)
    (q : Question) (ep : Endpoint) (directedQuery : Bool) (getHostAddr : Nat → Nat)
    (period now : Int) (rnd : Nat) (sendTime : Int)
    (hport : ep.port = 5353) (hign : SDServerClient.ignoreQuestion st q = false)
    (hadv : SDServerClient.Advertised st q) :
    ((directedQuery = true ∨ q.unicastResponseRequested = true) →
      SDServerClient.MulticastRecently st q period now →
      SDServerClient.handleQuestion st packet q ep directedQuery getHostAddr period now rnd
          sendTime
        = (st, [{ bytes := (SDServerClient.responseWith
                    (SDServerClient.answerOf st q ep getHostAddr)).generateNetworkFormat,
                  dst := ep, delay := SDServerClient.delayOf q rnd }]))
    ∧ ((directedQuery = true ∨ q.unicastResponseRequested = true) →
      ¬ SDServerClient.MulticastRecently st q period now →
      SDServerClient.handleQuestion st packet q ep directedQuery getHostAddr period now rnd
          sendTime
        = ({ st with
              lastMutlicastResponses := st.lastMutlicastResponses.set
                (SDServerClient.timeIdxOf q)
                (some (sendTime
                  + SDServerClient.microseconds period (SDServerClient.delayOf q rnd))) },
            [{ bytes := (SDServerClient.responseWith
                  (SDServerClient.answerOf st q ep getHostAddr)).generateNetworkFormat,
               dst := SDServerClient.MDNS_MULTICAST_EP,
               delay := SDServerClient.delayOf q rnd }]))
    ∧ (directedQuery = false → q.unicastResponseRequested = false →
      SDServerClient.handleQuestion st packet q ep directedQuery getHostAddr period now rnd
          sendTime
        = ({ st with
              lastMutlicastResponses := st.lastMutlicastResponses.set
                (SDServerClient.timeIdxOf q)
                (some (sendTime
                  + SDServerClient.microseconds period (SDServerClient.delayOf q rnd))) },
            [{ bytes := (SDServerClient.responseWith
                  (SDServerClient.answerOf st q ep getHostAddr)).generateNetworkFormat,
               dst := SDServerClient.MDNS_MULTICAST_EP,
               delay := SDServerClient.delayOf q rnd }])) := by
  have hp : ¬ ep.port ≠ SDServerClient.MDNS_MULTICAST_EP.port := by
    rw [hport]; decide
  have hu := SDServerClient.handleUnicastQuery_of_advertised st q ep getHostAddr period now
    rnd sendTime hadv
  have hm := SDServerClient.responseViaMulticast_of_advertised st q ep getHostAddr period
    rnd sendTime hadv
  refine ⟨?_, ?_, ?_⟩
  · intro hd hr
    have hd2 : (directedQuery || q.unicastResponseRequested) = true := by
      rcases hd with hd | hd <;> simp [hd]
    unfold SDServerClient.handleQuestion
    rw [if_neg (by simp [hign]), if_neg hp, if_pos hd2]
    exact hu.1 hr
  · intro hd hr
    have hd2 : (directedQuery || q.unicastResponseRequested) = true := by
      rcases hd with hd | hd <;> simp [hd]
    unfold SDServerClient.handleQuestion
    rw [if_neg (by simp [hign]), if_neg hp, if_pos hd2, hu.2 hr]
    exact hm
  · intro h1 h2
    unfold SDServerClient.handleQuestion
    rw [if_neg (by simp [hign]), if_neg hp, if_neg (by simp [h1, h2])]
    exact hm

set_option maxRecDepth 100000 in
/-- C23 (amended) at an engine that multicast a PTR response at tick 0: the PTR
question with the unicast-response bit set, received 5000 ticks later from
`10.0.0.7:5353`, is answered to that endpoint. -/
theorem C23_unicast_only_after_recent_multicast_witness :
    SDServerClient.handleQuestion
        { SDServerClient.sampleEngine with lastMutlicastResponses := [some 0, none] }
        SDServerClient.sampleQuery (SDServerClient.sampleQuestion true)
        { address := 10 * 2 ^ 24 + 7, port := 5353 } false (fun _ => 10 * 2 ^ 24 + 1)
        1000 5000 0 5000
      = ({ SDServerClient.sampleEngine with lastMutlicastResponses := [some 0, none] },
          [{ bytes := (SDServerClient.responseWith
                (SDServerClient.answerOf
                  { SDServerClient.sampleEngine with lastMutlicastResponses := [some 0, none] }
                  (SDServerClient.sampleQuestion true)
                  { address := 10 * 2 ^ 24 + 7, port := 5353 }
                  (fun _ => 10 * 2 ^ 24 + 1))).generateNetworkFormat,
             dst := { address := 10 * 2 ^ 24 + 7, port := 5353 },
             delay := SDServerClient.delayOf (SDServerClient.sampleQuestion true) 0 }]) :=
  (C23_unicast_only_after_recent_multicast
    { SDServerClient.sampleEngine with lastMutlicastResponses := [some 0, none] }
    SDServerClient.sampleQuery (SDServerClient.sampleQuestion true)
    { address := 10 * 2 ^ 24 + 7, port := 5353 } false (fun _ => 10 * 2 ^ 24 + 1)
    1000 5000 0 5000 rfl (by decide!) (by decide!)).1 (Or.inr rfl)
    ⟨0, by decide!, by decide!⟩

open bitops dns_format LatencyDatabase

namespace SDServerClient

theorem delayForPTRResponse_bounds (rnd : Nat) :
    20 ≤ delayForPTRResponse rnd ∧ delayForPTRResponse rnd ≤ 120 := by
  unfold delayForPTRResponse
  have : rnd % 101 < 101 := Nat.mod_lt _ (by norm_num)
  constructor <;> omega

/-- The handling of a question from port 5353 that is not ignored: through
`handleUnicastQuery` when the query is directed or asks for a unicast response, else
through `responseViaMulticast`. -/
theorem handleQuestion_mdns (st : SDServerClient) (packet : DNSPacket) (q : Question)
    (ep : Endpoint) (directedQuery : Bool) (getHostAddr : Nat → Nat) (period now : Int)
    (rnd : Nat) (sendTime : Int) (hport : ep.port = 5353)
    (hign : ignoreQuestion st q = false) :
    handleQuestion st packet q ep directedQuery getHostAddr period now rnd sendTime
      = if (directedQuery || q.unicastResponseRequested) = true then
          handleUnicastQuery st q ep getHostAddr period now rnd sendTime
        else responseViaMulticast st q ep getHostAddr period rnd sendTime := by
  have hp : ¬ ep.port ≠ MDNS_MULTICAST_EP.port := by rw [hport]; decide
  unfold handleQuestion
  rw [if_neg (by simp [hign]), if_neg hp]

end SDServerClient

set_option maxRecDepth 100000 in
/-- C24 as stated fails: after `sampleEngine` has multicast a PTR response at tick 0
(a clock of 1000 ticks in a microsecond), the PTR question with the unicast-response
bit clear, addressed to the multicast group and received from port 5353 at
`TTL/8 = 562.5 s`, is answered to the multicast endpoint, not to the sender. -/
theorem C24_counterexample_QM_always_multicast :
    (SDServerClient.responseViaMulticast SDServerClient.sampleEngine
        (SDServerClient.sampleQuestion false) { address := 10 * 2 ^ 24 + 7, port := 5353 }
        (fun _ => 10 * 2 ^ 24 + 1) 1000 0 0).2.map (fun d => d.dst)
      = [{ address := 224 * 2 ^ 24 + 251, port := 5353 }]
    ∧ (SDServerClient.responseViaMulticast SDServerClient.sampleEngine
        (SDServerClient.sampleQuestion false) { address := 10 * 2 ^ 24 + 7, port := 5353 }
        (fun _ => 10 * 2 ^ 24 + 1) 1000 0 0).1.lastMutlicastResponses = [some 20000, none]
    ∧ (8 : Int) * (562500000000 - 0) = SDServerClient.seconds 1000 4500
    ∧ (SDServerClient.handleQuestion
        (SDServerClient.responseViaMulticast SDServerClient.sampleEngine
          (SDServerClient.sampleQuestion false) { address := 10 * 2 ^ 24 + 7, port := 5353 }
          (fun _ => 10 * 2 ^ 24 + 1) 1000 0 0).1
        SDServerClient.sampleQuery (SDServerClient.sampleQuestion false)
        { address := 10 * 2 ^ 24 + 7, port := 5353 } false (fun _ => 10 * 2 ^ 24 + 1)
        1000 562500000000 0 562500000000).2.map (fun d => d.dst)
      = [{ address := 224 * 2 ^ 24 + 251, port := 5353 }] := by
  decide!

/-- C24 (amended): let the node have multicast a PTR response at clock reading `t0`
(`responseViaMulticast` for an advertised PTR question). A later PTR question for an
advertised service from source port 5353 that asks for a unicast response (bit set, or
datagram sent to this host directly) is answered to the sender when it is handled
`TTL/8` after `t0`, and to the multicast endpoint when it is handled `TTL/2` after
`t0`, with `TTL = 4500 s`; the same question with the bit clear and addressed to the
multicast group is answered to the multicast endpoint at every time. -/
theorem C24_rate_limit_applies_to_unicast_requests (st : SDServerClient) (packet : DNSPacket)
    (q0 q : Question) (ep0 ep : Endpoint) (directedQuery : Bool) (getHostAddr : Nat → Nat)
    (period : Int) (rnd0 rnd : Nat) (t0 sendTime : Int)
    (hlen : st.lastMutlicastResponses.length = 2) (hperiod : 0 < period)
    (h0 : q0.qtype = DNSType.PTR ∧ SDServerClient.Advertised st q0)
    (hq : q.qtype = DNSType.PTR ∧ SDServerClient.Advertised st q)
    (hign : SDServerClient.ignoreQuestion st q = false) (hport : ep.port = 5353) :
    ((directedQuery = true ∨ q.unicastResponseRequested = true) →
      (∀ now, 8 * (now - t0) = SDServerClient.seconds period 4500 →
        (SDServerClient.handleQuestion
            (SDServerClient.responseViaMulticast st q0 ep0 getHostAddr period rnd0 t0).1
            packet q ep directedQuery getHostAddr period now rnd sendTime).2
          = [{ bytes := (SDServerClient.responseWith
                  (SDServerClient.answerOf st q ep getHostAddr)).generateNetworkFormat,
               dst := ep, delay := SDServerClient.delayOf q rnd }])
      ∧ (∀ now, 2 * (now - t0) = SDServerClient.seconds period 4500 →
        (SDServerClient.handleQuestion
            (SDServerClient.responseViaMulticast st q0 ep0 getHostAddr period rnd0 t0).1
            packet q ep directedQuery getHostAddr period now rnd sendTime).2
          = [{ bytes := (SDServerClient.responseWith
                  (SDServerClient.answerOf st q ep getHostAddr)).generateNetworkFormat,
               dst := SDServerClient.MDNS_MULTICAST_EP,
               delay := SDServerClient.delayOf q rnd }]))
    ∧ (directedQuery = false → q.unicastResponseRequested = false → ∀ now,
        (SDServerClient.handleQuestion
            (SDServerClient.responseViaMulticast st q0 ep0 getHostAddr period rnd0 t0).1
            packet q ep directedQuery getHostAddr period now rnd sendTime).2
          = [{ bytes := (SDServerClient.responseWith
                  (SDServerClient.answerOf st q ep getHostAddr)).generateNetworkFormat,
               dst := SDServerClient.MDNS_MULTICAST_EP,
               delay := SDServerClient.delayOf q rnd }]) := by
  obtain ⟨ht0, hadv0⟩ := h0
  obtain ⟨ht, hadv⟩ := hq
  have hst1 := SDServerClient.responseViaMulticast_of_advertised st q0 ep0 getHostAddr period
    rnd0 t0 hadv0
  generalize hS : (SDServerClient.responseViaMulticast st q0 ep0 getHostAddr period rnd0 t0).1
    = st1
  rw [hst1] at hS
  simp only at hS
  have hlast : st1.lastMutlicastResponses.getD (SDServerClient.timeIdxOf q) none
      = some (t0 + SDServerClient.microseconds period (SDServerClient.delayForPTRResponse rnd0)) := by
    subst hS
    have hl : 0 < st.lastMutlicastResponses.length := by omega
    simp [SDServerClient.timeIdxOf, SDServerClient.delayOf, ht, ht0,
      SDServerClient.PTR_TIME_IDX, List.getD_eq_getElem?_getD, List.getElem?_set_self hl]
  have hadv1 : SDServerClient.Advertised st1 q := by subst hS; exact hadv
  have hign1 : SDServerClient.ignoreQuestion st1 q = false := by subst hS; exact hign
  have hans : SDServerClient.answerOf st1 q ep getHostAddr
      = SDServerClient.answerOf st q ep getHostAddr := by subst hS; rfl
  have hq1 := SDServerClient.handleQuestion_mdns st1 packet q ep directedQuery getHostAddr period
  have hu := SDServerClient.handleUnicastQuery_of_advertised st1 q ep getHostAddr period
  have hm := SDServerClient.responseViaMulticast_of_advertised st1 q ep getHostAddr period
  obtain ⟨hd1, hd2⟩ := SDServerClient.delayForPTRResponse_bounds rnd0
  refine ⟨?_, ?_⟩
  · intro hd
    have hd2 : (directedQuery || q.unicastResponseRequested) = true := by
      rcases hd with hd | hd <;> simp [hd]
    constructor
    · intro now hnow
      have hrec : SDServerClient.MulticastRecently st1 q period now := by
        refine ⟨_, hlast, ?_⟩
        simp only [SDServerClient.seconds, SDServerClient.microseconds] at hnow ⊢
        nlinarith
      rw [hq1 now rnd sendTime hport hign1, if_pos hd2, (hu now rnd sendTime hadv1).1 hrec, hans]
    · intro now hnow
      have hrec : ¬ SDServerClient.MulticastRecently st1 q period now := by
        rintro ⟨last, hl, hlt⟩
        rw [hlast] at hl
        injection hl with hl
        subst hl
        apply hlt
        simp only [SDServerClient.seconds, SDServerClient.microseconds] at hnow ⊢
        nlinarith
      rw [hq1 now rnd sendTime hport hign1, if_pos hd2, (hu now rnd sendTime hadv1).2 hrec,
        hm rnd sendTime hadv1, hans]
  · intro h1 h2 now
    rw [hq1 now rnd sendTime hport hign1, if_neg (by simp [h1, h2]), hm rnd sendTime hadv1, hans]

open bitops dns_format LatencyDatabase

set_option maxRecDepth 100000 in
/-- C24 (amended) at `sampleEngine` with a clock of 1000 ticks in a microsecond, after a
multicast PTR response at tick 0: the PTR question with the unicast-response bit set is
answered to the sender `10.0.0.7:5353` at 562.5 s and to the multicast endpoint at
2250 s. -/
theorem C24_rate_limit_applies_to_unicast_requests_witness :
    (SDServerClient.handleQuestion
        (SDServerClient.responseViaMulticast SDServerClient.sampleEngine
          (SDServerClient.sampleQuestion false) { address := 10 * 2 ^ 24 + 7, port := 5353 }
          (fun _ => 10 * 2 ^ 24 + 1) 1000 0 0).1
        SDServerClient.sampleQuery (SDServerClient.sampleQuestion true)
        { address := 10 * 2 ^ 24 + 7, port := 5353 } false (fun _ => 10 * 2 ^ 24 + 1)
        1000 562500000000 7 562500000000).2
      = [{ bytes := (SDServerClient.responseWith
              (SDServerClient.answerOf SDServerClient.sampleEngine
                (SDServerClient.sampleQuestion true)
                { address := 10 * 2 ^ 24 + 7, port := 5353 }
                (fun _ => 10 * 2 ^ 24 + 1))).generateNetworkFormat,
           dst := { address := 10 * 2 ^ 24 + 7, port := 5353 },
           delay := SDServerClient.delayOf (SDServerClient.sampleQuestion true) 7 }]
    ∧ (SDServerClient.handleQuestion
        (SDServerClient.responseViaMulticast SDServerClient.sampleEngine
          (SDServerClient.sampleQuestion false) { address := 10 * 2 ^ 24 + 7, port := 5353 }
          (fun _ => 10 * 2 ^ 24 + 1) 1000 0 0).1
        SDServerClient.sampleQuery (SDServerClient.sampleQuestion true)
        { address := 10 * 2 ^ 24 + 7, port := 5353 } false (fun _ => 10 * 2 ^ 24 + 1)
        1000 2250000000000 7 2250000000000).2
      = [{ bytes := (SDServerClient.responseWith
              (SDServerClient.answerOf SDServerClient.sampleEngine
                (SDServerClient.sampleQuestion true)
                { address := 10 * 2 ^ 24 + 7, port := 5353 }
                (fun _ => 10 * 2 ^ 24 + 1))).generateNetworkFormat,
           dst := SDServerClient.MDNS_MULTICAST_EP,
           delay := SDServerClient.delayOf (SDServerClient.sampleQuestion true) 7 }] :=
  ⟨((C24_rate_limit_applies_to_unicast_requests SDServerClient.sampleEngine
        SDServerClient.sampleQuery (SDServerClient.sampleQuestion false)
        (SDServerClient.sampleQuestion true) { address := 10 * 2 ^ 24 + 7, port := 5353 }
        { address := 10 * 2 ^ 24 + 7, port := 5353 } false (fun _ => 10 * 2 ^ 24 + 1)
        1000 0 7 0 562500000000 rfl (by decide) ⟨rfl, by decide!⟩ ⟨rfl, by decide!⟩
        (by decide!) rfl).1 (Or.inr rfl)).1 562500000000 (by decide!),
   ((C24_rate_limit_applies_to_unicast_requests SDServerClient.sampleEngine
        SDServerClient.sampleQuery (SDServerClient.sampleQuestion false)
        (SDServerClient.sampleQuestion true) { address := 10 * 2 ^ 24 + 7, port := 5353 }
        { address := 10 * 2 ^ 24 + 7, port := 5353 } false (fun _ => 10 * 2 ^ 24 + 1)
        1000 0 7 0 2250000000000 rfl (by decide) ⟨rfl, by decide!⟩ ⟨rfl, by decide!⟩
        (by decide!) rfl).1 (Or.inr rfl)).2 2250000000000 (by decide!)⟩

open bitops dns_format LatencyDatabase

namespace SDServerClient

/-- The header of the reply to a legacy unicast query with identifier `v`: the two
identifier octets, the QR bit, one question and one answer. -/
theorem legacy_header (v : Nat) (q : Question) (a : ResourceRecord) :
    ((((DNSPacket.new.setID v).setQR true).addQuestion q).addAnswer a).header
      = [(divide_u16 v).1, (divide_u16 v).2, 128, 0, 0, 1, 0, 1, 0, 0, 0, 0] := by
  simp [DNSPacket.new, DNSPacket.HEADER_SIZE, DNSPacket.setID, DNSPacket.setQR, DNSPacket.getQR,
    DNSPacket.addQuestion, DNSPacket.addAnswer, DNSPacket.setQDCount, DNSPacket.setANCount,
    DNSPacket.getQDCount, DNSPacket.getANCount, List.replicate, merge_u8, divide_u16]

theorem legacy_records (v : Nat) (q : Question) (a : ResourceRecord) :
    ((((DNSPacket.new.setID v).setQR true).addQuestion q).addAnswer a).questions = [q]
    ∧ ((((DNSPacket.new.setID v).setQR true).addQuestion q).addAnswer a).answers = [a] := by
  simp [DNSPacket.new, DNSPacket.HEADER_SIZE, DNSPacket.setID, DNSPacket.setQR, DNSPacket.getQR,
    DNSPacket.addQuestion, DNSPacket.addAnswer, DNSPacket.setQDCount, DNSPacket.setANCount,
    DNSPacket.getQDCount, DNSPacket.getANCount, List.replicate, merge_u8, divide_u16]

end SDServerClient

set_option maxRecDepth 100000 in
/-- C25 as stated fails: a PTR question for `_opoznienia._udp.local.` of class 3,
in a query with the TC bit clear received from port 40000, gets no reply:
`ignoreQuestion` drops every question whose class is not IN. -/
theorem C25_counterexample_class_not_IN :
    SDServerClient.sampleQuery.getTC = false
    ∧ SDServerClient.handleQuestion SDServerClient.sampleEngine SDServerClient.sampleQuery
        { SDServerClient.sampleQuestion false with qclass := 3 }
        { address := 10 * 2 ^ 24 + 7, port := 40000 } false (fun _ => 10 * 2 ^ 24 + 1)
        1000 0 0 0
      = (SDServerClient.sampleEngine, []) := by
  decide!

/-- C25 (amended): for a query received from a source port other than 5353 and a PTR
question in it that `ignoreQuestion` does not drop (class IN, and not the TCP service
name when TCP is not advertised): when the TC bit is clear and the question names one
of the two services, the one datagram sent goes to the sender's endpoint without
delay and is the serialisation of a message with QR set, the identifier of the query,
exactly that question and exactly one answer, the PTR record named as the question
with class IN, TTL 10 and rdata `hostname.service`; when TC is set, or the name is
neither service name, nothing is sent. The state does not change. -/
theorem C25_legacy_unicast_reply (st : SDServerClient) (packet : DNSPacket) (q : Question)
    (ep : Endpoint) (directedQuery : Bool) (getHostAddr : Nat → Nat) (period now : Int)
    (rnd : Nat) (sendTime : Int) (srvc : List Nat)
    (hport : ep.port ≠ 5353) (hq : q.qtype = DNSType.PTR)
    (hign : SDServerClient.ignoreQuestion st q = false) (hid : packet.getID < 2 ^ 16) :
    (packet.getTC = false →
      (srvc = SDServerClient.TCP_SERVICE ∨ srvc = SDServerClient.OPOZNIENIA_SERVICE) →
      q.qname = stringToDomain srvc →
      ∃ response : DNSPacket,
        SDServerClient.handleQuestion st packet q ep directedQuery getHostAddr period now rnd
            sendTime
          = (st, [{ bytes := response.generateNetworkFormat, dst := ep, delay := 0 }])
        ∧ response.getQR = true ∧ response.getID = packet.getID
        ∧ response.getQDCount = 1 ∧ response.getANCount = 1
        ∧ response.questions = [q]
        ∧ response.answers
            = [({ ResourceRecord.new with name := q.qname, ttl := 10, rrclass := DNSClass.IN }
                ).setPTRAnswer (stringToDomain (st.hostname ++ [46] ++ srvc))])
    ∧ (packet.getTC = true →
        SDServerClient.handleQuestion st packet q ep directedQuery getHostAddr period now rnd
            sendTime = (st, []))
    ∧ (q.qname ≠ stringToDomain SDServerClient.TCP_SERVICE →
        q.qname ≠ stringToDomain SDServerClient.OPOZNIENIA_SERVICE →
        SDServerClient.handleQuestion st packet q ep directedQuery getHostAddr period now rnd
            sendTime = (st, [])) := by
  have hp : ep.port ≠ SDServerClient.MDNS_MULTICAST_EP.port := hport
  have hstart : SDServerClient.handleQuestion st packet q ep directedQuery getHostAddr period
      now rnd sendTime
      = if (!packet.getTC) = true then
          (st, SDServerClient.responseToLegacyUnicastQuery st packet.getID q ep getHostAddr)
        else (st, []) := by
    unfold SDServerClient.handleQuestion
    rw [if_neg (by simp [hign]), if_pos hp]
  refine ⟨?_, ?_, ?_⟩
  · intro htc hs hn
    refine ⟨(((DNSPacket.new.setID packet.getID).setQR true).addQuestion q).addAnswer
      (({ ResourceRecord.new with name := q.qname, ttl := 10, rrclass := DNSClass.IN }
        ).setPTRAnswer (stringToDomain (st.hostname ++ [46] ++ srvc))), ?_, ?_, ?_, ?_, ?_, ?_, ?_⟩
    · rw [hstart, htc]
      simp only [Bool.not_false, if_true]
      unfold SDServerClient.responseToLegacyUnicastQuery
      simp only [hq, if_true]
      rw [SDServerClient.generatePTRAnswer_of_service st q srvc hs hn]
      simp [ResourceRecord.getRRType, ResourceRecord.setPTRAnswer, DNSType.PTR,
        DNSType.UNSUPPORTED]
    · simp [DNSPacket.getQR, SDServerClient.legacy_header]
    · have hid2 : merge_u8 (packet.header.getD 0 0) (packet.header.getD 1 0) < 2 ^ 16 := hid
      rw [DNSPacket.getID, SDServerClient.legacy_header]
      simp only [List.getD_cons_zero, List.getD_cons_succ, DNSPacket.getID]
      rw [divide_u16_eq _ hid2]
      exact merge_u8_divide _ hid2
    · simp [DNSPacket.getQDCount, SDServerClient.legacy_header, merge_u8]
    · simp [DNSPacket.getANCount, SDServerClient.legacy_header, merge_u8]
    · exact (SDServerClient.legacy_records _ _ _).1
    · exact (SDServerClient.legacy_records _ _ _).2
  · intro htc
    rw [hstart, htc]
    simp
  · intro h1 h2
    rw [hstart]
    have hu := SDServerClient.generatePTRAnswer_of_other st q h1 h2
    simp only [ResourceRecord.getRRType] at hu
    split_ifs
    · simp [SDServerClient.responseToLegacyUnicastQuery, hq, ResourceRecord.getRRType, hu]
    · rfl

open bitops dns_format LatencyDatabase

set_option maxRecDepth 100000 in
/-- C25 (amended) at scenario S6: the query with identifier `0x1234` asks PTR for
`_opoznienia._udp.local.` from `10.0.0.7:40000`; the engine with hostname `x` sends one
datagram to that endpoint whose header is `12 34 80 00 00 01 00 01 00 00 00 00`. -/
theorem C25_legacy_unicast_reply_witness :
    (∃ response : DNSPacket,
      SDServerClient.handleQuestion SDServerClient.sampleEngine SDServerClient.sampleQuery
          (SDServerClient.sampleQuestion false) { address := 10 * 2 ^ 24 + 7, port := 40000 }
          false (fun _ => 10 * 2 ^ 24 + 1) 1000 0 0 0
        = (SDServerClient.sampleEngine,
            [{ bytes := response.generateNetworkFormat,
               dst := { address := 10 * 2 ^ 24 + 7, port := 40000 }, delay := 0 }])
      ∧ response.getQR = true ∧ response.getID = SDServerClient.sampleQuery.getID
      ∧ response.getQDCount = 1 ∧ response.getANCount = 1
      ∧ response.questions = [SDServerClient.sampleQuestion false]
      ∧ response.answers
          = [({ ResourceRecord.new with
                  name := (SDServerClient.sampleQuestion false).qname, ttl := 10,
                  rrclass := DNSClass.IN }
              ).setPTRAnswer (stringToDomain (SDServerClient.sampleEngine.hostname ++ [46]
                ++ SDServerClient.OPOZNIENIA_SERVICE))])
    ∧ (SDServerClient.handleQuestion SDServerClient.sampleEngine SDServerClient.sampleQuery
          (SDServerClient.sampleQuestion false) { address := 10 * 2 ^ 24 + 7, port := 40000 }
          false (fun _ => 10 * 2 ^ 24 + 1) 1000 0 0 0).2.map
        (fun d => (d.dst.port, d.delay, d.bytes.take 12))
      = [(40000, 0, [0x12, 0x34, 0x80, 0, 0, 1, 0, 1, 0, 0, 0, 0])] :=
  ⟨(C25_legacy_unicast_reply SDServerClient.sampleEngine SDServerClient.sampleQuery
      (SDServerClient.sampleQuestion false) { address := 10 * 2 ^ 24 + 7, port := 40000 }
      false (fun _ => 10 * 2 ^ 24 + 1) 1000 0 0 0 SDServerClient.OPOZNIENIA_SERVICE
      (by decide) rfl (by decide!) (by decide!)).1 (by decide!) (Or.inr rfl) rfl,
   by decide!⟩

open bitops dns_format LatencyDatabase

namespace std

theorem valueRev_digitsRev : ∀ (fuel n : Nat), n < fuel → valueRev (digitsRev fuel n) = n := by
  intro fuel
  induction fuel with
  | zero => intro n h; omega
  | succ f ih =>
    intro n h
    by_cases h0 : n / 10 = 0
    · simp only [digitsRev, h0, if_true, valueRev]
      omega
    · simp only [digitsRev, h0, if_false, valueRev]
      rw [ih (n / 10) (by omega)]
      omega

theorem to_string_injective : Function.Injective to_string := by
  intro a b h
  have h2 : digitsRev (a + 1) a = digitsRev (b + 1) b := by
    simpa [to_string] using h
  have := congrArg valueRev h2
  rwa [valueRev_digitsRev _ _ (Nat.lt_succ_self a), valueRev_digitsRev _ _ (Nat.lt_succ_self b)]
    at this

theorem digitsRev_length : ∀ (k fuel n : Nat), n < 10 ^ (k + 1) → (digitsRev fuel n).length ≤ k + 1 := by
  intro k
  induction k with
  | zero =>
    intro fuel n h
    cases fuel with
    | zero => simp [digitsRev]
    | succ f =>
      have h0 : n / 10 = 0 := by omega
      simp [digitsRev, h0]
  | succ k ih =>
    intro fuel n h
    cases fuel with
    | zero => simp [digitsRev]
    | succ f =>
      by_cases h0 : n / 10 = 0
      · simp [digitsRev, h0]
      · simp only [digitsRev, h0, if_false, List.length_cons]
        have : n / 10 < 10 ^ (k + 1) := by
          rw [Nat.div_lt_iff_lt_mul (by norm_num)]
          calc n < 10 ^ (k + 1 + 1) := h
            _ = 10 ^ (k + 1) * 10 := by ring
        have := ih f (n / 10) this
        omega

theorem digitsRev_digit : ∀ (fuel n c : Nat), c ∈ digitsRev fuel n → 48 ≤ c ∧ c ≤ 57 := by
  intro fuel
  induction fuel with
  | zero => intro n c h; simp [digitsRev] at h
  | succ f ih =>
    intro n c h
    simp only [digitsRev, List.mem_cons] at h
    rcases h with h | h
    · omega
    · by_cases h0 : n / 10 = 0
      · simp [h0] at h
      · simp only [h0, if_false] at h
        exact ih _ _ h

theorem to_string_length (n : Nat) (h : n < 2 ^ 32) :
    1 ≤ (to_string n).length ∧ (to_string n).length ≤ 10 := by
  constructor
  · simp [to_string, digitsRev]
  · have := digitsRev_length 9 (n + 1) n (by omega)
    simpa [to_string] using this

theorem to_string_digit (n c : Nat) (h : c ∈ to_string n) : 48 ≤ c ∧ c ≤ 57 := by
  simp only [to_string, List.mem_reverse] at h
  exact digitsRev_digit _ _ _ h

end std

open bitops dns_format LatencyDatabase

namespace dns_format

theorem stringToDomainLoop_dotless (s : List Nat) (h : ∀ c ∈ s, c ≠ 46) :
    stringToDomainLoop s = s := by
  induction s with
  | nil => rfl
  | cons c rest ih =>
    have hc : c ≠ 46 := h c (List.mem_cons_self _ _)
    simp only [stringToDomainLoop, hc, if_false]
    rw [ih (fun x hx => h x (List.mem_cons_of_mem _ hx))]

theorem takeWhile_dotless (s : List Nat) (h : ∀ c ∈ s, c ≠ 46) :
    s.takeWhile (fun x => x != 46) = s := by
  rw [List.takeWhile_eq_self_iff]
  intro c hc
  simpa using h c hc

/-- A non-empty string without dots, shorter than 256 characters and not ending in the
character 0, is one label: its length octet, its characters and a zero octet. -/
theorem stringToDomain_label (s : List Nat) (hdot : ∀ c ∈ s, c ≠ 46) (hlen : s.length < 256)
    (hlast : ∀ c, s.getLast? = some c → c ≠ 0) (hne : s ≠ []) :
    stringToDomain s = labelKey s := by
  unfold stringToDomain labelKey
  simp only [stringToDomainLoop, if_true, takeWhile_dotless s hdot,
    stringToDomainLoop_dotless s hdot, Nat.mod_eq_of_lt hlen]
  have hl : (s.length :: s).getLast? = s.getLast? := by
    cases s with
    | nil => exact absurd rfl hne
    | cons a t => simp [List.getLast?_cons_cons]
  rw [hl]
  have : s.getLast? ≠ some 0 := fun e => hlast 0 e rfl
  rw [if_pos this]

theorem range_map_getD (l : List Nat) (k : Nat) (h : k ≤ l.length) :
    (List.range k).map (fun i => l.getD i 0) = l.take k := by
  apply List.ext_getElem
  · simp [h]
  · intro i h1 h2
    simp only [List.length_map, List.length_range] at h1
    simp [List.getD_eq_getElem?_getD, List.getElem?_eq_getElem (show i < l.length by omega)]

/-- The first label of a one-label name is the name itself. -/
theorem firstLabel_labelKey (s : List Nat) : firstLabel (labelKey s) = labelKey s := by
  unfold firstLabel labelKey
  simp only [List.cons_append, List.getD_cons_zero]
  rw [range_map_getD _ _ (by simp)]
  have : (s.length :: (s ++ [0])).take (s.length + 1) = s.length :: s := by
    simp [List.take_succ_cons]
  rw [this]
  rfl

theorem labelKey_injective : Function.Injective labelKey := by
  intro a b h
  unfold labelKey at h
  simp only [List.cons_append, List.cons.injEq] at h
  exact List.append_cancel_right h.2

end dns_format

namespace SDServerClient

theorem candidate_injective (h : List Nat) : Function.Injective (candidate h) := by
  intro a b e
  unfold candidate at e
  exact std.to_string_injective (List.append_cancel_left e)

/-- For a hostname without dots of at most 243 characters and a counter below `2^32`,
the key that `isHostKnown` looks up for the candidate `h-i` is the key of that label. -/
theorem firstLabel_candidate (h : List Nat) (i : Nat) (hdot : ∀ c ∈ h, c ≠ 46)
    (hlen : h.length ≤ 243) (hi : i < 2 ^ 32) :
    firstLabel (stringToDomain (candidate h i)) = labelKey (candidate h i) := by
  have hl := std.to_string_length i hi
  have hne : std.to_string i ≠ [] := by
    intro e; rw [e] at hl; simp at hl
  rw [stringToDomain_label, firstLabel_labelKey]
  · intro c hc
    simp only [candidate, List.mem_append, List.mem_singleton] at hc
    rcases hc with (hc | hc) | hc
    · exact hdot c hc
    · omega
    · have := std.to_string_digit i c hc
      omega
  · simp only [candidate, List.length_append, List.length_singleton]
    omega
  · intro c hc
    have hmem : c ∈ std.to_string i := by
      have : (candidate h i).getLast? = (std.to_string i).getLast? := by
        unfold candidate
        rw [List.getLast?_append_of_ne_nil _ hne]
      rw [this] at hc
      exact List.mem_of_getLast?_eq_some hc
    have := std.to_string_digit i c hmem
    omega
  · simp [candidate]

end SDServerClient

open bitops dns_format LatencyDatabase

namespace SDServerClient

theorem findHost_some_mem (known : List (List Nat × Int)) (k : List Nat) (d : Int)
    (h : findHost known k = some d) : k ∈ known.map Prod.fst := by
  induction known with
  | nil => simp [findHost] at h
  | cons e rest ih =>
    obtain ⟨a, t⟩ := e
    by_cases ha : a = k
    · simp [ha]
    · simp only [findHost, ha, if_false] at h
      simp only [List.map_cons, List.mem_cons]
      exact Or.inr (ih h)

/-- Among the candidates `h-0, ..., h-n` one is missing from a table of `n` entries. -/
theorem exists_free_candidate (known : List (List Nat × Int)) (h : List Nat) :
    ∃ m, m ≤ known.length ∧ findHost known (labelKey (candidate h m)) = none := by
  by_contra hcon
  have hall : ∀ m, m ≤ known.length →
      labelKey (candidate h m) ∈ known.map Prod.fst := by
    intro m hm
    cases hf : findHost known (labelKey (candidate h m)) with
    | none => exact absurd ⟨m, hm, hf⟩ hcon
    | some d => exact findHost_some_mem known _ d hf
  have hnodup : ((List.range (known.length + 1)).map
      (fun m => labelKey (candidate h m))).Nodup :=
    List.Nodup.map (fun a b e => candidate_injective h (labelKey_injective e))
      (List.nodup_range _)
  have hsub : (List.range (known.length + 1)).map (fun m => labelKey (candidate h m))
      ⊆ known.map Prod.fst := by
    intro x hx
    obtain ⟨m, hm, rfl⟩ := List.mem_map.mp hx
    exact hall m (by have := List.mem_range.mp hm; omega)
  have := (List.subperm_of_subset hnodup hsub).length_le
  simp at this

theorem isHostKnown_candidate_true (st : SDServerClient) (h : List Nat) (i : Nat) (t : Int)
    (hdot : ∀ c ∈ h, c ≠ 46) (hlen : h.length ≤ 243) (hi : i < 2 ^ 32)
    (hu : Unexpired st.knownHostNames (candidate h i) t) :
    isHostKnown st (stringToDomain (candidate h i)) t = (true, st) := by
  obtain ⟨d, hf, hd⟩ := hu
  rw [← firstLabel_candidate h i hdot hlen hi] at hf
  exact isHostKnown_of_unexpired st _ t d hf hd

theorem isHostKnown_candidate_false (st : SDServerClient) (h : List Nat) (i : Nat) (t : Int)
    (hdot : ∀ c ∈ h, c ≠ 46) (hlen : h.length ≤ 243) (hi : i < 2 ^ 32)
    (hu : ¬ Unexpired st.knownHostNames (candidate h i) t) :
    (isHostKnown st (stringToDomain (candidate h i)) t).1 = false := by
  refine (isHostKnown_of_expired st _ t ?_).1
  intro d hf
  rw [firstLabel_candidate h i hdot hlen hi] at hf
  by_contra hc
  exact hu ⟨d, hf, hc⟩

/-- The loop of `prepareHostname` started at the counter `i`, when the candidates from
`h-i` up to `h-(m-1)` are unexpired entries when probed and `h-m` is not: it ends
with `h-m`. -/
theorem prepareHostnameLoop_spec (h : List Nat) (times : Nat → Int)
    (hdot : ∀ c ∈ h, c ≠ 46) (hlen : h.length ≤ 243) (m : Nat) (hm : m < 2 ^ 32)
    (st : SDServerClient)
    (hfree : ¬ Unexpired st.knownHostNames (candidate h m) (times m)) :
    ∀ (d i : Nat), i + d = m →
      (∀ j, i ≤ j → j < m → Unexpired st.knownHostNames (candidate h j) (times j)) →
      ∀ fuel, d < fuel →
        prepareHostnameLoop h times fuel i i st
          = some (candidate h m, (isHostKnown st (stringToDomain (candidate h m)) (times m)).2) := by
  intro d
  induction d with
  | zero =>
    intro i him _ fuel hfuel
    have him2 : i = m := by omega
    subst him2
    cases fuel with
    | zero => omega
    | succ f =>
      have hk := isHostKnown_candidate_false st h i (times i) hdot hlen hm hfree
      simp only [candidate] at hk
      simp only [prepareHostnameLoop, candidate]
      rw [hk]
      simp
  | succ d ih =>
    intro i him hu fuel hfuel
    cases fuel with
    | zero => omega
    | succ f =>
      have hi : i < 2 ^ 32 := by omega
      have hk := isHostKnown_candidate_true st h i (times i) hdot hlen hi
        (hu i (le_refl _) (by omega))
      simp only [candidate] at hk
      have hwrap : (i + 1) % 2 ^ 32 = i + 1 := Nat.mod_eq_of_lt (by omega)
      have := ih (i + 1) (by omega) (fun j h1 h2 => hu j (by omega) h2) f (by omega)
      simp only [prepareHostnameLoop, hk, hwrap, if_true]
      exact this

end SDServerClient

/-- C22 (amended): for an initial hostname `h` without dots of at most 243 characters
and a discovered-hosts table with fewer than `2^32` entries, there is a least `i`
such that the label `h-i` is not an unexpired entry of the table when it is probed;
it is at most the number of entries, and `prepareHostname` returns as soon as it may
run `i + 1` iterations, with the hostname `h-i` and `hostnameEstablished` true. -/
theorem C22_least_free_suffix (st : SDServerClient) (times : Nat → Int)
    (hdot : ∀ c ∈ st.hostname, c ≠ 46) (hlen : st.hostname.length ≤ 243)
    (hT : st.knownHostNames.length < 2 ^ 32) :
    ∃ i, i ≤ st.knownHostNames.length
      ∧ (∀ j, j < i →
          SDServerClient.Unexpired st.knownHostNames
            (SDServerClient.candidate st.hostname j) (times j))
      ∧ ¬ SDServerClient.Unexpired st.knownHostNames
            (SDServerClient.candidate st.hostname i) (times i)
      ∧ ∀ fuel, i < fuel →
          ∃ st', SDServerClient.prepareHostname st times fuel = some st'
            ∧ st'.hostname = SDServerClient.candidate st.hostname i
            ∧ st'.hostnameEstablished = true := by
  classical
  obtain ⟨m0, hm0, hfree0⟩ := SDServerClient.exists_free_candidate st.knownHostNames st.hostname
  have hex : ∃ m, ¬ SDServerClient.Unexpired st.knownHostNames
      (SDServerClient.candidate st.hostname m) (times m) := by
    refine ⟨m0, ?_⟩
    rintro ⟨d, hd, -⟩
    rw [hfree0] at hd
    exact Option.noConfusion hd
  refine ⟨Nat.find hex, ?_, ?_, Nat.find_spec hex, ?_⟩
  · have : Nat.find hex ≤ m0 := Nat.find_min' hex (by
      rintro ⟨d, hd, -⟩
      rw [hfree0] at hd
      exact Option.noConfusion hd)
    omega
  · intro j hj
    by_contra hc
    exact Nat.find_min hex hj hc
  · intro fuel hfuel
    have hle : Nat.find hex ≤ m0 := Nat.find_min' hex (by
      rintro ⟨d, hd, -⟩
      rw [hfree0] at hd
      exact Option.noConfusion hd)
    have hloop := SDServerClient.prepareHostnameLoop_spec st.hostname times hdot hlen
      (Nat.find hex) (by omega) st (Nat.find_spec hex) (Nat.find hex) 0 (by omega)
      (fun j _ h2 => by
        by_contra hc
        exact Nat.find_min hex h2 hc) fuel hfuel
    refine ⟨{ (SDServerClient.isHostKnown st
        (stringToDomain (SDServerClient.candidate st.hostname (Nat.find hex)))
        (times (Nat.find hex))).2 with
          hostname := SDServerClient.candidate st.hostname (Nat.find hex),
          hostnameEstablished := true }, ?_, rfl, rfl⟩
    unfold SDServerClient.prepareHostname
    rw [hloop]

open bitops dns_format LatencyDatabase

namespace SDServerClient

/-- Every candidate for the hostname `a.b` is looked up under the key of the label `a`. -/
theorem firstLabel_dotted (rest : List Nat) :
    firstLabel (stringToDomain (97 :: 46 :: rest)) = [1, 97, 0] := by
  have hloop : stringToDomainLoop (46 :: 97 :: 46 :: rest)
      = 1 :: 97 :: stringToDomainLoop (46 :: rest) := by
    simp [stringToDomainLoop]
  unfold stringToDomain
  simp only [hloop]
  split_ifs <;> simp [firstLabel, List.range_succ]

theorem prepareHostnameLoop_dotted :
    ∀ (fuel i k : Nat), prepareHostnameLoop [97, 46, 98] (fun _ => 0) fuel i k dottedEngine = none := by
  intro fuel
  induction fuel with
  | zero => intro i k; rfl
  | succ f ih =>
    intro i k
    have hk : isHostKnown dottedEngine
        (stringToDomain ([97, 46, 98] ++ [45] ++ std.to_string i)) 0 = (true, dottedEngine) := by
      apply isHostKnown_of_unexpired _ _ _ 1000
      · have : [97, 46, 98] ++ [45] ++ std.to_string i = 97 :: 46 :: (98 :: 45 :: std.to_string i) := by
          simp
        rw [this, firstLabel_dotted]
        rfl
      · decide
    simp only [prepareHostnameLoop]
    rw [hk]
    simp only [if_true]
    exact ih _ _

end SDServerClient

set_option maxRecDepth 100000 in
/-- C22 as stated fails for a hostname with a dot: the engine `dottedEngine` has the
hostname `a.b` and a table holding the one label `a`, unexpired at clock reading 0.
The label `a.b-0` is not an entry of the table, yet `prepareHostname` does not adopt
it: every candidate `a.b-i` is split at the dot and looked up as `a`, so the loop
does not end, whatever number of iterations it is allowed. -/
theorem C22_counterexample_dotted_hostname :
    SDServerClient.prepareHostname SDServerClient.dottedEngine (fun _ => 0) 1000 = none
    ∧ SDServerClient.findHost SDServerClient.dottedEngine.knownHostNames
        (labelKey (SDServerClient.candidate SDServerClient.dottedEngine.hostname 0)) = none
    ∧ firstLabel (stringToDomain
        (SDServerClient.candidate SDServerClient.dottedEngine.hostname 0)) = [1, 97, 0]
    ∧ (∀ fuel, SDServerClient.prepareHostname SDServerClient.dottedEngine (fun _ => 0) fuel
        = none) := by
  have hall : ∀ fuel, SDServerClient.prepareHostname SDServerClient.dottedEngine (fun _ => 0)
      fuel = none := by
    intro fuel
    unfold SDServerClient.prepareHostname
    have : SDServerClient.dottedEngine.hostname = [97, 46, 98] := rfl
    rw [this, SDServerClient.prepareHostnameLoop_dotted]
  exact ⟨hall 1000, by decide!, by decide!, hall⟩

set_option maxRecDepth 100000 in
/-- C22 (amended) at the hostname `h` and the table `{h, h-0, h-1}`: a least free
suffix exists, and with four iterations allowed the adopted name is `h-2`. -/
theorem C22_least_free_suffix_witness :
    (∃ i, i ≤ SDServerClient.conflictEngine.knownHostNames.length
      ∧ (∀ j, j < i →
          SDServerClient.Unexpired SDServerClient.conflictEngine.knownHostNames
            (SDServerClient.candidate SDServerClient.conflictEngine.hostname j) ((fun _ => 0) j))
      ∧ ¬ SDServerClient.Unexpired SDServerClient.conflictEngine.knownHostNames
            (SDServerClient.candidate SDServerClient.conflictEngine.hostname i) ((fun _ => 0) i)
      ∧ ∀ fuel, i < fuel →
          ∃ st', SDServerClient.prepareHostname SDServerClient.conflictEngine (fun _ => 0) fuel
              = some st'
            ∧ st'.hostname = SDServerClient.candidate SDServerClient.conflictEngine.hostname i
            ∧ st'.hostnameEstablished = true)
    ∧ SDServerClient.prepareHostname SDServerClient.conflictEngine (fun _ => 0) 4
      = some { SDServerClient.conflictEngine with
                hostname := [104, 45, 50], hostnameEstablished := true } :=
  ⟨C22_least_free_suffix SDServerClient.conflictEngine (fun _ => 0) (by decide) (by decide)
      (by decide),
    by decide!⟩

open bitops dns_format LatencyDatabase

/-- C34: for a PTR or A question that matches an advertised name, `handleUnicastQuery`
sends the answer to the multicast group, and records the send time for the record
type, exactly when no multicast response of that type is recorded or the recorded time
is earlier than `now - 1125 s`; otherwise it sends the answer to the sender and leaves
the state, so both recorded times, as it was. -/
theorem C34_unicast_query_rate_limit (st : SDServerClient) (q : Question) (ep : Endpoint)
    (getHostAddr : Nat → Nat) (period now : Int) (rnd : Nat) (sendTime : Int)
    (hadv : SDServerClient.Advertised st q) :
    (q.qtype = DNSType.PTR ∨ q.qtype = DNSType.A)
    ∧ ((st.lastMutlicastResponses.getD (SDServerClient.timeIdxOf q) none = none
          ∨ ∃ last, st.lastMutlicastResponses.getD (SDServerClient.timeIdxOf q) none = some last
              ∧ last < now - SDServerClient.seconds period 1125) →
        SDServerClient.handleUnicastQuery st q ep getHostAddr period now rnd sendTime
          = ({ st with
                lastMutlicastResponses := st.lastMutlicastResponses.set
                  (SDServerClient.timeIdxOf q)
                  (some (sendTime
                    + SDServerClient.microseconds period (SDServerClient.delayOf q rnd))) },
              [{ bytes := (SDServerClient.responseWith
                    (SDServerClient.answerOf st q ep getHostAddr)).generateNetworkFormat,
                 dst := SDServerClient.MDNS_MULTICAST_EP,
                 delay := SDServerClient.delayOf q rnd }]))
    ∧ ((∃ last, st.lastMutlicastResponses.getD (SDServerClient.timeIdxOf q) none = some last
          ∧ ¬ last < now - SDServerClient.seconds period 1125) →
        SDServerClient.handleUnicastQuery st q ep getHostAddr period now rnd sendTime
          = (st, [{ bytes := (SDServerClient.responseWith
                      (SDServerClient.answerOf st q ep getHostAddr)).generateNetworkFormat,
                    dst := ep, delay := SDServerClient.delayOf q rnd }])) := by
  have hu := SDServerClient.handleUnicastQuery_of_advertised st q ep getHostAddr period now
    rnd sendTime hadv
  have hm := SDServerClient.responseViaMulticast_of_advertised st q ep getHostAddr period
    rnd sendTime hadv
  refine ⟨?_, ?_, ?_⟩
  · rcases SDServerClient.qtype_cases st q hadv with h | ⟨-, h⟩
    · exact Or.inl h
    · exact Or.inr h
  · intro h
    have hnot : ¬ SDServerClient.MulticastRecently st q period now := by
      rintro ⟨last, hl, hlt⟩
      rcases h with h | ⟨last2, hl2, hlt2⟩
      · rw [h] at hl; exact Option.noConfusion hl
      · rw [hl2] at hl
        injection hl with hl
        subst hl
        exact hlt hlt2
    rw [hu.2 hnot, hm]
  · rintro ⟨last, hl, hlt⟩
    exact hu.1 ⟨last, hl, hlt⟩

set_option maxRecDepth 100000 in
/-- C34 at `sampleEngine`, which has recorded no multicast response: the PTR question
with the unicast-response bit is answered to the multicast group and the send time
5000 plus the delay of 20 microseconds is recorded; with the time 0 recorded and the
question handled at tick 5000 the answer goes to the sender. -/
theorem C34_unicast_query_rate_limit_witness :
    SDServerClient.handleUnicastQuery SDServerClient.sampleEngine
        (SDServerClient.sampleQuestion true) { address := 10 * 2 ^ 24 + 7, port := 5353 }
        (fun _ => 10 * 2 ^ 24 + 1) 1000 5000 0 5000
      = ({ SDServerClient.sampleEngine with
            lastMutlicastResponses := SDServerClient.sampleEngine.lastMutlicastResponses.set
              (SDServerClient.timeIdxOf (SDServerClient.sampleQuestion true))
              (some (5000 + SDServerClient.microseconds 1000
                (SDServerClient.delayOf (SDServerClient.sampleQuestion true) 0))) },
          [{ bytes := (SDServerClient.responseWith
                (SDServerClient.answerOf SDServerClient.sampleEngine
                  (SDServerClient.sampleQuestion true)
                  { address := 10 * 2 ^ 24 + 7, port := 5353 }
                  (fun _ => 10 * 2 ^ 24 + 1))).generateNetworkFormat,
             dst := SDServerClient.MDNS_MULTICAST_EP,
             delay := SDServerClient.delayOf (SDServerClient.sampleQuestion true) 0 }])
    ∧ (SDServerClient.handleUnicastQuery SDServerClient.sampleEngine
        (SDServerClient.sampleQuestion true) { address := 10 * 2 ^ 24 + 7, port := 5353 }
        (fun _ => 10 * 2 ^ 24 + 1) 1000 5000 0 5000).1.lastMutlicastResponses
      = [some 25000, none]
    ∧ (SDServerClient.handleUnicastQuery
        { SDServerClient.sampleEngine with lastMutlicastResponses := [some 0, none] }
        (SDServerClient.sampleQuestion true) { address := 10 * 2 ^ 24 + 7, port := 5353 }
        (fun _ => 10 * 2 ^ 24 + 1) 1000 5000 0 5000).2.map (fun d => d.dst)
      = [{ address := 10 * 2 ^ 24 + 7, port := 5353 }] :=
  ⟨(C34_unicast_query_rate_limit SDServerClient.sampleEngine
      (SDServerClient.sampleQuestion true) { address := 10 * 2 ^ 24 + 7, port := 5353 }
      (fun _ => 10 * 2 ^ 24 + 1) 1000 5000 0 5000 (by decide!)).2.1 (Or.inl (by decide!)),
    by decide!, by decide!⟩

set_option maxRecDepth 1000000 in
/-- C40 fails on the code: `knownAnswerQuery` is a query (QR bit 0) of 140 octets that
passes the packet filter; received from port 5353 while the hostname is not yet
established, `receiveMessage` passes it to `handleResponses`, so its PTR record enters
the discovered-hosts table, an A query is sent for it, and its A record marks
`10.0.0.7` in the latency store. With the hostname established the same datagram
leaves the table and the store as they were. -/
theorem C40_query_answers_reach_response_handling :
    (DNSPacket.parse SDServerClient.knownAnswerQuery.generateNetworkFormat 140).map
        (fun p => (p.getQR, SDServerClient.ignorePacket p, p.questions, p.answers))
      = .ok (false, false, [SDServerClient.sampleQuestion false],
          [SDServerClient.samplePTR 4500, SDServerClient.sampleA])
    ∧ SDServerClient.probingEngine.hostnameEstablished = false
    ∧ SDServerClient.probingEngine.knownHostNames = []
    ∧ (SDServerClient.receiveMessage SDServerClient.probingEngine []
          SDServerClient.knownAnswerQuery.generateNetworkFormat
          { address := 10 * 2 ^ 24 + 7, port := 5353 } SDServerClient.MDNS_MULTICAST_EP 140
          (fun _ => 10 * 2 ^ 24 + 1) 1000 (fun _ => (0, 0, 0)) (fun _ => (0, 0, 0, 0))).map
        (fun r => (r.1.knownHostNames, r.2.1.map (fun e => e.1), r.2.2))
      = .ok ([([1, 121, 0], 4500000000000)], [10 * 2 ^ 24 + 7],
          [SDServerClient.sendAQuery (SDServerClient.samplePTR 4500).rdata])
    ∧ (SDServerClient.receiveMessage SDServerClient.sampleEngine []
          SDServerClient.knownAnswerQuery.generateNetworkFormat
          { address := 10 * 2 ^ 24 + 7, port := 5353 } SDServerClient.MDNS_MULTICAST_EP 140
          (fun _ => 10 * 2 ^ 24 + 1) 1000 (fun _ => (0, 0, 0)) (fun _ => (0, 0, 0, 0))).map
        (fun r => (r.1.knownHostNames, r.2.1))
      = .ok ([], []) := by
  refine ⟨by decide!, by decide!, by decide!, by decide!, by decide!⟩

namespace TELNETServer

/-- The pass of the loop on a `Q` or `q`. -/
theorem handleReadBody_up (lines : List (List Nat)) (rest : List Nat) (r k b : Nat)
    (hb : b = 81 ∨ b = 113) :
    handleReadBody lines (TCPConnection.mk (b :: rest) (r) (k))
      = some ((TCPConnection.mk (rest) (r - 1) (k)),
          if 0 < r then
            updateClientView lines
              (TCPConnection.mk (rest) (r - 1) (k))
          else []) := by
  have h1 : b ≠ IAC := by rcases hb with h | h <;> simp [h, IAC]
  by_cases hr : 0 < r
  · simp [handleReadBody, h1, hb, hr]
  · have : r = 0 := by omega
    subst this
    simp [handleReadBody, h1, hb]

/-- The pass of the loop on an `A` or `a`. -/
theorem handleReadBody_down (lines : List (List Nat)) (rest : List Nat) (r k b : Nat)
    (hb : b = 65 ∨ b = 97) :
    handleReadBody lines (TCPConnection.mk (b :: rest) (r) (k))
      = if (r + 24) % 2 ^ 32 < lines.length then
          some ((TCPConnection.mk (rest) ((r + 1) % 2 ^ 32) (k)),
            updateClientView lines
              (TCPConnection.mk (rest) ((r + 1) % 2 ^ 32) (k)))
        else
          some ((TCPConnection.mk (rest) (r) (k)), []) := by
  have h1 : b ≠ IAC := by rcases hb with h | h <;> simp [h, IAC]
  have h2 : ¬ (b = 81 ∨ b = 113) := by rcases hb with h | h <;> simp [h]
  simp [handleReadBody, h1, h2, hb, CONSOLE_HEIGHT]

/-- The pass of the loop on a complete command `IAC verb opt`. -/
theorem handleReadBody_command (lines : List (List Nat)) (rest : List Nat) (r k verb opt : Nat) :
    handleReadBody lines (TCPConnection.mk (IAC :: verb :: opt :: rest) (r) (k))
      = some ((TCPConnection.mk (rest) (r) (if verb = DO then (k + 1) % 2 ^ 32 else k)),
          commandReply k (verb, opt)) := by
  have hwd : ¬ WILL = DO := by decide
  have hdw : ¬ DO = WILL := by decide
  by_cases hw : verb = WILL
  · subst hw
    simp [handleReadBody, hwd, commandReply]
  · by_cases hd : verb = DO
    · subst hd
      by_cases hk : k < 2 ∧ (opt = TELNET_ECHO ∨ opt = SUPPRESS_GO_AHEAD)
      · simp [handleReadBody, hdw, commandReply, hk]
      · simp [handleReadBody, hdw, commandReply, hk]
    · simp [handleReadBody, hw, hd, commandReply]

/-- The pass of the loop on any other octet: a BELL is sent. -/
theorem handleReadBody_unknown (lines : List (List Nat)) (rest : List Nat) (r k b : Nat)
    (h1 : b ≠ IAC) (h2 : ¬ (b = 81 ∨ b = 113)) (h3 : ¬ (b = 65 ∨ b = 97)) :
    handleReadBody lines (TCPConnection.mk (b :: rest) (r) (k))
      = some ((TCPConnection.mk (rest) (r) (k)),
          [[BELL]]) := by
  simp [handleReadBody, h1, h2, h3]

/-- The loop ends exactly on an empty buffer and on an incomplete command. -/
theorem handleReadBody_eq_none_iff (lines : List (List Nat)) (c : TCPConnection) :
    handleReadBody lines c = none
      ↔ c.receivedData = []
        ∨ (c.receivedData.head? = some IAC ∧ c.receivedData.length < 3) := by
  obtain ⟨data, r, k⟩ := c
  cases data with
  | nil => simp [handleReadBody]
  | cons b rest =>
    by_cases h1 : b = IAC
    · subst h1
      by_cases hl : (IAC :: rest).length < 3
      · simp only [handleReadBody]
        simp [hl]
        constructor <;> intro h <;> simp at hl <;> omega
      · simp only [handleReadBody]
        simp [hl]
        constructor <;> intro h <;> simp at hl <;> omega
    · by_cases h2 : b = 81 ∨ b = 113
      · rw [handleReadBody_up lines rest r k b h2]; simp [h1]
      · by_cases h3 : b = 65 ∨ b = 97
        · rw [handleReadBody_down lines rest r k b h3]
          split <;> simp [h1]
        · rw [handleReadBody_unknown lines rest r k b h1 h2 h3]; simp [h1]

/-- A pass of the loop removes from the front of the buffer the one octet, or the
three octets of the command, that it handles. -/
theorem handleReadBody_consumes (lines : List (List Nat)) (c c2 : TCPConnection)
    (sent : List (List Nat)) (h : handleReadBody lines c = some (c2, sent)) :
    (c2.receivedData = c.receivedData.drop 1 ∧ 1 ≤ c.receivedData.length
        ∧ c.receivedData.head? ≠ some IAC)
      ∨ (c2.receivedData = c.receivedData.drop 3 ∧ 3 ≤ c.receivedData.length
        ∧ c.receivedData.head? = some IAC) := by
  obtain ⟨data, r, k⟩ := c
  cases data with
  | nil => simp [handleReadBody] at h
  | cons b rest =>
    by_cases h1 : b = IAC
    · subst h1
      right
      match rest, h with
      | [], h => simp [handleReadBody] at h
      | [_], h => simp [handleReadBody] at h
      | v :: o :: rest, h =>
        rw [handleReadBody_command] at h
        injection h with h
        injection h with h _
        subst h
        simp
    · left
      by_cases h2 : b = 81 ∨ b = 113
      · rw [handleReadBody_up lines rest r k b h2] at h
        injection h with h
        injection h with h _
        subst h
        simp [h1]
      · by_cases h3 : b = 65 ∨ b = 97
        · rw [handleReadBody_down lines rest r k b h3] at h
          split at h <;>
          · injection h with h
            injection h with h _
            subst h
            simp [h1]
        · rw [handleReadBody_unknown lines rest r k b h1 h2 h3] at h
          injection h with h
          injection h with h _
          subst h
          simp [h1]

/-- The loop of `handleRead` returns when its fuel exceeds the length of the buffer;
what it leaves is a suffix of the buffer that is empty or an incomplete command. -/
theorem handleReadLoop_returns (lines : List (List Nat)) :
    ∀ (fuel : Nat) (c : TCPConnection), c.receivedData.length < fuel →
      ∃ c2 sent, handleReadLoop lines fuel c = some (c2, sent)
        ∧ c2.receivedData <:+ c.receivedData
        ∧ (c2.receivedData = []
          ∨ (c2.receivedData.head? = some IAC ∧ c2.receivedData.length < 3)) := by
  intro fuel
  induction fuel with
  | zero => intro c h; omega
  | succ fuel ih =>
    intro c hlen
    cases hb : handleReadBody lines c with
    | none =>
      refine ⟨c, [], ?_, List.suffix_refl _, ?_⟩
      · simp [handleReadLoop, hb]
      · exact (handleReadBody_eq_none_iff lines c).1 hb
    | some p =>
      obtain ⟨c1, sent⟩ := p
      have hcons := handleReadBody_consumes lines c c1 sent hb
      have hlt : c1.receivedData.length < fuel := by
        rcases hcons with ⟨h, hl, _⟩ | ⟨h, hl, _⟩
        · rw [h, List.length_drop]; omega
        · rw [h, List.length_drop]; omega
      have hsuf : c1.receivedData <:+ c.receivedData := by
        rcases hcons with ⟨h, _, _⟩ | ⟨h, _, _⟩
        · rw [h]; exact List.drop_suffix _ _
        · rw [h]; exact List.drop_suffix _ _
      obtain ⟨c2, sent2, h2, hs2, hend⟩ := ih c1 hlt
      refine ⟨c2, sent ++ sent2, ?_, hs2.trans hsuf, hend⟩
      simp [handleReadLoop, hb, h2]

/-- Any two amounts of fuel above the length of the buffer give the same result. -/
theorem handleReadLoop_fuel (lines : List (List Nat)) :
    ∀ (fuel1 fuel2 : Nat) (c : TCPConnection), c.receivedData.length < fuel1 →
      c.receivedData.length < fuel2 →
      handleReadLoop lines fuel1 c = handleReadLoop lines fuel2 c := by
  intro fuel1
  induction fuel1 with
  | zero => intro fuel2 c h; omega
  | succ fuel1 ih =>
    intro fuel2 c h1 h2
    cases fuel2 with
    | zero => omega
    | succ fuel2 =>
      cases hb : handleReadBody lines c with
      | none => simp [handleReadLoop, hb]
      | some p =>
        obtain ⟨c1, sent⟩ := p
        have hcons := handleReadBody_consumes lines c c1 sent hb
        have hlt : c1.receivedData.length < c.receivedData.length := by
          rcases hcons with ⟨h, hl, _⟩ | ⟨h, hl, _⟩
          · rw [h, List.length_drop]; omega
          · rw [h, List.length_drop]; omega
        simp only [handleReadLoop, hb]
        rw [ih fuel2 c1 (by omega) (by omega)]

end TELNETServer

namespace TELNETServer

/-- The loop of `updateClientView` for a value `m` of `maxRow`. -/
theorem updateClientView_rows (lines : List (List Nat)) (m : Nat) (hm : m < 2 ^ 32) :
    (List.range' (if m ≤ CONSOLE_HEIGHT then 0 else m - CONSOLE_HEIGHT)
        (m - (if m ≤ CONSOLE_HEIGHT then 0 else m - CONSOLE_HEIGHT))).map (fun i =>
      let raw := lines.getD i []
      if (i + 1) % 2 ^ 32 ≠ m then raw ++ [ESC, 69] else raw)
      = rowsSent lines (m - 24) m := by
  have hmin : (if m ≤ CONSOLE_HEIGHT then 0 else m - CONSOLE_HEIGHT) = m - 24 := by
    simp only [CONSOLE_HEIGHT]
    split <;> omega
  rw [hmin, rowsSent]
  apply List.map_congr_left
  intro i hi
  rw [List.mem_range'] at hi
  obtain ⟨j, hj, rfl⟩ := hi
  have h1 : (m - 24 + 1 * j + 1) % 2 ^ 32 = m - 24 + 1 * j + 1 :=
    Nat.mod_eq_of_lt (by omega)
  simp only [h1]
  by_cases h : m - 24 + 1 * j + 1 = m
  · simp [h]
  · simp [h]

/-- The window of `updateClientView`: the message is the clear-display sequence and
the rows `maxRow - 24 .. maxRow - 1`, `maxRow` being the `unsigned` minimum. -/
theorem updateClientView_eq (lines : List (List Nat)) (c : TCPConnection) :
    updateClientView lines c
      = clearDisplayMessage :: rowsSent lines
          (min (lines.length % 2 ^ 32) ((c.firstRowPos + 24) % 2 ^ 32) - 24)
          (min (lines.length % 2 ^ 32) ((c.firstRowPos + 24) % 2 ^ 32)) := by
  have hm : min (lines.length % 2 ^ 32) ((c.firstRowPos + 24) % 2 ^ 32) < 2 ^ 32 :=
    lt_of_le_of_lt (min_le_left _ _) (Nat.mod_lt _ (by norm_num))
  have h := updateClientView_rows lines _ hm
  rw [← h]
  rfl

theorem rowsSent_length (lines : List (List Nat)) (a b : Nat) :
    (rowsSent lines a b).length = b - a := by
  simp [rowsSent]

/-- The counter of a connection is the number of `DO` commands it has consumed, as an
`unsigned`. -/
theorem served_counter {c : TCPConnection} {hist : List (Nat × Nat)} (h : Served c hist) :
    c.receivedCommandsCount = doCount hist % 2 ^ 32 := by
  induction h with
  | accept => rfl
  | read c hist bytes _ ih => exact ih
  | pass lines c c2 hist sent _ hb ih =>
    obtain ⟨data, r, k⟩ := c
    simp only at ih
    subst ih
    cases data with
    | nil => simp [handleReadBody] at hb
    | cons b rest =>
      by_cases h1 : b = IAC
      · subst h1
        match rest, hb with
        | [], hb => simp [handleReadBody] at hb
        | [_], hb => simp [handleReadBody] at hb
        | v :: o :: rest, hb =>
          rw [handleReadBody_command] at hb
          injection hb with hb
          injection hb with hb _
          subst hb
          by_cases hd : v = DO
          · simp [commandAt, doCount, hd, List.filter_append]
          · simp [commandAt, doCount, hd, List.filter_append]
      · have hc : commandAt (b :: rest) = [] := by
          match rest with
          | [] => rfl
          | [_] => rfl
          | _ :: _ :: _ => simp [commandAt, h1]
        simp only [hc, List.append_nil]
        by_cases h2 : b = 81 ∨ b = 113
        · rw [handleReadBody_up lines rest r _ b h2] at hb
          injection hb with hb
          injection hb with hb _
          subst hb
          rfl
        · by_cases h3 : b = 65 ∨ b = 97
          · rw [handleReadBody_down lines rest r _ b h3] at hb
            split at hb <;>
            · injection hb with hb
              injection hb with hb _
              subst hb
              rfl
          · rw [handleReadBody_unknown lines rest r _ b h1 h2 h3] at hb
            injection hb with hb
            injection hb with hb _
            subst hb
            rfl

end TELNETServer

/-- C31: in a pass of the loop of `handleRead` on a connection with top-row index `r`
(with `r + 24` in the range of `unsigned`) and `lines` as the rendered lines, a `Q`
or `q` is consumed, the index becomes `r - 1` clamped at 0, and what is sent is the
redraw or nothing, not a BELL; an `A` or `a` is consumed and the index becomes `r + 1`
when `r + 24 < n`, with a redraw, and stays `r` otherwise. -/
theorem C31_scroll_keys (lines : List (List Nat)) (rest : List Nat) (r k b : Nat)
    (hr : r + 24 < 2 ^ 32) :
    ((b = 81 ∨ b = 113) →
      TELNETServer.handleReadBody lines (TELNETServer.TCPConnection.mk (b :: rest) r k)
          = some (TELNETServer.TCPConnection.mk rest (r - 1) k,
              if 0 < r then
                TELNETServer.updateClientView lines
                  (TELNETServer.TCPConnection.mk rest (r - 1) k)
              else [])
        ∧ ((r - 1 : Nat) : Int) = max ((r : Int) - 1) 0
        ∧ (if 0 < r then
              TELNETServer.updateClientView lines
                (TELNETServer.TCPConnection.mk rest (r - 1) k)
            else []) ≠ [[TELNETServer.BELL]])
    ∧ ((b = 65 ∨ b = 97) →
      TELNETServer.handleReadBody lines (TELNETServer.TCPConnection.mk (b :: rest) r k)
          = some (TELNETServer.TCPConnection.mk rest
                (if r + 24 < lines.length then r + 1 else r) k,
              if r + 24 < lines.length then
                TELNETServer.updateClientView lines
                  (TELNETServer.TCPConnection.mk rest (r + 1) k)
              else [])) := by
  refine ⟨fun hb => ⟨TELNETServer.handleReadBody_up lines rest r k b hb, by omega, ?_⟩,
    fun hb => ?_⟩
  · split
    · rw [TELNETServer.updateClientView_eq]
      intro h
      injection h with h _
      exact absurd h (by decide)
    · intro h
      exact absurd h (by decide)
  · rw [TELNETServer.handleReadBody_down lines rest r k b hb]
    have h1 : (r + 24) % 2 ^ 32 = r + 24 := Nat.mod_eq_of_lt hr
    have h2 : (r + 1) % 2 ^ 32 = r + 1 := Nat.mod_eq_of_lt (by omega)
    rw [h1, h2]
    split <;> rfl

set_option maxRecDepth 100000 in
/-- C31 with 30 rendered lines: `A` moves the index 0 to 1 and leaves 6 at 6, and `Q`
leaves 0 at 0 and moves 6 to 5. -/
theorem C31_scroll_keys_witness :
    TELNETServer.handleReadBody (List.replicate 30 [120])
        (TELNETServer.TCPConnection.mk [65] 0 0)
      = some (TELNETServer.TCPConnection.mk []
            (if 0 + 24 < (List.replicate 30 [120]).length then 0 + 1 else 0) 0,
          if 0 + 24 < (List.replicate 30 [120]).length then
            TELNETServer.updateClientView (List.replicate 30 [120])
              (TELNETServer.TCPConnection.mk [] (0 + 1) 0)
          else [])
    ∧ (TELNETServer.handleReadBody (List.replicate 30 [120])
        (TELNETServer.TCPConnection.mk [65] 0 0)).map (fun p => p.1.firstRowPos) = some 1
    ∧ (TELNETServer.handleReadBody (List.replicate 30 [120])
        (TELNETServer.TCPConnection.mk [65] 6 0)).map (fun p => p.1.firstRowPos) = some 6
    ∧ (TELNETServer.handleReadBody (List.replicate 30 [120])
        (TELNETServer.TCPConnection.mk [81] 0 0)).map (fun p => p.1.firstRowPos) = some 0
    ∧ (TELNETServer.handleReadBody (List.replicate 30 [120])
        (TELNETServer.TCPConnection.mk [113] 6 0)).map (fun p => p.1.firstRowPos) = some 5 :=
  ⟨(C31_scroll_keys (List.replicate 30 [120]) [] 0 0 65 (by decide)).2 (Or.inl rfl),
    by decide!, by decide!, by decide!, by decide!⟩

/-- C32 fails on the code: with 30 rendered lines and the top-row index 6, an `A` is
consumed with the index unchanged, but nothing is sent; the BELL answers an octet
that is no command and no scroll key, such as `x`. -/
theorem C32_counterexample_no_bell_at_bottom :
    (List.replicate 30 [120]).length = 30
    ∧ TELNETServer.handleReadBody (List.replicate 30 [120])
        (TELNETServer.TCPConnection.mk [65] 6 0)
      = some (TELNETServer.TCPConnection.mk [] 6 0, [])
    ∧ TELNETServer.handleReadBody (List.replicate 30 [120])
        (TELNETServer.TCPConnection.mk [97] 6 0)
      = some (TELNETServer.TCPConnection.mk [] 6 0, [])
    ∧ TELNETServer.handleReadBody (List.replicate 30 [120])
        (TELNETServer.TCPConnection.mk [120] 6 0)
      = some (TELNETServer.TCPConnection.mk [] 6 0, [[7]]) := by
  refine ⟨by decide!, by decide!, by decide!, by decide!⟩

/-- C32, amended: for a top-row index `r` with `r + 24 >= totalRows` (and `r + 24` in
the range of `unsigned`), an `A` or `a` is consumed with the index unchanged and
nothing is sent to the client. -/
theorem C32_scroll_down_at_bottom_is_silent (lines : List (List Nat)) (rest : List Nat)
    (r k b : Nat) (hr : r + 24 < 2 ^ 32) (hn : r + 24 ≥ lines.length)
    (hb : b = 65 ∨ b = 97) :
    TELNETServer.handleReadBody lines (TELNETServer.TCPConnection.mk (b :: rest) r k)
      = some (TELNETServer.TCPConnection.mk rest r k, []) := by
  rw [TELNETServer.handleReadBody_down lines rest r k b hb]
  have h1 : (r + 24) % 2 ^ 32 = r + 24 := Nat.mod_eq_of_lt hr
  rw [h1, if_neg (by omega)]

/-- C32, amended, with 30 rendered lines at the top-row index 6. -/
theorem C32_scroll_down_at_bottom_is_silent_witness :
    TELNETServer.handleReadBody (List.replicate 30 [120])
        (TELNETServer.TCPConnection.mk (65 :: [81]) 6 0)
      = some (TELNETServer.TCPConnection.mk [81] 6 0, []) :=
  C32_scroll_down_at_bottom_is_silent (List.replicate 30 [120]) [81] 6 0 65 (by decide)
    (by decide) (Or.inl rfl)

/-- C36: `updateClientView` hands to `sendResponse` the sequence `ESC [ 2 J ESC [ H`
and then the rows `a .. b - 1`, each but the last followed by `ESC E`, where
`b <= n`, so that every row read exists, and `b - a <= 24`; when `n` and `r + 24` are
in the range of `unsigned`, `b = min(n, r + 24)` and `a = b - 24` clamped at 0; and
when moreover `r + 24 <= n` the rows are `r .. r + 23`. -/
theorem C36_view_window (lines : List (List Nat)) (c : TELNETServer.TCPConnection) :
    TELNETServer.clearDisplayMessage = [27, 91, 50, 74, 27, 91, 72]
    ∧ (∃ a b, TELNETServer.updateClientView lines c
          = TELNETServer.clearDisplayMessage :: TELNETServer.rowsSent lines a b
        ∧ b ≤ lines.length ∧ b - a ≤ 24
        ∧ (∀ i ∈ List.range' a (b - a), i < lines.length)
        ∧ (TELNETServer.rowsSent lines a b).length ≤ 24)
    ∧ (lines.length < 2 ^ 32 → c.firstRowPos + 24 < 2 ^ 32 →
        TELNETServer.updateClientView lines c
          = TELNETServer.clearDisplayMessage :: TELNETServer.rowsSent lines
              (min lines.length (c.firstRowPos + 24) - 24)
              (min lines.length (c.firstRowPos + 24)))
    ∧ (lines.length < 2 ^ 32 → c.firstRowPos + 24 ≤ lines.length →
        TELNETServer.updateClientView lines c
          = TELNETServer.clearDisplayMessage :: (List.range' c.firstRowPos 24).map (fun i =>
              if i = c.firstRowPos + 23 then lines.getD i []
              else lines.getD i [] ++ [27, 69])) := by
  have heq := TELNETServer.updateClientView_eq lines c
  refine ⟨rfl, ⟨_, _, heq, ?_, by omega, ?_, ?_⟩, ?_, ?_⟩
  · exact le_trans (min_le_left _ _) (Nat.mod_le _ _)
  · intro i hi
    rw [List.mem_range'] at hi
    obtain ⟨j, hj, rfl⟩ := hi
    have : min (lines.length % 2 ^ 32) ((c.firstRowPos + 24) % 2 ^ 32) ≤ lines.length :=
      le_trans (min_le_left _ _) (Nat.mod_le _ _)
    omega
  · rw [TELNETServer.rowsSent_length]; omega
  · intro hn hr
    rw [heq, Nat.mod_eq_of_lt hn, Nat.mod_eq_of_lt hr]
  · intro hn hr
    rw [heq, Nat.mod_eq_of_lt hn, Nat.mod_eq_of_lt (by omega : c.firstRowPos + 24 < 2 ^ 32),
      min_eq_right hr]
    have h1 : c.firstRowPos + 24 - 24 = c.firstRowPos := by omega
    have h2 : c.firstRowPos + 24 - c.firstRowPos = 24 := by omega
    rw [h1, TELNETServer.rowsSent, h2]
    congr 1
    apply List.map_congr_left
    intro i _
    have h3 : (i + 1 = c.firstRowPos + 24) = (i = c.firstRowPos + 23) := by
      apply propext; constructor <;> intro h <;> omega
    simp only [h3, TELNETServer.ESC]

set_option maxRecDepth 100000 in
/-- C36 with 30 rendered lines, line `i` being the one octet `i`: at the top-row index
2 the rows 2 to 25 are sent, and at the index 20 the rows 6 to 29. -/
theorem C36_view_window_witness :
    TELNETServer.updateClientView ((List.range 30).map (fun i => [i]))
        (TELNETServer.TCPConnection.mk [] 2 0)
      = TELNETServer.clearDisplayMessage :: (List.range' 2 24).map (fun i =>
          if i = 2 + 23 then ((List.range 30).map (fun i => [i])).getD i []
          else ((List.range 30).map (fun i => [i])).getD i [] ++ [27, 69])
    ∧ (TELNETServer.updateClientView ((List.range 30).map (fun i => [i]))
        (TELNETServer.TCPConnection.mk [] 2 0)).map (fun l => l.headD 0)
      = 27 :: List.range' 2 24
    ∧ (TELNETServer.updateClientView ((List.range 30).map (fun i => [i]))
        (TELNETServer.TCPConnection.mk [] 20 0)).map (fun l => l.headD 0)
      = 27 :: List.range' 6 24 :=
  ⟨(C36_view_window ((List.range 30).map (fun i => [i]))
      (TELNETServer.TCPConnection.mk [] 2 0)).2.2.2 (by decide!) (by decide!),
    by decide!, by decide!⟩

set_option maxRecDepth 100000 in
/-- C33 fails on the code: a new connection that receives `IAC DO 5`, `IAC DO 6` and
`IAC DO ECHO` answers all three with `IAC WONT opt`, the third one too, although it is
the first `DO` command with the option `ECHO` or `SUPPRESS-GO-AHEAD`: the counter
counts every `DO` command. -/
theorem C33_counterexample_other_DO_commands_count :
    TELNETServer.encodeCommands [(253, 5), (253, 6), (253, 1)]
      = [255, 253, 5, 255, 253, 6, 255, 253, 1]
    ∧ TELNETServer.handleRead [] 10 false 9 [255, 253, 5, 255, 253, 6, 255, 253, 1]
        TELNETServer.TCPConnection.new
      = some (TELNETServer.TCPConnection.mk [] 0 3,
          [[255, 252, 5], [255, 252, 6], [255, 252, 1]])
    ∧ TELNETServer.specCommandReplies [] [(253, 5), (253, 6), (253, 1)]
      = [[255, 252, 5], [255, 252, 6]] := by
  refine ⟨by decide!, by decide!, by decide!⟩

/-- C33, amended: on a connection that has consumed the commands `hist`, fewer than
`2^32` of them, a pass of the loop of `handleRead` on a complete command
`IAC verb opt` consumes its three octets and sends `IAC DONT opt` for `WILL`; for `DO`
it sends `IAC WONT opt`, or nothing when the option is `ECHO` or `SUPPRESS-GO-AHEAD`
and fewer than two `DO` commands, of any option, are in `hist`; another verb gets no
reply. -/
theorem C33_command_replies (c : TELNETServer.TCPConnection) (hist : List (Nat × Nat))
    (lines : List (List Nat)) (verb opt : Nat) (rest : List Nat)
    (hs : TELNETServer.Served c hist) (hlen : hist.length < 2 ^ 32)
    (hdata : c.receivedData = TELNETServer.IAC :: verb :: opt :: rest) :
    ∃ c2, TELNETServer.handleReadBody lines c
        = some (c2, TELNETServer.commandReply (TELNETServer.doCount hist) (verb, opt))
      ∧ c2.receivedData = rest ∧ c2.firstRowPos = c.firstRowPos
      ∧ TELNETServer.Served c2 (hist ++ [(verb, opt)])
      ∧ (verb = TELNETServer.WILL →
          TELNETServer.commandReply (TELNETServer.doCount hist) (verb, opt)
            = [[TELNETServer.IAC, TELNETServer.DONT, opt]])
      ∧ (verb = TELNETServer.DO →
          TELNETServer.commandReply (TELNETServer.doCount hist) (verb, opt)
            = if TELNETServer.doCount hist < 2
                  ∧ (opt = TELNETServer.TELNET_ECHO ∨ opt = TELNETServer.SUPPRESS_GO_AHEAD)
              then [] else [[TELNETServer.IAC, TELNETServer.WONT, opt]]) := by
  have hcount := TELNETServer.served_counter hs
  have hle : TELNETServer.doCount hist ≤ hist.length := by
    unfold TELNETServer.doCount
    exact List.length_filter_le _ _
  rw [Nat.mod_eq_of_lt (by omega)] at hcount
  obtain ⟨data, r, k⟩ := c
  simp only at hdata hcount
  subst hdata
  subst hcount
  have hb := TELNETServer.handleReadBody_command lines rest r (TELNETServer.doCount hist) verb opt
  refine ⟨_, hb, rfl, rfl, ?_, ?_, ?_⟩
  · have := TELNETServer.Served.pass lines _ _ hist _ hs hb
    simpa [TELNETServer.commandAt] using this
  · intro hv
    simp [TELNETServer.commandReply, hv]
  · intro hv
    have hdw : ¬ TELNETServer.DO = TELNETServer.WILL := by decide
    simp only [TELNETServer.commandReply, hv, hdw, if_false, if_true]

set_option maxRecDepth 100000 in
/-- C33, amended, at a new connection that has received `IAC DO ECHO IAC DO 5`: the
first command is accepted with no reply. -/
theorem C33_command_replies_witness :
    ∃ c2, TELNETServer.handleReadBody []
          { TELNETServer.TCPConnection.new with
            receivedData := TELNETServer.TCPConnection.new.receivedData
              ++ [255, 253, 1, 255, 253, 5] }
        = some (c2, TELNETServer.commandReply (TELNETServer.doCount []) (253, 1))
      ∧ c2.receivedData = [255, 253, 5] ∧ c2.firstRowPos = 0
      ∧ TELNETServer.commandReply (TELNETServer.doCount []) (253, 1) = [] := by
  obtain ⟨c2, h1, h2, h3, _, _, _⟩ := C33_command_replies
    { TELNETServer.TCPConnection.new with
      receivedData := TELNETServer.TCPConnection.new.receivedData
        ++ [255, 253, 1, 255, 253, 5] }
    [] [] 253 1 [255, 253, 5]
    (TELNETServer.Served.read _ _ _ TELNETServer.Served.accept) (by decide) (by decide)
  exact ⟨c2, h1, h2, h3, by decide⟩

/-- C39: for every buffer of a connection and every chunk of received octets, the
loop of `handleRead` returns once its fuel exceeds the length of the buffer, with the
same result for every such fuel; what it leaves in `receivedData` is a suffix of the
buffer that is empty or starts with `IAC` and holds fewer than three octets; and each
pass of the loop removes from the front of the buffer the one octet, or the three
octets of the command, that it handles. -/
theorem C39_read_loop_consumes_buffer (lines : List (List Nat)) (c : TELNETServer.TCPConnection)
    (bytesCount : Nat) (buf : List Nat) (fuel : Nat)
    (hfuel : (c.receivedData ++ buf.take bytesCount).length < fuel) :
    (∃ c2 sent, TELNETServer.handleRead lines fuel false bytesCount buf c = some (c2, sent)
      ∧ TELNETServer.handleRead lines
          ((c.receivedData ++ buf.take bytesCount).length + 1) false bytesCount buf c
        = some (c2, sent)
      ∧ c2.receivedData <:+ c.receivedData ++ buf.take bytesCount
      ∧ (c2.receivedData = []
        ∨ (c2.receivedData.head? = some TELNETServer.IAC ∧ c2.receivedData.length < 3)))
    ∧ (∀ c1 c2 sent, TELNETServer.handleReadBody lines c1 = some (c2, sent) →
        (c2.receivedData = c1.receivedData.drop 1 ∧ 1 ≤ c1.receivedData.length
            ∧ c1.receivedData.head? ≠ some TELNETServer.IAC)
          ∨ (c2.receivedData = c1.receivedData.drop 3 ∧ 3 ≤ c1.receivedData.length
            ∧ c1.receivedData.head? = some TELNETServer.IAC)) := by
  refine ⟨?_, fun c1 c2 sent h => TELNETServer.handleReadBody_consumes lines c1 c2 sent h⟩
  obtain ⟨c2, sent, h, hsuf, hend⟩ := TELNETServer.handleReadLoop_returns lines fuel
    { c with receivedData := c.receivedData ++ buf.take bytesCount } hfuel
  refine ⟨c2, sent, ?_, ?_, hsuf, hend⟩
  · simpa [TELNETServer.handleRead] using h
  · have h2 := TELNETServer.handleReadLoop_fuel lines fuel
      ((c.receivedData ++ buf.take bytesCount).length + 1)
      { c with receivedData := c.receivedData ++ buf.take bytesCount } hfuel
      (Nat.lt_succ_self _)
    rw [h] at h2
    simp only [TELNETServer.handleRead, Bool.false_eq_true, if_false]
    exact h2.symm

set_option maxRecDepth 100000 in
/-- C39 at a connection that holds the incomplete command `IAC` and receives
`DO ECHO x q IAC WILL`: the command, `x` and `q` are consumed, `x` is answered with a
BELL, and the incomplete command `IAC WILL` is kept. -/
theorem C39_read_loop_consumes_buffer_witness :
    (∃ c2 sent, TELNETServer.handleRead [] 8 false 6 [253, 1, 120, 113, 255, 251]
          (TELNETServer.TCPConnection.mk [255] 0 0) = some (c2, sent)
      ∧ TELNETServer.handleRead []
          (((TELNETServer.TCPConnection.mk [255] 0 0).receivedData
            ++ ([253, 1, 120, 113, 255, 251] : List Nat).take 6).length + 1) false 6
          [253, 1, 120, 113, 255, 251] (TELNETServer.TCPConnection.mk [255] 0 0)
        = some (c2, sent)
      ∧ c2.receivedData <:+ (TELNETServer.TCPConnection.mk [255] 0 0).receivedData
          ++ ([253, 1, 120, 113, 255, 251] : List Nat).take 6
      ∧ (c2.receivedData = []
        ∨ (c2.receivedData.head? = some TELNETServer.IAC ∧ c2.receivedData.length < 3)))
    ∧ TELNETServer.handleRead [] 8 false 6 [253, 1, 120, 113, 255, 251]
          (TELNETServer.TCPConnection.mk [255] 0 0)
        = some (TELNETServer.TCPConnection.mk [255, 251] 0 1, [[7]]) :=
  ⟨(C39_read_loop_consumes_buffer [] (TELNETServer.TCPConnection.mk [255] 0 0) 6
      [253, 1, 120, 113, 255, 251] 8 (by decide)).1, by decide!⟩

open bitops dns_format LatencyDatabase

namespace UDPService

/-- What the loop of `refreshHistory` leaves: a suffix of the queue, and a part of the
set that keeps every entry not older than the bound. -/
theorem refreshHistoryLoop_spec (bound : Nat) :
    ∀ (queue requests : List HistoryEntry),
      (refreshHistoryLoop bound queue requests).requestHistory <:+ queue
      ∧ (∀ e ∈ (refreshHistoryLoop bound queue requests).requests, e ∈ requests)
      ∧ (∀ e ∈ requests, bound ≤ e.sendTime →
          e ∈ (refreshHistoryLoop bound queue requests).requests)
      ∧ (queue.Pairwise (fun a b => a.sendTime ≤ b.sendTime) →
          (∀ e ∈ (refreshHistoryLoop bound queue requests).requestHistory,
            bound ≤ e.sendTime)
          ∧ (∀ e ∈ (refreshHistoryLoop bound queue requests).requests, e ∈ queue →
            bound ≤ e.sendTime ∧ e ∈ (refreshHistoryLoop bound queue requests).requestHistory))
  := by
  intro queue
  induction queue with
  | nil =>
    intro requests
    simp only [refreshHistoryLoop]
    exact ⟨List.suffix_refl _, fun e he => he, fun e he _ => he,
      fun _ => ⟨fun e he => absurd he (List.not_mem_nil e),
        fun e _ he => absurd he (List.not_mem_nil e)⟩⟩
  | cons front rest ih =>
    intro requests
    by_cases hf : front.sendTime < bound
    · have hreq : ∀ e, e ∈ (if front ∈ requests then
            requests.filter (fun e => decide (e ≠ front)) else requests)
          ↔ e ∈ requests ∧ e ≠ front := by
        intro e
        by_cases hmem : front ∈ requests
        · simp [hmem]
        · simp only [hmem, if_false]
          constructor
          · intro h
            exact ⟨h, fun he => hmem (he ▸ h)⟩
          · exact fun h => h.1
      obtain ⟨h1, h2, h3, h4⟩ := ih (if front ∈ requests then
        requests.filter (fun e => decide (e ≠ front)) else requests)
      simp only [refreshHistoryLoop, hf, if_true]
      refine ⟨h1.trans (List.suffix_cons _ _), ?_, ?_, ?_⟩
      · intro e he
        exact ((hreq e).1 (h2 e he)).1
      · intro e he hb
        apply h3 e _ hb
        rw [hreq]
        refine ⟨he, ?_⟩
        rintro rfl
        omega
      · intro hs
        obtain ⟨h5, h6⟩ := h4 (List.Pairwise.of_cons hs)
        refine ⟨h5, ?_⟩
        intro e he hq
        have hne := ((hreq e).1 (h2 e he)).2
        rcases List.mem_cons.1 hq with h | h
        · exact absurd h hne
        · exact h6 e he h
    · simp only [refreshHistoryLoop, hf, if_false]
      refine ⟨List.suffix_refl _, fun e he => he, fun e he _ => he, ?_⟩
      intro hs
      have hall : ∀ e ∈ front :: rest, bound ≤ e.sendTime := by
        intro e he
        rcases List.mem_cons.1 he with h | h
        · subst h; omega
        · have := List.rel_of_pairwise_cons hs h
          omega
      exact ⟨hall, fun e _ hq => ⟨hall e hq, hq⟩⟩

/-- The purge keeps the order of the queue and the set within the queue. -/
theorem refreshHistory_inOrder (MAX_LATENCY_SECS curTime : Nat) (st : History)
    (h : InOrder st) : InOrder (refreshHistory MAX_LATENCY_SECS curTime st) := by
  obtain ⟨h1, h2, _, h4⟩ := refreshHistoryLoop_spec
    ((curTime + 2 ^ 64 - maxLatency MAX_LATENCY_SECS) % 2 ^ 64) st.requestHistory st.requests
  refine ⟨List.Pairwise.sublist h1.sublist h.1, ?_⟩
  intro e he
  exact ((h4 h.1).2 e he (h.2 e (h2 e he))).2

/-- A request sent at a time not before those of the queue keeps the order of the
queue and the set within the queue. -/
theorem measureLatencyFrom_inOrder (times : Nat → Nat) :
    ∀ (addrs : List Nat) (i : Nat) (st : History), InOrder st →
      (∀ e ∈ st.requestHistory, ∀ j, i ≤ j → e.sendTime ≤ times j) →
      (∀ j k, i ≤ j → j ≤ k → times j ≤ times k) →
      InOrder (measureLatencyFrom times i addrs st).1 := by
  intro addrs
  induction addrs with
  | nil => intro i st h _ _; exact h
  | cons addr rest ih =>
    intro i st h hq hmono
    simp only [measureLatencyFrom]
    apply ih
    · refine ⟨?_, ?_⟩
      · rw [List.pairwise_append]
        refine ⟨h.1, List.pairwise_singleton _ _, ?_⟩
        intro a ha b hb
        rw [List.mem_singleton] at hb
        subst hb
        exact hq a ha i (le_refl _)
      · intro e he
        simp only [List.mem_append, List.mem_singleton]
        by_cases hm : ({ peerAddr := addr, sendTime := times i } : HistoryEntry) ∈ st.requests
        · simp only [hm, if_true] at he
          exact Or.inl (h.2 e he)
        · simp only [hm, if_false, List.mem_append, List.mem_singleton] at he
          rcases he with he | he
          · exact Or.inl (h.2 e he)
          · exact Or.inr he
    · intro e he j hj
      simp only [List.mem_append, List.mem_singleton] at he
      rcases he with he | he
      · exact hq e he j (by omega)
      · subst he
        exact hmono i j (le_refl _) (by omega)
    · intro j k hj hk
      exact hmono j k (by omega) hk

/-- A response keeps the order of the queue and the set within the queue. -/
theorem handleClientResponse_inOrder (MAX_LATENCY_SECS : Nat) (st : History)
    (data : LatencyDatabase.Data) (clientBuffer : List Nat) (senderAddr curTime tRefresh : Nat)
    (tUpdate tAdd : Int) (st2 : History) (data2 : LatencyDatabase.Data) (h : InOrder st)
    (hr : handleClientResponse MAX_LATENCY_SECS st data clientBuffer senderAddr curTime tRefresh
      tUpdate tAdd = .ok (st2, data2)) : InOrder st2 := by
  have h2 := refreshHistory_inOrder MAX_LATENCY_SECS tRefresh st h
  unfold handleClientResponse at hr
  cases hg : bitops.getU64 clientBuffer 0 with
  | error e => simp [hg, bind, Except.bind] at hr
  | ok p =>
    obtain ⟨sendTime, it⟩ := p
    simp only [hg, bind, Except.bind, pure, Except.pure] at hr
    split at hr
    · injection hr with hr
      injection hr with hr _
      subst hr
      refine ⟨h2.1, ?_⟩
      intro e he
      exact h2.2 e (List.mem_filter.1 he).1
    · injection hr with hr
      injection hr with hr _
      subst hr
      exact h2

end UDPService

/-- C35: for a history whose queue is in the order of the send times and holds every
entry of the set, and a time `t` (a `u64`, in microseconds) not below
`MAX_LATENCY_SECS` seconds: after `refreshHistory` at `t`, no entry of the queue and
no entry of the set has a send time below `t - MAX_LATENCY_SECS s`, every entry of the
set with a send time from that bound on is still in the set, nothing has entered the
set, and the queue is still in order and holds the set. -/
theorem C35_purge_discards_old_entries (MAX_LATENCY_SECS t : Nat) (st : UDPService.History)
    (horder : UDPService.InOrder st) (hmax : MAX_LATENCY_SECS * 1000000 ≤ t)
    (ht : t < 2 ^ 64) :
    (∀ e ∈ (UDPService.refreshHistory MAX_LATENCY_SECS t st).requestHistory,
        ¬ e.sendTime < t - MAX_LATENCY_SECS * 1000000)
    ∧ (∀ e ∈ (UDPService.refreshHistory MAX_LATENCY_SECS t st).requests,
        ¬ e.sendTime < t - MAX_LATENCY_SECS * 1000000)
    ∧ (∀ e ∈ st.requests, e.sendTime ≥ t - MAX_LATENCY_SECS * 1000000 →
        e ∈ (UDPService.refreshHistory MAX_LATENCY_SECS t st).requests)
    ∧ (∀ e ∈ (UDPService.refreshHistory MAX_LATENCY_SECS t st).requests, e ∈ st.requests)
    ∧ UDPService.InOrder (UDPService.refreshHistory MAX_LATENCY_SECS t st) := by
  have hb : (t + 2 ^ 64 - UDPService.maxLatency MAX_LATENCY_SECS) % 2 ^ 64
      = t - MAX_LATENCY_SECS * 1000000 := by
    have h1 : UDPService.maxLatency MAX_LATENCY_SECS = MAX_LATENCY_SECS * 1000000 := by
      unfold UDPService.maxLatency
      exact Nat.mod_eq_of_lt (by omega)
    rw [h1]
    have h2 : t + 2 ^ 64 - MAX_LATENCY_SECS * 1000000
        = (t - MAX_LATENCY_SECS * 1000000) + 2 ^ 64 := by omega
    rw [h2, Nat.add_mod_right]
    exact Nat.mod_eq_of_lt (by omega)
  have hrefresh : UDPService.refreshHistory MAX_LATENCY_SECS t st
      = UDPService.refreshHistoryLoop (t - MAX_LATENCY_SECS * 1000000) st.requestHistory
          st.requests := by
    unfold UDPService.refreshHistory
    rw [hb]
  have hin := UDPService.refreshHistory_inOrder MAX_LATENCY_SECS t st horder
  rw [hrefresh] at hin ⊢
  obtain ⟨_, h2, h3, h4⟩ := UDPService.refreshHistoryLoop_spec
    (t - MAX_LATENCY_SECS * 1000000) st.requestHistory st.requests
  obtain ⟨h5, h6⟩ := h4 horder.1
  refine ⟨?_, ?_, ?_, h2, hin⟩
  · intro e he
    have := h5 e he
    omega
  · intro e he
    have := (h6 e he (horder.2 e (h2 e he))).1
    omega
  · intro e he hge
    exact h3 e he hge

/-- C35 at `sampleHistory` with `MAX_LATENCY_SECS = 10`, purged at the time
`10000250`: the entry sent at 100 leaves the queue and the set, the answered entry sent
at 200 leaves the queue, and the entry sent at 300 stays in both. -/
theorem C35_purge_discards_old_entries_witness :
    (∀ e ∈ (UDPService.refreshHistory 10 10000250 UDPService.sampleHistory).requests,
        ¬ e.sendTime < 10000250 - 10 * 1000000)
    ∧ UDPService.refreshHistory 10 10000250 UDPService.sampleHistory
      = { requestHistory := [{ peerAddr := 3, sendTime := 300 }],
          requests := [{ peerAddr := 3, sendTime := 300 }] } :=
  ⟨(C35_purge_discards_old_entries 10 10000250 UDPService.sampleHistory
      ⟨by decide, by decide⟩ (by decide) (by decide)).2.1, by decide⟩

namespace DNSPacket

theorem foldl_questions_eq (qs : List Question) :
    ∀ init : List Nat,
      qs.foldl (fun acc q => acc ++ q.generateNetworkFormat) init = init ++ questionsWire qs := by
  induction qs with
  | nil => intro init; simp [questionsWire]
  | cons q rest ih => intro init; simp [questionsWire, ih]

theorem foldl_answers_eq (as : List ResourceRecord) :
    ∀ init : List Nat,
      as.foldl (fun acc a => acc ++ a.generateNetworkFormat) init = init ++ answersWire as := by
  induction as with
  | nil => intro init; simp [answersWire]
  | cons a rest ih => intro init; simp [answersWire, ih]

/-- A serialised packet is its header, its questions and its answers. -/
theorem packet_wire (p : DNSPacket) :
    p.generateNetworkFormat = p.header ++ questionsWire p.questions ++ answersWire p.answers := by
  simp [generateNetworkFormat, foldl_questions_eq, foldl_answers_eq]

theorem foldl_push (l : List Nat) : ∀ init : List Nat,
    l.foldl (fun acc octet => acc ++ [octet]) init = init ++ l := by
  induction l with
  | nil => intro init; simp
  | cons x rest ih => intro init; simp [ih]

/-- The second octet of a count word set by `setQDCount` or `setANCount`. -/
theorem getD_set_set (h : List Nat) (i : Nat) (a b : Nat) (hi : i + 1 < h.length) :
    ((h.set i a).set (i + 1) b).getD i 0 = a ∧ ((h.set i a).set (i + 1) b).getD (i + 1) 0 = b
    ∧ ∀ j, j ≠ i → j ≠ i + 1 → ((h.set i a).set (i + 1) b).getD j 0 = h.getD j 0 := by
  have hi0 : i < h.length := by omega
  refine ⟨?_, ?_, ?_⟩
  · simp [List.getD, List.getElem?_set, hi0]
  · simp [List.getD, List.getElem?_set, hi]
  · intro j h1 h2
    simp [List.getD, List.getElem?_set, Ne.symm h1, Ne.symm h2]

theorem merge_divide_u16 (v : Nat) (h : v < 2 ^ 16) :
    merge_u8 (divide_u16 v).1 (divide_u16 v).2 = v := by
  rw [divide_u16_eq v h]
  exact merge_u8_divide v h

theorem merge_u8_lt (a b : Nat) : merge_u8 a b < 2 ^ 16 := by
  unfold merge_u8
  exact Nat.mod_lt _ (by norm_num)

/-- What `addQuestion` does to a packet with a 12-octet header. -/
theorem addQuestion_spec (p : DNSPacket) (q : Question) (hlen : p.header.length = 12) :
    (p.addQuestion q).header.length = 12
    ∧ (p.addQuestion q).getQDCount = (p.getQDCount + 1) % 2 ^ 16
    ∧ (p.addQuestion q).questions = p.questions ++ [q]
    ∧ (p.addQuestion q).answers = p.answers
    ∧ ∀ j, j ≠ 4 → j ≠ 5 → (p.addQuestion q).header.getD j 0 = p.header.getD j 0 := by
  obtain ⟨g1, g2, g3⟩ := getD_set_set p.header 4 (divide_u16 ((p.getQDCount + 1) % 2 ^ 16)).1
    (divide_u16 ((p.getQDCount + 1) % 2 ^ 16)).2 (by omega)
  refine ⟨by simp [addQuestion, setQDCount, hlen], ?_, rfl, rfl, ?_⟩
  · show merge_u8 _ _ = _
    simp only [addQuestion, setQDCount]
    rw [g1, g2]
    exact merge_divide_u16 _ (Nat.mod_lt _ (by norm_num))
  · intro j h1 h2
    exact g3 j h1 h2

/-- What `addAnswer` does to a packet with a 12-octet header. -/
theorem addAnswer_spec (p : DNSPacket) (a : ResourceRecord) (hlen : p.header.length = 12) :
    (p.addAnswer a).header.length = 12
    ∧ (p.addAnswer a).getANCount = (p.getANCount + 1) % 2 ^ 16
    ∧ (p.addAnswer a).questions = p.questions
    ∧ (p.addAnswer a).answers = p.answers ++ [a]
    ∧ ∀ j, j ≠ 6 → j ≠ 7 → (p.addAnswer a).header.getD j 0 = p.header.getD j 0 := by
  obtain ⟨g1, g2, g3⟩ := getD_set_set p.header 6 (divide_u16 ((p.getANCount + 1) % 2 ^ 16)).1
    (divide_u16 ((p.getANCount + 1) % 2 ^ 16)).2 (by omega)
  refine ⟨by simp [addAnswer, setANCount, hlen], ?_, rfl, rfl, ?_⟩
  · show merge_u8 _ _ = _
    simp only [addAnswer, setANCount]
    rw [g1, g2]
    exact merge_divide_u16 _ (Nat.mod_lt _ (by norm_num))
  · intro j h1 h2
    exact g3 j h1 h2

/-- What `setID` does to the header. -/
theorem setID_spec (p : DNSPacket) (val : Nat) :
    (p.setID val).header.length = p.header.length
    ∧ (p.setID val).questions = p.questions ∧ (p.setID val).answers = p.answers
    ∧ ∀ j, j ≠ 0 → j ≠ 1 → (p.setID val).header.getD j 0 = p.header.getD j 0 := by
  refine ⟨by simp [setID], rfl, rfl, ?_⟩
  intro j h1 h2
  simp [setID, List.getD, List.getElem?_set, Ne.symm h1, Ne.symm h2]

/-- What `setQR` does to the header. -/
theorem setQR_spec (p : DNSPacket) (val : Bool) :
    (p.setQR val).header.length = p.header.length
    ∧ (p.setQR val).questions = p.questions ∧ (p.setQR val).answers = p.answers
    ∧ ∀ j, j ≠ 2 → (p.setQR val).header.getD j 0 = p.header.getD j 0 := by
  unfold setQR
  split
  · split
    · refine ⟨by simp, rfl, rfl, ?_⟩
      intro j h1
      simp [List.getD, List.getElem?_set, Ne.symm h1]
    · refine ⟨by simp, rfl, rfl, ?_⟩
      intro j h1
      simp [List.getD, List.getElem?_set, Ne.symm h1]
  · exact ⟨rfl, rfl, rfl, fun _ _ => rfl⟩

/-- A built packet has a header of twelve octets whose question and answer counts
are the numbers of its questions and answers, as 16-bit words, and whose authority and
additional counts are zero. -/
theorem built_counts {p : DNSPacket} (h : Built p) :
    p.header.length = 12
    ∧ p.getQDCount = p.questions.length % 2 ^ 16
    ∧ p.getANCount = p.answers.length % 2 ^ 16
    ∧ p.getNSCount = 0 ∧ p.getARCount = 0 := by
  induction h with
  | new => decide
  | setID p val _ ih =>
    obtain ⟨i1, i2, i3, i4, i5⟩ := ih
    obtain ⟨s1, s2, s3, s4⟩ := setID_spec p val
    refine ⟨s1.trans i1, ?_, ?_, ?_, ?_⟩
    · rw [s2, ← i2]; unfold getQDCount; rw [s4 4 (by decide) (by decide), s4 5 (by decide) (by decide)]
    · rw [s3, ← i3]; unfold getANCount; rw [s4 6 (by decide) (by decide), s4 7 (by decide) (by decide)]
    · rw [← i4]; unfold getNSCount; rw [s4 8 (by decide) (by decide), s4 9 (by decide) (by decide)]
    · rw [← i5]; unfold getARCount; rw [s4 10 (by decide) (by decide), s4 11 (by decide) (by decide)]
  | setQR p val _ ih =>
    obtain ⟨i1, i2, i3, i4, i5⟩ := ih
    obtain ⟨s1, s2, s3, s4⟩ := setQR_spec p val
    refine ⟨s1.trans i1, ?_, ?_, ?_, ?_⟩
    · rw [s2, ← i2]; unfold getQDCount; rw [s4 4 (by decide), s4 5 (by decide)]
    · rw [s3, ← i3]; unfold getANCount; rw [s4 6 (by decide), s4 7 (by decide)]
    · rw [← i4]; unfold getNSCount; rw [s4 8 (by decide), s4 9 (by decide)]
    · rw [← i5]; unfold getARCount; rw [s4 10 (by decide), s4 11 (by decide)]
  | addQuestion p q _ ih =>
    obtain ⟨i1, i2, i3, i4, i5⟩ := ih
    obtain ⟨s1, s2, s3, s4, s5⟩ := addQuestion_spec p q i1
    refine ⟨s1, ?_, ?_, ?_, ?_⟩
    · rw [s2, s3, i2]; simp
    · rw [s4, ← i3]; unfold getANCount; rw [s5 6 (by decide) (by decide), s5 7 (by decide) (by decide)]
    · rw [← i4]; unfold getNSCount; rw [s5 8 (by decide) (by decide), s5 9 (by decide) (by decide)]
    · rw [← i5]; unfold getARCount; rw [s5 10 (by decide) (by decide), s5 11 (by decide) (by decide)]
  | addAnswer p a _ ih =>
    obtain ⟨i1, i2, i3, i4, i5⟩ := ih
    obtain ⟨s1, s2, s3, s4, s5⟩ := addAnswer_spec p a i1
    refine ⟨s1, ?_, ?_, ?_, ?_⟩
    · rw [s3, ← i2]; unfold getQDCount; rw [s5 4 (by decide) (by decide), s5 5 (by decide) (by decide)]
    · rw [s2, s4, i3]; simp
    · rw [← i4]; unfold getNSCount; rw [s5 8 (by decide) (by decide), s5 9 (by decide) (by decide)]
    · rw [← i5]; unfold getARCount; rw [s5 10 (by decide) (by decide), s5 11 (by decide) (by decide)]

end DNSPacket

namespace dns_format

theorem class_bits : ∀ c, c < 128 →
    (c ||| (1 <<< 15)) % 2 ^ 16 = c + 32768
    ∧ ((c + 32768) &&& (1 <<< 15) != 0) = true ∧ (c + 32768) &&& 0x7F = c
    ∧ (c &&& (1 <<< 15) != 0) = false ∧ c &&& 0x7F = c := by
  decide!

theorem getU16_at {buf tl : List Nat} {it x y : Nat} (h : x :: y :: tl <+: buf.drop it) :
    getU16 buf it = .ok (merge_u8 x y, it + 2) :=
  getU16_of_getElem? (prefix_drop_head h) (prefix_drop_head (prefix_drop_tail h))

theorem getU32_at {buf tl : List Nat} {it a b c d : Nat}
    (h : a :: b :: c :: d :: tl <+: buf.drop it) :
    getU32 buf it = .ok (merge_u16 (merge_u8 a b) (merge_u8 c d), it + 4) :=
  getU32_of_getElem? (prefix_drop_head h) (prefix_drop_head (prefix_drop_tail h))
    (prefix_drop_head (prefix_drop_tail (prefix_drop_tail h)))
    (prefix_drop_head (prefix_drop_tail (prefix_drop_tail (prefix_drop_tail h))))

/-- A well-formed name in the message is read as it stands. -/
theorem getDomainName_at {buf tl name : List Nat} {it : Nat} (hn : DNSPacket.WellFormedName name)
    (h : name ++ tl <+: buf.drop it) :
    getDomainName buf it = .ok (name, it + name.length) := by
  obtain ⟨labels, rfl, hl, hlen⟩ := hn
  have := getDomainNameFrom_name buf 255 labels hl it [] (prefix_drop_split h).1 hlen
  simpa [getDomainName] using this

/-- The octets of a well-formed question. -/
theorem question_wire (q : Question) (hq : DNSPacket.WellFormedQuestion q) :
    q.generateNetworkFormat
      = q.qname ++ [q.qtype / 2 ^ 8, q.qtype % 2 ^ 8,
          (if q.unicastResponseRequested then q.qclass + 32768 else q.qclass) / 2 ^ 8,
          (if q.unicastResponseRequested then q.qclass + 32768 else q.qclass) % 2 ^ 8] := by
  obtain ⟨_, ht, hc⟩ := hq
  have hb := class_bits q.qclass hc
  unfold Question.generateNetworkFormat
  by_cases hu : q.unicastResponseRequested = true
  · simp only [hu, if_true]
    rw [hb.1, addTo_u16_eq _ q.qtype ht, addTo_u16_eq _ (q.qclass + 32768) (by omega)]
    simp
  · simp only [hu, if_false]
    rw [addTo_u16_eq _ q.qtype ht, addTo_u16_eq _ q.qclass (by omega)]
    simp

/-- Reading back a well-formed question. -/
theorem getQuestion_at {buf tl : List Nat} {it : Nat} (q : Question)
    (hq : DNSPacket.WellFormedQuestion q) (h : q.generateNetworkFormat ++ tl <+: buf.drop it) :
    getQuestion buf it = .ok (q, it + q.generateNetworkFormat.length) := by
  have hw := question_wire q hq
  obtain ⟨hn, ht, hc⟩ := hq
  have hb := class_bits q.qclass hc
  rw [hw] at h ⊢
  rw [List.append_assoc] at h
  have h1 := getDomainName_at hn h
  have h2 := (prefix_drop_split h).2
  simp only [List.cons_append, List.nil_append] at h2
  have h3 := getU16_at h2
  have h4 := getU16_at (prefix_drop_tail (prefix_drop_tail h2))
  have e1 : it + q.qname.length + 1 + 1 = it + q.qname.length + 2 := rfl
  rw [e1] at h4
  have hm1 := merge_u8_divide q.qtype ht
  obtain ⟨qname, qtype, qclass, u⟩ := q
  simp only at *
  by_cases hu : u = true
  · subst hu
    simp only [if_true] at h4
    have hm2 := merge_u8_divide (qclass + 32768) (by omega)
    simp only [getQuestion, h1, h3, h4, bind, Except.bind, pure, Except.pure, hm1, hm2,
      Question.new, hb.2.1, hb.2.2.1]
    simp
    omega
  · have hu2 : u = false := by simpa using hu
    subst hu2
    simp only [Bool.false_eq_true, if_false] at h4
    have hm2 := merge_u8_divide qclass (by omega)
    simp only [getQuestion, h1, h3, h4, bind, Except.bind, pure, Except.pure, hm1, hm2,
      Question.new, hb.2.2.2.1, hb.2.2.2.2]
    simp
    omega

end dns_format

namespace dns_format

/-- The octets of a record whose fields are in the range of their types. -/
theorem answer_wire (a : ResourceRecord) (ht : a.rrtype < 2 ^ 16) (hc : a.rrclass < 2 ^ 16)
    (httl : a.ttl < 2 ^ 32) (hl : a.rdlength < 2 ^ 16) :
    a.generateNetworkFormat
      = a.name ++ ([a.rrtype / 2 ^ 8, a.rrtype % 2 ^ 8, a.rrclass / 2 ^ 8, a.rrclass % 2 ^ 8,
          a.ttl / 2 ^ 24, a.ttl / 2 ^ 16 % 2 ^ 8, a.ttl / 2 ^ 8 % 2 ^ 8, a.ttl % 2 ^ 8,
          a.rdlength / 2 ^ 8, a.rdlength % 2 ^ 8] ++ a.rdata) := by
  unfold ResourceRecord.generateNetworkFormat
  simp only []
  rw [DNSPacket.foldl_push, addTo_u16_eq _ a.rrtype ht, addTo_u16_eq _ a.rrclass hc,
    addTo_u32_eq _ a.ttl httl, addTo_u16_eq _ a.rdlength hl]
  simp

theorem class_mask : ∀ c, c < 128 → c &&& 0x7F = c := by
  decide!

/-- Reading back a well-formed A or PTR record. -/
theorem getResourceRecord_at {buf tl : List Nat} {it : Nat} (a : ResourceRecord)
    (ha : DNSPacket.WellFormedAnswer a) (h : a.generateNetworkFormat ++ tl <+: buf.drop it) :
    getResourceRecord buf it = .ok (a, it + a.generateNetworkFormat.length) := by
  obtain ⟨hn, hc, httl, hkind⟩ := ha
  have hmask := class_mask a.rrclass hc
  have htype : a.rrtype < 2 ^ 16 := by
    rcases hkind with ⟨h1, _⟩ | ⟨h1, _⟩ <;> rw [h1] <;> decide
  have hrdl : a.rdlength < 2 ^ 16 := by
    rcases hkind with ⟨_, h1, _⟩ | ⟨_, _, h1, _⟩
    · rw [h1]; decide
    · rw [h1]; exact Nat.mod_lt _ (by norm_num)
  have hw := answer_wire a htype (by omega) httl hrdl
  rw [hw] at h ⊢
  rw [List.append_assoc] at h
  have h1 := getDomainName_at hn h
  have h2 := (prefix_drop_split h).2
  simp only [List.cons_append, List.nil_append, List.append_assoc] at h2
  have h3 := getU16_at h2
  have h2b := prefix_drop_tail (prefix_drop_tail h2)
  have h4 := getU16_at h2b
  have h2c := prefix_drop_tail (prefix_drop_tail h2b)
  have h5 := getU32_at h2c
  have h2d := prefix_drop_tail (prefix_drop_tail (prefix_drop_tail (prefix_drop_tail h2c)))
  have h6 := getU16_at h2d
  have h2e := prefix_drop_tail (prefix_drop_tail h2d)
  rw [merge_u8_divide _ htype] at h3
  rw [merge_u8_divide _ (by omega : a.rrclass < 2 ^ 16)] at h4
  rw [merge_u16_divide _ httl] at h5
  rw [merge_u8_divide _ hrdl] at h6
  obtain ⟨name, rrclass, ttl, rrtype, rdlength, rdata⟩ := a
  simp only at *
  have hAP : ¬ DNSType.A = DNSType.PTR := by decide
  rcases hkind with ⟨hA, hlen, addr, haddr, hdata⟩ | ⟨hP, hrd, hlen, hparent⟩
  · subst hA hlen hdata
    rw [addTo_u32_eq _ addr haddr, List.nil_append] at h2e ⊢
    have h7 := getU32_at h2e
    rw [merge_u16_divide _ haddr] at h7
    simp only [getResourceRecord, h1, h3, h4, h5, h6, h7, bind, Except.bind, pure, Except.pure,
      ResourceRecord.new, ResourceRecord.setAAnswer, hAP, if_false, if_true, ne_eq,
      not_true_eq_false, hmask, addTo_u32_eq _ addr haddr, List.nil_append]
    simp
    omega
  · subst hP hlen
    have h7 := getDomainName_at hrd h2e
    simp only [getResourceRecord, h1, h3, h4, h5, h6, h7, bind, Except.bind, pure, Except.pure,
      ResourceRecord.new, ResourceRecord.setPTRAnswer, ResourceRecord.getPtrAnswer, if_true,
      ne_eq, not_true_eq_false, if_false, hparent, hmask]
    simp
    omega

end dns_format

namespace DNSPacket

/-- Adding a list of questions to a packet with a 12-octet header. -/
theorem foldl_addQuestion_spec (qs : List Question) :
    ∀ p : DNSPacket, p.header.length = 12 →
      (qs.foldl addQuestion p).header.length = 12
      ∧ (qs.foldl addQuestion p).getQDCount = (p.getQDCount + qs.length) % 2 ^ 16
      ∧ (qs.foldl addQuestion p).questions = p.questions ++ qs
      ∧ (qs.foldl addQuestion p).answers = p.answers
      ∧ ∀ j, j ≠ 4 → j ≠ 5 → (qs.foldl addQuestion p).header.getD j 0 = p.header.getD j 0 := by
  induction qs with
  | nil =>
    intro p hlen
    refine ⟨hlen, ?_, by simp, rfl, fun _ _ _ => rfl⟩
    simp only [List.foldl_nil, List.length_nil, Nat.add_zero]
    exact (Nat.mod_eq_of_lt (merge_u8_lt _ _)).symm
  | cons q rest ih =>
    intro p hlen
    obtain ⟨s1, s2, s3, s4, s5⟩ := addQuestion_spec p q hlen
    obtain ⟨i1, i2, i3, i4, i5⟩ := ih (p.addQuestion q) s1
    simp only [List.foldl_cons]
    refine ⟨i1, ?_, ?_, i4.trans s4, fun j h1 h2 => (i5 j h1 h2).trans (s5 j h1 h2)⟩
    · rw [i2, s2]
      simp only [List.length_cons]
      omega
    · rw [i3, s3]; simp

/-- Adding a list of answers to a packet with a 12-octet header. -/
theorem foldl_addAnswer_spec (as : List ResourceRecord) :
    ∀ p : DNSPacket, p.header.length = 12 →
      (as.foldl addAnswer p).header.length = 12
      ∧ (as.foldl addAnswer p).getANCount = (p.getANCount + as.length) % 2 ^ 16
      ∧ (as.foldl addAnswer p).questions = p.questions
      ∧ (as.foldl addAnswer p).answers = p.answers ++ as
      ∧ ∀ j, j ≠ 6 → j ≠ 7 → (as.foldl addAnswer p).header.getD j 0 = p.header.getD j 0 := by
  induction as with
  | nil =>
    intro p hlen
    refine ⟨hlen, ?_, rfl, by simp, fun _ _ _ => rfl⟩
    simp only [List.foldl_nil, List.length_nil, Nat.add_zero]
    exact (Nat.mod_eq_of_lt (merge_u8_lt _ _)).symm
  | cons a rest ih =>
    intro p hlen
    obtain ⟨s1, s2, s3, s4, s5⟩ := addAnswer_spec p a hlen
    obtain ⟨i1, i2, i3, i4, i5⟩ := ih (p.addAnswer a) s1
    simp only [List.foldl_cons]
    refine ⟨i1, ?_, i3.trans s3, ?_, fun j h1 h2 => (i5 j h1 h2).trans (s5 j h1 h2)⟩
    · rw [i2, s2]
      simp only [List.length_cons]
      omega
    · rw [i4, s4]; simp

/-- The questions loop adds the questions it reads, whatever they are. -/
theorem readQuestions_adds (buf : List Nat) (n : Nat) :
    ∀ (p p2 : DNSPacket) (it it2 : Nat), readQuestions buf n p it = .ok (p2, it2) →
      ∃ qs : List Question, qs.length = n ∧ p2 = qs.foldl addQuestion p := by
  induction n with
  | zero =>
    intro p p2 it it2 h
    simp only [readQuestions, Except.ok.injEq, Prod.mk.injEq] at h
    exact ⟨[], rfl, h.1.symm⟩
  | succ n ih =>
    intro p p2 it it2 h
    cases h1 : getQuestion buf it with
    | error e => simp [readQuestions, h1] at h
    | ok r =>
      obtain ⟨q, i1⟩ := r
      simp only [readQuestions, h1] at h
      obtain ⟨qs, hl, hp⟩ := ih _ _ _ _ h
      exact ⟨q :: qs, by simp [hl], by simpa using hp⟩

/-- The answers loop adds the records it reads, whatever they are. -/
theorem readAnswers_adds (buf : List Nat) (n : Nat) :
    ∀ (p p2 : DNSPacket) (it it2 : Nat), readAnswers buf n p it = .ok (p2, it2) →
      ∃ as : List ResourceRecord, as.length = n ∧ p2 = as.foldl addAnswer p := by
  induction n with
  | zero =>
    intro p p2 it it2 h
    simp only [readAnswers, Except.ok.injEq, Prod.mk.injEq] at h
    exact ⟨[], rfl, h.1.symm⟩
  | succ n ih =>
    intro p p2 it it2 h
    cases h1 : getResourceRecord buf it with
    | error e => simp [readAnswers, h1] at h
    | ok r =>
      obtain ⟨a, i1⟩ := r
      simp only [readAnswers, h1] at h
      obtain ⟨as, hl, hp⟩ := ih _ _ _ _ h
      exact ⟨a :: as, by simp [hl], by simpa using hp⟩

/-- The questions loop reads back the well-formed questions of a message. -/
theorem readQuestions_at (buf : List Nat) (qs : List Question) :
    ∀ (tl : List Nat) (p : DNSPacket) (it : Nat), (∀ q ∈ qs, WellFormedQuestion q) →
      questionsWire qs ++ tl <+: buf.drop it →
      readQuestions buf qs.length p it
        = .ok (qs.foldl addQuestion p, it + (questionsWire qs).length) := by
  induction qs with
  | nil => intro tl p it _ _; simp [readQuestions, questionsWire]
  | cons q rest ih =>
    intro tl p it hq h
    simp only [questionsWire, List.append_assoc] at h
    have h1 := getQuestion_at q (hq q (List.mem_cons_self _ _)) h
    have h2 := (prefix_drop_split h).2
    simp only [List.length_cons, readQuestions, h1, List.foldl_cons]
    rw [ih tl _ _ (fun x hx => hq x (List.mem_cons_of_mem _ hx)) h2]
    simp [questionsWire, Nat.add_assoc]

/-- The answers loop reads back the well-formed records of a message. -/
theorem readAnswers_at (buf : List Nat) (as : List ResourceRecord) :
    ∀ (tl : List Nat) (p : DNSPacket) (it : Nat), (∀ a ∈ as, WellFormedAnswer a) →
      answersWire as ++ tl <+: buf.drop it →
      readAnswers buf as.length p it
        = .ok (as.foldl addAnswer p, it + (answersWire as).length) := by
  induction as with
  | nil => intro tl p it _ _; simp [readAnswers, answersWire]
  | cons a rest ih =>
    intro tl p it ha h
    simp only [answersWire, List.append_assoc] at h
    have h1 := getResourceRecord_at a (ha a (List.mem_cons_self _ _)) h
    have h2 := (prefix_drop_split h).2
    simp only [List.length_cons, readAnswers, h1, List.foldl_cons]
    rw [ih tl _ _ (fun x hx => ha x (List.mem_cons_of_mem _ hx)) h2]
    simp [answersWire, Nat.add_assoc]

/-- The header loop on a message of at least twelve octets. -/
theorem readHeader_eq (raw : List Nat) (h : 12 ≤ raw.length) :
    readHeader raw HEADER_SIZE 0 DNSPacket.new 0
      = .ok ({ header := raw.take 12, questions := [], answers := [] }, 12) := by
  obtain ⟨p, hp, h1, h2, h3⟩ := readHeader_twelve raw h
  rw [hp]
  obtain ⟨hd, qs, as⟩ := p
  simp only at h1 h2 h3
  subst h1 h2 h3
  rfl

end DNSPacket

namespace DNSPacket

theorem getD_take_twelve (raw : List Nat) (j : Nat) (hj : j < 12) :
    (raw.take 12).getD j 0 = raw.getD j 0 := by
  simp [List.getD, List.getElem?_take, hj]

/-- Parsing doubles the counts: a packet that the parsing constructor returns has, in
its header, twice the number of its questions and twice the number of its answers, as
16-bit words. -/
theorem parse_counts_doubled (raw : List Nat) (n : Nat) (p : DNSPacket)
    (h : parse raw n = .ok p) :
    p.getQDCount = (2 * p.questions.length) % 2 ^ 16
    ∧ p.getANCount = (2 * p.answers.length) % 2 ^ 16 := by
  by_cases hlen : raw.length < 12
  · have hh := readHeader_short raw HEADER_SIZE 0 DNSPacket.new 0 (Nat.zero_le _)
      (by simp only [HEADER_SIZE]; omega)
    simp [parse, readSections, hh, bind, Except.bind] at h
  · have hh := readHeader_eq raw (by omega)
    simp only [parse, readSections, hh, bind, Except.bind] at h
    generalize hp0 : ({ header := raw.take 12, questions := [], answers := [] } : DNSPacket)
      = p0 at h
    have hl0 : p0.header.length = 12 := by
      rw [← hp0]; simp; omega
    have hq0 : p0.questions = [] := by rw [← hp0]
    have ha0 : p0.answers = [] := by rw [← hp0]
    cases h1 : readQuestions raw p0.getQDCount p0 12 with
    | error e => simp [h1] at h
    | ok r1 =>
      obtain ⟨p1, it1⟩ := r1
      simp only [h1] at h
      cases h2 : readAnswers raw p1.getANCount p1 it1 with
      | error e => simp [h2] at h
      | ok r2 =>
        obtain ⟨p2, it2⟩ := r2
        simp only [h2] at h
        cases h3 : readUnsupported raw (p2.getARCount + p2.getNSCount) it2 with
        | error e => simp [h3] at h
        | ok it3 =>
          simp only [h3, pure, Except.pure] at h
          split at h
          · simp [throw, throwThe, MonadExceptOf.throw] at h
          · simp only [Except.ok.injEq] at h
            subst h
            obtain ⟨qs, hqs, rfl⟩ := readQuestions_adds raw _ _ _ _ _ h1
            obtain ⟨as, has, rfl⟩ := readAnswers_adds raw _ _ _ _ _ h2
            obtain ⟨s1, s2, s3, s4, s5⟩ := foldl_addQuestion_spec qs p0 hl0
            obtain ⟨t1, t2, t3, t4, t5⟩ := foldl_addAnswer_spec as _ s1
            have hqd : (as.foldl addAnswer (qs.foldl addQuestion p0)).getQDCount
                = (qs.foldl addQuestion p0).getQDCount := by
              unfold getQDCount
              rw [t5 4 (by decide) (by decide), t5 5 (by decide) (by decide)]
            refine ⟨?_, ?_⟩
            · rw [hqd, s2, t3, s3, hq0, hqs]
              simp only [List.nil_append, hqs]
              congr 1
              omega
            · rw [t2, t4, s4, ha0, has]
              simp only [List.nil_append, List.length_nil]
              rw [has]
              congr 1
              omega

/-- Parsing the serialisation of a built packet with fewer than 65536 well-formed
questions and answers returns its questions and answers, added to its header. -/
theorem parse_built (p : DNSPacket) (hb : Built p)
    (hq : ∀ q ∈ p.questions, WellFormedQuestion q)
    (ha : ∀ a ∈ p.answers, WellFormedAnswer a)
    (hql : p.questions.length < 2 ^ 16) (hal : p.answers.length < 2 ^ 16) :
    parse p.generateNetworkFormat p.generateNetworkFormat.length
      = .ok (p.answers.foldl addAnswer (p.questions.foldl addQuestion
          { header := p.header, questions := [], answers := [] })) := by
  obtain ⟨c1, c2, c3, c4, c5⟩ := (built_counts hb)
  have hraw := packet_wire p
  have htake : p.generateNetworkFormat.take 12 = p.header := by
    rw [hraw, List.append_assoc, List.take_left' c1]
  have hdrop : p.generateNetworkFormat.drop 12
      = questionsWire p.questions ++ answersWire p.answers := by
    rw [hraw, List.append_assoc, List.drop_left' c1]
  have hlen : p.generateNetworkFormat.length
      = 12 + (questionsWire p.questions).length + (answersWire p.answers).length := by
    rw [hraw]; simp [c1]; omega
  have hh := readHeader_eq p.generateNetworkFormat (by omega)
  rw [htake] at hh
  generalize hp0 : ({ header := p.header, questions := [], answers := [] } : DNSPacket) = p0
    at hh ⊢
  have hl0 : p0.header.length = 12 := by rw [← hp0]; exact c1
  have hhd : p0.header = p.header := by rw [← hp0]
  have hqd0 : p0.getQDCount = p.questions.length := by
    unfold getQDCount at c2 ⊢
    rw [hhd, c2, Nat.mod_eq_of_lt hql]
  obtain ⟨s1, s2, s3, s4, s5⟩ := foldl_addQuestion_spec p.questions p0 hl0
  obtain ⟨t1, t2, t3, t4, t5⟩ := foldl_addAnswer_spec p.answers _ s1
  have han1 : (p.questions.foldl addQuestion p0).getANCount = p.answers.length := by
    unfold getANCount at c3 ⊢
    rw [s5 6 (by decide) (by decide), s5 7 (by decide) (by decide), hhd, c3,
      Nat.mod_eq_of_lt hal]
  have hns : (p.answers.foldl addAnswer (p.questions.foldl addQuestion p0)).getNSCount = 0 := by
    unfold getNSCount at c4 ⊢
    rw [t5 8 (by decide) (by decide), t5 9 (by decide) (by decide),
      s5 8 (by decide) (by decide), s5 9 (by decide) (by decide), hhd, c4]
  have har : (p.answers.foldl addAnswer (p.questions.foldl addQuestion p0)).getARCount = 0 := by
    unfold getARCount at c5 ⊢
    rw [t5 10 (by decide) (by decide), t5 11 (by decide) (by decide),
      s5 10 (by decide) (by decide), s5 11 (by decide) (by decide), hhd, c5]
  have hrq := readQuestions_at p.generateNetworkFormat p.questions (answersWire p.answers) p0 12
    hq (by rw [hdrop])
  have hra := readAnswers_at p.generateNetworkFormat p.answers []
    (p.questions.foldl addQuestion p0) (12 + (questionsWire p.questions).length) ha
    (by rw [← List.drop_drop, hdrop, List.drop_left, List.append_nil])
  simp only [parse, readSections, hh, bind, Except.bind, hqd0, hrq, han1, hra, hns, har,
    readUnsupported, pure, Except.pure, hlen]
  simp

end DNSPacket

namespace DNSPacket

theorem built_foldl_addQuestion (qs : List Question) :
    ∀ p : DNSPacket, Built p → Built (qs.foldl addQuestion p) := by
  induction qs with
  | nil => intro p h; exact h
  | cons q rest ih => intro p h; exact ih _ (Built.addQuestion p q h)

theorem wellFormed_rootQuestion : WellFormedQuestion rootQuestion :=
  ⟨⟨[], rfl, fun _ h => absurd h (List.not_mem_nil _), by decide⟩, by decide, by decide⟩

/-- The labels of `_opoznienia._udp.local.`. -/
theorem opoznienia_labels :
    stringToDomain SDServerClient.OPOZNIENIA_SERVICE
      = encodeName [[95, 111, 112, 111, 122, 110, 105, 101, 110, 105, 97], [95, 117, 100, 112],
          [108, 111, 99, 97, 108]] := by
  decide!

/-- The labels of `y._opoznienia._udp.local.`. -/
theorem y_opoznienia_labels :
    stringToDomain ([121, 46] ++ SDServerClient.OPOZNIENIA_SERVICE)
      = encodeName [[121], [95, 111, 112, 111, 122, 110, 105, 101, 110, 105, 97],
          [95, 117, 100, 112], [108, 111, 99, 97, 108]] := by
  decide!

theorem wellFormed_opoznienia :
    WellFormedName (stringToDomain SDServerClient.OPOZNIENIA_SERVICE) :=
  ⟨_, opoznienia_labels, by decide, by decide!⟩

theorem wellFormed_y_opoznienia :
    WellFormedName (stringToDomain ([121, 46] ++ SDServerClient.OPOZNIENIA_SERVICE)) :=
  ⟨_, y_opoznienia_labels, by decide, by decide!⟩

theorem wellFormed_sampleQuestion : WellFormedQuestion (SDServerClient.sampleQuestion false) :=
  ⟨wellFormed_opoznienia, by decide, by decide⟩

theorem wellFormed_samplePTR : WellFormedAnswer (SDServerClient.samplePTR 4500) :=
  ⟨wellFormed_opoznienia, by decide, by decide,
    Or.inr ⟨rfl, wellFormed_y_opoznienia, rfl, by decide!⟩⟩

theorem wellFormed_sampleA : WellFormedAnswer SDServerClient.sampleA :=
  ⟨wellFormed_y_opoznienia, by decide, by decide,
    Or.inl ⟨rfl, rfl, 10 * 2 ^ 24 + 7, by decide, rfl⟩⟩

theorem built_knownAnswerQuery : Built SDServerClient.knownAnswerQuery :=
  Built.addAnswer _ _ (Built.addAnswer _ _ (Built.addQuestion _ _
    (Built.setQR _ _ Built.new)))

theorem manyQuestions_questions :
    manyQuestions.questions = List.replicate 65536 rootQuestion := by
  obtain ⟨_, _, s3, _, _⟩ := foldl_addQuestion_spec (List.replicate 65536 rootQuestion)
    DNSPacket.new (by decide)
  unfold manyQuestions
  rw [s3]
  rfl

theorem manyQuestions_answers : manyQuestions.answers = [] := by
  obtain ⟨_, _, _, s4, _⟩ := foldl_addQuestion_spec (List.replicate 65536 rootQuestion)
    DNSPacket.new (by decide)
  unfold manyQuestions
  rw [s4]
  rfl

theorem manyQuestions_wire : 0 < (questionsWire manyQuestions.questions).length := by
  have h1 : List.replicate 65536 rootQuestion
      = rootQuestion :: List.replicate 65535 rootQuestion := rfl
  have h2 : rootQuestion.generateNetworkFormat.length = 5 := by decide
  rw [manyQuestions_questions, h1, questionsWire, List.length_append, h2]
  exact Nat.lt_of_lt_of_le (by decide : 0 < 5) (Nat.le_add_right _ _)

theorem manyQuestions_count : manyQuestions.getQDCount = 0 := by
  have hb : Built manyQuestions := built_foldl_addQuestion _ _ Built.new
  rw [(DNSPacket.built_counts hb).2.1, manyQuestions_questions, List.length_replicate]
  rfl

/-- A serialisation whose header counts are all zero while it holds a question is
refused: the parser stops after the header, before the end of the message. -/
theorem parse_zero_counts (p : DNSPacket) (c1 : p.header.length = 12)
    (hqd : p.getQDCount = 0) (han : p.getANCount = 0) (hns : p.getNSCount = 0)
    (har : p.getARCount = 0) (hwire : 0 < (questionsWire p.questions).length) :
    parse p.generateNetworkFormat p.generateNetworkFormat.length = .error .UnknownFormat := by
  have hraw := packet_wire p
  have htake : p.generateNetworkFormat.take 12 = p.header := by
    rw [hraw, List.append_assoc, List.take_left' c1]
  have hlen : 12 < p.generateNetworkFormat.length := by
    rw [hraw]; simp [c1]; omega
  have hh := readHeader_eq p.generateNetworkFormat (by omega)
  rw [htake] at hh
  have hqd0 : getQDCount { header := p.header, questions := [], answers := [] } = 0 := hqd
  have han0 : getANCount { header := p.header, questions := [], answers := [] } = 0 := han
  have hns0 : getNSCount { header := p.header, questions := [], answers := [] } = 0 := hns
  have har0 : getARCount { header := p.header, questions := [], answers := [] } = 0 := har
  simp only [parse, readSections, hh, bind, Except.bind, hqd0, readQuestions, han0, readAnswers,
    hns0, har0, readUnsupported, pure, Except.pure]
  have hne : ¬ 12 = p.generateNetworkFormat.length := by omega
  simp [hne, throw, throwThe, MonadExceptOf.throw]

end DNSPacket

/-- C37 (code defect, evaluated): a packet built from the empty packet by `setID`,
`setQR`, `addQuestion` and `addAnswer` has header counts equal to the numbers of its
questions and answers, as 16-bit words; a packet returned by the parsing constructor
has twice those numbers in its header, because the constructor adds each record it
reads with `addQuestion` or `addAnswer` to a header that already holds the counts of
the message; the 19-octet query with one question parses to a packet with
`getQDCount() = 2` and one question. -/
theorem C37_counts_agree_for_built_not_for_parsed :
    (∀ p, DNSPacket.Built p →
      p.getQDCount = p.questions.length % 2 ^ 16 ∧ p.getANCount = p.answers.length % 2 ^ 16)
    ∧ (∀ raw n p, DNSPacket.parse raw n = .ok p →
      p.getQDCount = (2 * p.questions.length) % 2 ^ 16
        ∧ p.getANCount = (2 * p.answers.length) % 2 ^ 16)
    ∧ (DNSPacket.parse [0, 0, 0, 0, 0, 1, 0, 0, 0, 0, 0, 0, 1, 0x61, 0, 0, 12, 0, 1] 19).map
        (fun p => (p.getQDCount, p.questions.length, p.getANCount, p.answers.length))
      = .ok (2, 1, 0, 0) := by
  refine ⟨fun p hb => ⟨(DNSPacket.built_counts hb).2.1, (DNSPacket.built_counts hb).2.2.1⟩,
    fun raw n p h => DNSPacket.parse_counts_doubled raw n p h, by decide!⟩

set_option maxRecDepth 1000000 in
/-- C37 at `knownAnswerQuery`, built with one question and two answers, and at the
packet that its 140 octets parse to. -/
theorem C37_counts_agree_for_built_not_for_parsed_witness :
    (SDServerClient.knownAnswerQuery.getQDCount
        = SDServerClient.knownAnswerQuery.questions.length % 2 ^ 16
      ∧ SDServerClient.knownAnswerQuery.getANCount
        = SDServerClient.knownAnswerQuery.answers.length % 2 ^ 16)
    ∧ (SDServerClient.knownAnswerQuery.getQDCount,
        SDServerClient.knownAnswerQuery.questions.length,
        SDServerClient.knownAnswerQuery.getANCount,
        SDServerClient.knownAnswerQuery.answers.length) = (1, 1, 2, 2)
    ∧ (DNSPacket.parse SDServerClient.knownAnswerQuery.generateNetworkFormat 140).map
        (fun p => (p.getQDCount, p.questions.length, p.getANCount, p.answers.length))
      = .ok (2, 1, 4, 2) :=
  ⟨C37_counts_agree_for_built_not_for_parsed.1 SDServerClient.knownAnswerQuery
      (DNSPacket.Built.addAnswer _ _ (DNSPacket.Built.addAnswer _ _
        (DNSPacket.Built.addQuestion _ _ (DNSPacket.Built.setQR _ _ DNSPacket.Built.new)))),
    by decide!, by decide!⟩

/-- C38 fails on the code: the packet built from the empty packet by 65536 calls of
`addQuestion` with the well-formed question `rootQuestion` holds 65536 questions and
no answer, its 16-bit question count has wrapped to 0, and parsing its serialisation
with its full length throws. -/
theorem C38_counterexample_65536_questions :
    DNSPacket.Built DNSPacket.manyQuestions
    ∧ DNSPacket.manyQuestions.questions = List.replicate 65536 DNSPacket.rootQuestion
    ∧ DNSPacket.WellFormedQuestion DNSPacket.rootQuestion
    ∧ DNSPacket.manyQuestions.answers = []
    ∧ DNSPacket.manyQuestions.getQDCount = 0
    ∧ DNSPacket.parse DNSPacket.manyQuestions.generateNetworkFormat
        DNSPacket.manyQuestions.generateNetworkFormat.length = .error .UnknownFormat := by
  have hb : DNSPacket.Built DNSPacket.manyQuestions :=
    DNSPacket.built_foldl_addQuestion _ _ DNSPacket.Built.new
  obtain ⟨c1, _, c3, c4, c5⟩ := DNSPacket.built_counts hb
  have has := DNSPacket.manyQuestions_answers
  have hqd := DNSPacket.manyQuestions_count
  have han : DNSPacket.manyQuestions.getANCount = 0 := by
    rw [c3, has]; rfl
  refine ⟨hb, DNSPacket.manyQuestions_questions, DNSPacket.wellFormed_rootQuestion, has, hqd,
    ?_⟩
  exact DNSPacket.parse_zero_counts DNSPacket.manyQuestions c1 hqd han c4 c5
    DNSPacket.manyQuestions_wire

/-- C38, amended: for a packet built from the empty packet with `setID`, `setQR`,
`addQuestion` and `addAnswer` that holds fewer than 65536 questions and fewer than
65536 answers, all well-formed, parsing its serialisation with its full length
succeeds and yields the same identifier and flag octets, the same questions and the
same answers. -/
theorem C38_round_trip_of_built_packets (p : DNSPacket) (hb : DNSPacket.Built p)
    (hq : ∀ q ∈ p.questions, DNSPacket.WellFormedQuestion q)
    (ha : ∀ a ∈ p.answers, DNSPacket.WellFormedAnswer a)
    (hql : p.questions.length < 65536) (hal : p.answers.length < 65536) :
    ∃ p2, DNSPacket.parse p.generateNetworkFormat p.generateNetworkFormat.length = .ok p2
      ∧ p2.getID = p.getID ∧ p2.getQR = p.getQR ∧ p2.getTC = p.getTC
      ∧ p2.getOpcode = p.getOpcode ∧ p2.getRCode = p.getRCode
      ∧ p2.header.getD 2 0 = p.header.getD 2 0 ∧ p2.header.getD 3 0 = p.header.getD 3 0
      ∧ p2.questions = p.questions ∧ p2.answers = p.answers := by
  have hparse := DNSPacket.parse_built p hb hq ha hql hal
  obtain ⟨c1, _⟩ := DNSPacket.built_counts hb
  obtain ⟨s1, _, s3, s4, s5⟩ := DNSPacket.foldl_addQuestion_spec p.questions
    { header := p.header, questions := [], answers := [] } c1
  obtain ⟨_, _, t3, t4, t5⟩ := DNSPacket.foldl_addAnswer_spec p.answers _ s1
  have hd : ∀ j, j < 4 →
      (p.answers.foldl DNSPacket.addAnswer (p.questions.foldl DNSPacket.addQuestion
        { header := p.header, questions := [], answers := [] })).header.getD j 0
        = p.header.getD j 0 := by
    intro j hj
    rw [t5 j (by omega) (by omega), s5 j (by omega) (by omega)]
  refine ⟨_, hparse, ?_, ?_, ?_, ?_, ?_, hd 2 (by decide), hd 3 (by decide), ?_, ?_⟩
  · unfold DNSPacket.getID
    rw [hd 0 (by decide), hd 1 (by decide)]
  · unfold DNSPacket.getQR
    rw [hd 2 (by decide)]
  · unfold DNSPacket.getTC
    rw [hd 2 (by decide)]
  · unfold DNSPacket.getOpcode
    rw [hd 2 (by decide)]
  · unfold DNSPacket.getRCode
    rw [hd 3 (by decide)]
  · rw [t3, s3]; rfl
  · rw [t4, s4]; rfl

set_option maxRecDepth 1000000 in
/-- C38, amended, at `knownAnswerQuery`: its 140 octets parse to a packet with its
question, its PTR record and its A record. -/
theorem C38_round_trip_of_built_packets_witness :
    (∃ p2, DNSPacket.parse SDServerClient.knownAnswerQuery.generateNetworkFormat
          SDServerClient.knownAnswerQuery.generateNetworkFormat.length = .ok p2
      ∧ p2.getID = SDServerClient.knownAnswerQuery.getID
      ∧ p2.getQR = SDServerClient.knownAnswerQuery.getQR
      ∧ p2.getTC = SDServerClient.knownAnswerQuery.getTC
      ∧ p2.getOpcode = SDServerClient.knownAnswerQuery.getOpcode
      ∧ p2.getRCode = SDServerClient.knownAnswerQuery.getRCode
      ∧ p2.header.getD 2 0 = SDServerClient.knownAnswerQuery.header.getD 2 0
      ∧ p2.header.getD 3 0 = SDServerClient.knownAnswerQuery.header.getD 3 0
      ∧ p2.questions = SDServerClient.knownAnswerQuery.questions
      ∧ p2.answers = SDServerClient.knownAnswerQuery.answers)
    ∧ SDServerClient.knownAnswerQuery.questions = [SDServerClient.sampleQuestion false]
    ∧ SDServerClient.knownAnswerQuery.answers
      = [SDServerClient.samplePTR 4500, SDServerClient.sampleA] :=
  ⟨C38_round_trip_of_built_packets SDServerClient.knownAnswerQuery
      DNSPacket.built_knownAnswerQuery
      (fun q hq => by
        have hqs : SDServerClient.knownAnswerQuery.questions
            = [SDServerClient.sampleQuestion false] := by decide
        rw [hqs] at hq
        rw [List.mem_singleton.1 hq]
        exact DNSPacket.wellFormed_sampleQuestion)
      (fun a ha => by
        have has : SDServerClient.knownAnswerQuery.answers
            = [SDServerClient.samplePTR 4500, SDServerClient.sampleA] := by decide
        rw [has] at ha
        rcases List.mem_cons.1 ha with h | h
        · rw [h]; exact DNSPacket.wellFormed_samplePTR
        · rw [List.mem_singleton.1 h]; exact DNSPacket.wellFormed_sampleA)
      (by decide) (by decide),
    by decide, by decide⟩

open bitops dns_format LatencyDatabase

namespace TELNETServer

/-- With fewer than `2^32` rendered lines, a pass of the loop of `handleRead` keeps
`firstRowPos + 24` in the range of `unsigned`. -/
theorem handleReadBody_firstRowPos_range (lines : List (List Nat)) (c c2 : TCPConnection)
    (sent : List (List Nat)) (hn : lines.length < 2 ^ 32) (hr : c.firstRowPos + 24 < 2 ^ 32)
    (h : handleReadBody lines c = some (c2, sent)) : c2.firstRowPos + 24 < 2 ^ 32 := by
  obtain ⟨data, r, k⟩ := c
  simp only at hr
  cases data with
  | nil => simp [handleReadBody] at h
  | cons b rest =>
    by_cases h1 : b = IAC
    · subst h1
      match rest, h with
      | [], h => simp [handleReadBody] at h
      | [_], h => simp [handleReadBody] at h
      | v :: o :: rest, h =>
        rw [handleReadBody_command] at h
        injection h with h
        injection h with h _
        subst h
        exact hr
    · by_cases h2 : b = 81 ∨ b = 113
      · rw [handleReadBody_up lines rest r k b h2] at h
        injection h with h
        injection h with h _
        subst h
        simp only
        omega
      · by_cases h3 : b = 65 ∨ b = 97
        · rw [handleReadBody_down lines rest r k b h3, Nat.mod_eq_of_lt hr] at h
          split at h
          · injection h with h
            injection h with h _
            subst h
            simp only
            rw [Nat.mod_eq_of_lt (by omega)]
            omega
          · injection h with h
            injection h with h _
            subst h
            exact hr
        · rw [handleReadBody_unknown lines rest r k b h1 h2 h3] at h
          injection h with h
          injection h with h _
          subst h
          exact hr

end TELNETServer

end SIK
